import Mathlib

/-!
# LiquidFire particle system

A shallow embedding of the particle solver of `Box2D/Particle/b2ParticleSystem.cpp`
and `Box2D/Particle/b2Particle.h`, together with machine-checked properties of it.

Conventions of the embedding:

* `float32` values are rationals (`ℚ`).  The spatial tags round every `float32`
  operation to the nearest `float32` (`roundFloat32`), because the source
  truncates the rounded result; elsewhere the arithmetic is exact.
* `int32` values are `Int`, `uint32` values are `Nat`; wrap-around is written
  out (`% 2 ^ 32`) for the spatial tags, where the source relies on it.
* a `std::vector` indexed by a particle, contact or group index is a total map
  `Int → α`; its live part is delimited by the matching count field.  Reading
  outside the allocated storage is undefined in the source and simply returns
  what the map holds.  Vectors whose `size()` the source reads are lists.
* a counted `for` loop without `break` is `forLoop`; loops that leave early are
  recursive functions on a fuel argument equal to the remaining trip count.
-/

namespace LiquidFire

/-! ## Constants of the headers -/

/-- The index sentinel `INVALID_IDX` / `b2_invalidIndex`; every test of the source
(`idx < 0`, `== INVALID_IDX`) treats it as the negative value `-1`. -/
def INVALID_IDX : Int := -1

namespace Particle

/-- `Particle::Flag::Zombie`. -/
def Zombie : Nat := 1 <<< 0
/-- `Particle::Flag::Reactive`. -/
def Reactive : Nat := 1 <<< 1
/-- `Particle::k_mask`. -/
def k_mask : Nat := 0x000000FF

namespace Mat

/-- `Particle::Mat::Flag::Wall`. -/
def Wall : Nat := 1 <<< 10
/-- `Particle::Mat::Flag::Spring`. -/
def Spring : Nat := 1 <<< 11
/-- `Particle::Mat::Flag::Elastic`. -/
def Elastic : Nat := 1 <<< 12
/-- `Particle::Mat::Flag::Viscous`. -/
def Viscous : Nat := 1 <<< 13
/-- `Particle::Mat::Flag::Tensile`. -/
def Tensile : Nat := 1 <<< 15
/-- `Particle::Mat::Flag::ColorMixing`. -/
def ColorMixing : Nat := 1 <<< 16
/-- `Particle::Mat::Flag::Barrier`. -/
def Barrier : Nat := 1 <<< 17
/-- `Particle::Mat::k_pairFlags`. -/
def k_pairFlags : Nat := Spring ||| Barrier
/-- `Particle::Mat::k_triadFlags`. -/
def k_triadFlags : Nat := Elastic
/-- `Particle::Mat::k_wallOrSpringOrElasticFlags`. -/
def k_wallOrSpringOrElasticFlags : Nat := Wall ||| Spring ||| Elastic

end Mat
end Particle

/-- A `uint32` flag test `flags & mask`, read as a C++ condition. -/
def hasFlag (flags mask : Nat) : Bool := flags &&& mask != 0

/-! ## Spatial tags -/

def xTruncBits : Nat := 12
def yTruncBits : Nat := 12
def tagBits : Nat := 8 * 4
def yOffset : Nat := 1 <<< (yTruncBits - 1)
def yShift : Nat := tagBits - yTruncBits
def xShift : Nat := tagBits - yTruncBits - xTruncBits
def xScale : Nat := 1 <<< xShift
def xOffset : Nat := xScale * (1 <<< (xTruncBits - 1))
def yMask : Nat := ((1 <<< yTruncBits) - 1) <<< yShift
def xMask : Nat := (2 ^ 32 - 1) - yMask
def relativeTagRight : Nat := 1 <<< xShift
def relativeTagBottomLeft : Nat :=
  (((1 : Int) * 2 ^ yShift + (-1) * 2 ^ xShift) % 2 ^ 32).toNat
def relativeTagBottomRight : Nat := (1 <<< yShift) + (1 <<< xShift)

/-- The conversion `(uint32) f` of a `float32`: truncation toward zero.  The
source leaves the conversion of a value outside `[0, 2^32)` undefined; here a
negative value gives `0` and a large one wraps. -/
def toUint32 (f : ℚ) : Nat := (Int.toNat (if 0 ≤ f then ⌊f⌋ else ⌈f⌉)) % 2 ^ 32

/-- The value `floor(log2 n)` by halving, with fuel. -/
def log2Nat : Nat → Nat → Nat
  | 0, _ => 0
  | fuel + 1, n => if n < 2 then 0 else log2Nat fuel (n / 2) + 1

/-- The value `ceil(log2 n)` by halving, with fuel. -/
def clog2Nat : Nat → Nat → Nat
  | 0, _ => 0
  | fuel + 1, n => if n < 2 then 0 else clog2Nat fuel ((n + 1) / 2) + 1

/-- The binary exponent of a positive value: the `e` with `2^e ≤ q < 2^(e+1)`. -/
def float32Exponent (q : ℚ) : Int :=
  if 1 ≤ q then (log2Nat ⌊q⌋₊ ⌊q⌋₊ : Int) else -(clog2Nat ⌈q⁻¹⌉₊ ⌈q⁻¹⌉₊ : Int)

/-- Rounding to the nearest integer, a tie to the even one. -/
def roundToEven (r : ℚ) : Int :=
  let f := ⌊r⌋
  if r - f < 1 / 2 then f
  else if 1 / 2 < r - f then f + 1
  else if f % 2 = 0 then f else f + 1

/-- The `float32` nearest to `q` (IEEE 754 binary32, round to nearest, ties to
even): 24 significant bits, exponents from `-126` with the subnormal numbers
below.  A `float32` operation of the source yields the rounded exact result.
Values beyond the largest `float32` are rounded like the others instead of
becoming infinite. -/
def roundFloat32 (q : ℚ) : ℚ :=
  if q = 0 then 0
  else
    let e := max (float32Exponent |q|) (-126)
    (roundToEven (q / (2 : ℚ) ^ (e - 23)) : ℚ) * (2 : ℚ) ^ (e - 23)

/-- `computeTag(x, y)`:
`((uint32)(y + yOffset) << yShift) + (uint32)(xScale * x + xOffset)`.  The
constants are converted to `float32`, the sum `y + yOffset`, the product
`xScale * x` and the sum with `xOffset` are `float32` operations, each rounded,
and the conversions to `uint32` truncate the rounded values. -/
def computeTag (x y : ℚ) : Nat :=
  ((toUint32 (roundFloat32 (y + yOffset)) <<< yShift) % 2 ^ 32 +
    toUint32 (roundFloat32 (roundFloat32 (xScale * x) + xOffset))) % 2 ^ 32

/-- `computeRelativeTag(tag, x, y)`: `tag + (y << yShift) + (x << xShift)` in
`uint32` arithmetic, `x` and `y` being `int32`. -/
def computeRelativeTag (tag : Nat) (x y : Int) : Nat :=
  (((tag : Int) + y * 2 ^ yShift + x * 2 ^ xShift) % 2 ^ 32).toNat

/-- The quantized row of a scaled ordinate, `(uint32)(y + yOffset)`, the sum
being a `float32` sum. -/
def tagRow (y : ℚ) : Nat := toUint32 (roundFloat32 (y + yOffset))

/-- The scaled coordinates of the tag range in exact numbers:
`0 ≤ y + 2048 < 4096` and `0 ≤ 256 x + 524288 < 2^20`. -/
def InTagRange (x y : ℚ) : Prop :=
  0 ≤ y + 2048 ∧ y + 2048 < 4096 ∧ 0 ≤ 256 * x + 524288 ∧ 256 * x + 524288 < 2 ^ 20

/-- The scaled coordinates whose two `float32` sums in `computeTag` fall into the
fields of the tag: after rounding, `0 ≤ y + 2048 < 4096` and
`0 ≤ 256 x + 524288 < 2^20`. -/
def RoundsInTagRange (x y : ℚ) : Prop :=
  0 ≤ roundFloat32 (y + 2048) ∧ roundFloat32 (y + 2048) < 4096 ∧
    0 ≤ roundFloat32 (roundFloat32 (256 * x) + 524288) ∧
    roundFloat32 (roundFloat32 (256 * x) + 524288) < 2 ^ 20

/-- The multiples of `2^-12`: the spacing of the `float32` numbers just below
`2048`.  For such coordinates in the tag range the sums in `computeTag` are exact. -/
def OnTagGrid (x : ℚ) : Prop := ∃ m : Int, x = (m : ℚ) / 4096

/-! ## Vectors -/

/-- `b2Vec3` with exact components. -/
structure b2Vec3 where
  x : ℚ
  y : ℚ
  z : ℚ
  deriving DecidableEq

namespace b2Vec3

instance : Zero b2Vec3 := ⟨⟨0, 0, 0⟩⟩
instance : Add b2Vec3 := ⟨fun a b => ⟨a.x + b.x, a.y + b.y, a.z + b.z⟩⟩
instance : Sub b2Vec3 := ⟨fun a b => ⟨a.x - b.x, a.y - b.y, a.z - b.z⟩⟩
instance : Neg b2Vec3 := ⟨fun a => ⟨-a.x, -a.y, -a.z⟩⟩
instance : SMul ℚ b2Vec3 := ⟨fun c a => ⟨c * a.x, c * a.y, c * a.z⟩⟩

/-- `b2Dot(a, b)`, also the product `a * b` of two `b2Vec3`. -/
def dot (a b : b2Vec3) : ℚ := a.x * b.x + a.y * b.y + a.z * b.z

end b2Vec3

/-! ## Loops and buffers -/

/-- The loop `for (i = lo; i < hi; i++) st = body(st, i)`. -/
def forLoop {σ : Type} (lo hi : Int) (body : σ → Int → σ) (init : σ) : σ :=
  (List.range (hi - lo).toNat).foldl (fun (st : σ) (k : Nat) => body st (lo + Int.ofNat k)) init

/-- The assignment `buf[i] = v`. -/
def setAt {α : Type} (buf : Int → α) (i : Int) (v : α) : Int → α :=
  fun k => if k = i then v else buf k

/-- The first `n` entries of a buffer, as a list. -/
def bufToList {α : Type} (buf : Int → α) (n : Int) : List α :=
  (List.range n.toNat).map (fun (k : Nat) => buf (Int.ofNat k))

/-- A buffer whose first entries are those of `l`; the rest is taken from `buf`. -/
def bufOfList {α : Type} (l : List α) (buf : Int → α) : Int → α :=
  fun k => if 0 ≤ k then (l.get? k.toNat).getD (buf k) else buf k

/-- `v.resize(newSize)` on a vector of size `oldSize`: entries that come into
being are value-initialised. -/
def resizeBuf {α : Type} (buf : Int → α) (oldSize newSize : Int) (init : α) : Int → α :=
  fun k => if oldSize ≤ k ∧ k < newSize then init else buf k

/-! ## Records of the particle system -/

/-- `b2ParticleSystem::Proxy`: a particle index with its spatial tag. -/
structure Proxy where
  idx : Int
  tag : Nat
  deriving DecidableEq

/-- `b2ParticleContact`. -/
structure b2ParticleContact where
  idxA : Int
  idxB : Int
  flags : Nat
  weight : ℚ
  mass : ℚ
  normal : b2Vec3
  deriving DecidableEq

/-- `b2PartBodyContact`; of the contact data only the indices, weight and mass
are kept. -/
structure b2PartBodyContact where
  partIdx : Int
  bodyIdx : Int
  fixtureIdx : Int
  weight : ℚ
  mass : ℚ
  deriving DecidableEq

/-- `b2PartGroundContact`: the fields that `AmpUpdateGroundContacts` assigns.  The
declaration, with the validity flag behind `setInvalid()` and `getValid()`, is in
a header outside the translated sources. -/
structure b2PartGroundContact where
  groundTileIdx : Int
  groundChunkIdx : Int
  groundMatIdx : Int
  weight : ℚ
  normal : b2Vec3
  mass : ℚ
  deriving DecidableEq

/-- `b2ParticlePair`. -/
structure b2ParticlePair where
  indexA : Int
  indexB : Int
  flags : Nat
  strength : ℚ
  distance : ℚ
  deriving DecidableEq

/-- `b2ParticleTriad`; the shape-matching coefficients travel with the entry and
are not modelled. -/
structure b2ParticleTriad where
  indexA : Int
  indexB : Int
  indexC : Int
  flags : Nat
  strength : ℚ
  deriving DecidableEq

/-- `ParticleGroup`: the fields the particle system reads and writes. -/
structure ParticleGroup where
  m_firstIndex : Int
  m_lastIndex : Int
  m_groupFlags : Nat
  m_collisionGroup : Int
  m_strength : ℚ
  m_matIdx : Int
  m_timestamp : Int
  deriving DecidableEq

/-- `Particle::Mat::Def`. -/
structure MatDef where
  flags : Nat
  density : ℚ
  mass : ℚ
  stability : ℚ
  heatConductivity : ℚ
  deriving DecidableEq

/-- `Particle::Mat`.  `m_strength` and `m_changeToDeadMatIdx` are read by
`b2ParticleSystem.cpp` (`CreateGroup`, `SolveHealth`). -/
structure Mat where
  m_flags : Nat
  m_mass : ℚ
  m_invMass : ℚ
  m_stability : ℚ
  m_invStability : ℚ
  m_heatConductivity : ℚ
  m_strength : ℚ
  m_coldThreshold : ℚ
  m_changeToColdMatIdx : Int
  m_hotThreshold : ℚ
  m_changeToHotMatIdx : Int
  m_ignitionThreshold : ℚ
  m_changeToBurnedMatIdx : Int
  m_changeToDeadMatIdx : Int
  deriving DecidableEq

namespace Mat

/-- `Particle::Mat::Compare`. -/
def Compare (m : Mat) (d : MatDef) : Bool :=
  decide (d.flags = m.m_flags) && decide (d.mass = m.m_mass) &&
    decide (d.stability = m.m_stability) &&
    decide (d.heatConductivity = m.m_heatConductivity)

/-- `Particle::Mat::Set`. -/
def Set (m : Mat) (d : MatDef) : Mat :=
  { m with
    m_flags := d.flags
    m_mass := d.mass
    m_invMass := 1 / d.mass
    m_stability := d.stability
    m_invStability := 1 / d.stability
    m_heatConductivity := d.heatConductivity }

end Mat

/-- `b2Transform` with the height `z` that the particle layer adds. -/
structure b2Transform where
  px : ℚ
  py : ℚ
  qs : ℚ
  qc : ℚ
  z : ℚ
  deriving DecidableEq

/-- `ParticleGroup::Def`: the fields `CreateGroup` reads and writes. -/
structure GroupDef where
  flags : Nat
  groupFlags : Nat
  positionData : List b2Vec3
  particleCount : Int
  colorData : List Int
  color : Int
  matIdx : Int
  collisionGroup : Int
  shapeType : Int
  shapeIdx : Int
  transform : b2Transform
  linearVelocityX : ℚ
  linearVelocityY : ℚ
  angularVelocity : ℚ
  heat : ℚ
  health : ℚ
  timestamp : Int
  stride : ℚ
  idx : Int
  groupIdx : Int

/-- The constants and helpers that `b2ParticleSystem.cpp` takes from headers
outside the translated sources (`b2Settings.h`, `b2Math.h`, `b2ParticleGroup.h`,
`b2ParticleSystem.h`); every definition below is parametric in them. -/
structure Settings where
  MAX_CONTACTS_PER_PARTICLE : Int
  b2_minParticleBufferCapacity : Int
  b2_minGroupBufferCapacity : Int
  b2_minPartMatBufferCapacity : Int
  /-- `ParticleGroup::Flag::Solid`. -/
  Solid : Nat
  /-- `ParticleGroup::Flag::Rigid`. -/
  Rigid : Nat
  /-- `ParticleGroup::Flag::CanBeEmpty`. -/
  CanBeEmpty : Nat
  /-- `ParticleGroup::Flag::WillBeDestroyed`. -/
  WillBeDestroyed : Nat
  /-- `ParticleGroup::Flag::NeedsUpdateDepth`. -/
  NeedsUpdateDepth : Nat
  /-- `ParticleGroup::Flag::InternalMask`. -/
  InternalMask : Nat
  b2InvSqrt : ℚ → ℚ
  b2Distance : b2Vec3 → b2Vec3 → ℚ
  GetMassFromDensity : ℚ → ℚ
  /-- `b2Mul3D(transform, p)`. -/
  b2Mul3D : b2Transform → b2Vec3 → b2Vec3
  /-- The sample positions `CreateParticlesFillShapeForGroup` collects for the
  polygon or circle `(shapeType, shapeIdx)` of the world at the given stride and
  height; `none` for an edge or chain shape, which `CreateParticlesStrokeShapeForGroup`
  answers with the range `(0, 0)`. -/
  fillShape : Int → Int → ℚ → ℚ → Option (List b2Vec3)
  /-- `GetParticleStride()`. -/
  GetParticleStride : ℚ

/-- `ConnectionFilter`: the three virtual predicates. -/
structure ConnectionFilter where
  IsNecessary : Int → Bool
  ShouldCreatePair : Int → Int → Bool
  ShouldCreateTriad : Int → Int → Int → Bool

/-- The state of a `b2ParticleSystem`, with the values its constructor gives.
Buffers that the source keeps twice, on the host (`m_flags`, ...) and on the
accelerator (`m_ampFlags`, ...), appear twice.  The lazily allocated buffers that
no property below reads (stuck-detection counters, static pressure, depth,
colour, expiration times) are left out; the source moves them by the same
assignments as the buffers kept here. -/
structure b2ParticleSystem where
  m_accelerate : Bool := false
  /-- `m_world.IsLocked()`. -/
  m_worldLocked : Bool := false
  m_particleDiameter : ℚ := 2
  m_squaredDiameter : ℚ := 4
  m_inverseDiameter : ℚ := 1 / 2
  m_count : Int := 0
  m_capacity : Int := 0
  m_allFlags : Nat := 0
  m_needsUpdateAllParticleFlags : Bool := true
  m_allGroupFlags : Nat := 0
  m_needsUpdateAllGroupFlags : Bool := false
  m_hasForce : Bool := false
  m_hasDepth : Bool := false
  m_hasColorBuf : Bool := false
  hasAccumulation2Buf : Bool := false
  m_flags : Int → Nat := fun _ => 0
  m_positions : Int → b2Vec3 := fun _ => 0
  m_velocities : Int → b2Vec3 := fun _ => 0
  m_forces : Int → b2Vec3 := fun _ => 0
  m_partGroupIdxBuffer : Int → Int := fun _ => 0
  m_matIdxs : Int → Int := fun _ => 0
  m_masses : Int → ℚ := fun _ => 0
  m_invMasses : Int → ℚ := fun _ => 0
  m_heats : Int → ℚ := fun _ => 0
  m_healthBuffer : Int → ℚ := fun _ => 0
  /-- `m_handleIndexBuffer.size()`. -/
  m_handleIndexBufferSize : Int := 0
  /-- `m_handleIndexBuffer`: a handle (its number) or `NULL`. -/
  m_handleIndexBuffer : Int → Option Nat := fun _ => none
  /-- The `m_index` of every `b2ParticleHandle` object. -/
  m_handles : Nat → Int := fun _ => INVALID_IDX
  /-- The handles given back to `m_handleAllocator`, latest first. -/
  m_freedHandles : List Nat := []
  /-- `hasHandleIndexBuffer`: `m_handleIndexBuffer` has been requested. -/
  hasHandleIndexBuffer : Bool := false
  /-- `m_proxyBuffer.size()`. -/
  m_proxyBufferSize : Int := 0
  m_proxyBuffer : Int → Proxy := fun _ => ⟨0, 0⟩
  m_partContactBuf : Int → b2ParticleContact := fun _ => ⟨0, 0, 0, 0, 0, 0⟩
  m_contactCount : Int := 0
  m_contactCapacity : Int := 0
  m_bodyContactBuf : Int → b2PartBodyContact := fun _ => ⟨0, 0, 0, 0, 0⟩
  m_bodyContactCount : Int := 0
  m_bodyContactCapacity : Int := 0
  m_pairBuffer : Int → b2ParticlePair := fun _ => ⟨0, 0, 0, 0, 0⟩
  /-- `m_pairBuffer.size()`. -/
  m_pairBufferSize : Int := 0
  m_pairCount : Int := 0
  m_pairCapacity : Int := 0
  m_triadBuffer : Int → b2ParticleTriad := fun _ => ⟨0, 0, 0, 0, 0⟩
  /-- `m_triadBuffer.size()`. -/
  m_triadBufferSize : Int := 0
  m_triadCount : Int := 0
  m_triadCapacity : Int := 0
  m_groupBuffer : Int → ParticleGroup := fun _ => ⟨0, 0, 0, 0, 0, 0, 0⟩
  m_groupCount : Int := 0
  m_groupCapacity : Int := 0
  /-- `m_freeGroupIdxs`, `back()` being the last element. -/
  m_freeGroupIdxs : List Int := []
  /-- `m_zombieRanges`: the free index ranges `(first, second)`. -/
  m_zombieRanges : List (Int × Int) := []
  m_mats : Int → Mat := fun _ => ⟨0, 0, 0, 0, 0, 0, 0, 0, 0, 0, 0, 0, 0, 0⟩
  /-- `m_mats.size()`. -/
  m_matsSize : Int := 0
  m_partMatCount : Int := 0
  m_partMatCapacity : Int := 0
  m_ampFlags : Int → Nat := fun _ => 0
  m_ampPositions : Int → b2Vec3 := fun _ => 0
  m_ampVelocities : Int → b2Vec3 := fun _ => 0
  m_ampForces : Int → b2Vec3 := fun _ => 0
  m_ampMatIdxs : Int → Int := fun _ => 0
  m_ampMasses : Int → ℚ := fun _ => 0
  m_ampInvMasses : Int → ℚ := fun _ => 0
  m_ampHealths : Int → ℚ := fun _ => 0
  m_ampMats : Int → Mat := fun _ => ⟨0, 0, 0, 0, 0, 0, 0, 0, 0, 0, 0, 0, 0, 0⟩
  m_ampPairs : Int → b2ParticlePair := fun _ => ⟨0, 0, 0, 0, 0⟩
  m_ampGroundContacts : Int → b2PartGroundContact := fun _ => ⟨0, 0, 0, 0, 0, 0⟩

/-! ## Buffer capacities -/

/-- The loop `while (size > capacity) capacity *= 2` of `AdjustCapacityToSize`. -/
def growCapacity : Nat → Int → Int → Int
  | 0, capacity, _ => capacity
  | fuel + 1, capacity, size =>
    if size > capacity then growCapacity fuel (capacity * 2) size else capacity

/-- The loop `while (size < capacity / 4) capacity /= 2` of `AdjustCapacityToSize`. -/
def shrinkCapacity : Nat → Int → Int → Int
  | 0, capacity, _ => capacity
  | fuel + 1, capacity, size =>
    if size < capacity / 4 then shrinkCapacity fuel (capacity / 2) size else capacity

/-- `AdjustCapacityToSize(capacity, size, minCapacity)`: the returned flag and
the new value of `capacity`.  Each loop gets as many rounds as its argument is
large, which is enough for any loop that ends. -/
def AdjustCapacityToSize (capacity size minCapacity : Int) : Bool × Int :=
  let size := if size < minCapacity then minCapacity else size
  if size > capacity then
    let capacity := capacity * 2
    let capacity := if capacity = 0 then minCapacity else capacity
    (true, growCapacity size.toNat capacity size)
  else if size < capacity / 4 then
    let capacity := capacity / 2
    (true, shrinkCapacity capacity.toNat capacity size)
  else (false, capacity)

/-- `ResizeParticleBuffers(size)`.  `ReallocateHandleBuffers` resizes the handle
table to the new capacity, with `NULL` in the entries that come into being; of
the other resized vectors only the sizes that the source reads back are state. -/
def ResizeParticleBuffers (K : Settings) (s : b2ParticleSystem) (size : Int) :
    b2ParticleSystem :=
  let r := AdjustCapacityToSize s.m_capacity size K.b2_minParticleBufferCapacity
  if r.1 then
    { s with
      m_capacity := r.2
      m_handleIndexBuffer := resizeBuf s.m_handleIndexBuffer s.m_handleIndexBufferSize r.2 none
      m_handleIndexBufferSize := r.2
      m_proxyBufferSize := r.2 }
  else s

/-- `ResizePairBuffers(size)`. -/
def ResizePairBuffers (K : Settings) (s : b2ParticleSystem) (size : Int) :
    b2ParticleSystem :=
  let r := AdjustCapacityToSize s.m_pairCapacity size K.b2_minParticleBufferCapacity
  if r.1 then
    { s with
      m_pairCapacity := r.2
      m_pairBuffer := resizeBuf s.m_pairBuffer s.m_pairBufferSize r.2 ⟨0, 0, 0, 0, 0⟩
      m_pairBufferSize := r.2 }
  else s

/-! ## Particle flags -/

/-- `SetParticleFlags(index, newFlags)`. -/
def SetParticleFlags (s : b2ParticleSystem) (index : Int) (newFlags : Nat) :
    b2ParticleSystem :=
  let oldFlags := s.m_flags index
  let s := if oldFlags &&& (newFlags ^^^ (2 ^ 32 - 1)) != 0
    then { s with m_needsUpdateAllParticleFlags := true } else s
  let s := if (s.m_allFlags ^^^ (2 ^ 32 - 1)) &&& newFlags != 0 then
      { s with
        hasAccumulation2Buf := s.hasAccumulation2Buf || hasFlag newFlags Particle.Mat.Tensile
        m_hasColorBuf := s.m_hasColorBuf || hasFlag newFlags Particle.Mat.ColorMixing
        m_allFlags := s.m_allFlags ||| newFlags }
    else s
  { s with m_flags := setAt s.m_flags index newFlags }

/-- `DestroyParticle(index)`. -/
def DestroyParticle (s : b2ParticleSystem) (index : Int) : b2ParticleSystem :=
  SetParticleFlags s index (s.m_flags index ||| Particle.Zombie)

/-- `AmpForEachParticle(function)`: every lane `i < m_count` whose particle is
not a zombie runs `function(i)`.  A lane touches the entries of its own index
only, so the lanes are run one after the other. -/
def AmpForEachParticle (s : b2ParticleSystem)
    (function : b2ParticleSystem → Int → b2ParticleSystem) : b2ParticleSystem :=
  forLoop 0 s.m_count
    (fun st i => if hasFlag (st.m_ampFlags i) Particle.Zombie then st else function st i) s

/-- `AmpForEachParticle(flag, function)`. -/
def AmpForEachParticleWithFlag (s : b2ParticleSystem) (flag : Nat)
    (function : b2ParticleSystem → Int → b2ParticleSystem) : b2ParticleSystem :=
  if !hasFlag s.m_allFlags flag then s
  else forLoop 0 s.m_count
    (fun st i =>
      if hasFlag (st.m_ampFlags i) Particle.Zombie then st
      else if hasFlag (st.m_ampFlags i) flag then function st i else st) s

/-! ## Solver passes -/

/-- `SolveWall()`. -/
def SolveWall (s : b2ParticleSystem) : b2ParticleSystem :=
  if !hasFlag s.m_allFlags Particle.Mat.Wall then s
  else if s.m_accelerate then
    AmpForEachParticleWithFlag s Particle.Mat.Wall
      (fun st i => { st with m_ampVelocities := setAt st.m_ampVelocities i 0 })
  else
    forLoop 0 s.m_count
      (fun st i =>
        if hasFlag (st.m_flags i) Particle.Mat.Wall
        then { st with m_velocities := setAt st.m_velocities i 0 } else st) s

/-- The lambda `UpdateParticle(idx, newMat)` of `SolveHealth`. -/
def SolveHealth_UpdateParticle (s : b2ParticleSystem) (idx : Int) (newMat : Mat) :
    b2ParticleSystem :=
  { s with
    m_ampFlags := setAt s.m_ampFlags idx ((s.m_ampFlags idx &&& Particle.k_mask) ||| newMat.m_flags)
    m_ampMasses := setAt s.m_ampMasses idx newMat.m_mass
    m_ampInvMasses := setAt s.m_ampInvMasses idx newMat.m_invMass }

/-- `SolveHealth()`. -/
def SolveHealth (s : b2ParticleSystem) : b2ParticleSystem :=
  if s.m_accelerate then
    AmpForEachParticle s (fun st i =>
      if st.m_ampHealths i > 0 then st
      else
        let deadMatIdx := (st.m_ampMats (st.m_ampMatIdxs i)).m_changeToDeadMatIdx
        if deadMatIdx ≠ INVALID_IDX then
          let st := SolveHealth_UpdateParticle st i (st.m_ampMats deadMatIdx)
          { st with m_ampHealths := setAt st.m_ampHealths i 1 }
        else { st with m_ampFlags := setAt st.m_ampFlags i Particle.Zombie })
  else
    forLoop 0 s.m_count
      (fun st k => if st.m_healthBuffer k < 0 then DestroyParticle st k else st) s

/-- The flags of particle `i` on the path the system runs on. -/
def flagsOf (s : b2ParticleSystem) (i : Int) : Nat :=
  if s.m_accelerate then s.m_ampFlags i else s.m_flags i

/-- The velocity of particle `i` on the path the system runs on. -/
def velocityOf (s : b2ParticleSystem) (i : Int) : b2Vec3 :=
  if s.m_accelerate then s.m_ampVelocities i else s.m_velocities i

/-- The cached union `m_allFlags` covers the flags of every particle. -/
def AllFlagsUpToDate (s : b2ParticleSystem) : Prop :=
  ∀ i : Int, 0 ≤ i → i < s.m_count → flagsOf s i &&& s.m_allFlags = flagsOf s i

/-! ## Contact passes: the work of one lane on one particle-particle contact -/

/-- `amp::atomicAdd(buf[i], v)`. -/
def atomicAdd (buf : Int → b2Vec3) (i : Int) (v : b2Vec3) : Int → b2Vec3 :=
  setAt buf i (buf i + v)

/-- `amp::atomicSub(buf[i], v)`. -/
def atomicSub (buf : Int → b2Vec3) (i : Int) (v : b2Vec3) : Int → b2Vec3 :=
  setAt buf i (buf i - v)

/-- The contact lambda of `SolvePressure` (accelerated branch). -/
def SolvePressure_contact (velocityPerPressure : ℚ) (accumulations invMasses : Int → ℚ)
    (velocities : Int → b2Vec3) (contact : b2ParticleContact) : Int → b2Vec3 :=
  let a := contact.idxA
  let b := contact.idxB
  let w := contact.weight
  let m := contact.mass
  let n := contact.normal
  let h := accumulations a + accumulations b
  let f := (velocityPerPressure * w * m * h) • n
  atomicAdd (atomicSub velocities a (invMasses a • f)) b (invMasses b • f)

/-- The contact lambda of `SolveDamping` (accelerated branch). -/
def SolveDamping_contact (linearDamping quadraticDamping : ℚ) (invMasses : Int → ℚ)
    (velocities : Int → b2Vec3) (contact : b2ParticleContact) : Int → b2Vec3 :=
  let a := contact.idxA
  let b := contact.idxB
  let w := contact.weight
  let m := contact.mass
  let n := contact.normal
  let v := velocities b - velocities a
  let vn := b2Vec3.dot v n
  if vn ≥ 0 then velocities
  else
    let damping := max (linearDamping * w) (min (-quadraticDamping * vn) (1 / 2))
    let f := (damping * m * vn) • n
    atomicSub (atomicAdd velocities a (invMasses a • f)) b (invMasses b • f)

/-- The contact lambda of `SolveViscous` (accelerated branch), run by
`AmpForEachContact(Viscous, ...)` on the contacts that carry the flag. -/
def SolveViscous_contact (viscousStrength : ℚ) (invMasses : Int → ℚ)
    (velocities : Int → b2Vec3) (contact : b2ParticleContact) : Int → b2Vec3 :=
  if hasFlag contact.flags Particle.Mat.Viscous then
    let a := contact.idxA
    let b := contact.idxB
    let w := contact.weight
    let m := contact.mass
    let v := velocities b - velocities a
    let f := (viscousStrength * w * m) • v
    atomicSub (atomicAdd velocities a (invMasses a • f)) b (invMasses b • f)
  else velocities

/-- The momentum that one contact pass gives to the two particles of a contact:
`mass[a] * dv_a + mass[b] * dv_b`. -/
def pairMomentumChange (masses : Int → ℚ) (before after : Int → b2Vec3)
    (contact : b2ParticleContact) : b2Vec3 :=
  masses contact.idxA • (after contact.idxA - before contact.idxA) +
    masses contact.idxB • (after contact.idxB - before contact.idxB)

/-! ## Material table -/

/-- A value-initialised `Particle::Mat`. -/
def zeroMat : Mat := ⟨0, 0, 0, 0, 0, 0, 0, 0, 0, 0, 0, 0, 0, 0⟩

/-- `ResizePartMatBuffers(size)`. -/
def ResizePartMatBuffers (K : Settings) (s : b2ParticleSystem) (size : Int) :
    b2ParticleSystem :=
  let size := if size < K.b2_minGroupBufferCapacity then K.b2_minPartMatBufferCapacity else size
  { s with
    m_mats := resizeBuf s.m_mats s.m_matsSize size zeroMat
    m_matsSize := size
    m_partMatCapacity := size }

/-- The search loop of `CreateParticleMaterial`:
`for (idx; idx < count; idx++) if (mats[idx].Compare(def)) return idx;`. -/
def findMaterial (mats : Int → Mat) (d : MatDef) (count : Int) : Nat → Int → Option Int
  | 0, _ => none
  | fuel + 1, idx =>
    if idx < count then
      if (mats idx).Compare d then some idx else findMaterial mats d count fuel (idx + 1)
    else none

/-- `CreateParticleMaterial(def)`: the returned index and the new state. -/
def CreateParticleMaterial (K : Settings) (s : b2ParticleSystem) (d : MatDef) :
    Int × b2ParticleSystem :=
  let s := if s.m_partMatCount ≥ s.m_partMatCapacity
    then ResizePartMatBuffers K s (s.m_partMatCount * 2) else s
  let d := { d with mass := K.GetMassFromDensity d.density }
  match findMaterial s.m_mats d s.m_partMatCount s.m_partMatCount.toNat 0 with
  | some idx => (idx, s)
  | none =>
    let idx := s.m_partMatCount
    let mats := setAt s.m_mats idx ((s.m_mats idx).Set d)
    (idx, { s with
      m_partMatCount := idx + 1
      m_mats := mats
      m_ampMats := setAt s.m_ampMats idx (mats idx) })

/-- The material table is allocated as its capacity says and holds its count. -/
def MatTableOk (s : b2ParticleSystem) : Prop :=
  s.m_matsSize = s.m_partMatCapacity ∧ 0 ≤ s.m_partMatCount ∧
    s.m_partMatCount ≤ s.m_partMatCapacity

/-- The two minimum capacities that `ResizePartMatBuffers` mixes leave room for
one more material whenever the table is resized. -/
def MatCapacitiesOk (K : Settings) : Prop :=
  0 < K.b2_minGroupBufferCapacity ∧
    K.b2_minGroupBufferCapacity ≤ 2 * K.b2_minPartMatBufferCapacity

/-! ## Free index ranges -/

/-- The scan of `AddZombieRange` over `m_zombieRanges`: `done` are the ranges
before `prev`, `prev` is the range before `curr` (none while `prev` and `curr`
both stand on the first range), and the list argument starts at `curr`.  The
result is the new list when the loop body returns, `none` when the loop ends. -/
def AddZombieRange_scan (firstIdx lastIdx : Int) :
    List (Int × Int) → Option (Int × Int) → List (Int × Int) → Option (List (Int × Int))
  | _, _, [] => none
  | done, prev, curr :: rest =>
    if firstIdx < curr.1 then
      if (prev.getD curr).2 = firstIdx then
        if curr.1 = lastIdx then
          -- prev->second = curr->second; m_zombieRanges.erase(curr);
          match prev with
          | some p => some (done ++ (p.1, curr.2) :: rest)
          | none => some (done ++ rest)
        else
          -- prev->second = lastIdx;
          match prev with
          | some p => some (done ++ (p.1, lastIdx) :: curr :: rest)
          | none => some (done ++ (curr.1, lastIdx) :: rest)
      else if curr.1 = lastIdx then
        some (done ++ prev.toList ++ (firstIdx, curr.2) :: rest)
      else
        some (done ++ prev.toList ++ (firstIdx, lastIdx) :: curr :: rest)
    else AddZombieRange_scan firstIdx lastIdx (done ++ prev.toList) (some curr) rest

/-- `AddZombieRange(firstIdx, lastIdx)`. -/
def AddZombieRange (s : b2ParticleSystem) (firstIdx lastIdx : Int) : b2ParticleSystem :=
  if s.m_count = lastIdx then
    let s := { s with m_count := firstIdx }
    match s.m_zombieRanges.getLast? with
    | some back =>
      if s.m_count = back.2 then
        { s with m_count := back.1, m_zombieRanges := s.m_zombieRanges.dropLast }
      else s
    | none => s
  else
    match AddZombieRange_scan firstIdx lastIdx [] none s.m_zombieRanges with
    | some ranges => { s with m_zombieRanges := ranges }
    | none =>
      match s.m_zombieRanges.getLast? with
      | some back =>
        if back.2 = firstIdx then
          { s with m_zombieRanges := s.m_zombieRanges.dropLast ++ [(back.1, lastIdx)] }
        else { s with m_zombieRanges := s.m_zombieRanges ++ [(firstIdx, lastIdx)] }
      | none => { s with m_zombieRanges := s.m_zombieRanges ++ [(firstIdx, lastIdx)] }

/-- The scan of `GetWriteIdx` over `m_zombieRanges`: the write index and the new
list when a range with `particleCnt` free slots is found. -/
def GetWriteIdx_scan (particleCnt : Int) :
    List (Int × Int) → List (Int × Int) → Option (Int × List (Int × Int))
  | _, [] => none
  | done, zombieRange :: rest =>
    let remainingSpace := zombieRange.2 - zombieRange.1 - particleCnt
    if remainingSpace ≥ 0 then
      if remainingSpace = 0 then some (zombieRange.1, done ++ rest)
      else some (zombieRange.1, done ++ (zombieRange.1 + particleCnt, zombieRange.2) :: rest)
    else GetWriteIdx_scan particleCnt (done ++ [zombieRange]) rest

/-- `GetWriteIdx(particleCnt)`: the write index and the new state. -/
def GetWriteIdx (K : Settings) (s : b2ParticleSystem) (particleCnt : Int) :
    Int × b2ParticleSystem :=
  match GetWriteIdx_scan particleCnt [] s.m_zombieRanges with
  | some (writeIdx, ranges) => (writeIdx, { s with m_zombieRanges := ranges })
  | none =>
    let writeIdx := s.m_count
    let s := ResizeParticleBuffers K s (s.m_count + particleCnt)
    (writeIdx, { s with m_count := s.m_count + particleCnt })

/-! ## Particle groups -/

/-- The assignment `m_groupBuffer[k] = g`. -/
def withGroup (s : b2ParticleSystem) (k : Int) (g : ParticleGroup) : b2ParticleSystem :=
  { s with m_groupBuffer := setAt s.m_groupBuffer k g }

/-- `SetGroupFlags(group, newFlags)` for the group in slot `groupIdx`. -/
def SetGroupFlags (K : Settings) (s : b2ParticleSystem) (groupIdx : Int) (newFlags : Nat) :
    b2ParticleSystem :=
  let group := s.m_groupBuffer groupIdx
  let oldFlags := group.m_groupFlags
  let newFlags := newFlags ||| (oldFlags &&& K.InternalMask)
  let newFlags := if (oldFlags ^^^ newFlags) &&& K.Solid != 0
    then newFlags ||| K.NeedsUpdateDepth else newFlags
  let s := if oldFlags &&& (newFlags ^^^ (2 ^ 32 - 1)) != 0
    then { s with m_needsUpdateAllGroupFlags := true } else s
  let s := if (s.m_allGroupFlags ^^^ (2 ^ 32 - 1)) &&& newFlags != 0 then
      { s with
        m_hasDepth := s.m_hasDepth || hasFlag newFlags K.Solid
        m_allGroupFlags := s.m_allGroupFlags ||| newFlags }
    else s
  withGroup s groupIdx { group with m_groupFlags := newFlags }

/-- The branch `if (destroyParticles)` of `DestroyGroup`: flag the particles of the
range as zombies, on the buffer of the path the system runs on. -/
def DestroyGroup_zombify (s : b2ParticleSystem) (firstIndex lastIndex : Int)
    (destroyParticles : Bool) : b2ParticleSystem :=
  if destroyParticles then
    if s.m_accelerate then
      forLoop firstIndex lastIndex
        (fun st i => { st with m_ampFlags := setAt st.m_ampFlags i Particle.Zombie }) s
    else
      forLoop firstIndex lastIndex
        (fun st i => { st with m_flags := setAt st.m_flags i Particle.Zombie }) s
  else s

/-- The end of `DestroyGroup`: the slot `groupIdx` is marked free and goes back
to the free list, or the group count shrinks when it is the last slot. -/
def DestroyGroup_release (s : b2ParticleSystem) (groupIdx : Int) : b2ParticleSystem :=
  let s := { s with m_needsUpdateAllGroupFlags := true }
  let s := withGroup s groupIdx { s.m_groupBuffer groupIdx with m_firstIndex := INVALID_IDX }
  if groupIdx + 1 = s.m_groupCount then { s with m_groupCount := s.m_groupCount - 1 }
  else { s with m_freeGroupIdxs := s.m_freeGroupIdxs ++ [groupIdx] }

/-- `DestroyGroup(groupIdx, timestamp, destroyParticles)`. -/
def DestroyGroup (K : Settings) (s : b2ParticleSystem) (groupIdx timestamp : Int)
    (destroyParticles : Bool) : b2ParticleSystem :=
  let group := s.m_groupBuffer groupIdx
  if timestamp ≠ INVALID_IDX ∧ timestamp ≠ 0 ∧ timestamp ≠ group.m_timestamp then s
  else
    let s := AddZombieRange s group.m_firstIndex group.m_lastIndex
    let s := ResizeParticleBuffers K s s.m_count
    let s := DestroyGroup_zombify s group.m_firstIndex group.m_lastIndex destroyParticles
    DestroyGroup_release s groupIdx

/-! ## Creating groups -/

/-- `ResizeGroupBuffers(size)`. -/
def ResizeGroupBuffers (K : Settings) (s : b2ParticleSystem) (size : Int) : b2ParticleSystem :=
  let r := AdjustCapacityToSize s.m_groupCapacity size K.b2_minGroupBufferCapacity
  if r.1 then { s with m_groupCapacity := r.2 } else s

/-- The body of the loop of `CreateParticlesWithPositions`: particle `i` of the
definition is written to slot `writeIdx + i`.  The velocity is
`linearVelocity + b2Cross(angularVelocity, p - transform.p)`. -/
def CreateParticlesWithPositions_step (K : Settings) (groupDef : GroupDef) (writeIdx : Int)
    (flags : Nat) (mat : Mat) (s : b2ParticleSystem) (i : Int) : b2ParticleSystem :=
  let wi := writeIdx + i
  let p := groupDef.positionData.getD i.toNat 0
  { s with
    m_partGroupIdxBuffer := setAt s.m_partGroupIdxBuffer wi groupDef.idx
    m_flags := setAt s.m_flags wi flags
    m_positions := setAt s.m_positions wi (K.b2Mul3D groupDef.transform p)
    m_velocities := setAt s.m_velocities wi
      ⟨groupDef.linearVelocityX - groupDef.angularVelocity * (p.y - groupDef.transform.py),
        groupDef.linearVelocityY + groupDef.angularVelocity * (p.x - groupDef.transform.px), 0⟩
    m_heats := setAt s.m_heats wi groupDef.heat
    m_healthBuffer := setAt s.m_healthBuffer wi groupDef.health
    m_forces := setAt s.m_forces wi 0
    m_matIdxs := setAt s.m_matIdxs wi groupDef.matIdx
    m_masses := setAt s.m_masses wi mat.m_mass
    m_invMasses := setAt s.m_invMasses wi mat.m_invMass }

/-- `CreateParticlesWithPositions(groupDef)`: the returned range and the new state. -/
def CreateParticlesWithPositions (K : Settings) (s : b2ParticleSystem) (groupDef : GroupDef) :
    (Int × Int) × b2ParticleSystem :=
  if groupDef.particleCount = 0 then ((INVALID_IDX, INVALID_IDX), s)
  else
    let w := GetWriteIdx K s groupDef.particleCount
    let writeIdx := w.1
    let s := w.2
    let mat := s.m_mats groupDef.matIdx
    let flags := groupDef.flags ||| mat.m_flags
    let s := forLoop 0 groupDef.particleCount
      (CreateParticlesWithPositions_step K groupDef writeIdx flags mat) s
    ((writeIdx, writeIdx + groupDef.particleCount),
      { s with m_allFlags := s.m_allFlags ||| flags })

/-- `CreateParticlesWithShapeForGroup(groupDef)`, the shape being sampled by
`Settings.fillShape`. -/
def CreateParticlesWithShapeForGroup (K : Settings) (s : b2ParticleSystem)
    (groupDef : GroupDef) : (Int × Int) × b2ParticleSystem :=
  let stride := if groupDef.stride ≠ 0 then groupDef.stride else K.GetParticleStride
  match K.fillShape groupDef.shapeType groupDef.shapeIdx stride groupDef.transform.z with
  | none => ((0, 0), s)
  | some positions =>
    CreateParticlesWithPositions K s
      { groupDef with
        positionData := groupDef.positionData ++ positions
        particleCount := ((groupDef.positionData ++ positions).length : Int) }

/-- `CopyParticleRangeToGpu(first, last)`. -/
def CopyParticleRangeToGpu (s : b2ParticleSystem) (first last : Int) : b2ParticleSystem :=
  forLoop first last
    (fun st i =>
      { st with
        m_ampFlags := setAt st.m_ampFlags i (st.m_flags i)
        m_ampPositions := setAt st.m_ampPositions i (st.m_positions i)
        m_ampVelocities := setAt st.m_ampVelocities i (st.m_velocities i)
        m_ampHealths := setAt st.m_ampHealths i (st.m_healthBuffer i)
        m_ampForces := setAt st.m_ampForces i (st.m_forces i)
        m_ampMatIdxs := setAt st.m_ampMatIdxs i (st.m_matIdxs i)
        m_ampMasses := setAt st.m_ampMasses i (st.m_masses i)
        m_ampInvMasses := setAt st.m_ampInvMasses i (st.m_invMasses i) }) s

/-- `CreateGroup(groupDef)`: the returned group index and the new state. -/
def CreateGroup (K : Settings) (s : b2ParticleSystem) (groupDef : GroupDef) :
    Int × b2ParticleSystem :=
  if s.m_worldLocked then (INVALID_IDX, s)
  else
    -- get group index
    let r : Int × b2ParticleSystem :=
      match s.m_freeGroupIdxs.getLast? with
      | some back => (back, { s with m_freeGroupIdxs := s.m_freeGroupIdxs.dropLast })
      | none =>
        let s := ResizeGroupBuffers K s (s.m_groupCount + 1)
        (s.m_groupCount, { s with m_groupCount := s.m_groupCount + 1 })
    let groupDef := { groupDef with groupIdx := r.1, idx := r.1 }
    let s := r.2
    let c : (Int × Int) × b2ParticleSystem :=
      if groupDef.shapeIdx ≠ INVALID_IDX then CreateParticlesWithShapeForGroup K s groupDef
      else if groupDef.particleCount ≠ 0 then CreateParticlesWithPositions K s groupDef
      else ((0, 0), s)
    let firstAndLastIdx := c.1
    let s := c.2
    let mat := s.m_mats groupDef.matIdx
    let s := withGroup s groupDef.idx
      { s.m_groupBuffer groupDef.idx with
        m_firstIndex := firstAndLastIdx.1
        m_lastIndex := firstAndLastIdx.2
        m_strength := mat.m_strength
        m_collisionGroup := groupDef.collisionGroup
        m_matIdx := groupDef.matIdx
        m_timestamp := groupDef.timestamp }
    let s := SetGroupFlags K s groupDef.idx groupDef.groupFlags
    let s := if s.m_accelerate
      then CopyParticleRangeToGpu s firstAndLastIdx.1 firstAndLastIdx.2 else s
    (groupDef.groupIdx, s)

/-! ## Contacts between particles -/

/-- `ResizeContactBuffers(size)`. -/
def ResizeContactBuffers (K : Settings) (s : b2ParticleSystem) (size : Int) :
    b2ParticleSystem :=
  let r := AdjustCapacityToSize s.m_contactCapacity size K.b2_minParticleBufferCapacity
  if r.1 then
    { s with
      m_contactCapacity := r.2
      m_partContactBuf := resizeBuf s.m_partContactBuf s.m_contactCapacity r.2 ⟨0, 0, 0, 0, 0, 0⟩ }
  else s

/-- `AddContact(a, b, contactCount)` with `contactCount` bound to `m_contactCount`,
as `FindContacts` calls it: the returned flag and the new state.  The product
`d * d` of the source is the dot product of `b2Vec3`. -/
def AddContact (K : Settings) (s : b2ParticleSystem) (a b : Int) : Bool × b2ParticleSystem :=
  let colGroupA := (s.m_groupBuffer (s.m_partGroupIdxBuffer a)).m_collisionGroup
  let colGroupB := (s.m_groupBuffer (s.m_partGroupIdxBuffer b)).m_collisionGroup
  if colGroupA > 0 ∧ colGroupA ≠ colGroupB then (false, s)
  else
    let d := s.m_positions b - s.m_positions a
    let distBtParticlesSq := d.dot d
    if distBtParticlesSq > s.m_squaredDiameter then (false, s)
    else
      let invD := K.b2InvSqrt distBtParticlesSq
      let invM := 1 / (s.m_masses a + s.m_masses b)
      (true,
        { s with
          m_partContactBuf := setAt s.m_partContactBuf s.m_contactCount
            ⟨a, b, s.m_flags a ||| s.m_flags b,
              1 - distBtParticlesSq * invD * s.m_inverseDiameter,
              if invM > 0 then 1 / invM else 0, invD • d⟩
          m_contactCount := s.m_contactCount + 1 })

/-- The two inner loops of `FindContacts`,
`for (b = ...; b < m_count; b++) { if (limitTag < tag[b]) break;
if (AddContact(aIdx, idx[b], m_contactCount) && ++aContactCount == MAX_CONTACTS_PER_PARTICLE) goto cnt; }`:
whether the loop left by `goto cnt`, the value of `aContactCount` and the state.
The first argument bounds the number of rounds; `m_count - b` rounds end the loop. -/
def FindContacts_scan (K : Settings) (aIdx : Int) (limitTag : Nat) :
    Nat → Int → Int → b2ParticleSystem → Bool × Int × b2ParticleSystem
  | 0, _, aContactCount, s => (false, aContactCount, s)
  | fuel + 1, b, aContactCount, s =>
    if b < s.m_count then
      if limitTag < (s.m_proxyBuffer b).tag then (false, aContactCount, s)
      else
        let r := AddContact K s aIdx (s.m_proxyBuffer b).idx
        if r.1 then
          if aContactCount + 1 = K.MAX_CONTACTS_PER_PARTICLE then (true, aContactCount + 1, r.2)
          else FindContacts_scan K aIdx limitTag fuel (b + 1) (aContactCount + 1) r.2
        else FindContacts_scan K aIdx limitTag fuel (b + 1) aContactCount r.2
    else (false, aContactCount, s)

/-- The loop `for (; c < m_count; c++) if (bottomLeftTag <= m_proxyBuffer[c].tag) break;`
of `FindContacts`: the value of `c` after it. -/
def FindContacts_advance (s : b2ParticleSystem) (bottomLeftTag : Nat) : Nat → Int → Int
  | 0, c => c
  | fuel + 1, c =>
    if c < s.m_count then
      if bottomLeftTag ≤ (s.m_proxyBuffer c).tag then c
      else FindContacts_advance s bottomLeftTag fuel (c + 1)
    else c

/-- The body of the outer loop of `FindContacts` on the pair `(c, system)`. -/
def FindContacts_step (K : Settings) (st : Int × b2ParticleSystem) (a : Int) :
    Int × b2ParticleSystem :=
  let c := st.1
  let s := st.2
  let aIdx := (s.m_proxyBuffer a).idx
  let aTag := (s.m_proxyBuffer a).tag
  let rightTag := computeRelativeTag aTag 1 0
  let r1 := FindContacts_scan K aIdx rightTag (s.m_count - (a + 1)).toNat (a + 1) 0 s
  if r1.1 then (c, r1.2.2)
  else
    let s := r1.2.2
    let bottomLeftTag := computeRelativeTag aTag (-1) 1
    let c := FindContacts_advance s bottomLeftTag (s.m_count - c).toNat c
    let bottomRightTag := computeRelativeTag aTag 1 1
    let r2 := FindContacts_scan K aIdx bottomRightTag (s.m_count - c).toNat c r1.2.1 s
    (c, r2.2.2)

/-- `FindContacts()`. -/
def FindContacts (K : Settings) (s : b2ParticleSystem) : b2ParticleSystem :=
  let s := ResizeContactBuffers K s (s.m_count * K.MAX_CONTACTS_PER_PARTICLE)
  let s := { s with m_contactCount := 0 }
  (forLoop 0 s.m_count (FindContacts_step K) (0, s)).2

/-- The two tests of `AddContact`: the contact is written when the collision
group of `a` is not positive or equals that of `b`, and the squared distance does
not exceed `m_squaredDiameter`. -/
def AddContact_accepts (s : b2ParticleSystem) (a b : Int) : Bool :=
  let colGroupA := (s.m_groupBuffer (s.m_partGroupIdxBuffer a)).m_collisionGroup
  let colGroupB := (s.m_groupBuffer (s.m_partGroupIdxBuffer b)).m_collisionGroup
  !(decide (colGroupA > 0) && decide (colGroupA ≠ colGroupB)) &&
    !decide ((s.m_positions b - s.m_positions a).dot (s.m_positions b - s.m_positions a)
      > s.m_squaredDiameter)

/-- The contact `AddContact` writes for the particles `a` and `b`. -/
def AddContact_entry (K : Settings) (s : b2ParticleSystem) (a b : Int) : b2ParticleContact :=
  let d := s.m_positions b - s.m_positions a
  let invD := K.b2InvSqrt (d.dot d)
  let invM := 1 / (s.m_masses a + s.m_masses b)
  ⟨a, b, s.m_flags a ||| s.m_flags b, 1 - d.dot d * invD * s.m_inverseDiameter,
    if invM > 0 then 1 / invM else 0, invD • d⟩

/-- What the scan of the host `FindContacts` writes when its two tag windows hold
every pair that `AddContact` accepts: every proxy, in the order of the proxy
array, gets the contacts with the first `MAX_CONTACTS_PER_PARTICLE` proxies behind
it that pass the two tests of the host `AddContact`.  The group test is the one of
the code, which depends on the order of the two particles. -/
def cappedAllPairs (K : Settings) (s : b2ParticleSystem) : List Proxy → List b2ParticleContact
  | [] => []
  | a :: later =>
    (((later.filter (fun b => AddContact_accepts s a.idx b.idx)).take
        K.MAX_CONTACTS_PER_PARTICLE.toNat).map
      (fun b => AddContact_entry K s a.idx b.idx)) ++ cappedAllPairs K s later

/-! ## Pairs -/

/-- `ParticleCanBeConnected(flags, group, groupIdx)`. -/
def ParticleCanBeConnected (K : Settings) (flags : Nat) (group : ParticleGroup)
    (groupIdx : Int) : Bool :=
  hasFlag flags Particle.Mat.k_wallOrSpringOrElasticFlags ||
    (groupIdx != INVALID_IDX && hasFlag group.m_groupFlags K.Rigid)

/-- `ComparePairIndices(a, b)`; the indices are particle indices, whose
difference does not leave `int32`. -/
def ComparePairIndices (a b : b2ParticlePair) : Bool :=
  let diffA := a.indexA - b.indexA
  if diffA ≠ 0 then diffA < 0 else a.indexB < b.indexB

/-- `MatchPairIndices(a, b)`. -/
def MatchPairIndices (a b : b2ParticlePair) : Bool :=
  a.indexA == b.indexA && a.indexB == b.indexB

/-- The elements `std::unique` keeps after the kept element `d`. -/
def stdUnique_from {α : Type} (pred : α → α → Bool) : α → List α → List α
  | _, [] => []
  | d, y :: l => if pred d y then stdUnique_from pred d l else y :: stdUnique_from pred y l

/-- `std::unique(begin, end, pred)` on the range as a list: the first element of
every run of matching neighbours is moved to the front; the entries behind the
kept ones are not written and stay what they were. -/
def stdUnique {α : Type} (pred : α → α → Bool) : List α → List α
  | [] => []
  | x :: l =>
    let kept := x :: stdUnique_from pred x l
    kept ++ (x :: l).drop kept.length

/-- The loop `for (i = firstIndex; i < lastIndex; i++) flags |= m_flags[i]` of
`UpdatePairsAndTriads`. -/
def UpdatePairsAndTriads_flags (s : b2ParticleSystem) (firstIndex lastIndex : Int) : Nat :=
  forLoop firstIndex lastIndex (fun flags i => flags ||| s.m_flags i) 0

/-- The test `UpdatePairsAndTriads` puts on the contact `k` before it writes a pair. -/
def UpdatePairsAndTriads_eligible (K : Settings) (firstIndex lastIndex : Int)
    (filter : ConnectionFilter) (s : b2ParticleSystem) (k : Int) : Bool :=
  let contact := s.m_partContactBuf k
  let a := contact.idxA
  let b := contact.idxB
  let af := s.m_flags a
  let bf := s.m_flags b
  let groupAIdx := s.m_partGroupIdxBuffer a
  let groupBIdx := s.m_partGroupIdxBuffer b
  let groupA := s.m_groupBuffer groupAIdx
  let groupB := s.m_groupBuffer groupBIdx
  decide (a ≥ firstIndex) && decide (a < lastIndex) &&
    decide (b ≥ firstIndex) && decide (b < lastIndex) &&
    !hasFlag (af ||| bf) Particle.Zombie &&
    hasFlag (af ||| bf) Particle.Mat.k_pairFlags &&
    (filter.IsNecessary a || filter.IsNecessary b) &&
    ParticleCanBeConnected K af groupA groupAIdx &&
    ParticleCanBeConnected K bf groupB groupBIdx &&
    filter.ShouldCreatePair a b

/-- The body of the contact loop of `UpdatePairsAndTriads`. -/
def UpdatePairsAndTriads_pairStep (K : Settings) (firstIndex lastIndex : Int)
    (filter : ConnectionFilter) (s : b2ParticleSystem) (k : Int) : b2ParticleSystem :=
  if UpdatePairsAndTriads_eligible K firstIndex lastIndex filter s k then
    let contact := s.m_partContactBuf k
    let a := contact.idxA
    let b := contact.idxB
    let groupAIdx := s.m_partGroupIdxBuffer a
    let groupBIdx := s.m_partGroupIdxBuffer b
    let strengthA := if groupAIdx ≠ INVALID_IDX then (s.m_groupBuffer groupAIdx).m_strength else 1
    let strengthB := if groupBIdx ≠ INVALID_IDX then (s.m_groupBuffer groupBIdx).m_strength else 1
    let s := ResizePairBuffers K s s.m_pairCount
    { s with
      m_pairBuffer := setAt s.m_pairBuffer s.m_pairCount
        ⟨a, b, contact.flags, if strengthA < strengthB then strengthA else strengthB,
          K.b2Distance (s.m_positions a) (s.m_positions b)⟩ }
  else s

/-- The block `if (flags & Particle::Mat::k_pairFlags) { ... }` of
`UpdatePairsAndTriads(firstIndex, lastIndex, filter)`.  `parallel_sort` is taken
as a sort by insertion; it is free in the order of entries with equal indices. -/
def UpdatePairsAndTriads_pairs (K : Settings) (s : b2ParticleSystem)
    (firstIndex lastIndex : Int) (filter : ConnectionFilter) : b2ParticleSystem :=
  if hasFlag (UpdatePairsAndTriads_flags s firstIndex lastIndex) Particle.Mat.k_pairFlags then
    let s := forLoop 0 s.m_contactCount
      (UpdatePairsAndTriads_pairStep K firstIndex lastIndex filter) s
    let sorted := (bufToList s.m_pairBuffer s.m_pairBufferSize).insertionSort
      (fun a b => ComparePairIndices b a = false)
    { s with
      m_pairBuffer := bufOfList (stdUnique MatchPairIndices sorted) s.m_pairBuffer
      m_pairCount := s.m_pairBufferSize }
  else s

/-! ## Compaction: `SolveZombie` -/

/-- `RemoveFromVectorIf(v1, size, pred, adjustSize)`: the buffer and the value
left in `size`. -/
def RemoveFromVectorIf {α : Type} (v1 : Int → α) (size : Int) (pred : α → Bool)
    (adjustSize : Bool) : (Int → α) × Int :=
  let r := forLoop 0 size
    (fun (st : (Int → α) × Int) i =>
      if !pred (st.1 i) then (setAt st.1 st.2 (st.1 i), st.2 + 1) else st) (v1, 0)
  (r.1, if adjustSize then r.2 else size)

/-- The loop `for (k = 0; k < count; k++) buf[k] = f(buf[k])`. -/
def remapBuf {α : Type} (buf : Int → α) (count : Int) (f : α → α) : Int → α :=
  forLoop 0 count (fun b k => setAt b k (f (b k))) buf

/-- The locals of the first loop of `SolveZombie` next to the system. -/
structure ZombieScan where
  sys : b2ParticleSystem
  newCount : Int
  newIndices : Int → Int
  allParticleFlags : Nat

/-- The assignments of `SolveZombie` that move particle `i` to slot `newCount`. -/
def SolveZombie_move (s : b2ParticleSystem) (newCount i : Int) : b2ParticleSystem :=
  let s :=
    if s.m_handleIndexBufferSize ≠ 0 then
      let handle := s.m_handleIndexBuffer i
      { s with
        m_handles := match handle with
          | some h => Function.update s.m_handles h newCount
          | none => s.m_handles
        m_handleIndexBuffer := setAt s.m_handleIndexBuffer newCount handle }
    else s
  { s with
    m_flags := setAt s.m_flags newCount (s.m_flags i)
    m_positions := setAt s.m_positions newCount (s.m_positions i)
    m_velocities := setAt s.m_velocities newCount (s.m_velocities i)
    m_partGroupIdxBuffer := setAt s.m_partGroupIdxBuffer newCount (s.m_partGroupIdxBuffer i)
    m_matIdxs := setAt s.m_matIdxs newCount (s.m_matIdxs i)
    m_forces := if s.m_hasForce then setAt s.m_forces newCount (s.m_forces i) else s.m_forces
    m_heats := setAt s.m_heats newCount (s.m_heats i)
    m_healthBuffer := setAt s.m_healthBuffer newCount (s.m_healthBuffer i) }

/-- The body of the first loop of `SolveZombie`. -/
def SolveZombie_scanStep (st : ZombieScan) (i : Int) : ZombieScan :=
  let s := st.sys
  let flags := s.m_flags i
  if hasFlag flags Particle.Zombie then
    let s :=
      if s.m_handleIndexBufferSize ≠ 0 then
        match s.m_handleIndexBuffer i with
        | some h =>
          { s with
            m_handles := Function.update s.m_handles h INVALID_IDX
            m_handleIndexBuffer := setAt s.m_handleIndexBuffer i none
            m_freedHandles := h :: s.m_freedHandles }
        | none => s
      else s
    { st with sys := s, newIndices := setAt st.newIndices i INVALID_IDX }
  else
    let s := if i ≠ st.newCount then SolveZombie_move s st.newCount i else s
    { sys := s
      newCount := st.newCount + 1
      newIndices := setAt st.newIndices i st.newCount
      allParticleFlags := st.allParticleFlags ||| flags }

/-- The first loop of `SolveZombie`: pack the particles that are not zombies. -/
def SolveZombie_scan (s : b2ParticleSystem) : ZombieScan :=
  forLoop 0 s.m_count SolveZombie_scanStep
    { sys := s, newCount := 0, newIndices := fun _ => 0, allParticleFlags := 0 }

/-- `Test::IsProxyInvalid`. -/
def IsProxyInvalid (proxy : Proxy) : Bool := proxy.idx < 0
/-- `Test::IsContactIdxInvalid`. -/
def IsContactIdxInvalid (contact : b2ParticleContact) : Bool :=
  contact.idxA < 0 || contact.idxB < 0
/-- `Test::IsBodyContactInvalid`. -/
def IsBodyContactInvalid (contact : b2PartBodyContact) : Bool := contact.partIdx < 0
/-- `Test::IsPairInvalid`. -/
def IsPairInvalid (pair : b2ParticlePair) : Bool := pair.indexA < 0 || pair.indexB < 0
/-- `Test::IsTriadInvalid`. -/
def IsTriadInvalid (triad : b2ParticleTriad) : Bool :=
  triad.indexA < 0 || triad.indexB < 0 || triad.indexC < 0

/-- The part of `SolveZombie` that renumbers and filters the proxies, contacts,
body contacts, pairs and triads through `newIndices`. -/
def SolveZombie_remap (s : b2ParticleSystem) (newIndices : Int → Int) : b2ParticleSystem :=
  let proxies := remapBuf s.m_proxyBuffer s.m_count
    (fun proxy => { proxy with idx := newIndices proxy.idx })
  let rp := RemoveFromVectorIf proxies s.m_count IsProxyInvalid false
  let contacts := remapBuf s.m_partContactBuf s.m_contactCount
    (fun contact =>
      { contact with idxA := newIndices contact.idxA, idxB := newIndices contact.idxB })
  let rc := RemoveFromVectorIf contacts s.m_contactCount IsContactIdxInvalid true
  let bodyContacts := remapBuf s.m_bodyContactBuf s.m_bodyContactCount
    (fun contact => { contact with partIdx := newIndices contact.partIdx })
  let rb := RemoveFromVectorIf bodyContacts s.m_bodyContactCount IsBodyContactInvalid true
  let pairs := remapBuf s.m_pairBuffer s.m_pairCount
    (fun pair => { pair with indexA := newIndices pair.indexA, indexB := newIndices pair.indexB })
  let rpair := RemoveFromVectorIf pairs s.m_pairCount IsPairInvalid true
  let triads := remapBuf s.m_triadBuffer s.m_triadCount
    (fun triad =>
      { triad with
        indexA := newIndices triad.indexA
        indexB := newIndices triad.indexB
        indexC := newIndices triad.indexC })
  let rt := RemoveFromVectorIf triads s.m_triadCount IsTriadInvalid true
  { s with
    m_proxyBuffer := rp.1
    m_count := rp.2
    m_partContactBuf := rc.1
    m_contactCount := rc.2
    m_bodyContactBuf := rb.1
    m_bodyContactCount := rb.2
    m_pairBuffer := rpair.1
    m_pairCount := rpair.2
    m_triadBuffer := rt.1
    m_triadCount := rt.2 }

/-- The scan of one group range in `SolveZombie`: `(firstIndex, lastIndex,
modified)` after the loop over `[m_firstIndex, m_lastIndex)`. -/
def SolveZombie_groupRange (newIndices : Int → Int) (newCount : Int) (group : ParticleGroup) :
    Int × Int × Bool :=
  forLoop group.m_firstIndex group.m_lastIndex
    (fun (st : Int × Int × Bool) i =>
      let j := newIndices i
      if j ≥ 0 then (min st.1 j, max st.2.1 (j + 1), st.2.2) else (st.1, st.2.1, true))
    (newCount, 0, false)

/-- The body of the loop `update groups` of `SolveZombie`. -/
def SolveZombie_groupStep (K : Settings) (newIndices : Int → Int) (newCount : Int)
    (s : b2ParticleSystem) (k : Int) : b2ParticleSystem :=
  let group := s.m_groupBuffer k
  if group.m_firstIndex ≠ INVALID_IDX then
    let r := SolveZombie_groupRange newIndices newCount group
    if r.1 < r.2.1 then
      let s := withGroup s k { group with m_firstIndex := r.1, m_lastIndex := r.2.1 }
      if r.2.2 then
        if hasFlag group.m_groupFlags K.Solid then
          SetGroupFlags K s k (group.m_groupFlags ||| K.NeedsUpdateDepth)
        else s
      else s
    else
      let s := withGroup s k { group with m_firstIndex := 0, m_lastIndex := 0 }
      if !hasFlag group.m_groupFlags K.CanBeEmpty then
        SetGroupFlags K s k (group.m_groupFlags ||| K.WillBeDestroyed)
      else s
  else s

/-- The loop `destroy bodies with no particles` of `SolveZombie`; its bound
`m_groupCount` is read again at every round. -/
def SolveZombie_destroy (K : Settings) (timestamp : Int) (destroyParticles : Bool) :
    Nat → Int → b2ParticleSystem → b2ParticleSystem
  | 0, _, s => s
  | fuel + 1, k, s =>
    if k < s.m_groupCount then
      let s :=
        if (s.m_groupBuffer k).m_firstIndex ≠ INVALID_IDX then
          if hasFlag (s.m_groupBuffer k).m_groupFlags K.WillBeDestroyed then
            DestroyGroup K s k timestamp destroyParticles
          else s
        else s
      SolveZombie_destroy K timestamp destroyParticles fuel (k + 1) s
    else s

/-- `SolveZombie()`.  The call `DestroyGroup(k)` leaves the last two arguments to
the defaults of the declaration, which are the parameters `timestamp` and
`destroyParticles` here.  The update of the lifetime index buffer is left out
with that buffer. -/
def SolveZombie (K : Settings) (timestamp : Int) (destroyParticles : Bool)
    (s : b2ParticleSystem) : b2ParticleSystem :=
  let scan := SolveZombie_scan s
  let s := SolveZombie_remap scan.sys scan.newIndices
  let s := forLoop 0 s.m_groupCount
    (SolveZombie_groupStep K scan.newIndices scan.newCount) s
  let s := { s with m_count := scan.newCount, m_needsUpdateAllParticleFlags := true }
  SolveZombie_destroy K timestamp destroyParticles s.m_groupCount.toNat 0 s

/-- The old indices below `n` of the particles that are not zombies, in order. -/
def survivors (flags : Int → Nat) (n : Int) : List Int :=
  (bufToList (fun k => k) n).filter (fun k => !hasFlag (flags k) Particle.Zombie)

/-- The index that compaction gives to the particle at old index `i`: the number
of surviving particles before it. -/
def newIndexOf (flags : Int → Nat) (i : Int) : Int := ((survivors flags i).length : Int)

/-- The buffer `cur` holds the entries of `orig` at the indices `surv`, packed
into its first `newCount` slots, and still equals `orig` from index `i` on. -/
def PackedUpTo {α : Type} (orig cur : Int → α) (surv : List Int) (newCount i : Int) : Prop :=
  bufToList cur newCount = surv.map orig ∧ ∀ k, i ≤ k → cur k = orig k

/-- The state of the first loop of `SolveZombie` before round `i`. -/
def ScanInv (s : b2ParticleSystem) (i : Int) (st : ZombieScan) : Prop :=
  st.newCount = newIndexOf s.m_flags i ∧ st.newCount ≤ i ∧
    (∀ k, 0 ≤ k → k < i → st.newIndices k =
      if hasFlag (s.m_flags k) Particle.Zombie then INVALID_IDX else newIndexOf s.m_flags k) ∧
    PackedUpTo s.m_flags st.sys.m_flags (survivors s.m_flags i) st.newCount i ∧
    PackedUpTo s.m_positions st.sys.m_positions (survivors s.m_flags i) st.newCount i ∧
    PackedUpTo s.m_velocities st.sys.m_velocities (survivors s.m_flags i) st.newCount i ∧
    PackedUpTo s.m_partGroupIdxBuffer st.sys.m_partGroupIdxBuffer
      (survivors s.m_flags i) st.newCount i ∧
    PackedUpTo s.m_matIdxs st.sys.m_matIdxs (survivors s.m_flags i) st.newCount i ∧
    PackedUpTo s.m_heats st.sys.m_heats (survivors s.m_flags i) st.newCount i ∧
    PackedUpTo s.m_healthBuffer st.sys.m_healthBuffer (survivors s.m_flags i) st.newCount i

/-- Every free range starts at a valid index and is not reversed. -/
def RangesOk (l : List (Int × Int)) : Prop := ∀ r ∈ l, 0 ≤ r.1 ∧ r.1 ≤ r.2

/-- No group in use carries the internal flag `WillBeDestroyed`. -/
def NoGroupWillBeDestroyed (K : Settings) (s : b2ParticleSystem) : Prop :=
  ∀ k, 0 ≤ k → k < s.m_groupCount → (s.m_groupBuffer k).m_firstIndex ≠ INVALID_IDX →
    hasFlag (s.m_groupBuffer k).m_groupFlags K.WillBeDestroyed = false

/-- The group that compaction flags for destruction has the empty range `[0, 0)`. -/
def DoomedGroupsEmpty (K : Settings) (s : b2ParticleSystem) (lo hi : Int) : Prop :=
  ∀ k, lo ≤ k → k < hi → (s.m_groupBuffer k).m_firstIndex ≠ INVALID_IDX →
    hasFlag (s.m_groupBuffer k).m_groupFlags K.WillBeDestroyed = true →
    (s.m_groupBuffer k).m_firstIndex = 0 ∧ (s.m_groupBuffer k).m_lastIndex = 0

/-- The particle data and index-bearing lists that the group bookkeeping of
`SolveZombie` and `DestroyGroup` leave alone. -/
def bodyView (s : b2ParticleSystem) :=
  (s.m_positions, s.m_velocities, s.m_partContactBuf, s.m_contactCount, s.m_bodyContactBuf,
    s.m_bodyContactCount, s.m_pairBuffer, s.m_pairCount, s.m_triadBuffer, s.m_triadCount)

/-- The counts and free lists that the first loops of `SolveZombie` leave alone. -/
def tableView (s : b2ParticleSystem) :=
  (s.m_count, s.m_zombieRanges, s.m_groupCount)

/-- The lists that the first loop of `SolveZombie` leaves alone. -/
def listView (s : b2ParticleSystem) :=
  (s.m_groupBuffer, s.m_partContactBuf, s.m_contactCount, s.m_bodyContactBuf,
    s.m_bodyContactCount, s.m_pairBuffer, s.m_pairCount, s.m_triadBuffer, s.m_triadCount)

/-- What `SolveZombie` needs of the state it starts from: the flag bits
`NeedsUpdateDepth` and `WillBeDestroyed` are different bits, no group in use
carries the internal flag `WillBeDestroyed`, and the free ranges are not reversed. -/
def SolveZombieReady (K : Settings) (s : b2ParticleSystem) : Prop :=
  K.NeedsUpdateDepth &&& K.WillBeDestroyed = 0 ∧ NoGroupWillBeDestroyed K s ∧
    RangesOk s.m_zombieRanges

/-- Every index stored in the contacts, body contacts, pairs and triads in use
denotes a particle of the system. -/
def StoredIndicesInRange (s : b2ParticleSystem) : Prop :=
  (∀ c ∈ bufToList s.m_partContactBuf s.m_contactCount,
      0 ≤ c.idxA ∧ c.idxA < s.m_count ∧ 0 ≤ c.idxB ∧ c.idxB < s.m_count) ∧
    (∀ c ∈ bufToList s.m_bodyContactBuf s.m_bodyContactCount,
      0 ≤ c.partIdx ∧ c.partIdx < s.m_count) ∧
    (∀ p ∈ bufToList s.m_pairBuffer s.m_pairCount,
      0 ≤ p.indexA ∧ p.indexA < s.m_count ∧ 0 ≤ p.indexB ∧ p.indexB < s.m_count) ∧
    (∀ t ∈ bufToList s.m_triadBuffer s.m_triadCount,
      0 ≤ t.indexA ∧ t.indexA < s.m_count ∧ 0 ≤ t.indexB ∧ t.indexB < s.m_count ∧
        0 ≤ t.indexC ∧ t.indexC < s.m_count)

/-- Particle `i` does not carry the Zombie flag. -/
def survives (s : b2ParticleSystem) (i : Int) : Bool := !hasFlag (s.m_flags i) Particle.Zombie

/-! ## Vocabulary for `FindContacts` -/

/-- What `AddContact` and the loops of `FindContacts` read without writing it. -/
def contactView (s : b2ParticleSystem) :=
  (s.m_groupBuffer, s.m_partGroupIdxBuffer, s.m_positions, s.m_flags, s.m_masses,
    s.m_squaredDiameter, s.m_inverseDiameter, s.m_proxyBuffer, s.m_count)

/-- The state `s` differs from `s0` by the contact list `L`, which it holds in
`m_partContactBuf[0 .. m_contactCount)`. -/
def Emitted (s0 s : b2ParticleSystem) (L : List b2ParticleContact) : Prop :=
  contactView s = contactView s0 ∧ s.m_contactCount = (L.length : Int) ∧
    bufToList s.m_partContactBuf s.m_contactCount = L

/-- The proxies `m_proxyBuffer[b .. m_count)`. -/
def proxiesFrom (s : b2ParticleSystem) (b : Int) : List Proxy :=
  (bufToList s.m_proxyBuffer s.m_count).drop b.toNat

/-- The proxy array is sorted by tag. -/
def SortedByTag (s : b2ParticleSystem) : Prop :=
  ∀ i j, 0 ≤ i → i ≤ j → j < s.m_count →
    (s.m_proxyBuffer i).tag ≤ (s.m_proxyBuffer j).tag

/-! ## Collision groups -/

/-- The value an `int32` computation yields: the result reduced to two's
complement on 32 bits. -/
def toInt32 (x : Int) : Int := (x + 2 ^ 31) % 2 ^ 32 - 2 ^ 31

/-- The values of `int32`. -/
def IsInt32 (x : Int) : Prop := -2 ^ 31 ≤ x ∧ x < 2 ^ 31

/-- `ShouldCollisionGroupsCollide(collGroupA, collGroupB)`, the same in the host
and in the `restrict(amp)` overload; the negation is an `int32` negation. -/
def ShouldCollisionGroupsCollide (collGroupA collGroupB : Int) : Bool :=
  if collGroupA = 0 then true else collGroupA != toInt32 (-collGroupB)

/-- The lambda `shouldCollide` of `AmpFindContacts` on the arrays it captures. -/
def AmpFindContacts_shouldCollide (groups : Int → ParticleGroup) (groupIdxs : Int → Int)
    (a b : Int) : Bool :=
  ShouldCollisionGroupsCollide (groups (groupIdxs a)).m_collisionGroup
    (groups (groupIdxs b)).m_collisionGroup

/-- The lambda `addContact` of `AmpFindContacts` on the arrays it captures: the
returned flag and the contact slot after the call. -/
def AmpFindContacts_addContact (K : Settings) (shouldCollide : Int → Int → Bool)
    (positions : Int → b2Vec3) (flags : Int → Nat) (invMasses : Int → ℚ)
    (invDiameter sqrDiameter : ℚ) (a b : Int) (contact : b2ParticleContact) :
    Bool × b2ParticleContact :=
  if !shouldCollide a b then (false, contact)
  else
    let contactFlags := flags a ||| flags b
    let d := positions b - positions a
    let distBtParticlesSq := d.dot d
    if distBtParticlesSq > sqrDiameter then (false, contact)
    else
      let invD := K.b2InvSqrt distBtParticlesSq
      let invM := (if hasFlag (flags a) Particle.Mat.Wall then 0 else invMasses a) +
        (if hasFlag (flags b) Particle.Mat.Wall then 0 else invMasses b)
      (true,
        ⟨a, b, contactFlags, 1 - distBtParticlesSq * invD * invDiameter,
          if invM > 0 then 1 / invM else 0, invD • d⟩)

/-! ## Vocabulary for the handles -/

/-- The handle objects, the handle table and the handles given back to the
allocator. -/
def handleView (s : b2ParticleSystem) :=
  (s.m_handles, s.m_handleIndexBuffer, s.m_freedHandles)

/-- The handle table covers the particles, and every handle it holds for a
particle slot reports that slot as its index. -/
def HandlesMatchSlots (s : b2ParticleSystem) : Prop :=
  s.m_count ≤ s.m_handleIndexBufferSize ∧
    ∀ k h, 0 ≤ k → k < s.m_count → s.m_handleIndexBuffer k = some h → s.m_handles h = k

/-- The handles during the first loop of `SolveZombie`, before round `i`: the
table is untouched from slot `i` on, the handles of the slots below `i` are
released or renumbered, and the handles of the slots from `i` on report their
slot. -/
def HandleInv (s : b2ParticleSystem) (i : Int) (st : ZombieScan) : Prop :=
  st.sys.m_handleIndexBufferSize = s.m_handleIndexBufferSize ∧
    (∀ k, i ≤ k → st.sys.m_handleIndexBuffer k = s.m_handleIndexBuffer k) ∧
    (∀ k h, 0 ≤ k → k < i → s.m_handleIndexBuffer k = some h →
      if hasFlag (s.m_flags k) Particle.Zombie then
        st.sys.m_handles h = INVALID_IDX ∧ h ∈ st.sys.m_freedHandles
      else
        st.sys.m_handles h = newIndexOf s.m_flags k ∧
          st.sys.m_handleIndexBuffer (newIndexOf s.m_flags k) = some h) ∧
    (∀ k h, i ≤ k → k < s.m_count → s.m_handleIndexBuffer k = some h →
      st.sys.m_handles h = k)

/-- The handle records, the free list of the allocator, the handle table with its
size, and the particle capacity. -/
def capacityView (s : b2ParticleSystem) :=
  (s.m_handles, s.m_handleIndexBuffer, s.m_freedHandles, s.m_handleIndexBufferSize,
    s.m_capacity)

/-- The state `t` has the handle records and the freed handles of `s`, its handle
table has at least `n` entries and agrees with the table of `s` on the first
`n`, and its capacity is not negative. -/
def KeepsHandles (n : Int) (s t : b2ParticleSystem) : Prop :=
  t.m_handles = s.m_handles ∧ t.m_freedHandles = s.m_freedHandles ∧
    n ≤ t.m_handleIndexBufferSize ∧ 0 ≤ t.m_capacity ∧
    ∀ k, k < n → t.m_handleIndexBuffer k = s.m_handleIndexBuffer k

/-! ## Queries -/

/-- `b2Vec2` with exact components. -/
structure b2Vec2 where
  x : ℚ
  y : ℚ
  deriving DecidableEq

/-- `b2AABB`: an axis aligned box given by two corners. -/
structure b2AABB where
  lowerBound : b2Vec2
  upperBound : b2Vec2
  deriving DecidableEq

/-- `std::lower_bound(buf + first, buf + last, value)` with the order
`proxy.tag < value`: on a range sorted by tag, the first position whose proxy is
not less than `value`, or `last`. -/
def lower_bound (buf : Int → Proxy) (first last : Int) (value : Nat) : Int :=
  first + ((((bufToList buf last).drop first.toNat).takeWhile
    (fun proxy => decide (proxy.tag < value))).length : Int)

/-- `std::upper_bound(buf + first, buf + last, value)` with the order
`value < proxy.tag`: on a range sorted by tag, the first position whose proxy is
greater than `value`, or `last`. -/
def upper_bound (buf : Int → Proxy) (first last : Int) (value : Nat) : Int :=
  first + ((((bufToList buf last).drop first.toNat).takeWhile
    (fun proxy => !decide (value < proxy.tag))).length : Int)

/-- The test of `QueryAABB` on a particle position: strictly inside the box. -/
def QueryAABB_inside (aabb : b2AABB) (p : b2Vec3) : Bool :=
  decide (aabb.lowerBound.x < p.x ∧ p.x < aabb.upperBound.x ∧
    aabb.lowerBound.y < p.y ∧ p.y < aabb.upperBound.y)

/-- The loop of `QueryAABB` from the proxy at position `proxy`, with `n` proxies
to go.  The callback is a function on its own state `cb` that returns the flag of
`ReportParticle` and the new state. -/
def QueryAABB_loop {σ : Type} (ReportParticle : σ → Int → Bool × σ) (s : b2ParticleSystem)
    (aabb : b2AABB) : Nat → Int → σ → σ
  | 0, _, cb => cb
  | n + 1, proxy, cb =>
    let i := (s.m_proxyBuffer proxy).idx
    let p := s.m_positions i
    if QueryAABB_inside aabb p then
      let r := ReportParticle cb i
      if !r.1 then r.2
      else QueryAABB_loop ReportParticle s aabb n (proxy + 1) r.2
    else QueryAABB_loop ReportParticle s aabb n (proxy + 1) cb

/-- `QueryAABB(callback, aabb)`: the state of the callback after the query.  The
products `m_inverseDiameter * aabb.lowerBound.x` and so on are `float32` products. -/
def QueryAABB {σ : Type} (ReportParticle : σ → Int → Bool × σ) (s : b2ParticleSystem)
    (aabb : b2AABB) (cb : σ) : σ :=
  if s.m_proxyBufferSize = 0 then cb
  else
    let firstProxy := lower_bound s.m_proxyBuffer 0 s.m_count
      (computeTag (roundFloat32 (s.m_inverseDiameter * aabb.lowerBound.x))
        (roundFloat32 (s.m_inverseDiameter * aabb.lowerBound.y)))
    let lastProxy := upper_bound s.m_proxyBuffer firstProxy s.m_count
      (computeTag (roundFloat32 (s.m_inverseDiameter * aabb.upperBound.x))
        (roundFloat32 (s.m_inverseDiameter * aabb.upperBound.y)))
    QueryAABB_loop ReportParticle s aabb (lastProxy - firstProxy).toNat firstProxy cb

/-! ## Vocabulary for `QueryAABB` -/

/-- The callback is called with the particles of the list in order, until it
returns false or the list ends. -/
def reportInOrder {σ : Type} (ReportParticle : σ → Int → Bool × σ) : List Int → σ → σ
  | [], cb => cb
  | i :: rest, cb =>
    let r := ReportParticle cb i
    if r.1 then reportInOrder ReportParticle rest r.2 else r.2

/-- The particles strictly inside the box, in the order of the proxy array. -/
def particlesInside (s : b2ParticleSystem) (aabb : b2AABB) : List Int :=
  ((bufToList s.m_proxyBuffer s.m_count).filter
    (fun proxy => QueryAABB_inside aabb (s.m_positions proxy.idx))).map (fun proxy => proxy.idx)

/-- The tag that `UpdateProxies` gives a particle at `pos`:
`computeTag(m_inverseDiameter * pos.x, m_inverseDiameter * pos.y)`, the two
products being `float32` products. -/
def proxyTag (s : b2ParticleSystem) (pos : b2Vec3) : Nat :=
  computeTag (roundFloat32 (s.m_inverseDiameter * pos.x))
    (roundFloat32 (s.m_inverseDiameter * pos.y))

/-- Every proxy carries the tag that `UpdateProxies` computes from the position of
its particle, and the sums of that computation round into the tag range. -/
def TagsInRange (s : b2ParticleSystem) : Prop :=
  ∀ i, 0 ≤ i → i < s.m_count →
    RoundsInTagRange (roundFloat32 (s.m_inverseDiameter * (s.m_positions (s.m_proxyBuffer i).idx).x))
        (roundFloat32 (s.m_inverseDiameter * (s.m_positions (s.m_proxyBuffer i).idx).y)) ∧
      (s.m_proxyBuffer i).tag = proxyTag s (s.m_positions (s.m_proxyBuffer i).idx)

/-- For both corners of the box, scaled by the inverse diameter, the sums of
`computeTag` round into the tag range. -/
def BoxInTagRange (s : b2ParticleSystem) (aabb : b2AABB) : Prop :=
  RoundsInTagRange (roundFloat32 (s.m_inverseDiameter * aabb.lowerBound.x))
      (roundFloat32 (s.m_inverseDiameter * aabb.lowerBound.y)) ∧
    RoundsInTagRange (roundFloat32 (s.m_inverseDiameter * aabb.upperBound.x))
      (roundFloat32 (s.m_inverseDiameter * aabb.upperBound.y))

/-- A callback that records the reported particles, earliest first, and stops
the query at the particle `stop`. -/
def recordUntil (stop : Int) (cb : List Int) (i : Int) : Bool × List Int :=
  (decide (i ≠ stop), cb ++ [i])

/-! ## Joining and splitting groups -/

/-- The parts of the source that are built on headers absent from the translated
sources (`b2World`, its fixtures, `b2VoronoiDiagram`) or that run on the
accelerator, as functions on the state of the particle system. -/
structure Hooks where
  /-- `UpdateBodyContacts()`, which queries the fixtures of `m_world`. -/
  UpdateBodyContacts : b2ParticleSystem → b2ParticleSystem
  /-- The branch `if (m_accelerate)` of `UpdateContacts(exceptZombie)`. -/
  AmpUpdateContacts : Bool → b2ParticleSystem → b2ParticleSystem
  /-- The block `if (flags & Particle::Mat::k_triadFlags)` of
  `UpdatePairsAndTriads(firstIndex, lastIndex, filter)`. -/
  UpdateTriads : Int → Int → ConnectionFilter → b2ParticleSystem → b2ParticleSystem
  /-- The part of `DestroyParticlesInFixture` after the lock test, which queries
  `m_world` with the shape of the fixture: the number of destroyed particles and
  the new state. -/
  DestroyParticlesInShape : b2ParticleSystem → Int × b2ParticleSystem

/-- `b2ParticleContactIsZombie`. -/
def b2ParticleContactIsZombie (contact : b2ParticleContact) : Bool :=
  hasFlag contact.flags Particle.Zombie

/-- `UpdateContacts(exceptZombie)`. -/
def UpdateContacts (W : Hooks) (K : Settings) (s : b2ParticleSystem) (exceptZombie : Bool) :
    b2ParticleSystem :=
  if s.m_accelerate then W.AmpUpdateContacts exceptZombie s
  else
    let s := FindContacts K s
    let s := W.UpdateBodyContacts s
    if exceptZombie then
      let r := RemoveFromVectorIf s.m_partContactBuf s.m_contactCount
        b2ParticleContactIsZombie true
      { s with m_partContactBuf := r.1, m_contactCount := r.2 }
    else s

/-- `UpdatePairsAndTriads(firstIndex, lastIndex, filter)`. -/
def UpdatePairsAndTriads (W : Hooks) (K : Settings) (s : b2ParticleSystem)
    (firstIndex lastIndex : Int) (filter : ConnectionFilter) : b2ParticleSystem :=
  let flags := UpdatePairsAndTriads_flags s firstIndex lastIndex
  let s := UpdatePairsAndTriads_pairs K s firstIndex lastIndex filter
  if hasFlag flags Particle.Mat.k_triadFlags then W.UpdateTriads firstIndex lastIndex filter s
  else s

/-- `NewIndices::operator[]` of `RotateBuffer(start, mid, end)`. -/
def RotateBuffer_newIndices (start mid end_ i : Int) : Int :=
  if i < start then i
  else if i < mid then i + end_ - mid
  else if i < end_ then i + start - mid
  else i

/-- `std::rotate(buf + start, buf + mid, buf + end)`: the entry at `mid` comes to
`start`, the entries of `[start, mid)` follow those of `[mid, end)`. -/
def rotateBuf {α : Type} (buf : Int → α) (start mid end_ : Int) : Int → α :=
  fun i =>
    if start ≤ i ∧ i < end_ then
      if i < start + (end_ - mid) then buf (i + (mid - start)) else buf (i - (end_ - mid))
    else buf i

/-- `RotateBuffer(start, mid, end)`. -/
def RotateBuffer (s : b2ParticleSystem) (start mid end_ : Int) : b2ParticleSystem :=
  if start = mid ∨ mid = end_ then s
  else
    let newIndices := RotateBuffer_newIndices start mid end_
    let s : b2ParticleSystem := { s with
      m_flags := rotateBuf s.m_flags start mid end_
      m_positions := rotateBuf s.m_positions start mid end_
      m_velocities := rotateBuf s.m_velocities start mid end_
      m_partGroupIdxBuffer := rotateBuf s.m_partGroupIdxBuffer start mid end_
      m_matIdxs := rotateBuf s.m_matIdxs start mid end_
      m_forces := if s.m_hasForce then rotateBuf s.m_forces start mid end_ else s.m_forces
      m_heats := rotateBuf s.m_heats start mid end_
      m_healthBuffer := rotateBuf s.m_healthBuffer start mid end_ }
    -- Update handle indices.
    let s : b2ParticleSystem :=
      if s.m_handleIndexBufferSize ≠ 0 then
        let s : b2ParticleSystem := { s with
          m_handleIndexBuffer := rotateBuf s.m_handleIndexBuffer start mid end_ }
        forLoop start end_
          (fun (st : b2ParticleSystem) i =>
            match st.m_handleIndexBuffer i with
            | some handle =>
              { st with
                m_handles := Function.update st.m_handles handle
                  (newIndices (st.m_handles handle)) }
            | none => st) s
      else s
    -- update proxies, contacts, particle-body contacts, pairs, triads
    let s : b2ParticleSystem := { s with
      m_proxyBuffer := remapBuf s.m_proxyBuffer s.m_count
        (fun proxy => { proxy with idx := newIndices proxy.idx })
      m_partContactBuf := remapBuf s.m_partContactBuf s.m_contactCount
        (fun contact =>
          { contact with idxA := newIndices contact.idxA, idxB := newIndices contact.idxB })
      m_bodyContactBuf := remapBuf s.m_bodyContactBuf s.m_bodyContactCount
        (fun contact => { contact with partIdx := newIndices contact.partIdx })
      m_pairBuffer := remapBuf s.m_pairBuffer s.m_pairCount
        (fun pair =>
          { pair with indexA := newIndices pair.indexA, indexB := newIndices pair.indexB })
      m_triadBuffer := remapBuf s.m_triadBuffer s.m_triadCount
        (fun triad =>
          { triad with
            indexA := newIndices triad.indexA
            indexB := newIndices triad.indexB
            indexC := newIndices triad.indexC }) }
    -- update groups
    forLoop 0 s.m_groupCount
      (fun (st : b2ParticleSystem) k =>
        let group := st.m_groupBuffer k
        if group.m_firstIndex ≠ INVALID_IDX then
          withGroup st k
            { group with
              m_firstIndex := newIndices group.m_firstIndex
              m_lastIndex := newIndices (group.m_lastIndex - 1) + 1 }
        else st) s

/-- `JoinParticleGroupsFilter(threshold)`; `IsNecessary` is the one of the base
class `ConnectionFilter`, which accepts every particle. -/
def JoinParticleGroupsFilter (m_threshold : Int) : ConnectionFilter :=
  { IsNecessary := fun _ => true
    ShouldCreatePair := fun a b =>
      (decide (a < m_threshold) && decide (m_threshold ≤ b)) ||
        (decide (b < m_threshold) && decide (m_threshold ≤ a))
    ShouldCreateTriad := fun a b c =>
      (decide (a < m_threshold) || decide (b < m_threshold) || decide (c < m_threshold)) &&
        (decide (m_threshold ≤ a) || decide (m_threshold ≤ b) || decide (m_threshold ≤ c)) }

/-- `JoinParticleGroups(groupAIdx, groupBIdx)`.  `groupA` and `groupB` are
references into `m_groupBuffer`, read from the current state at every use.  The
call `DestroyGroup(groupBIdx)` leaves the last two arguments to the defaults of
the declaration, the parameters `timestamp` and `destroyParticles` here. -/
def JoinParticleGroups (W : Hooks) (K : Settings) (timestamp : Int) (destroyParticles : Bool)
    (s : b2ParticleSystem) (groupAIdx groupBIdx : Int) : b2ParticleSystem :=
  if s.m_worldLocked then s
  else
    let s := RotateBuffer s (s.m_groupBuffer groupBIdx).m_firstIndex
      (s.m_groupBuffer groupBIdx).m_lastIndex s.m_count
    let s := RotateBuffer s (s.m_groupBuffer groupAIdx).m_firstIndex
      (s.m_groupBuffer groupAIdx).m_lastIndex (s.m_groupBuffer groupBIdx).m_firstIndex
    -- Create pairs and triads connecting groupA and groupB.
    let filter := JoinParticleGroupsFilter (s.m_groupBuffer groupBIdx).m_firstIndex
    let s := UpdateContacts W K s true
    let s := UpdatePairsAndTriads W K s (s.m_groupBuffer groupAIdx).m_firstIndex
      (s.m_groupBuffer groupBIdx).m_lastIndex filter
    let s := forLoop (s.m_groupBuffer groupBIdx).m_firstIndex
      (s.m_groupBuffer groupBIdx).m_lastIndex
      (fun (st : b2ParticleSystem) i =>
        { st with m_partGroupIdxBuffer := setAt st.m_partGroupIdxBuffer i groupAIdx }) s
    let groupFlags := (s.m_groupBuffer groupAIdx).m_groupFlags |||
      (s.m_groupBuffer groupBIdx).m_groupFlags
    let s := SetGroupFlags K s groupAIdx groupFlags
    let s := withGroup s groupAIdx
      { s.m_groupBuffer groupAIdx with m_lastIndex := (s.m_groupBuffer groupBIdx).m_lastIndex }
    let s := withGroup s groupBIdx
      { s.m_groupBuffer groupBIdx with m_firstIndex := (s.m_groupBuffer groupBIdx).m_lastIndex }
    DestroyGroup K s groupBIdx timestamp destroyParticles

/-- `DestroyParticlesInGroup(groupIdx)`. -/
def DestroyParticlesInGroup (s : b2ParticleSystem) (groupIdx : Int) : b2ParticleSystem :=
  if s.m_worldLocked then s
  else
    forLoop (s.m_groupBuffer groupIdx).m_firstIndex (s.m_groupBuffer groupIdx).m_lastIndex
      DestroyParticle s

/-- `DestroyParticlesInFixture(fixture, xf, callDestructionListener)`: the
returned count and the new state. -/
def DestroyParticlesInFixture (W : Hooks) (s : b2ParticleSystem) : Int × b2ParticleSystem :=
  if s.m_worldLocked then (0, s) else W.DestroyParticlesInShape s

/-- `ParticleListNode`; `list` and `next` point into the node buffer, `none` is
`NULL`. -/
structure ParticleListNode where
  list : Int
  next : Option Int
  count : Int
  index : Int
  deriving DecidableEq

/-- `ParticleGroup::ContainsParticle(index)`. -/
def ContainsParticle (group : ParticleGroup) (index : Int) : Bool :=
  decide (group.m_firstIndex ≤ index) && decide (index < group.m_lastIndex)

/-- `InitializeParticleLists(group, nodeBuffer)`; `GetBufferIndex()` is
`m_firstIndex` and `GetParticleCount()` is `m_lastIndex - m_firstIndex`. -/
def InitializeParticleLists (group : ParticleGroup) (nodeBuffer : Int → ParticleListNode) :
    Int → ParticleListNode :=
  let bufferIndex := group.m_firstIndex
  let particleCount := group.m_lastIndex - group.m_firstIndex
  forLoop 0 particleCount
    (fun nb i => setAt nb i { list := i, next := none, count := 1, index := i + bufferIndex })
    nodeBuffer

/-- The loop `for (b = listB;;)` of `MergeParticleLists`, which ends at the last
node of the list; `fuel` bounds the number of nodes visited. -/
def MergeParticleLists_walk (listA : Int) :
    Nat → Int → (Int → ParticleListNode) → (Int → ParticleListNode)
  | 0, _, nb => nb
  | fuel + 1, b, nb =>
    let nb := setAt nb b { nb b with list := listA }
    match (nb b).next with
    | some nextB => MergeParticleLists_walk listA fuel nextB nb
    | none => setAt nb b { nb b with next := (nb listA).next }

/-- `MergeParticleLists(listA, listB)` on lists of at most `fuel` nodes. -/
def MergeParticleLists (fuel : Nat) (nb : Int → ParticleListNode) (listA listB : Int) :
    Int → ParticleListNode :=
  let nb := MergeParticleLists_walk listA fuel listB nb
  let nb := setAt nb listA { nb listA with next := some listB }
  let nb := setAt nb listA { nb listA with count := (nb listA).count + (nb listB).count }
  setAt nb listB { nb listB with count := 0 }

/-- `MergeParticleListsInContact(group, nodeBuffer)`. -/
def MergeParticleListsInContact (s : b2ParticleSystem) (group : ParticleGroup)
    (nodeBuffer : Int → ParticleListNode) : Int → ParticleListNode :=
  let bufferIndex := group.m_firstIndex
  forLoop 0 s.m_contactCount
    (fun nb k =>
      let contact := s.m_partContactBuf k
      let a := contact.idxA
      let b := contact.idxB
      if !ContainsParticle group a || !ContainsParticle group b then nb
      else
        let listA := (nb (a - bufferIndex)).list
        let listB := (nb (b - bufferIndex)).list
        if listA = listB then nb
        else if (nb listA).count < (nb listB).count then
          MergeParticleLists (group.m_lastIndex - group.m_firstIndex).toNat nb listB listA
        else MergeParticleLists (group.m_lastIndex - group.m_firstIndex).toNat nb listA listB)
    nodeBuffer

/-- `FindLongestParticleList(group, nodeBuffer)`: the position of the result in
the node buffer. -/
def FindLongestParticleList (group : ParticleGroup) (nodeBuffer : Int → ParticleListNode) :
    Int :=
  forLoop 0 (group.m_lastIndex - group.m_firstIndex)
    (fun result i => if (nodeBuffer result).count < (nodeBuffer i).count then i else result) 0

/-- `MergeParticleListAndNode(list, node)`. -/
def MergeParticleListAndNode (nb : Int → ParticleListNode) (list node : Int) :
    Int → ParticleListNode :=
  let nb := setAt nb node { nb node with list := list }
  let nb := setAt nb node { nb node with next := (nb list).next }
  let nb := setAt nb list { nb list with next := some node }
  let nb := setAt nb list { nb list with count := (nb list).count + 1 }
  setAt nb node { nb node with count := 0 }

/-- `MergeZombieParticleListNodes(group, nodeBuffer, survivingList)`. -/
def MergeZombieParticleListNodes (s : b2ParticleSystem) (group : ParticleGroup)
    (nodeBuffer : Int → ParticleListNode) (survivingList : Int) : Int → ParticleListNode :=
  forLoop 0 (group.m_lastIndex - group.m_firstIndex)
    (fun nb i =>
      if i ≠ survivingList ∧ hasFlag (s.m_flags (nb i).index) Particle.Zombie then
        MergeParticleListAndNode nb survivingList i
      else nb)
    nodeBuffer

/-- `CloneParticle(oldIndex, groupIdx)`: the body fills a local definition and
returns `0`; the creation of the particle is commented out in the source. -/
def CloneParticle (_s : b2ParticleSystem) (_oldIndex _groupIdx : Int) : Int := 0

/-- The loop `for (node = list; node; node = node->next)` of
`CreateParticleGroupsFromParticleList`; `fuel` bounds the number of nodes
visited. -/
def CreateParticleGroupsFromParticleList_walk (newGroupIdx : Int) :
    Nat → Option Int → b2ParticleSystem × (Int → ParticleListNode) →
      b2ParticleSystem × (Int → ParticleListNode)
  | 0, _, st => st
  | _ + 1, none, st => st
  | fuel + 1, some node, st =>
    let oldIndex := (st.2 node).index
    let newIndex := CloneParticle st.1 oldIndex newGroupIdx
    let s := { st.1 with m_flags := setAt st.1.m_flags oldIndex Particle.Zombie }
    let nb := setAt st.2 node { st.2 node with index := newIndex }
    CreateParticleGroupsFromParticleList_walk newGroupIdx fuel (nb node).next (s, nb)

/-- `CreateParticleGroupsFromParticleList(group, nodeBuffer, survivingList)` for
the group in slot `groupIdx`; `defaultDef` is the value that the constructor of
`ParticleGroup::Def` gives. -/
def CreateParticleGroupsFromParticleList (K : Settings) (defaultDef : GroupDef)
    (s : b2ParticleSystem) (groupIdx : Int) (nodeBuffer : Int → ParticleListNode)
    (survivingList : Int) : b2ParticleSystem × (Int → ParticleListNode) :=
  let particleCount := (s.m_groupBuffer groupIdx).m_lastIndex -
    (s.m_groupBuffer groupIdx).m_firstIndex
  let def_ := { defaultDef with groupFlags := (s.m_groupBuffer groupIdx).m_groupFlags }
  forLoop 0 particleCount
    (fun (st : b2ParticleSystem × (Int → ParticleListNode)) i =>
      if (st.2 i).count = 0 ∨ i = survivingList then st
      else
        let r := CreateGroup K st.1 def_
        CreateParticleGroupsFromParticleList_walk r.1 particleCount.toNat (some i) (r.2, st.2))
    (s, nodeBuffer)

/-- `UpdatePairsAndTriadsWithParticleList(group, nodeBuffer)`. -/
def UpdatePairsAndTriadsWithParticleList (s : b2ParticleSystem) (group : ParticleGroup)
    (nodeBuffer : Int → ParticleListNode) : b2ParticleSystem :=
  let bufferIndex := group.m_firstIndex
  let move := fun (a : Int) =>
    if ContainsParticle group a then (nodeBuffer (a - bufferIndex)).index else a
  { s with
    m_pairBuffer := remapBuf s.m_pairBuffer s.m_pairCount
      (fun pair => { pair with indexA := move pair.indexA, indexB := move pair.indexB })
    m_triadBuffer := remapBuf s.m_triadBuffer s.m_triadCount
      (fun triad =>
        { triad with
          indexA := move triad.indexA
          indexB := move triad.indexB
          indexC := move triad.indexC }) }

/-- `SplitParticleGroup(group)` for the group in slot `groupIdx`; the node buffer
comes from the stack allocator with the contents `nodeBuffer`. -/
def SplitParticleGroup (W : Hooks) (K : Settings) (defaultDef : GroupDef)
    (nodeBuffer : Int → ParticleListNode) (s : b2ParticleSystem) (groupIdx : Int) :
    b2ParticleSystem :=
  let s := UpdateContacts W K s true
  let nb := InitializeParticleLists (s.m_groupBuffer groupIdx) nodeBuffer
  let nb := MergeParticleListsInContact s (s.m_groupBuffer groupIdx) nb
  let survivingList := FindLongestParticleList (s.m_groupBuffer groupIdx) nb
  let nb := MergeZombieParticleListNodes s (s.m_groupBuffer groupIdx) nb survivingList
  let r := CreateParticleGroupsFromParticleList K defaultDef s groupIdx nb survivingList
  UpdatePairsAndTriadsWithParticleList r.1 (r.1.m_groupBuffer groupIdx) r.2

/-- What the spec lists as the state of the particle system: particles (count
and per-particle data), flags, groups, free lists, pairs and triads. -/
def listedState (s : b2ParticleSystem) :=
  (s.m_count, bufToList s.m_flags s.m_count, bufToList s.m_positions s.m_count,
    bufToList s.m_velocities s.m_count, bufToList s.m_partGroupIdxBuffer s.m_count,
    s.m_groupCount, bufToList s.m_groupBuffer s.m_groupCount,
    s.m_freeGroupIdxs, s.m_zombieRanges,
    bufToList s.m_pairBuffer s.m_pairCount, bufToList s.m_triadBuffer s.m_triadCount)

/-! ## Vocabulary for the rounds of `FindContacts` -/

/-- `ResizeTriadBuffers(size)`; the capacity that `AdjustCapacityToSize` adjusts
by reference is `m_pairCapacity`. -/
def ResizeTriadBuffers (K : Settings) (s : b2ParticleSystem) (size : Int) : b2ParticleSystem :=
  let r := AdjustCapacityToSize s.m_pairCapacity (size + 1) K.b2_minParticleBufferCapacity
  if r.1 then
    { s with
      m_pairCapacity := r.2
      m_triadBuffer := resizeBuf s.m_triadBuffer s.m_triadBufferSize r.2 ⟨0, 0, 0, 0, 0⟩
      m_triadBufferSize := r.2
      m_triadCapacity := r.2 }
  else s

/-! ## Per-particle solver passes -/

namespace b2Vec2

instance : Add b2Vec2 := ⟨fun a b => ⟨a.x + b.x, a.y + b.y⟩⟩
instance : Sub b2Vec2 := ⟨fun a b => ⟨a.x - b.x, a.y - b.y⟩⟩
instance : SMul ℚ b2Vec2 := ⟨fun c a => ⟨c * a.x, c * a.y⟩⟩

/-- `b2Dot(a, b)` on `b2Vec2`. -/
def dot (a b : b2Vec2) : ℚ := a.x * b.x + a.y * b.y

end b2Vec2

/-- The conversion `b2Vec2(v)` of a `b2Vec3`. -/
def b2Vec3.toVec2 (v : b2Vec3) : b2Vec2 := ⟨v.x, v.y⟩

/-- The sum `v + f` of a `b2Vec3` and a `b2Vec2`: the `b2Vec2` counts in the
plane. -/
def b2Vec3.addVec2 (v : b2Vec3) (f : b2Vec2) : b2Vec3 := ⟨v.x + f.x, v.y + f.y, v.z⟩

/-- The difference `v - f` of a `b2Vec3` and a `b2Vec2`. -/
def b2Vec3.subVec2 (v : b2Vec3) (f : b2Vec2) : b2Vec3 := ⟨v.x - f.x, v.y - f.y, v.z⟩

/-- The members of the particle system and of its world that the solver passes
read without writing, and the vector lengths of `b2Math.h`. -/
structure SolverParams where
  /-- `m_subStep.dt`. -/
  dt : ℚ
  /-- `m_subStep.inv_dt`. -/
  inv_dt : ℚ
  /-- `m_def.gravityScale`. -/
  gravityScale : ℚ
  /-- `m_def.springStrength`. -/
  springStrength : ℚ
  /-- `m_world.GetGravity()`. -/
  GetGravity : b2Vec3
  m_atmosphereParticleMass : ℚ
  m_atmosphereParticleInvMass : ℚ
  /-- `b2Vec2::Length()`. -/
  Length2 : b2Vec2 → ℚ
  /-- `b2Vec3::Length()`. -/
  Length3 : b2Vec3 → ℚ

/-- `SolveGravity()`. -/
def SolveGravity (Q : SolverParams) (s : b2ParticleSystem) : b2ParticleSystem :=
  let gravity := (Q.m_atmosphereParticleInvMass * Q.dt * Q.gravityScale) • Q.GetGravity
  let atmosphericMass := Q.m_atmosphereParticleMass
  if s.m_accelerate then
    AmpForEachParticle s (fun st i =>
      { st with
        m_ampVelocities := setAt st.m_ampVelocities i
          (st.m_ampVelocities i + (st.m_ampMasses i - atmosphericMass) • gravity) })
  else
    forLoop 0 s.m_count
      (fun st i =>
        { st with
          m_velocities := setAt st.m_velocities i
            (st.m_velocities i + (st.m_masses i - atmosphericMass) • gravity) }) s

/-- `SolveForce()`. -/
def SolveForce (Q : SolverParams) (s : b2ParticleSystem) : b2ParticleSystem :=
  if !s.m_hasForce then s
  else
    let s : b2ParticleSystem :=
      if s.m_accelerate then
        AmpForEachParticle s (fun st i =>
          { st with
            m_ampVelocities := setAt st.m_ampVelocities i
              (st.m_ampVelocities i + (Q.dt * st.m_ampInvMasses i) • st.m_ampForces i) })
      else
        forLoop 0 s.m_count
          (fun st i =>
            { st with
              m_velocities := setAt st.m_velocities i
                (st.m_velocities i + (Q.dt * st.m_invMasses i) • st.m_forces i) }) s
    { s with m_hasForce := false }

/-- `SolvePosition()`; the copy `amp::copyAsync(m_ampPositions, m_positions,
m_count)` that the accelerated branch starts is taken as done. -/
def SolvePosition (Q : SolverParams) (s : b2ParticleSystem) : b2ParticleSystem :=
  if s.m_accelerate then
    let s := AmpForEachParticle s (fun st i =>
      { st with
        m_ampPositions := setAt st.m_ampPositions i
          (st.m_ampPositions i + Q.dt • st.m_ampVelocities i) })
    { s with
      m_positions := fun k => if 0 ≤ k ∧ k < s.m_count then s.m_ampPositions k
        else s.m_positions k }
  else
    forLoop 0 s.m_count
      (fun st k =>
        { st with
          m_positions := setAt st.m_positions k (st.m_positions k + Q.dt • st.m_velocities k) })
      s

/-- The position of particle `i` on the path the system runs on. -/
def positionOf (s : b2ParticleSystem) (i : Int) : b2Vec3 :=
  if s.m_accelerate then s.m_ampPositions i else s.m_positions i

/-! ## Springs -/

/-- The spring lambda of `SolveSpring` (accelerated branch) on the pair `pair`. -/
def SolveSpring_ampPair (Q : SolverParams) (positions velocities : Int → b2Vec3)
    (pair : b2ParticlePair) : Int → b2Vec3 :=
  let springStrength := Q.inv_dt * Q.springStrength
  if !hasFlag pair.flags Particle.Mat.Spring then velocities
  else
    let a := pair.indexA
    let b := pair.indexB
    let vb := velocities b
    let va := velocities a
    let pa := positions a + Q.dt • va
    let pb := positions b + Q.dt • vb
    let d := pb - pa
    let r0 := pair.distance
    let r1 := Q.Length3 d
    let strength := springStrength * pair.strength
    let f := ((strength * (r0 - r1) / r1) • d).toVec2
    let velocities := setAt velocities a ((velocities a).addVec2 f)
    setAt velocities b ((velocities b).subVec2 f)

/-- The body of the loop of `SolveSpring` (sequential branch) on the pair `pair`. -/
def SolveSpring_hostPair (Q : SolverParams) (positions velocities : Int → b2Vec3)
    (pair : b2ParticlePair) : Int → b2Vec3 :=
  let springStrength := Q.inv_dt * Q.springStrength
  if hasFlag pair.flags Particle.Mat.Spring then
    let a := pair.indexA
    let b := pair.indexB
    let va := (velocities a).toVec2
    let vb := (velocities b).toVec2
    let pa := (positions a).toVec2 + Q.dt • va
    let pb := (positions b).toVec2 + Q.dt • vb
    let d := pb - pa
    let r0 := pair.distance
    let r1 := Q.Length2 d
    let strength := springStrength * pair.strength
    let f := (strength * (r0 - r1) / r1) • d
    let velocities := setAt velocities a ((velocities a).subVec2 f)
    setAt velocities b ((velocities b).addVec2 f)
  else velocities

/-- `SolveSpring()`; the lanes of `AmpForEachPair` are run one after the other. -/
def SolveSpring (Q : SolverParams) (s : b2ParticleSystem) : b2ParticleSystem :=
  if !hasFlag s.m_allFlags Particle.Mat.Spring then s
  else if s.m_accelerate then
    forLoop 0 s.m_pairCount
      (fun st i =>
        { st with
          m_ampVelocities :=
            SolveSpring_ampPair Q st.m_ampPositions st.m_ampVelocities (st.m_ampPairs i) }) s
  else
    forLoop 0 s.m_pairCount
      (fun st k =>
        { st with
          m_velocities :=
            SolveSpring_hostPair Q st.m_positions st.m_velocities (st.m_pairBuffer k) }) s

/-! ## The cached particle flags -/

/-- `AddParticleFlags(index, newFlags)`. -/
def AddParticleFlags (s : b2ParticleSystem) (index : Int) (newFlags : Nat) : b2ParticleSystem :=
  let s : b2ParticleSystem :=
    if (s.m_allFlags ^^^ (2 ^ 32 - 1)) &&& newFlags != 0 then
      { s with
        m_needsUpdateAllParticleFlags := true
        hasAccumulation2Buf := s.hasAccumulation2Buf || hasFlag newFlags Particle.Mat.Tensile
        m_hasColorBuf := s.m_hasColorBuf || hasFlag newFlags Particle.Mat.ColorMixing
        m_allFlags := s.m_allFlags ||| newFlags }
    else s
  { s with m_flags := setAt s.m_flags index (s.m_flags index ||| newFlags) }

/-- `RemovePartFlagsFromAll(flags)`. -/
def RemovePartFlagsFromAll (s : b2ParticleSystem) (flags : Nat) : b2ParticleSystem :=
  if s.m_allFlags &&& flags != 0 then
    let invFlags := flags ^^^ (2 ^ 32 - 1)
    let s : b2ParticleSystem := { s with m_allFlags := s.m_allFlags &&& invFlags }
    forLoop 0 s.m_count
      (fun st k => { st with m_flags := setAt st.m_flags k (st.m_flags k &&& invFlags) }) s
  else s

/-- `SetFlagsBuffer(buffer, capacity)`: `m_flags.assign(buffer, buffer + capacity)`. -/
def SetFlagsBuffer (s : b2ParticleSystem) (buffer : Int → Nat) (capacity : Int) :
    b2ParticleSystem :=
  { s with m_flags := fun k => if 0 ≤ k ∧ k < capacity then buffer k else 0 }

/-- `UpdateAllParticleFlags()`. -/
def UpdateAllParticleFlags (s : b2ParticleSystem) : b2ParticleSystem :=
  let s : b2ParticleSystem := { s with m_allFlags := 0 }
  let s := forLoop 0 s.m_count
    (fun st i => { st with m_allFlags := st.m_allFlags ||| st.m_flags i }) s
  { s with m_needsUpdateAllParticleFlags := false }

/-- Every word of the flag buffer is a `uint32`. -/
def FlagWords (s : b2ParticleSystem) : Prop := ∀ i : Int, s.m_flags i < 2 ^ 32

/-! ## Damping on the sequential path -/

/-- The body of the particle-contact loop of `SolveDamping` (sequential branch).
`DistributeForceDamp(a, b, f)` is a member of the absent header; it is run on the
velocity buffer. -/
def SolveDamping_hostContact
    (DistributeForceDamp : (Int → b2Vec3) → Int → Int → b2Vec2 → Int → b2Vec3)
    (linearDamping quadraticDamping : ℚ) (velocities : Int → b2Vec3)
    (contact : b2ParticleContact) : Int → b2Vec3 :=
  let a := contact.idxA
  let b := contact.idxB
  let w := contact.weight
  let m := contact.mass
  let n := contact.normal.toVec2
  let v := (velocities b - velocities a).toVec2
  let vn := b2Vec2.dot v n
  if vn < 0 then
    let damping := max (linearDamping * w) (min (-quadraticDamping * vn) (1 / 2))
    let f := (damping * m * vn) • n
    DistributeForceDamp velocities a b f
  else velocities

/-! ## Particle lifetimes -/

/-- `ExpirationTimeComparator::operator()(particleIndexA, particleIndexB)` over
the buffer `m_expirationTimes` of `int32` expiration times. -/
def ExpirationTimeComparator (m_expirationTimes : Int → Int)
    (particleIndexA particleIndexB : Int) : Bool :=
  let expirationTimeA := m_expirationTimes particleIndexA
  let expirationTimeB := m_expirationTimes particleIndexB
  let infiniteExpirationTimeA : Bool := decide (expirationTimeA ≤ 0)
  let infiniteExpirationTimeB : Bool := decide (expirationTimeB ≤ 0)
  if infiniteExpirationTimeA = infiniteExpirationTimeB then
    decide (expirationTimeA > expirationTimeB)
  else infiniteExpirationTimeA

/-- The postcondition of `std::sort` / `Concurrency::parallel_sort` with the
comparator: no element compares before an earlier one. -/
def SortedByExpiration (m_expirationTimes : Int → Int) (indices : List Int) : Prop :=
  indices.Pairwise (fun x y => ExpirationTimeComparator m_expirationTimes y x = false)

instance (m_expirationTimes : Int → Int) (indices : List Int) :
    Decidable (SortedByExpiration m_expirationTimes indices) := by
  unfold SortedByExpiration
  infer_instance

/-! ## Ground contacts -/

/-- `Ground::Tile`: the fields that the particle system reads. -/
structure Ground.Tile where
  matIdx : Int
  height : ℚ
  deriving DecidableEq

/-- `Ground`: the fields that `AmpUpdateGroundContacts` reads. -/
structure Ground where
  m_stride : ℚ
  m_tileCntX : Int
  m_tileCntY : Int
  m_chunkCntX : Int
  m_ampTiles : Int → Ground.Tile

/-- The conversion `int32 t = f` of a `float32`: truncation toward zero (the
source leaves the conversion of a value outside the `int32` range undefined). -/
def truncToInt32 (f : ℚ) : Int := if 0 ≤ f then ⌊f⌋ else ⌈f⌉

/-- The lambda of `AmpUpdateGroundContacts` on the particle at `p` with mass
`mass`: the new value of its ground contact `contact`.  `TILE_SIZE_SQRT`,
`b2Vec3_up` and `b2PartGroundContact::setInvalid` come from absent headers. -/
def AmpUpdateGroundContacts_lane (ground : Ground) (TILE_SIZE_SQRT : Int) (b2Vec3_up : b2Vec3)
    (setInvalid : b2PartGroundContact → b2PartGroundContact)
    (partDiameter invDiameter : ℚ) (p : b2Vec3) (mass : ℚ)
    (contact : b2PartGroundContact) : b2PartGroundContact :=
  let invStride := 1 / ground.m_stride
  let txMax := ground.m_tileCntX
  let tyMax := ground.m_tileCntY
  let cxMax := ground.m_chunkCntX
  let tx := truncToInt32 (p.x * invStride)
  let ty := truncToInt32 (p.y * invStride)
  if tx < 0 ∨ tx ≥ txMax ∨ ty < 0 ∨ ty ≥ tyMax then setInvalid contact
  else
    let groundTile := ground.m_ampTiles (ty * txMax + tx)
    let d := p.z - groundTile.height
    if d ≥ partDiameter then setInvalid contact
    else
      { contact with
        groundTileIdx := ty * txMax + tx
        groundChunkIdx := (ty.tdiv TILE_SIZE_SQRT) * cxMax + tx.tdiv TILE_SIZE_SQRT
        groundMatIdx := groundTile.matIdx
        weight := 1 - d * invDiameter
        normal := b2Vec3_up
        mass := mass }

/-- `AmpUpdateGroundContacts()`. -/
def AmpUpdateGroundContacts (ground : Ground) (TILE_SIZE_SQRT : Int) (b2Vec3_up : b2Vec3)
    (setInvalid : b2PartGroundContact → b2PartGroundContact) (s : b2ParticleSystem) :
    b2ParticleSystem :=
  let partDiameter := s.m_particleDiameter
  let invDiameter := s.m_inverseDiameter
  AmpForEachParticle s (fun st i =>
    { st with
      m_ampGroundContacts := setAt st.m_ampGroundContacts i
        (AmpUpdateGroundContacts_lane ground TILE_SIZE_SQRT b2Vec3_up setInvalid
          partDiameter invDiameter (st.m_ampPositions i) (st.m_ampMasses i)
          (st.m_ampGroundContacts i)) })

/-! ## The list of free ranges -/

/-- The slot `i` lies in one of the ranges of the list. -/
def isFree (l : List (Int × Int)) (i : Int) : Prop := ∃ r ∈ l, r.1 ≤ i ∧ i < r.2

/-- The list of free ranges is sorted by start with a gap between two neighbours
(so the ranges are pairwise disjoint and not adjacent), and every range is a
non-empty part of `[0, count)`. -/
def FreeRangesOk (l : List (Int × Int)) (count : Int) : Prop :=
  l.Pairwise (fun r q => r.2 < q.1) ∧ ∀ r ∈ l, 0 ≤ r.1 ∧ r.1 < r.2 ∧ r.2 ≤ count

instance (l : List (Int × Int)) (i : Int) : Decidable (isFree l i) := by
  unfold isFree
  infer_instance

instance (l : List (Int × Int)) (count : Int) : Decidable (FreeRangesOk l count) := by
  unfold FreeRangesOk
  infer_instance

/-! ## Particle handles -/

/-- `RequestBuffer(m_handleIndexBuffer, hasHandleIndexBuffer)`. -/
def RequestHandleIndexBuffer (s : b2ParticleSystem) : b2ParticleSystem :=
  if !s.hasHandleIndexBuffer then
    { s with
      m_handleIndexBuffer :=
        resizeBuf s.m_handleIndexBuffer s.m_handleIndexBufferSize s.m_capacity none
      m_handleIndexBufferSize := s.m_capacity
      hasHandleIndexBuffer := true }
  else s

/-- `GetParticleHandleFromIndex(index)`: the returned handle and the new state.
`fresh` is the handle that `m_handleAllocator.Allocate()` returns when the slot
holds none. -/
def GetParticleHandleFromIndex (s : b2ParticleSystem) (index : Int) (fresh : Nat) :
    Nat × b2ParticleSystem :=
  let s := RequestHandleIndexBuffer s
  match s.m_handleIndexBuffer index with
  | some handle => (handle, s)
  | none =>
    (fresh,
      { s with
        m_handles := Function.update s.m_handles fresh index
        m_handleIndexBuffer := setAt s.m_handleIndexBuffer index (some fresh) })

/-! ## Sample values -/

/-- One choice of the header constants, used to instantiate the theorems at
concrete inputs. -/
def sampleSettings : Settings :=
  { MAX_CONTACTS_PER_PARTICLE := 4
    b2_minParticleBufferCapacity := 256
    b2_minGroupBufferCapacity := 16
    b2_minPartMatBufferCapacity := 16
    Solid := 1
    Rigid := 2
    CanBeEmpty := 4
    WillBeDestroyed := 8
    NeedsUpdateDepth := 16
    InternalMask := 24
    b2InvSqrt := fun _ => 1
    b2Distance := fun a b => (a - b).dot (a - b)
    GetMassFromDensity := fun d => d
    b2Mul3D := fun t p => ⟨t.qc * p.x - t.qs * p.y + t.px, t.qs * p.x + t.qc * p.y + t.py, p.z + t.z⟩
    fillShape := fun _ _ _ _ => none
    GetParticleStride := 3 / 2 }

/-- A contact between particles `0` and `1` along the x axis. -/
def sampleContact : b2ParticleContact := ⟨0, 1, 0, 1 / 2, 1, ⟨1, 0, 0⟩⟩

/-- A material definition. -/
def sampleMatDef : MatDef := ⟨Particle.Mat.Spring, 1, 0, 1, 0⟩

/-- Three particles on a line, the first of them a zombie, with the contacts
`(0, 1)` and `(1, 2)` and the pair `(1, 2)`. -/
def zombieSample : b2ParticleSystem :=
  { m_count := 3
    m_flags := fun k => if k = 0 then Particle.Zombie else 0
    m_positions := fun k => ⟨k, 0, 0⟩
    m_partContactBuf := fun k => if k = 0 then ⟨0, 1, 0, 0, 0, 0⟩ else ⟨1, 2, 0, 0, 0, 0⟩
    m_contactCount := 2
    m_pairBuffer := fun _ => ⟨1, 2, 0, 1, 1⟩
    m_pairCount := 1 }

/-- A material without a dead-material target. -/
def plainMat : Mat := { zeroMat with m_changeToDeadMatIdx := INVALID_IDX }

/-- One particle of health `0` on the host path, its material without a
dead-material target. -/
def healthZeroHost : b2ParticleSystem :=
  { m_count := 1
    m_healthBuffer := fun _ => 0
    m_mats := fun _ => plainMat
    m_ampMats := fun _ => plainMat }

/-- The same particle on the accelerated path. -/
def healthZeroAmp : b2ParticleSystem :=
  { m_accelerate := true
    m_count := 1
    m_ampHealths := fun _ => 0
    m_mats := fun _ => plainMat
    m_ampMats := fun _ => plainMat }

/-- A system on the accelerated path whose only particle is a Wall-flagged zombie
moving at unit speed. -/
def wallZombieSystem : b2ParticleSystem :=
  { m_accelerate := true
    m_count := 1
    m_allFlags := Particle.Mat.Wall ||| Particle.Zombie
    m_ampFlags := fun _ => Particle.Mat.Wall ||| Particle.Zombie
    m_ampVelocities := fun _ => ⟨1, 0, 0⟩ }

/-- A system on the host path whose only particle is Wall-flagged and moving. -/
def wallSystem : b2ParticleSystem :=
  { m_count := 1
    m_allFlags := Particle.Mat.Wall
    m_flags := fun _ => Particle.Mat.Wall
    m_velocities := fun _ => ⟨1, 0, 0⟩ }

/-- A group definition of one particle given by its position. -/
def oneParticleDef : GroupDef :=
  { flags := 0
    groupFlags := 0
    positionData := [0]
    particleCount := 1
    colorData := []
    color := 0
    matIdx := 0
    collisionGroup := 0
    shapeType := 0
    shapeIdx := INVALID_IDX
    transform := ⟨0, 0, 0, 1, 0⟩
    linearVelocityX := 0
    linearVelocityY := 0
    angularVelocity := 0
    heat := 0
    health := 1
    timestamp := INVALID_IDX
    stride := 0
    idx := INVALID_IDX
    groupIdx := INVALID_IDX }

/-- The empty system on the host path. -/
def emptySystem : b2ParticleSystem := {}

/-- Three groups of one particle each are created in the empty system. -/
def threeGroups : b2ParticleSystem :=
  (CreateGroup sampleSettings
    (CreateGroup sampleSettings
      (CreateGroup sampleSettings emptySystem oneParticleDef).2 oneParticleDef).2
    oneParticleDef).2

/-- The first of the three groups is destroyed together with its particle
(`DestroyGroup(0, 0, true)`) and the system is compacted. -/
def threeGroupsCompacted : b2ParticleSystem :=
  SolveZombie sampleSettings INVALID_IDX false (DestroyGroup sampleSettings threeGroups 0 0 true)

/-- A fourth group of one particle is created after the compaction. -/
def reusedSlot : Int × b2ParticleSystem :=
  CreateGroup sampleSettings threeGroupsCompacted oneParticleDef

/-- The filter that accepts everything. -/
def acceptAll : ConnectionFilter := ⟨fun _ => true, fun _ _ => true, fun _ _ _ => true⟩

/-- Three Spring particles at unit distance on a line, in one group of strength
`1`, with the contacts `(0, 1)` and `(1, 2)`; no pair has been created yet. -/
def springChain : b2ParticleSystem :=
  { m_count := 3
    m_allFlags := Particle.Mat.Spring
    m_flags := fun _ => Particle.Mat.Spring
    m_positions := fun k => ⟨k, 0, 0⟩
    m_groupBuffer := fun _ => ⟨0, 3, 0, 0, 1, 0, 0⟩
    m_groupCount := 1
    m_partContactBuf := fun k =>
      if k = 0 then ⟨0, 1, Particle.Mat.Spring, 0, 0, 0⟩ else ⟨1, 2, Particle.Mat.Spring, 0, 0, 0⟩
    m_contactCount := 2 }

/-- Six particles at the origin, all in collision group `0`, their proxies in
index order with the tag of the origin. -/
def crowd : b2ParticleSystem :=
  { m_count := 6
    m_proxyBuffer := fun k => ⟨k, 2148007936⟩ }

/-- Two particles at one point on the host path, the first in a group of
collision group `-3` and the second in a group of collision group `3`. -/
def opposedGroups : b2ParticleSystem :=
  { m_count := 2
    m_partGroupIdxBuffer := fun k => if k = 0 then 0 else 1
    m_groupBuffer := fun k =>
      if k = 0 then ⟨0, 1, 0, -3, 1, 0, 0⟩ else ⟨1, 2, 0, 3, 1, 0, 0⟩
    m_groupCount := 2
    m_proxyBuffer := fun k => ⟨k, 2148007936⟩ }

/-- Two particles at one point on the host path, the first in a group of
collision group `0` and the second in a group of collision group `5`. -/
def zeroAndFive : b2ParticleSystem :=
  { m_count := 2
    m_partGroupIdxBuffer := fun k => if k = 0 then 0 else 1
    m_groupBuffer := fun k =>
      if k = 0 then ⟨0, 1, 0, 0, 1, 0, 0⟩ else ⟨1, 2, 0, 5, 1, 0, 0⟩
    m_groupCount := 2
    m_proxyBuffer := fun k => ⟨k, 2148007936⟩ }

/-- Two particles of mass `1` and inverse mass `1` at distance `1`, without flags,
the particle diameter being `2`. -/
def unitMassPair : b2ParticleSystem :=
  { m_count := 2
    m_positions := fun k => if k = 0 then ⟨0, 0, 0⟩ else ⟨1, 0, 0⟩
    m_masses := fun _ => 1
    m_invMasses := fun _ => 1
    m_ampPositions := fun k => if k = 0 then ⟨0, 0, 0⟩ else ⟨1, 0, 0⟩
    m_ampMasses := fun _ => 1
    m_ampInvMasses := fun _ => 1
    m_proxyBuffer := fun k => if k = 0 then ⟨0, 2148007936⟩ else ⟨1, 2148008064⟩ }

/-- Two particles on the host path: a zombie of mass `1` at index `0` and a live
particle of mass `2` at `(1, 0, 0)` at index `1`. -/
def zombieMasses : b2ParticleSystem :=
  { m_count := 2
    m_flags := fun k => if k = 0 then Particle.Zombie else 0
    m_positions := fun k => if k = 0 then ⟨0, 0, 0⟩ else ⟨1, 0, 0⟩
    m_masses := fun k => if k = 0 then 1 else 2
    m_invMasses := fun k => if k = 0 then 1 else 1 / 2 }

/-- The three particles of `zombieSample` in buffers of capacity `256`, with the
handles `7`, `8` and `9` on the particles `0`, `1` and `2`. -/
def handledSample : b2ParticleSystem :=
  { zombieSample with
    m_capacity := 256
    m_handleIndexBufferSize := 256
    m_handleIndexBuffer := fun k =>
      if k = 0 then some 7 else if k = 1 then some 8 else if k = 2 then some 9 else none
    m_handles := fun h => if h = 7 then 0 else if h = 8 then 1 else if h = 9 then 2
      else INVALID_IDX }

/-- One particle of diameter `1` at the origin, with its proxy. -/
def originParticle : b2ParticleSystem :=
  { m_count := 1
    m_capacity := 256
    m_proxyBufferSize := 256
    m_inverseDiameter := 1
    m_squaredDiameter := 1
    m_proxyBuffer := fun _ => ⟨0, 2148007936⟩ }

/-- A box around the origin that reaches the upper edge of the tag range. -/
def tallBox : b2AABB := ⟨⟨-1, -1⟩, ⟨1, 2048⟩⟩

/-- A box around the origin inside the tag range. -/
def smallBox : b2AABB := ⟨⟨-1, -1⟩, ⟨1, 1⟩⟩

/-- A world without fixtures, no accelerator and no Voronoi diagram:
`UpdateBodyContacts` finds no contact, the other hooks do nothing. -/
def emptyWorld : Hooks :=
  { UpdateBodyContacts := fun s => { s with m_bodyContactCount := 0 }
    AmpUpdateContacts := fun _ s => s
    UpdateTriads := fun _ _ _ s => s
    DestroyParticlesInShape := fun s => (0, s) }

/-- Two groups of one particle each, ten diameters apart: group `0` holds
particle `0` of mass `1` at the origin, group `1` holds particle `1` of mass `2`
at `(10, 0, 0)`. -/
def twoGroups : b2ParticleSystem :=
  { m_count := 2
    m_capacity := 256
    m_proxyBufferSize := 256
    m_inverseDiameter := 1
    m_squaredDiameter := 1
    m_positions := fun k => if k = 0 then ⟨0, 0, 0⟩ else ⟨10, 0, 0⟩
    m_masses := fun k => if k = 0 then 1 else 2
    m_invMasses := fun k => if k = 0 then 1 else 1 / 2
    m_partGroupIdxBuffer := fun k => if k = 0 then 0 else 1
    m_proxyBuffer := fun k => if k = 0 then ⟨0, 2148007936⟩ else ⟨1, 2148010496⟩
    m_groupCount := 2
    m_groupBuffer := fun k =>
      if k = 0 then ⟨0, 1, 0, 0, 1, 0, 0⟩ else ⟨1, 2, 0, 0, 1, 0, 0⟩ }

/-- A group definition without particles and without a shape. -/
def emptyGroupDef : GroupDef :=
  { oneParticleDef with positionData := [], particleCount := 0 }

/-- A node buffer fresh from the allocator. -/
def freshNodes : Int → ParticleListNode := fun _ => ⟨0, none, 0, 0⟩

/-- A locked world with one group of two particles ten diameters apart, joined by
one pair. -/
def lockedPair : b2ParticleSystem :=
  { twoGroups with
    m_worldLocked := true
    m_partGroupIdxBuffer := fun _ => 0
    m_groupCount := 1
    m_groupBuffer := fun _ => ⟨0, 2, 0, 0, 1, 0, 0⟩
    m_pairBufferSize := 256
    m_pairCapacity := 256
    m_pairCount := 1
    m_pairBuffer := fun _ => ⟨0, 1, 0, 1, 10⟩ }

/-- A system whose pair storage has the minimum capacity and whose triad storage
has never been resized. -/
def pairsOnly : b2ParticleSystem :=
  { m_pairCapacity := 256
    m_pairBufferSize := 256 }

/-- A sub-step of one time unit under a gravity of `-1` along `y`, with an
atmosphere of particle mass `1`; the lengths are sums of absolute components,
which is the Euclidean length on vectors along one axis. -/
def unitStep : SolverParams :=
  { dt := 1
    inv_dt := 1
    gravityScale := 1
    springStrength := 1
    GetGravity := ⟨0, -1, 0⟩
    m_atmosphereParticleMass := 1
    m_atmosphereParticleInvMass := 1
    Length2 := fun d => (if d.x < 0 then -d.x else d.x) + (if d.y < 0 then -d.y else d.y)
    Length3 := fun d =>
      (if d.x < 0 then -d.x else d.x) + (if d.y < 0 then -d.y else d.y) +
        (if d.z < 0 then -d.z else d.z) }

/-- One Zombie-flagged particle of mass `2` at the origin on the host path, with
velocity `(1, 0, 0)` and force `(0, 0, 1)`. -/
def zombieHost : b2ParticleSystem :=
  { m_count := 1
    m_hasForce := true
    m_allFlags := Particle.Zombie
    m_flags := fun _ => Particle.Zombie
    m_velocities := fun _ => ⟨1, 0, 0⟩
    m_forces := fun _ => ⟨0, 0, 1⟩
    m_masses := fun _ => 2
    m_invMasses := fun _ => 1 / 2 }

/-- The same particle on the accelerated path. -/
def zombieAmp : b2ParticleSystem :=
  { m_accelerate := true
    m_count := 1
    m_hasForce := true
    m_allFlags := Particle.Zombie
    m_ampFlags := fun _ => Particle.Zombie
    m_ampVelocities := fun _ => ⟨1, 0, 0⟩
    m_ampForces := fun _ => ⟨0, 0, 1⟩
    m_ampMasses := fun _ => 2
    m_ampInvMasses := fun _ => 1 / 2 }

/-- Two particles at rest, `2` apart on the x axis, joined by a spring pair of
rest length `1` and strength `1`, on the host path. -/
def stretchedSpringHost : b2ParticleSystem :=
  { m_count := 2
    m_allFlags := Particle.Mat.Spring
    m_flags := fun _ => Particle.Mat.Spring
    m_positions := fun k => if k = 0 then ⟨0, 0, 0⟩ else ⟨2, 0, 0⟩
    m_pairCount := 1
    m_pairBuffer := fun _ => ⟨0, 1, Particle.Mat.Spring, 1, 1⟩ }

/-- The same pair on the accelerated path. -/
def stretchedSpringAmp : b2ParticleSystem :=
  { m_accelerate := true
    m_count := 2
    m_allFlags := Particle.Mat.Spring
    m_ampFlags := fun _ => Particle.Mat.Spring
    m_ampPositions := fun k => if k = 0 then ⟨0, 0, 0⟩ else ⟨2, 0, 0⟩
    m_pairCount := 1
    m_ampPairs := fun _ => ⟨0, 1, Particle.Mat.Spring, 1, 1⟩ }

/-- Two particles of inverse mass `1` closing in along the x axis: particle `0`
moves with velocity `(1, 0, 0)`, particle `1` is at rest. -/
def closingVelocities : Int → b2Vec3 := fun k => if k = 0 then ⟨1, 0, 0⟩ else 0

/-- The contact of `closingVelocities`: weight `1/2`, unit normal along x and mass
`1 / (1 + 1)`. -/
def closingContact : b2ParticleContact :=
  { idxA := 0, idxB := 1, flags := 0, weight := 1 / 2, mass := 1 / 2, normal := ⟨1, 0, 0⟩ }

/-- A force distribution by inverse mass: `invMasses[a] * f` is added to the
velocity of `a` and `invMasses[b] * f` subtracted from the velocity of `b`. -/
def distributeByInvMass (invMasses : Int → ℚ) (velocities : Int → b2Vec3) (a b : Int)
    (f : b2Vec2) : Int → b2Vec3 :=
  let velocities := setAt velocities a ((velocities a).addVec2 (invMasses a • f))
  setAt velocities b ((velocities b).subVec2 (invMasses b • f))

/-- The expiration times `(10, 7, 3, 0, -10, -20)` of the particles `0 .. 5`: the
lifetimes `(1.0, 0.7, 0.3, 0.0, -1.0, -2.0)` in tenths. -/
def sampleExpirationTimes : Int → Int := fun k =>
  if k = 0 then 10 else if k = 1 then 7 else if k = 2 then 3 else if k = 3 then 0
  else if k = 4 then -10 else -20

/-- A ground of `4 x 4` tiles of stride `1`, all of height `0` and material `7`,
in one chunk row. -/
def flatGround : Ground :=
  { m_stride := 1
    m_tileCntX := 4
    m_tileCntY := 4
    m_chunkCntX := 1
    m_ampTiles := fun _ => ⟨7, 0⟩ }

/-- A ground contact is marked invalid through its tile index. -/
def invalidTile (contact : b2PartGroundContact) : b2PartGroundContact :=
  { contact with groundTileIdx := INVALID_IDX }

/-- One particle of diameter `1` and mass `2` on the accelerated path, resting on
the ground level at `(-1/2, 3/2)`: half a stride outside the grid `[0, 4) x [0, 4)`. -/
def strayParticle : b2ParticleSystem :=
  { m_accelerate := true
    m_count := 1
    m_particleDiameter := 1
    m_inverseDiameter := 1
    m_ampPositions := fun _ => ⟨-1 / 2, 3 / 2, 0⟩
    m_ampMasses := fun _ => 2 }

/-- The same particle half a stride inside the grid, at `(1/2, 3/2)`. -/
def groundedParticle : b2ParticleSystem :=
  { strayParticle with m_ampPositions := fun _ => ⟨1 / 2, 3 / 2, 0⟩ }

/-- Ten slots of which `[2, 4)` and `[7, 8)` are free. -/
def holedSystem : b2ParticleSystem :=
  { m_count := 10
    m_capacity := 256
    m_zombieRanges := [(2, 4), (7, 8)] }

/-- Two particles of diameter `1` on the x axis, `1 - 2^-15` apart, in collision
group `0`, with the proxies that `UpdateProxies` and the sort give them. -/
def roundedNeighbours : b2ParticleSystem :=
  { m_count := 2
    m_capacity := 256
    m_proxyBufferSize := 256
    m_particleDiameter := 1
    m_inverseDiameter := 1
    m_squaredDiameter := 1
    m_positions := fun k => if k = 0 then ⟨-3 / 32768, 0, 0⟩ else ⟨1 - 1 / 8192, 0, 0⟩
    m_proxyBuffer := fun k => if k = 0 then ⟨0, 2148007935⟩ else ⟨1, 2148008192⟩ }

/-- The empty system with particles of diameter `1`. -/
def unitSystem : b2ParticleSystem :=
  { m_particleDiameter := 1
    m_inverseDiameter := 1
    m_squaredDiameter := 1 }

/-- A group of one particle is created in the empty system and its particle is
destroyed (`DestroyParticle(0)`). -/
def doomedGroup : b2ParticleSystem :=
  DestroyParticle (CreateGroup sampleSettings unitSystem oneParticleDef).2 0

/-- The compaction that follows: the group has lost its particle, is flagged
`WillBeDestroyed` and destroyed, and its slot `0` is free again. -/
def staleSlot : b2ParticleSystem := SolveZombie sampleSettings INVALID_IDX false doomedGroup

/-- A group of three particles, at `(0, 0, 0)`, `(1/2, 0, 0)` and `(5, 0, 0)`. -/
def threeParticleDef : GroupDef :=
  { oneParticleDef with
    positionData := [⟨0, 0, 0⟩, ⟨1 / 2, 0, 0⟩, ⟨5, 0, 0⟩]
    particleCount := 3 }

/-- The group of three particles is created after the compaction, in slot `0`. -/
def revivedGroup : b2ParticleSystem := (CreateGroup sampleSettings staleSlot threeParticleDef).2

/-- The particle at `(5, 0, 0)` of the new group is destroyed
(`DestroyParticle(2)`). -/
def revivedGroupHit : b2ParticleSystem := DestroyParticle revivedGroup 2

/-- The new group with the proxies that `UpdateProxies` and the sort give its
three particles. -/
def revivedProxies : b2ParticleSystem :=
  { revivedGroup with
    m_proxyBuffer := fun k =>
      if k = 0 then ⟨0, 2148007936⟩ else if k = 1 then ⟨1, 2148008064⟩ else ⟨2, 2148009216⟩ }

/-- The contacts of the new group are found (`UpdateContacts(false)`), and then
the particle at `(5, 0, 0)` is destroyed (`DestroyParticle(2)`). -/
def touchingHit : b2ParticleSystem :=
  DestroyParticle (UpdateContacts emptyWorld sampleSettings revivedProxies false) 2

/-- A group of `1026` particles at the origin. -/
def crowdDef : GroupDef :=
  { oneParticleDef with
    positionData := List.replicate 1026 0
    particleCount := 1026 }

/-- The group of `1026` particles is created after the compaction, in slot `0`;
the particle buffers grow to the capacity `2048`. -/
def crowdedGroup : b2ParticleSystem := (CreateGroup sampleSettings staleSlot crowdDef).2

/-- A handle is taken for particle `1024` (`GetParticleHandleFromIndex(1024)`,
the allocator returns the handle `7`), and the last particle is destroyed
(`DestroyParticle(1025)`). -/
def crowdedHit : b2ParticleSystem :=
  DestroyParticle (GetParticleHandleFromIndex crowdedGroup 1024 7).2 1025

/-! # Lemmas and theorems -/

/-! ## Properties of the spatial tags -/

theorem yOffset_eq : yOffset = 2048 := by decide
theorem xScale_eq : xScale = 256 := by decide
theorem xOffset_eq : xOffset = 524288 := by decide
theorem yShift_eq : yShift = 20 := by decide
theorem xShift_eq : xShift = 8 := by decide

theorem toUint32_of_nonneg {f : ℚ} (h0 : 0 ≤ f) (h1 : f < 2 ^ 32) :
    toUint32 f = ⌊f⌋.toNat := by
  unfold toUint32
  rw [if_pos h0]
  apply Nat.mod_eq_of_lt
  have h2 : ⌊f⌋ < 2 ^ 32 := by
    rw [Int.floor_lt]; exact_mod_cast h1
  have h3 : 0 ≤ ⌊f⌋ := Int.floor_nonneg.mpr h0
  omega

/-! ## Rounding to `float32` -/

theorem log2Nat_eq : ∀ (fuel n : Nat), n ≤ fuel → log2Nat fuel n = Nat.log 2 n := by
  intro fuel
  induction fuel with
  | zero =>
    intro n hn
    have : n = 0 := by omega
    subst this
    simp [log2Nat]
  | succ fuel ih =>
    intro n hn
    unfold log2Nat
    by_cases h : n < 2
    · rw [if_pos h, Nat.log_of_lt h]
    · rw [if_neg h, ih (n / 2) (by omega)]
      exact (Nat.log_of_one_lt_of_le (by decide) (by omega)).symm

theorem clog2Nat_eq : ∀ (fuel n : Nat), n ≤ fuel → clog2Nat fuel n = Nat.clog 2 n := by
  intro fuel
  induction fuel with
  | zero =>
    intro n hn
    have : n = 0 := by omega
    subst this
    simp [clog2Nat]
  | succ fuel ih =>
    intro n hn
    unfold clog2Nat
    by_cases h : n < 2
    · rw [if_pos h, Nat.clog_of_right_le_one (by omega)]
    · rw [if_neg h, ih ((n + 1) / 2) (by omega)]
      exact (Nat.clog_of_two_le (by decide) (by omega)).symm

theorem float32Exponent_eq (q : ℚ) : float32Exponent q = Int.log 2 q := by
  unfold float32Exponent Int.log
  rw [log2Nat_eq _ _ (le_refl _), clog2Nat_eq _ _ (le_refl _)]

theorem roundToEven_bounds (r : ℚ) : ⌊r⌋ ≤ roundToEven r ∧ roundToEven r ≤ ⌊r⌋ + 1 := by
  unfold roundToEven
  simp only
  split_ifs <;> omega

theorem roundToEven_intCast (n : Int) : roundToEven (n : ℚ) = n := by
  unfold roundToEven
  simp only [Int.floor_intCast, sub_self]
  rw [if_pos (by norm_num)]

theorem roundToEven_mono {r₁ r₂ : ℚ} (h : r₁ ≤ r₂) : roundToEven r₁ ≤ roundToEven r₂ := by
  have hf : ⌊r₁⌋ ≤ ⌊r₂⌋ := Int.floor_le_floor h
  rcases lt_or_eq_of_le hf with hlt | heq
  · have := (roundToEven_bounds r₁).2
    have := (roundToEven_bounds r₂).1
    omega
  · unfold roundToEven
    simp only
    rw [heq]
    have hd : r₁ - ⌊r₂⌋ ≤ r₂ - ⌊r₂⌋ := by linarith
    split_ifs <;> first | omega | (exfalso; linarith)

theorem roundToEven_neg (r : ℚ) : roundToEven (-r) = -roundToEven r := by
  by_cases hint : (⌊r⌋ : ℚ) = r
  · rw [← hint, ← Int.cast_neg, roundToEven_intCast, roundToEven_intCast]
  · have h1 : (⌊r⌋ : ℚ) < r := lt_of_le_of_ne (Int.floor_le r) hint
    have h2 : r < ⌊r⌋ + 1 := Int.lt_floor_add_one r
    have hfl : ⌊-r⌋ = -⌊r⌋ - 1 := by
      rw [Int.floor_eq_iff]
      push_cast
      constructor <;> linarith
    unfold roundToEven
    simp only
    rw [hfl]
    push_cast
    split_ifs <;> first | omega | (exfalso; linarith)

theorem roundFloat32_zero : roundFloat32 0 = 0 := by
  simp [roundFloat32]

/-- The rounding of a non-zero value on the grid of its binade. -/
theorem roundFloat32_of_ne_zero {q : ℚ} (h : q ≠ 0) :
    roundFloat32 q =
      (roundToEven (q / (2 : ℚ) ^ (max (Int.log 2 |q|) (-126) - 23)) : ℚ) *
        (2 : ℚ) ^ (max (Int.log 2 |q|) (-126) - 23) := by
  unfold roundFloat32
  rw [if_neg h, float32Exponent_eq]

theorem roundFloat32_neg (q : ℚ) : roundFloat32 (-q) = -roundFloat32 q := by
  by_cases h : q = 0
  · subst h
    simp [roundFloat32_zero]
  · rw [roundFloat32_of_ne_zero h, roundFloat32_of_ne_zero (neg_ne_zero.2 h), abs_neg, neg_div,
      roundToEven_neg]
    push_cast
    ring

theorem roundFloat32_nonneg {q : ℚ} (h : 0 ≤ q) : 0 ≤ roundFloat32 q := by
  by_cases h0 : q = 0
  · subst h0
    rw [roundFloat32_zero]
  · rw [roundFloat32_of_ne_zero h0]
    apply mul_nonneg _ (le_of_lt (zpow_pos (by norm_num) _))
    have h1 : 0 ≤ q / (2 : ℚ) ^ (max (Int.log 2 |q|) (-126) - 23) :=
      div_nonneg h (le_of_lt (zpow_pos (by norm_num) _))
    have h2 := (roundToEven_bounds (q / (2 : ℚ) ^ (max (Int.log 2 |q|) (-126) - 23))).1
    have h3 : 0 ≤ ⌊q / (2 : ℚ) ^ (max (Int.log 2 |q|) (-126) - 23)⌋ := Int.floor_nonneg.2 h1
    exact_mod_cast le_trans h3 h2

theorem roundFloat32_nonpos {q : ℚ} (h : q ≤ 0) : roundFloat32 q ≤ 0 := by
  have := roundFloat32_nonneg (neg_nonneg.2 h)
  rw [roundFloat32_neg] at this
  linarith

theorem two_zpow_succ (e : Int) : (2 : ℚ) ^ (e + 1) = 16777216 * (2 : ℚ) ^ (e - 23) := by
  rw [show e + 1 = 24 + (e - 23) by ring, zpow_add₀ (by norm_num : (2 : ℚ) ≠ 0)]
  norm_num

theorem two_zpow_self (e : Int) : (2 : ℚ) ^ e = 8388608 * (2 : ℚ) ^ (e - 23) := by
  conv_lhs => rw [show e = 23 + (e - 23) by ring, zpow_add₀ (by norm_num : (2 : ℚ) ≠ 0)]
  norm_num

theorem roundFloat32_mono_pos {q₁ q₂ : ℚ} (h0 : 0 < q₁) (h : q₁ ≤ q₂) :
    roundFloat32 q₁ ≤ roundFloat32 q₂ := by
  have h02 : 0 < q₂ := lt_of_lt_of_le h0 h
  rw [roundFloat32_of_ne_zero (ne_of_gt h0), roundFloat32_of_ne_zero (ne_of_gt h02),
    abs_of_pos h0, abs_of_pos h02]
  have hL : Int.log 2 q₁ ≤ Int.log 2 q₂ := Int.log_mono_right h0 h
  generalize he1 : max (Int.log 2 q₁) (-126) = e₁
  generalize he2 : max (Int.log 2 q₂) (-126) = e₂
  have he : e₁ ≤ e₂ := by
    rw [← he1, ← he2]
    exact max_le_max hL (le_refl _)
  have hu1 : (0 : ℚ) < 2 ^ (e₁ - 23) := zpow_pos (by norm_num) _
  have hu2 : (0 : ℚ) < 2 ^ (e₂ - 23) := zpow_pos (by norm_num) _
  rcases lt_or_eq_of_le he with hlt | heq
  · -- different binades: a power of two lies between the two results
    have hA : (roundToEven (q₁ / 2 ^ (e₁ - 23)) : ℚ) * 2 ^ (e₁ - 23) ≤ 2 ^ (e₁ + 1) := by
      have hq : q₁ < 2 ^ (e₁ + 1) := by
        have h1 : q₁ < (2 : ℚ) ^ (Int.log 2 q₁ + 1) := by
          exact_mod_cast Int.lt_zpow_succ_log_self (by norm_num : 1 < 2) q₁
        have h2 : (2 : ℚ) ^ (Int.log 2 q₁ + 1) ≤ 2 ^ (e₁ + 1) :=
          zpow_le_zpow_right₀ (by norm_num) (by rw [← he1]; have := le_max_left (Int.log 2 q₁) (-126); omega)
        exact lt_of_lt_of_le h1 h2
      have hr : q₁ / 2 ^ (e₁ - 23) ≤ ((16777216 : Int) : ℚ) := by
        rw [div_le_iff₀ hu1]
        push_cast
        rw [← two_zpow_succ]
        exact le_of_lt hq
      have hm := roundToEven_mono hr
      rw [roundToEven_intCast] at hm
      rw [two_zpow_succ]
      exact mul_le_mul_of_nonneg_right (by exact_mod_cast hm) (le_of_lt hu1)
    have hB : (2 : ℚ) ^ e₂ ≤ (roundToEven (q₂ / 2 ^ (e₂ - 23)) : ℚ) * 2 ^ (e₂ - 23) := by
      have hlog : Int.log 2 q₂ = e₂ := by
        have h126 : -126 ≤ e₁ := by rw [← he1]; exact le_max_right _ _
        rcases max_choice (Int.log 2 q₂) (-126) with hc | hc
        · rw [← he2, hc]
        · rw [hc] at he2
          omega
      have hq : (2 : ℚ) ^ e₂ ≤ q₂ := by
        rw [← hlog]
        exact_mod_cast Int.zpow_log_le_self (by norm_num : 1 < 2) h02
      have hr : ((8388608 : Int) : ℚ) ≤ q₂ / 2 ^ (e₂ - 23) := by
        rw [le_div_iff₀ hu2]
        push_cast
        rw [← two_zpow_self]
        exact hq
      have hm := roundToEven_mono hr
      rw [roundToEven_intCast] at hm
      rw [two_zpow_self e₂]
      exact mul_le_mul_of_nonneg_right (by exact_mod_cast hm) (le_of_lt hu2)
    have hC : (2 : ℚ) ^ (e₁ + 1) ≤ 2 ^ e₂ := zpow_le_zpow_right₀ (by norm_num) (by omega)
    exact le_trans hA (le_trans hC hB)
  · rw [← heq]
    apply mul_le_mul_of_nonneg_right _ (le_of_lt hu1)
    exact_mod_cast roundToEven_mono (div_le_div_of_nonneg_right h (le_of_lt hu1))

/-- Rounding to `float32` keeps the order. -/
theorem roundFloat32_mono {q₁ q₂ : ℚ} (h : q₁ ≤ q₂) : roundFloat32 q₁ ≤ roundFloat32 q₂ := by
  by_cases h2 : q₂ < 0
  · have h1 : q₁ < 0 := lt_of_le_of_lt h h2
    have := roundFloat32_mono_pos (neg_pos.2 h2) (neg_le_neg h)
    rw [roundFloat32_neg, roundFloat32_neg] at this
    linarith
  · have h2' : 0 ≤ q₂ := not_lt.1 h2
    by_cases h1 : q₁ ≤ 0
    · exact le_trans (roundFloat32_nonpos h1) (roundFloat32_nonneg h2')
    · exact roundFloat32_mono_pos (not_le.1 h1) h

/-- A value `m * 2^k` with `|m| < 2^24` and `k ≥ -149` is a `float32`: rounding
leaves it as it is. -/
theorem roundFloat32_of_scaled_int (m k : Int) (hm : |m| < 2 ^ 24) (hk : -149 ≤ k) :
    roundFloat32 ((m : ℚ) * 2 ^ k) = (m : ℚ) * 2 ^ k := by
  by_cases h0 : m = 0
  · subst h0
    simp [roundFloat32_zero]
  · have hk0 : (0 : ℚ) < 2 ^ k := zpow_pos (by norm_num) _
    have hq0 : (m : ℚ) * 2 ^ k ≠ 0 := mul_ne_zero (by exact_mod_cast h0) (ne_of_gt hk0)
    rw [roundFloat32_of_ne_zero hq0]
    generalize he : max (Int.log 2 |(m : ℚ) * 2 ^ k|) (-126) = e
    have hlog : Int.log 2 |(m : ℚ) * 2 ^ k| < k + 24 := by
      rw [← Int.lt_zpow_iff_log_lt (by norm_num : 1 < 2) (abs_pos.2 hq0)]
      rw [abs_mul, abs_of_pos hk0, zpow_add₀ (by norm_num : ((2 : ℕ) : ℚ) ≠ 0), mul_comm]
      apply mul_lt_mul_of_pos_left _ (by exact_mod_cast hk0)
      have : ((|m| : Int) : ℚ) < ((2 ^ 24 : Int) : ℚ) := by exact_mod_cast hm
      push_cast at this
      norm_num at this ⊢
      exact this
    have hek : e ≤ k + 23 := by
      rw [← he]
      exact max_le (by omega) (by omega)
    obtain ⟨j, hj⟩ : ∃ j : Nat, k - (e - 23) = (j : Int) := ⟨(k - (e - 23)).toNat, by omega⟩
    have hdiv : (m : ℚ) * 2 ^ k / 2 ^ (e - 23) = ((m * 2 ^ j : Int) : ℚ) := by
      rw [mul_div_assoc, ← zpow_sub₀ (by norm_num : (2 : ℚ) ≠ 0), hj]
      push_cast
      rw [zpow_natCast]
    rw [hdiv, roundToEven_intCast]
    push_cast
    rw [mul_assoc, ← zpow_natCast, ← hj, ← zpow_add₀ (by norm_num : (2 : ℚ) ≠ 0)]
    congr 2
    ring

/-- An integer of at most 24 bits is a `float32`. -/
theorem roundFloat32_intCast (n : Int) (hn : |n| < 2 ^ 24) : roundFloat32 (n : ℚ) = n := by
  have := roundFloat32_of_scaled_int n 0 hn (by norm_num)
  simpa using this

/-! ## The tag of a position -/

theorem tag_of_sums {a b : ℚ} (ha0 : 0 ≤ a) (ha1 : a < 4096) (hb0 : 0 ≤ b) (hb1 : b < 2 ^ 20) :
    ((toUint32 a <<< yShift) % 2 ^ 32 + toUint32 b) % 2 ^ 32 =
        ⌊a⌋.toNat * 2 ^ 20 + ⌊b⌋.toNat ∧
      ⌊a⌋.toNat < 4096 ∧ ⌊b⌋.toNat < 2 ^ 20 := by
  have e4 : yShift = 20 := yShift_eq
  have hy : toUint32 a = ⌊a⌋.toNat := toUint32_of_nonneg ha0 (by linarith)
  have hx : toUint32 b = ⌊b⌋.toNat := toUint32_of_nonneg hb0 (by linarith)
  have hyb : ⌊a⌋ < 4096 := by rw [Int.floor_lt]; exact_mod_cast ha1
  have hxb : ⌊b⌋ < 2 ^ 20 := by rw [Int.floor_lt]; exact_mod_cast hb1
  have hy0 : 0 ≤ ⌊a⌋ := Int.floor_nonneg.mpr ha0
  have hx0 : 0 ≤ ⌊b⌋ := Int.floor_nonneg.mpr hb0
  have hyn : ⌊a⌋.toNat < 4096 := by omega
  have hxn : ⌊b⌋.toNat < 2 ^ 20 := by omega
  refine ⟨?_, hyn, hxn⟩
  rw [e4, hy, hx, Nat.shiftLeft_eq]
  omega

/-- The tag of coordinates whose `float32` sums round into the tag range: the
truncated row sum in the upper twelve bits, the truncated column sum below. -/
theorem computeTag_eq {x y : ℚ} (h : RoundsInTagRange x y) :
    computeTag x y = ⌊roundFloat32 (y + 2048)⌋.toNat * 2 ^ 20 +
        ⌊roundFloat32 (roundFloat32 (256 * x) + 524288)⌋.toNat ∧
      ⌊roundFloat32 (y + 2048)⌋.toNat < 4096 ∧
      ⌊roundFloat32 (roundFloat32 (256 * x) + 524288)⌋.toNat < 2 ^ 20 := by
  obtain ⟨hy0, hy1, hx0, hx1⟩ := h
  have e1 : ((yOffset : Nat) : ℚ) = 2048 := by rw [yOffset_eq]; norm_num
  have e2 : ((xScale : Nat) : ℚ) = 256 := by rw [xScale_eq]; norm_num
  have e3 : ((xOffset : Nat) : ℚ) = 524288 := by rw [xOffset_eq]; norm_num
  unfold computeTag
  rw [e1, e2, e3]
  exact tag_of_sums hy0 hy1 hx0 hx1

theorem tagRow_eq {x y : ℚ} (h : RoundsInTagRange x y) :
    tagRow y = ⌊roundFloat32 (y + 2048)⌋.toNat := by
  have e1 : ((yOffset : Nat) : ℚ) = 2048 := by rw [yOffset_eq]; norm_num
  unfold tagRow
  rw [e1]
  exact toUint32_of_nonneg h.1 (by linarith [h.2.1])

/-- For coordinates in the tag range that are multiples of `2^-12` the three
`float32` operations of `computeTag` are exact. -/
theorem tagSums_exact {x y : ℚ} (hx : OnTagGrid x) (hy : OnTagGrid y) (h : InTagRange x y) :
    roundFloat32 (y + 2048) = y + 2048 ∧ roundFloat32 (256 * x) = 256 * x ∧
      roundFloat32 (256 * x + 524288) = 256 * x + 524288 := by
  obtain ⟨m, rfl⟩ := hx
  obtain ⟨n, rfl⟩ := hy
  obtain ⟨hy0, hy1, hx0, hx1⟩ := h
  have h16 : (2 : ℚ) ^ (-4 : Int) = 1 / 16 := by norm_num [zpow_neg]
  have h4096 : (2 : ℚ) ^ (-12 : Int) = 1 / 4096 := by norm_num [zpow_neg]
  have hn0 : (0 : ℚ) ≤ (n : ℚ) + 8388608 := by linarith
  have hn1 : (n : ℚ) + 8388608 < 16777216 := by linarith
  have hm0 : (0 : ℚ) ≤ (m : ℚ) + 8388608 := by linarith
  have hm1 : (m : ℚ) + 8388608 < 16777216 := by linarith
  have hn0i : 0 ≤ n + 8388608 := by exact_mod_cast hn0
  have hn1i : n + 8388608 < 16777216 := by exact_mod_cast hn1
  have hm0i : 0 ≤ m + 8388608 := by exact_mod_cast hm0
  have hm1i : m + 8388608 < 16777216 := by exact_mod_cast hm1
  refine ⟨?_, ?_, ?_⟩
  · have := roundFloat32_of_scaled_int (n + 8388608) (-12)
      (by rw [abs_lt]; constructor <;> omega) (by norm_num)
    rw [h4096] at this
    push_cast at this
    have e : (n : ℚ) / 4096 + 2048 = ((n : ℚ) + 8388608) * (1 / 4096) := by ring
    rw [e]
    exact this
  · have := roundFloat32_of_scaled_int m (-4)
      (by rw [abs_lt]; constructor <;> omega) (by norm_num)
    rw [h16] at this
    have e : 256 * ((m : ℚ) / 4096) = (m : ℚ) * (1 / 16) := by ring
    rw [e]
    exact this
  · have := roundFloat32_of_scaled_int (m + 8388608) (-4)
      (by rw [abs_lt]; constructor <;> omega) (by norm_num)
    rw [h16] at this
    push_cast at this
    have e : 256 * ((m : ℚ) / 4096) + 524288 = ((m : ℚ) + 8388608) * (1 / 16) := by ring
    rw [e]
    exact this

theorem RoundsInTagRange_of_grid {x y : ℚ} (hx : OnTagGrid x) (hy : OnTagGrid y)
    (h : InTagRange x y) : RoundsInTagRange x y := by
  obtain ⟨e1, e2, e3⟩ := tagSums_exact hx hy h
  unfold RoundsInTagRange
  rw [e1, e2, e3]
  exact h

/-- On the grid the tag is that of the exact sums. -/
theorem computeTag_eq_exact {x y : ℚ} (hx : OnTagGrid x) (hy : OnTagGrid y)
    (h : InTagRange x y) :
    computeTag x y = ⌊y + 2048⌋.toNat * 2 ^ 20 + ⌊256 * x + 524288⌋.toNat ∧
      ⌊y + 2048⌋.toNat < 4096 ∧ ⌊256 * x + 524288⌋.toNat < 2 ^ 20 := by
  have := computeTag_eq (RoundsInTagRange_of_grid hx hy h)
  obtain ⟨e1, e2, e3⟩ := tagSums_exact hx hy h
  rw [e1, e2, e3] at this
  exact this

/-- Scaled coordinates between `-2048` and `2048 - 2^-12`, the largest `float32`
below `2048` but one, round into the tag range. -/
theorem RoundsInTagRange_of_bounds {x y : ℚ} (hx0 : -2048 ≤ x) (hx1 : x ≤ 2048 - 1 / 4096)
    (hy0 : -2048 ≤ y) (hy1 : y ≤ 2048 - 1 / 4096) : RoundsInTagRange x y := by
  have h16 : (2 : ℚ) ^ (-4 : Int) = 1 / 16 := by norm_num [zpow_neg]
  have h4096 : (2 : ℚ) ^ (-12 : Int) = 1 / 4096 := by norm_num [zpow_neg]
  have a1 := roundFloat32_of_scaled_int 16777215 (-12) (by decide) (by norm_num)
  have a2 := roundFloat32_of_scaled_int 8388607 (-4) (by decide) (by norm_num)
  have a3 := roundFloat32_of_scaled_int 16777215 (-4) (by decide) (by norm_num)
  have a4 := roundFloat32_intCast (-524288) (by decide)
  rw [h4096] at a1
  rw [h16] at a2 a3
  push_cast at a1 a2 a3 a4
  have b1 : roundFloat32 (y + 2048) ≤ 16777215 * (1 / 4096) := by
    rw [← a1]
    exact roundFloat32_mono (by linarith)
  have b2 : roundFloat32 (256 * x) ≤ 8388607 * (1 / 16) := by
    rw [← a2]
    exact roundFloat32_mono (by linarith)
  have b3 : -524288 ≤ roundFloat32 (256 * x) := by
    rw [← a4]
    exact roundFloat32_mono (by linarith)
  have b4 : roundFloat32 (roundFloat32 (256 * x) + 524288) ≤ 16777215 * (1 / 16) := by
    rw [← a3]
    exact roundFloat32_mono (by linarith)
  refine ⟨roundFloat32_nonneg (by linarith), by linarith,
    roundFloat32_nonneg (by linarith), by linarith⟩

/-! ## Loops -/

theorem forLoop_of_le {σ : Type} {lo hi : Int} (h : hi ≤ lo) (body : σ → Int → σ)
    (init : σ) : forLoop lo hi body init = init := by
  unfold forLoop
  have : (hi - lo).toNat = 0 := by omega
  rw [this]; rfl

theorem forLoop_succ {σ : Type} {lo hi : Int} (h : lo ≤ hi) (body : σ → Int → σ)
    (init : σ) : forLoop lo (hi + 1) body init = body (forLoop lo hi body init) hi := by
  unfold forLoop
  have e : (hi + 1 - lo).toNat = (hi - lo).toNat + 1 := by omega
  rw [e, List.range_succ, List.foldl_append]
  simp only [List.foldl_cons, List.foldl_nil]
  congr 1
  simp only [Int.ofNat_eq_coe]
  omega

theorem forLoop_induction {σ : Type} {lo hi : Int} (P : Int → σ → Prop)
    (body : σ → Int → σ) (init : σ) (hle : lo ≤ hi) (h0 : P lo init)
    (hstep : ∀ i st, lo ≤ i → i < hi → P i st → P (i + 1) (body st i)) :
    P hi (forLoop lo hi body init) := by
  have key : ∀ n : Nat, lo + n ≤ hi → P (lo + n) (forLoop lo (lo + n) body init) := by
    intro n
    induction n with
    | zero =>
      intro _
      rw [forLoop_of_le (by simp)]
      simpa using h0
    | succ n ih =>
      intro hn
      have hn1 : lo + (n : Int) ≤ hi := by push_cast at hn; omega
      have e : lo + ((n + 1 : Nat) : Int) = lo + (n : Int) + 1 := by push_cast; ring
      rw [e, forLoop_succ (by omega)]
      exact hstep _ _ (by omega) (by push_cast at hn; omega) (ih hn1)
  have := key (hi - lo).toNat (by omega)
  have e : lo + ((hi - lo).toNat : Int) = hi := by omega
  rwa [e] at this

/-- C10, amended: for scaled coordinates whose `float32` sums `y + 2048` and
`256 x + 524288` round into `[0, 4096)` and `[0, 2^20)`, `computeTag` is
non-decreasing in `x` for a fixed `y`, and a position in a lower quantized row
gets a strictly smaller tag than any position in a higher row, whatever the two
abscissas. -/
theorem computeTag_monotone (x₁ y₁ x₂ y₂ : ℚ)
    (h₁ : RoundsInTagRange x₁ y₁) (h₂ : RoundsInTagRange x₂ y₂) :
    (y₁ = y₂ → x₁ ≤ x₂ → computeTag x₁ y₁ ≤ computeTag x₂ y₂) ∧
      (tagRow y₁ < tagRow y₂ → computeTag x₁ y₁ < computeTag x₂ y₂) := by
  obtain ⟨t1, b1, c1⟩ := computeTag_eq h₁
  obtain ⟨t2, b2, c2⟩ := computeTag_eq h₂
  have r1 := tagRow_eq h₁
  have r2 := tagRow_eq h₂
  constructor
  · intro hy hx
    subst hy
    have hm : ⌊roundFloat32 (roundFloat32 (256 * x₁) + 524288)⌋ ≤
        ⌊roundFloat32 (roundFloat32 (256 * x₂) + 524288)⌋ :=
      Int.floor_le_floor (roundFloat32_mono
        (by have := roundFloat32_mono (show 256 * x₁ ≤ 256 * x₂ by linarith); linarith))
    rw [t1, t2]
    have := Int.toNat_le_toNat hm
    omega
  · intro hr
    rw [r1, r2] at hr
    rw [t1, t2]
    omega

/-- The hypotheses of `computeTag_monotone` at the cells `(0, 0)` and `(1, 1)`. -/
theorem computeTag_monotone_witness :
    RoundsInTagRange 0 0 ∧ RoundsInTagRange 1 1 ∧
      ((0 : ℚ) = 1 → (0 : ℚ) ≤ 1 → computeTag 0 0 ≤ computeTag 1 1) ∧
      (tagRow 0 < tagRow 1 → computeTag 0 0 < computeTag 1 1) :=
  ⟨RoundsInTagRange_of_bounds (by norm_num) (by norm_num) (by norm_num) (by norm_num),
    RoundsInTagRange_of_bounds (by norm_num) (by norm_num) (by norm_num) (by norm_num),
    computeTag_monotone 0 0 1 1
      (RoundsInTagRange_of_bounds (by norm_num) (by norm_num) (by norm_num) (by norm_num))
      (RoundsInTagRange_of_bounds (by norm_num) (by norm_num) (by norm_num) (by norm_num))⟩

/-- C10 fails as stated: `x = 2048 - 2^-13` is a `float32` inside the range
`256 x + 524288 < 2^20`, but the `float32` sum `2^20 - 1/32` is a tie that rounds
to `2^20`, so the column overflows into the row.  In the row of `y = 2047` the tag
of `x = 0` is `4294443008` and the tag of the larger `x` wraps to `0`; and the
position `(2048 - 2^-13, 0)` of row `2048` gets the tag of `(-2048, 1)` in row
`2049`, not a smaller one. -/
theorem computeTag_wraps_below_range_top :
    InTagRange 0 2047 ∧ InTagRange (2048 - 1 / 8192) 2047 ∧ (0 : ℚ) ≤ 2048 - 1 / 8192 ∧
      computeTag 0 2047 = 4294443008 ∧ computeTag (2048 - 1 / 8192) 2047 = 0 ∧
      InTagRange (2048 - 1 / 8192) 0 ∧ InTagRange (-2048) 1 ∧
      tagRow 0 < tagRow 1 ∧ computeTag (2048 - 1 / 8192) 0 = computeTag (-2048) 1 := by
  refine ⟨by norm_num [InTagRange], by norm_num [InTagRange], by norm_num, by decide!,
    by decide!, by norm_num [InTagRange], by norm_num [InTagRange], by decide!, by decide!⟩

/-! ## The wall pass -/

theorem hasFlag_of_subset {a b m : Nat} (h : a &&& b = a) (hm : hasFlag a m = true) :
    hasFlag b m = true := by
  unfold hasFlag at *
  by_contra hc
  have hb : b &&& m = 0 := by simpa using hc
  have : a &&& m = 0 := by
    rw [← h, Nat.land_assoc, hb]; simp
  simp [this] at hm

theorem setAt_same {α : Type} (buf : Int → α) (i : Int) (v : α) : setAt buf i v i = v := by
  simp [setAt]

theorem setAt_other {α : Type} (buf : Int → α) {i k : Int} (v : α) (h : k ≠ i) :
    setAt buf i v k = buf k := by
  simp [setAt, h]

theorem SolveWall_host_loop (s : b2ParticleSystem) (n : Int) (hn : 0 ≤ n) :
    let r := forLoop 0 n
      (fun st i =>
        if hasFlag (st.m_flags i) Particle.Mat.Wall
        then { st with m_velocities := setAt st.m_velocities i 0 } else st) s
    r.m_accelerate = s.m_accelerate ∧ r.m_flags = s.m_flags ∧
      ∀ k, r.m_velocities k =
        if 0 ≤ k ∧ k < n ∧ hasFlag (s.m_flags k) Particle.Mat.Wall = true then 0
        else s.m_velocities k := by
  intro r
  refine forLoop_induction
    (fun i st => st.m_accelerate = s.m_accelerate ∧ st.m_flags = s.m_flags ∧
      ∀ k, st.m_velocities k =
        if 0 ≤ k ∧ k < i ∧ hasFlag (s.m_flags k) Particle.Mat.Wall = true then 0
        else s.m_velocities k) _ s hn ?_ ?_
  · refine ⟨rfl, rfl, fun k => ?_⟩
    rw [if_neg]; omega
  · rintro i st hi0 hin ⟨ha, hf, hv⟩
    by_cases hw : hasFlag (st.m_flags i) Particle.Mat.Wall = true
    · simp only [hw, if_true]
      refine ⟨ha, hf, fun k => ?_⟩
      by_cases hk : k = i
      · subst hk
        rw [setAt_same, if_pos]
        exact ⟨hi0, by omega, by rw [← hf]; exact hw⟩
      · rw [setAt_other _ _ hk, hv k]
        by_cases c : 0 ≤ k ∧ k < i ∧ hasFlag (s.m_flags k) Particle.Mat.Wall = true
        · rw [if_pos c, if_pos ⟨c.1, by omega, c.2.2⟩]
        · rw [if_neg c, if_neg]
          rintro ⟨c1, c2, c3⟩
          exact c ⟨c1, by omega, c3⟩
    · have hw' : hasFlag (st.m_flags i) Particle.Mat.Wall = false := by simpa using hw
      simp only [hw', Bool.false_eq_true, if_false]
      refine ⟨ha, hf, fun k => ?_⟩
      rw [hv k]
      by_cases c : 0 ≤ k ∧ k < i ∧ hasFlag (s.m_flags k) Particle.Mat.Wall = true
      · rw [if_pos c, if_pos ⟨c.1, by omega, c.2.2⟩]
      · rw [if_neg c, if_neg]
        rintro ⟨c1, c2, c3⟩
        by_cases hk : k = i
        · subst hk; rw [hf] at hw; exact hw c3
        · exact c ⟨c1, by omega, c3⟩

theorem SolveWall_amp_loop (s : b2ParticleSystem) (n : Int) (hn : 0 ≤ n) :
    let r := forLoop 0 n
      (fun st i =>
        if hasFlag (st.m_ampFlags i) Particle.Zombie then st
        else if hasFlag (st.m_ampFlags i) Particle.Mat.Wall
        then { st with m_ampVelocities := setAt st.m_ampVelocities i 0 } else st) s
    r.m_accelerate = s.m_accelerate ∧ r.m_ampFlags = s.m_ampFlags ∧
      ∀ k, r.m_ampVelocities k =
        if 0 ≤ k ∧ k < n ∧ hasFlag (s.m_ampFlags k) Particle.Mat.Wall = true ∧
            hasFlag (s.m_ampFlags k) Particle.Zombie = false then 0
        else s.m_ampVelocities k := by
  intro r
  refine forLoop_induction
    (fun i st => st.m_accelerate = s.m_accelerate ∧ st.m_ampFlags = s.m_ampFlags ∧
      ∀ k, st.m_ampVelocities k =
        if 0 ≤ k ∧ k < i ∧ hasFlag (s.m_ampFlags k) Particle.Mat.Wall = true ∧
            hasFlag (s.m_ampFlags k) Particle.Zombie = false then 0
        else s.m_ampVelocities k) _ s hn ?_ ?_
  · refine ⟨rfl, rfl, fun k => ?_⟩
    rw [if_neg]; omega
  · rintro i st hi0 hin ⟨ha, hf, hv⟩
    have key : ∀ k, k ≠ i →
        ((0 ≤ k ∧ k < i + 1 ∧ hasFlag (s.m_ampFlags k) Particle.Mat.Wall = true ∧
            hasFlag (s.m_ampFlags k) Particle.Zombie = false) ↔
          (0 ≤ k ∧ k < i ∧ hasFlag (s.m_ampFlags k) Particle.Mat.Wall = true ∧
            hasFlag (s.m_ampFlags k) Particle.Zombie = false)) := by
      intro k hk
      constructor
      · rintro ⟨c1, c2, c3⟩; exact ⟨c1, by omega, c3⟩
      · rintro ⟨c1, c2, c3⟩; exact ⟨c1, by omega, c3⟩
    by_cases hz : hasFlag (st.m_ampFlags i) Particle.Zombie = true
    · simp only [hz, if_true]
      refine ⟨ha, hf, fun k => ?_⟩
      rw [hv k]
      by_cases hk : k = i
      · subst hk
        rw [hf] at hz
        rw [if_neg, if_neg]
        · rintro ⟨_, _, _, c4⟩; rw [hz] at c4; cases c4
        · rintro ⟨_, c2, _⟩; omega
      · simp only [key k hk]
    · have hz' : hasFlag (st.m_ampFlags i) Particle.Zombie = false := by
        cases h : hasFlag (st.m_ampFlags i) Particle.Zombie
        · rfl
        · exact absurd h hz
      by_cases hw : hasFlag (st.m_ampFlags i) Particle.Mat.Wall = true
      · simp only [hz', hw, if_true, Bool.false_eq_true, if_false]
        refine ⟨ha, hf, fun k => ?_⟩
        by_cases hk : k = i
        · subst hk
          rw [setAt_same, if_pos]
          rw [hf] at hw hz'
          exact ⟨hi0, by omega, hw, hz'⟩
        · rw [setAt_other _ _ hk, hv k]
          simp only [key k hk]
      · have hw' : hasFlag (st.m_ampFlags i) Particle.Mat.Wall = false := by simpa using hw
        simp only [hz', hw', Bool.false_eq_true, if_false]
        refine ⟨ha, hf, fun k => ?_⟩
        rw [hv k]
        by_cases hk : k = i
        · subst hk
          rw [hf] at hw
          rw [if_neg, if_neg]
          · rintro ⟨_, _, c3, _⟩; exact hw c3
          · rintro ⟨_, c2, _⟩; omega
        · simp only [key k hk]

/-- C8 (as amended): with `m_allFlags` up to date, `SolveWall` zeroes the velocity
of every Wall-flagged particle, on the accelerated path of every one that is not
also a zombie, and leaves the velocity of every other particle as it was. -/
theorem SolveWall_velocity (s : b2ParticleSystem) (hup : AllFlagsUpToDate s)
    (i : Int) (h0 : 0 ≤ i) (h1 : i < s.m_count) :
    velocityOf (SolveWall s) i =
      if hasFlag (flagsOf s i) Particle.Mat.Wall = true ∧
          (s.m_accelerate = true → hasFlag (flagsOf s i) Particle.Zombie = false)
      then 0 else velocityOf s i := by
  have hcount : 0 ≤ s.m_count := by omega
  by_cases hall : hasFlag s.m_allFlags Particle.Mat.Wall = true
  · cases hacc : s.m_accelerate
    · obtain ⟨ha, hf, hv⟩ := SolveWall_host_loop s s.m_count hcount
      have hS : SolveWall s = forLoop 0 s.m_count
          (fun st i =>
            if hasFlag (st.m_flags i) Particle.Mat.Wall
            then { st with m_velocities := setAt st.m_velocities i 0 } else st) s := by
        simp [SolveWall, hall, hacc]
      rw [hS]
      simp only [velocityOf, flagsOf, ha, hacc, hv i, Bool.false_eq_true, if_false,
        false_implies, and_true]
      by_cases hw : hasFlag (s.m_flags i) Particle.Mat.Wall = true
      · rw [if_pos ⟨h0, h1, hw⟩, if_pos hw]
      · rw [if_neg (fun c => hw c.2.2), if_neg hw]
    · obtain ⟨ha, hf, hv⟩ := SolveWall_amp_loop s s.m_count hcount
      have hS : SolveWall s = forLoop 0 s.m_count
          (fun st i =>
            if hasFlag (st.m_ampFlags i) Particle.Zombie then st
            else if hasFlag (st.m_ampFlags i) Particle.Mat.Wall
            then { st with m_ampVelocities := setAt st.m_ampVelocities i 0 } else st) s := by
        simp [SolveWall, AmpForEachParticleWithFlag, hall, hacc]
      rw [hS]
      simp only [velocityOf, flagsOf, ha, hacc, hv i, if_true, true_implies]
      by_cases hw : hasFlag (s.m_ampFlags i) Particle.Mat.Wall = true ∧
          hasFlag (s.m_ampFlags i) Particle.Zombie = false
      · rw [if_pos ⟨h0, h1, hw.1, hw.2⟩, if_pos hw]
      · rw [if_neg (fun c => hw ⟨c.2.2.1, c.2.2.2⟩), if_neg hw]
  · have hS : SolveWall s = s := by simp [SolveWall, hall]
    rw [hS, if_neg]
    rintro ⟨hw, _⟩
    exact hall (hasFlag_of_subset (hup i h0 h1) hw)

/-- C8 fails as stated: on the accelerated path a Wall-flagged particle that is
also a zombie keeps its velocity, although `m_allFlags` is up to date. -/
theorem SolveWall_keeps_zombie_velocity :
    AllFlagsUpToDate wallZombieSystem ∧
      hasFlag (flagsOf wallZombieSystem 0) Particle.Mat.Wall = true ∧
      velocityOf (SolveWall wallZombieSystem) 0 = ⟨1, 0, 0⟩ ∧
      velocityOf (SolveWall wallZombieSystem) 0 ≠ 0 := by
  refine ⟨?_, by decide, by decide, by decide⟩
  intro i _ _
  simp [flagsOf, wallZombieSystem]

/-- The hypotheses of `SolveWall_velocity` hold for a moving wall particle. -/
theorem SolveWall_velocity_witness :
    AllFlagsUpToDate wallSystem ∧ velocityOf (SolveWall wallSystem) 0 = 0 := by
  have hup : AllFlagsUpToDate wallSystem := by
    intro i _ _
    simp [flagsOf, wallSystem]
  refine ⟨hup, ?_⟩
  rw [SolveWall_velocity wallSystem hup 0 (by decide) (by decide), if_pos]
  exact ⟨by decide, by intro h; cases h⟩

/-! ## Momentum in the contact passes -/

namespace b2Vec3

theorem ext_iff3 (a b : b2Vec3) : a = b ↔ a.x = b.x ∧ a.y = b.y ∧ a.z = b.z := by
  cases a; cases b; simp

@[simp] theorem add_x (a b : b2Vec3) : (a + b).x = a.x + b.x := rfl
@[simp] theorem add_y (a b : b2Vec3) : (a + b).y = a.y + b.y := rfl
@[simp] theorem add_z (a b : b2Vec3) : (a + b).z = a.z + b.z := rfl
@[simp] theorem sub_x (a b : b2Vec3) : (a - b).x = a.x - b.x := rfl
@[simp] theorem sub_y (a b : b2Vec3) : (a - b).y = a.y - b.y := rfl
@[simp] theorem sub_z (a b : b2Vec3) : (a - b).z = a.z - b.z := rfl
@[simp] theorem neg_x (a : b2Vec3) : (-a).x = -a.x := rfl
@[simp] theorem neg_y (a : b2Vec3) : (-a).y = -a.y := rfl
@[simp] theorem neg_z (a : b2Vec3) : (-a).z = -a.z := rfl
@[simp] theorem smul_x (c : ℚ) (a : b2Vec3) : (c • a).x = c * a.x := rfl
@[simp] theorem smul_y (c : ℚ) (a : b2Vec3) : (c • a).y = c * a.y := rfl
@[simp] theorem smul_z (c : ℚ) (a : b2Vec3) : (c • a).z = c * a.z := rfl
@[simp] theorem zero_x : (0 : b2Vec3).x = 0 := rfl
@[simp] theorem zero_y : (0 : b2Vec3).y = 0 := rfl
@[simp] theorem zero_z : (0 : b2Vec3).z = 0 := rfl

end b2Vec3

/-- A pass that takes `ia • f` from `a` and gives `ib • f` to `b` moves no momentum. -/
theorem exchange_momentum (masses : Int → ℚ) (v : Int → b2Vec3) (a b : Int)
    (fa fb f : b2Vec3) (ma : masses a • fa = f) (mb : masses b • fb = f) :
    let after := atomicAdd (atomicSub v a fa) b fb
    masses a • (after a - v a) + masses b • (after b - v b) = 0 ∧
      (masses a = masses b → masses a ≠ 0 → after a - v a = -(after b - v b)) := by
  intro after
  rw [b2Vec3.ext_iff3] at ma mb
  simp only [b2Vec3.smul_x, b2Vec3.smul_y, b2Vec3.smul_z] at ma mb
  obtain ⟨ma1, ma2, ma3⟩ := ma
  obtain ⟨mb1, mb2, mb3⟩ := mb
  by_cases hab : a = b
  · subst hab
    have e1 : after a = v a - fa + fb := by
      simp [after, atomicAdd, atomicSub, setAt]
    constructor
    · rw [e1, b2Vec3.ext_iff3]
      simp only [b2Vec3.add_x, b2Vec3.add_y, b2Vec3.add_z, b2Vec3.sub_x, b2Vec3.sub_y,
        b2Vec3.sub_z, b2Vec3.smul_x, b2Vec3.smul_y, b2Vec3.smul_z, b2Vec3.zero_x,
        b2Vec3.zero_y, b2Vec3.zero_z]
      refine ⟨?_, ?_, ?_⟩ <;> linarith
    · intro _ hm
      have hx : fa.x = fb.x := mul_left_cancel₀ hm (by rw [ma1, mb1])
      have hy : fa.y = fb.y := mul_left_cancel₀ hm (by rw [ma2, mb2])
      have hz : fa.z = fb.z := mul_left_cancel₀ hm (by rw [ma3, mb3])
      rw [e1, b2Vec3.ext_iff3]
      simp only [b2Vec3.add_x, b2Vec3.add_y, b2Vec3.add_z, b2Vec3.sub_x, b2Vec3.sub_y,
        b2Vec3.sub_z, b2Vec3.neg_x, b2Vec3.neg_y, b2Vec3.neg_z]
      refine ⟨?_, ?_, ?_⟩ <;> linarith
  · have e1 : after a = v a - fa := by
      simp [after, atomicAdd, atomicSub, setAt, hab]
    have e2 : after b = v b + fb := by
      have : b ≠ a := fun h => hab h.symm
      simp [after, atomicAdd, atomicSub, setAt, this]
    constructor
    · rw [e1, e2, b2Vec3.ext_iff3]
      simp only [b2Vec3.add_x, b2Vec3.add_y, b2Vec3.add_z, b2Vec3.sub_x, b2Vec3.sub_y,
        b2Vec3.sub_z, b2Vec3.smul_x, b2Vec3.smul_y, b2Vec3.smul_z, b2Vec3.zero_x,
        b2Vec3.zero_y, b2Vec3.zero_z]
      refine ⟨?_, ?_, ?_⟩ <;> linarith
    · intro hmm hm
      have hx : fa.x = fb.x := mul_left_cancel₀ hm (by rw [ma1, hmm, mb1])
      have hy : fa.y = fb.y := mul_left_cancel₀ hm (by rw [ma2, hmm, mb2])
      have hz : fa.z = fb.z := mul_left_cancel₀ hm (by rw [ma3, hmm, mb3])
      rw [e1, e2, b2Vec3.ext_iff3]
      simp only [b2Vec3.add_x, b2Vec3.add_y, b2Vec3.add_z, b2Vec3.sub_x, b2Vec3.sub_y,
        b2Vec3.sub_z, b2Vec3.neg_x, b2Vec3.neg_y, b2Vec3.neg_z]
      refine ⟨?_, ?_, ?_⟩ <;> linarith

theorem atomicAdd_eq_sub (buf : Int → b2Vec3) (i : Int) (v : b2Vec3) :
    atomicAdd buf i v = atomicSub buf i (-v) := by
  funext k
  simp only [atomicAdd, atomicSub, setAt]
  split
  · rw [b2Vec3.ext_iff3]; simp
  · rfl

theorem atomicSub_eq_add (buf : Int → b2Vec3) (i : Int) (v : b2Vec3) :
    atomicSub buf i v = atomicAdd buf i (-v) := by
  funext k
  simp only [atomicAdd, atomicSub, setAt]
  split
  · rw [b2Vec3.ext_iff3]; simp [sub_eq_add_neg]
  · rfl

theorem smul_inv_smul (m i : ℚ) (h : m * i = 1) (f : b2Vec3) : m • (i • f) = f := by
  rw [b2Vec3.ext_iff3]
  simp only [b2Vec3.smul_x, b2Vec3.smul_y, b2Vec3.smul_z]
  refine ⟨?_, ?_, ?_⟩ <;> rw [← mul_assoc, h, one_mul]

theorem smul_inv_smul_neg (m i : ℚ) (h : m * i = 1) (f : b2Vec3) :
    m • (-(i • f)) = -f := by
  rw [b2Vec3.ext_iff3]
  simp only [b2Vec3.smul_x, b2Vec3.smul_y, b2Vec3.smul_z, b2Vec3.neg_x, b2Vec3.neg_y,
    b2Vec3.neg_z]
  refine ⟨?_, ?_, ?_⟩ <;> rw [mul_neg, ← mul_assoc, h, one_mul]

/-- The change `-(ia • f)` at `a` and `+(ib • f)` at `b` is along `f`. -/
theorem exchange_parallel (v : Int → b2Vec3) (a b : Int) (ia ib c : ℚ) (n : b2Vec3) :
    let after := atomicAdd (atomicSub v a (ia • (c • n))) b (ib • (c • n))
    (∃ ka : ℚ, after a - v a = ka • n) ∧ (∃ kb : ℚ, after b - v b = kb • n) := by
  intro after
  by_cases hab : a = b
  · subst hab
    have e1 : after a = v a - ia • (c • n) + ib • (c • n) := by
      simp [after, atomicAdd, atomicSub, setAt]
    refine ⟨⟨(ib - ia) * c, ?_⟩, ⟨(ib - ia) * c, ?_⟩⟩ <;>
    · rw [e1, b2Vec3.ext_iff3]
      simp only [b2Vec3.add_x, b2Vec3.add_y, b2Vec3.add_z, b2Vec3.sub_x, b2Vec3.sub_y,
        b2Vec3.sub_z, b2Vec3.smul_x, b2Vec3.smul_y, b2Vec3.smul_z]
      refine ⟨?_, ?_, ?_⟩ <;> ring
  · have e1 : after a = v a - ia • (c • n) := by
      simp [after, atomicAdd, atomicSub, setAt, hab]
    have e2 : after b = v b + ib • (c • n) := by
      have : b ≠ a := fun h => hab h.symm
      simp [after, atomicAdd, atomicSub, setAt, this]
    refine ⟨⟨-(ia * c), ?_⟩, ⟨ib * c, ?_⟩⟩
    · rw [e1, b2Vec3.ext_iff3]
      simp only [b2Vec3.sub_x, b2Vec3.sub_y, b2Vec3.sub_z, b2Vec3.smul_x, b2Vec3.smul_y,
        b2Vec3.smul_z]
      refine ⟨?_, ?_, ?_⟩ <;> ring
    · rw [e2, b2Vec3.ext_iff3]
      simp only [b2Vec3.add_x, b2Vec3.add_y, b2Vec3.add_z, b2Vec3.sub_x, b2Vec3.sub_y,
        b2Vec3.sub_z, b2Vec3.smul_x, b2Vec3.smul_y, b2Vec3.smul_z]
      refine ⟨?_, ?_, ?_⟩ <;> ring

/-- C7: one particle-particle contact processed by the pressure, damping or
viscous pass, with `mass[i] * invMass[i] = 1` at both ends, changes the momentum of
the pair by zero; with equal masses the two velocity changes are opposite; in the
pressure pass both changes are multiples of the contact normal. -/
theorem contact_pass_momentum (masses invMasses accumulations : Int → ℚ)
    (velocities : Int → b2Vec3) (contact : b2ParticleContact)
    (velocityPerPressure linearDamping quadraticDamping viscousStrength : ℚ)
    (ha : masses contact.idxA * invMasses contact.idxA = 1)
    (hb : masses contact.idxB * invMasses contact.idxB = 1) :
    let a := contact.idxA
    let b := contact.idxB
    let vP := SolvePressure_contact velocityPerPressure accumulations invMasses velocities contact
    let vD := SolveDamping_contact linearDamping quadraticDamping invMasses velocities contact
    let vV := SolveViscous_contact viscousStrength invMasses velocities contact
    (pairMomentumChange masses velocities vP contact = 0 ∧
      pairMomentumChange masses velocities vD contact = 0 ∧
      pairMomentumChange masses velocities vV contact = 0) ∧
    (masses a = masses b →
      vP a - velocities a = -(vP b - velocities b) ∧
      vD a - velocities a = -(vD b - velocities b) ∧
      vV a - velocities a = -(vV b - velocities b)) ∧
    ((∃ ka : ℚ, vP a - velocities a = ka • contact.normal) ∧
      (∃ kb : ℚ, vP b - velocities b = kb • contact.normal)) := by
  intro a b vP vD vV
  have hma : masses a ≠ 0 := by
    intro h; rw [show masses contact.idxA = 0 from h, zero_mul] at ha; exact zero_ne_one ha
  have zero_case : ∀ v : Int → b2Vec3,
      masses a • (v a - v a) + masses b • (v b - v b) = 0 ∧
        (v a - v a = -(v b - v b)) := by
    intro v
    constructor <;> · rw [b2Vec3.ext_iff3]; simp
  -- pressure
  have P := exchange_momentum masses velocities a b
    (invMasses a • ((velocityPerPressure * contact.weight * contact.mass *
      (accumulations a + accumulations b)) • contact.normal))
    (invMasses b • ((velocityPerPressure * contact.weight * contact.mass *
      (accumulations a + accumulations b)) • contact.normal))
    _ (smul_inv_smul _ _ ha _) (smul_inv_smul _ _ hb _)
  -- damping
  have D : pairMomentumChange masses velocities vD contact = 0 ∧
      (masses a = masses b → vD a - velocities a = -(vD b - velocities b)) := by
    by_cases hvn : b2Vec3.dot (velocities b - velocities a) contact.normal ≥ 0
    · have e : vD = velocities := by
        simp only [vD, SolveDamping_contact]
        rw [if_pos hvn]
      rw [e]
      exact ⟨(zero_case velocities).1, fun _ => (zero_case velocities).2⟩
    · have e : vD = atomicAdd (atomicSub velocities a
          (-(invMasses a • ((max (linearDamping * contact.weight)
            (min (-quadraticDamping *
              b2Vec3.dot (velocities b - velocities a) contact.normal) (1 / 2)) *
            contact.mass * b2Vec3.dot (velocities b - velocities a) contact.normal) •
              contact.normal))))
          b (-(invMasses b • ((max (linearDamping * contact.weight)
            (min (-quadraticDamping *
              b2Vec3.dot (velocities b - velocities a) contact.normal) (1 / 2)) *
            contact.mass * b2Vec3.dot (velocities b - velocities a) contact.normal) •
              contact.normal))) := by
        simp only [vD, SolveDamping_contact]
        rw [if_neg hvn, ← atomicAdd_eq_sub, ← atomicSub_eq_add]
      have X := exchange_momentum masses velocities a b _ _ _
        (smul_inv_smul_neg _ _ ha ((max (linearDamping * contact.weight)
            (min (-quadraticDamping *
              b2Vec3.dot (velocities b - velocities a) contact.normal) (1 / 2)) *
            contact.mass * b2Vec3.dot (velocities b - velocities a) contact.normal) •
              contact.normal))
        (smul_inv_smul_neg _ _ hb _)
      rw [e]
      exact ⟨X.1, fun h => X.2 h hma⟩
  -- viscous
  have V : pairMomentumChange masses velocities vV contact = 0 ∧
      (masses a = masses b → vV a - velocities a = -(vV b - velocities b)) := by
    by_cases hfl : hasFlag contact.flags Particle.Mat.Viscous = true
    · have e : vV = atomicAdd (atomicSub velocities a
          (-(invMasses a • ((viscousStrength * contact.weight * contact.mass) •
            (velocities b - velocities a)))))
          b (-(invMasses b • ((viscousStrength * contact.weight * contact.mass) •
            (velocities b - velocities a)))) := by
        simp only [vV, SolveViscous_contact]
        rw [if_pos hfl, ← atomicAdd_eq_sub, ← atomicSub_eq_add]
      have X := exchange_momentum masses velocities a b _ _ _
        (smul_inv_smul_neg _ _ ha ((viscousStrength * contact.weight * contact.mass) •
            (velocities b - velocities a)))
        (smul_inv_smul_neg _ _ hb _)
      rw [e]
      exact ⟨X.1, fun h => X.2 h hma⟩
    · have e : vV = velocities := by
        simp only [vV, SolveViscous_contact]
        rw [if_neg hfl]
      rw [e]
      exact ⟨(zero_case velocities).1, fun _ => (zero_case velocities).2⟩
  refine ⟨⟨P.1, D.1, V.1⟩, fun h => ⟨P.2 h hma, D.2 h, V.2 h⟩, ?_⟩
  exact exchange_parallel velocities a b (invMasses a) (invMasses b) _ contact.normal

/-! ## Material table -/

theorem Mat.Compare_Set (m : Mat) (d : MatDef) : (m.Set d).Compare d = true := by
  simp [Mat.Compare, Mat.Set]

theorem findMaterial_congr (mats mats2 : Int → Mat) (d : MatDef) (count : Int) :
    ∀ (fuel : Nat) (start : Int),
      (∀ j, start ≤ j → j < count → mats j = mats2 j) →
      findMaterial mats d count fuel start = findMaterial mats2 d count fuel start := by
  intro fuel
  induction fuel with
  | zero => intro _ _; rfl
  | succ n ih =>
    intro start h
    unfold findMaterial
    by_cases hc : start < count
    · rw [if_pos hc, if_pos hc, h start le_rfl hc]
      rw [ih (start + 1) (fun j hj hj2 => h j (by omega) hj2)]
    · rw [if_neg hc, if_neg hc]

theorem findMaterial_extend (mats : Int → Mat) (d : MatDef) (count : Int) :
    ∀ (fuel : Nat) (start : Int), start ≤ count → count - start ≤ fuel →
      findMaterial mats d count fuel start = none →
      (mats count).Compare d = true →
      findMaterial mats d (count + 1) (fuel + 1) start = some count := by
  intro fuel
  induction fuel with
  | zero =>
    intro start h1 h2 _ hcmp
    have : start = count := by omega
    subst this
    simp [findMaterial, hcmp]
  | succ n ih =>
    intro start h1 h2 hnone hcmp
    by_cases hc : start < count
    · rw [findMaterial, if_pos hc] at hnone
      by_cases hm : (mats start).Compare d = true
      · rw [if_pos hm] at hnone; cases hnone
      · rw [if_neg hm] at hnone
        rw [findMaterial, if_pos (by omega), if_neg hm]
        exact ih (start + 1) (by omega) (by omega) hnone hcmp
    · have : start = count := by omega
      subst this
      simp [findMaterial, hcmp]

theorem findMaterial_lt (mats : Int → Mat) (d : MatDef) (count : Int) :
    ∀ (fuel : Nat) (start idx : Int),
      findMaterial mats d count fuel start = some idx → idx < count := by
  intro fuel
  induction fuel with
  | zero => intro _ _ h; cases h
  | succ n ih =>
    intro start idx h
    rw [findMaterial] at h
    by_cases hc : start < count
    · rw [if_pos hc] at h
      by_cases hm : (mats start).Compare d = true
      · rw [if_pos hm] at h; cases h; exact hc
      · rw [if_neg hm] at h; exact ih _ _ h
    · rw [if_neg hc] at h; cases h

/-- After the resize step of `CreateParticleMaterial` the table has a free slot. -/
theorem resize_step_room (K : Settings) (hK : MatCapacitiesOk K) (s : b2ParticleSystem)
    (hinv : MatTableOk s) :
    let s1 := if s.m_partMatCount ≥ s.m_partMatCapacity
      then ResizePartMatBuffers K s (s.m_partMatCount * 2) else s
    s1.m_partMatCount = s.m_partMatCount ∧ s1.m_partMatCount < s1.m_partMatCapacity ∧
      s1.m_matsSize = s1.m_partMatCapacity ∧
      (∀ k, k < s.m_partMatCount → s1.m_mats k = s.m_mats k) := by
  intro s1
  obtain ⟨h1, h2, h3⟩ := hinv
  obtain ⟨k1, k2⟩ := hK
  by_cases hc : s.m_partMatCount ≥ s.m_partMatCapacity
  · have e : s1 = ResizePartMatBuffers K s (s.m_partMatCount * 2) := by
      simp only [s1]; rw [if_pos hc]
    rw [e]
    refine ⟨rfl, ?_, rfl, ?_⟩
    · simp only [ResizePartMatBuffers]
      split <;> omega
    · intro k hk
      simp only [ResizePartMatBuffers, resizeBuf]
      rw [if_neg]; omega
  · have e : s1 = s := by simp only [s1]; rw [if_neg hc]
    rw [e]
    exact ⟨rfl, by omega, h1, fun _ _ => rfl⟩

/-- C5: creating a material twice from the same definition returns the same index
both times, and the second call changes neither the material count nor any
stored material.  The table invariant holds again after the first call. -/
theorem CreateParticleMaterial_idempotent (K : Settings) (s : b2ParticleSystem)
    (d : MatDef) (mass2 : ℚ) (hK : MatCapacitiesOk K) (hinv : MatTableOk s) :
    let r1 := CreateParticleMaterial K s d
    let r2 := CreateParticleMaterial K r1.2 { d with mass := mass2 }
    r2.1 = r1.1 ∧ r2.2.m_partMatCount = r1.2.m_partMatCount ∧
      (∀ k, 0 ≤ k → k < r1.2.m_partMatCount → r2.2.m_mats k = r1.2.m_mats k) ∧
      MatTableOk r1.2 := by
  intro r1 r2
  obtain ⟨c1, c2, c3, c4⟩ := resize_step_room K hK s hinv
  -- the state after the resize step of the first call
  generalize hs1 : (if s.m_partMatCount ≥ s.m_partMatCapacity
      then ResizePartMatBuffers K s (s.m_partMatCount * 2) else s) = s1 at c1 c2 c3 c4
  have hpos : 0 ≤ s1.m_partMatCount := by rw [c1]; exact hinv.2.1
  have hr1 : r1 = match findMaterial s1.m_mats { d with mass := K.GetMassFromDensity d.density }
        s1.m_partMatCount s1.m_partMatCount.toNat 0 with
      | some idx => (idx, s1)
      | none =>
        (s1.m_partMatCount, { s1 with
          m_partMatCount := s1.m_partMatCount + 1
          m_mats := setAt s1.m_mats s1.m_partMatCount
            ((s1.m_mats s1.m_partMatCount).Set { d with mass := K.GetMassFromDensity d.density })
          m_ampMats := setAt s1.m_ampMats s1.m_partMatCount
            (setAt s1.m_mats s1.m_partMatCount
              ((s1.m_mats s1.m_partMatCount).Set
                { d with mass := K.GetMassFromDensity d.density }) s1.m_partMatCount) }) := by
    simp only [r1, CreateParticleMaterial, hs1]
  cases hfind : findMaterial s1.m_mats { d with mass := K.GetMassFromDensity d.density }
      s1.m_partMatCount s1.m_partMatCount.toNat 0 with
  | some idx =>
    rw [hfind] at hr1
    have e1 : r1 = (idx, s1) := hr1
    have e2 : r2 = (idx, s1) := by
      simp only [r2, e1, CreateParticleMaterial]
      rw [if_neg (show ¬ (s1.m_partMatCount ≥ s1.m_partMatCapacity) by omega)]
      simp only [hfind]
    rw [e2, e1]
    exact ⟨rfl, rfl, fun _ _ _ => rfl, (⟨c3, hpos, le_of_lt c2⟩ : MatTableOk s1)⟩
  | none =>
    rw [hfind] at hr1
    simp only at hr1
    set dd : MatDef := { d with mass := K.GetMassFromDensity d.density } with hdd
    set n := s1.m_partMatCount with hn
    set t : b2ParticleSystem := { s1 with
          m_partMatCount := n + 1
          m_mats := setAt s1.m_mats n ((s1.m_mats n).Set dd)
          m_ampMats := setAt s1.m_ampMats n
            (setAt s1.m_mats n ((s1.m_mats n).Set dd) n) } with ht
    have e1 : r1 = (n, t) := hr1
    have tinv : MatTableOk t := ⟨c3, by simp only [ht]; omega, by simp only [ht]; omega⟩
    obtain ⟨q1, q2, q3, q4⟩ := resize_step_room K hK t tinv
    generalize ht1 : (if t.m_partMatCount ≥ t.m_partMatCapacity
        then ResizePartMatBuffers K t (t.m_partMatCount * 2) else t) = t1 at q1 q2 q3 q4
    have tcount : t.m_partMatCount = n + 1 := rfl
    have hmatch : findMaterial t1.m_mats dd t1.m_partMatCount t1.m_partMatCount.toNat 0
        = some n := by
      rw [q1, tcount]
      have hcongr := findMaterial_congr t1.m_mats s1.m_mats dd n n.toNat 0
        (fun j hj0 hj => by
          rw [q4 j (by rw [tcount]; omega)]
          simp only [ht]
          exact setAt_other _ _ (by omega))
      have hext := findMaterial_extend t1.m_mats dd n n.toNat 0 hpos (by omega)
        (by rw [hcongr]; exact hfind)
        (by
          rw [q4 n (by rw [tcount]; omega)]
          simp only [ht]
          rw [setAt_same]
          exact Mat.Compare_Set _ _)
      have e : (n + 1).toNat = n.toNat + 1 := by omega
      rw [e]
      exact hext
    have e2 : r2 = (n, t1) := by
      simp only [r2, e1, CreateParticleMaterial, ht1]
      have : ({ d with mass := mass2 } : MatDef).density = d.density := rfl
      simp only [hmatch]
    rw [e2, e1]
    refine ⟨rfl, q1, fun k _ hk => q4 k hk, tinv⟩

/-- The hypotheses of `contact_pass_momentum` at masses `2` and inverse masses `1/2`. -/
theorem contact_pass_momentum_witness :
    ((2 : ℚ) * (1 / 2) = 1) ∧
      pairMomentumChange (fun _ => 2) (fun _ => 0)
        (SolvePressure_contact 1 (fun _ => 1) (fun _ => 1 / 2) (fun _ => 0) sampleContact)
        sampleContact = 0 :=
  ⟨by norm_num,
    (contact_pass_momentum (fun _ => 2) (fun _ => 1 / 2) (fun _ => 1) (fun _ => 0)
      sampleContact 1 1 1 1 (by norm_num) (by norm_num)).1.1⟩

/-- The hypotheses of `CreateParticleMaterial_idempotent` at the empty table. -/
theorem CreateParticleMaterial_idempotent_witness :
    MatCapacitiesOk sampleSettings ∧ MatTableOk {} ∧
      (CreateParticleMaterial sampleSettings
        (CreateParticleMaterial sampleSettings {} sampleMatDef).2 sampleMatDef).1 =
        (CreateParticleMaterial sampleSettings {} sampleMatDef).1 :=
  ⟨by simp [MatCapacitiesOk, sampleSettings], by simp [MatTableOk],
    (CreateParticleMaterial_idempotent sampleSettings {} sampleMatDef sampleMatDef.mass
      (by simp [MatCapacitiesOk, sampleSettings]) (by simp [MatTableOk])).1⟩

/-! ## Buffers as lists -/

theorem forLoop_frame {σ β : Type} (f : σ → β) (body : σ → Int → σ)
    (h : ∀ st i, f (body st i) = f st) (lo hi : Int) (init : σ) :
    f (forLoop lo hi body init) = f init := by
  unfold forLoop
  generalize List.range (hi - lo).toNat = l
  induction l using List.reverseRecOn with
  | nil => rfl
  | append_singleton l a ih =>
    rw [List.foldl_append]
    simp only [List.foldl_cons, List.foldl_nil]
    rw [h, ih]

theorem bufToList_length {α : Type} (buf : Int → α) (n : Int) :
    (bufToList buf n).length = n.toNat := by
  simp [bufToList]

theorem bufToList_of_nonpos {α : Type} (buf : Int → α) {n : Int} (h : n ≤ 0) :
    bufToList buf n = [] := by
  have : n.toNat = 0 := by omega
  simp [bufToList, this]

theorem bufToList_succ {α : Type} (buf : Int → α) {n : Int} (h : 0 ≤ n) :
    bufToList buf (n + 1) = bufToList buf n ++ [buf n] := by
  unfold bufToList
  have e : (n + 1).toNat = n.toNat + 1 := by omega
  rw [e, List.range_succ, List.map_append]
  simp only [List.map_cons, List.map_nil, Int.ofNat_eq_coe]
  congr 3
  omega

theorem bufToList_congr {α : Type} (buf buf2 : Int → α) (n : Int)
    (h : ∀ k, 0 ≤ k → k < n → buf k = buf2 k) : bufToList buf n = bufToList buf2 n := by
  unfold bufToList
  apply List.map_congr_left
  intro k hk
  rw [List.mem_range] at hk
  exact h _ (by simp) (by simp only [Int.ofNat_eq_coe]; omega)

theorem bufToList_map {α β : Type} (buf : Int → α) (n : Int) (f : α → β) :
    bufToList (fun k => f (buf k)) n = (bufToList buf n).map f := by
  simp [bufToList, List.map_map, Function.comp_def]

theorem bufToList_get {α : Type} (buf : Int → α) (n : Int) (k : Nat) (hk : (k : Int) < n) :
    (bufToList buf n).get? k = some (buf k) := by
  unfold bufToList
  rw [List.get?_eq_getElem?, List.getElem?_map, List.getElem?_range (by omega)]
  rfl

theorem mem_bufToList {α : Type} (buf : Int → α) (n : Int) (x : α) :
    x ∈ bufToList buf n ↔ ∃ k, 0 ≤ k ∧ k < n ∧ buf k = x := by
  unfold bufToList
  rw [List.mem_map]
  constructor
  · rintro ⟨k, hk, rfl⟩
    rw [List.mem_range] at hk
    exact ⟨k, by simp, by have e : Int.ofNat k = (k : Int) := rfl; omega, rfl⟩
  · rintro ⟨k, h0, h1, rfl⟩
    refine ⟨k.toNat, by rw [List.mem_range]; omega, ?_⟩
    simp only [Int.ofNat_eq_coe]
    congr 1
    omega

theorem remapBuf_apply {α : Type} (buf : Int → α) (n : Int) (f : α → α) (k : Int) :
    remapBuf buf n f k = if 0 ≤ k ∧ k < n then f (buf k) else buf k := by
  by_cases hn : 0 ≤ n
  · unfold remapBuf
    have := forLoop_induction
      (fun i (b : Int → α) => ∀ k, b k = if 0 ≤ k ∧ k < i then f (buf k) else buf k)
      (fun b k => setAt b k (f (b k))) buf hn
      (by intro k; rw [if_neg]; omega)
      (by
        intro i b hi0 hin hb k
        beta_reduce
        by_cases hk : k = i
        · subst hk
          rw [setAt_same, hb k, if_neg (by omega), if_pos (by omega)]
        · rw [setAt_other _ _ hk, hb k]
          by_cases c : 0 ≤ k ∧ k < i
          · rw [if_pos c, if_pos (by omega)]
          · rw [if_neg c, if_neg (by omega)])
    exact this k
  · unfold remapBuf
    rw [forLoop_of_le (by omega), if_neg]
    omega

theorem bufToList_remapBuf {α : Type} (buf : Int → α) (n : Int) (f : α → α) :
    bufToList (remapBuf buf n f) n = (bufToList buf n).map f := by
  rw [← bufToList_map]
  apply bufToList_congr
  intro k h0 h1
  rw [remapBuf_apply, if_pos ⟨h0, h1⟩]

/-- `RemoveFromVectorIf` is a stable filter: the kept entries, in their order, are
the first entries of the buffer, and their number is the adjusted size. -/
theorem RemoveFromVectorIf_spec {α : Type} (v : Int → α) (size : Int) (pred : α → Bool)
    (h : 0 ≤ size) :
    let r := RemoveFromVectorIf v size pred true
    r.2 = (((bufToList v size).filter (fun x => !pred x)).length : Int) ∧
      bufToList r.1 r.2 = (bufToList v size).filter (fun x => !pred x) := by
  intro r
  have key := forLoop_induction
    (fun i (st : (Int → α) × Int) =>
      st.2 = (((bufToList v i).filter (fun x => !pred x)).length : Int) ∧ st.2 ≤ i ∧
        bufToList st.1 st.2 = (bufToList v i).filter (fun x => !pred x) ∧
        ∀ k, i ≤ k → st.1 k = v k)
    (fun (st : (Int → α) × Int) i =>
      if !pred (st.1 i) then (setAt st.1 st.2 (st.1 i), st.2 + 1) else st) (v, 0) h
    (by
      refine ⟨?_, le_rfl, ?_, fun _ _ => rfl⟩
      · simp [bufToList_of_nonpos]
      · simp [bufToList_of_nonpos])
    (by
      rintro i st hi0 hin ⟨h1, h2, h3, h4⟩
      have hpos : 0 ≤ st.2 := by rw [h1]; exact Int.natCast_nonneg _
      rw [bufToList_succ v hi0, List.filter_append]
      by_cases hp : pred (st.1 i) = true
      · have hp2 : pred (v i) = true := by rw [← h4 i le_rfl]; exact hp
        simp only [hp, Bool.not_true, Bool.false_eq_true, if_false, List.filter_cons,
          hp2, List.filter_nil, List.append_nil]
        exact ⟨h1, by omega, h3, fun k hk => h4 k (by omega)⟩
      · have hp1 : pred (st.1 i) = false := by simpa using hp
        have hp2 : pred (v i) = false := by rw [← h4 i le_rfl]; exact hp1
        simp only [hp1, Bool.not_false, if_true, List.filter_cons, hp2, List.filter_nil,
          List.length_append, List.length_singleton]
        refine ⟨by push_cast; omega, by omega, ?_, ?_⟩
        · rw [bufToList_succ _ hpos, setAt_same, h4 i le_rfl]
          congr 1
          rw [← h3]
          apply bufToList_congr
          intro k _ hk
          exact setAt_other _ _ (by omega)
        · intro k hk
          rw [setAt_other _ _ (by omega)]
          exact h4 k (by omega))
  exact ⟨key.1, key.2.2.1⟩

theorem RemoveFromVectorIf_keep_size {α : Type} (v : Int → α) (size : Int) (pred : α → Bool) :
    (RemoveFromVectorIf v size pred false).2 = size := rfl

/-! ## The first loop of `SolveZombie` -/

theorem survivors_succ (flags : Int → Nat) {i : Int} (h : 0 ≤ i) :
    survivors flags (i + 1) = survivors flags i ++
      (if hasFlag (flags i) Particle.Zombie = true then [] else [i]) := by
  unfold survivors
  rw [bufToList_succ _ h, List.filter_append]
  congr 1
  by_cases hz : hasFlag (flags i) Particle.Zombie = true
  · simp [hz]
  · simp [hz]

theorem survivors_of_nonpos (flags : Int → Nat) {i : Int} (h : i ≤ 0) :
    survivors flags i = [] := by
  simp [survivors, bufToList_of_nonpos _ h]

theorem newIndexOf_nonneg (flags : Int → Nat) (i : Int) : 0 ≤ newIndexOf flags i :=
  Int.natCast_nonneg _

theorem newIndexOf_succ (flags : Int → Nat) {i : Int} (h : 0 ≤ i) :
    newIndexOf flags (i + 1) = newIndexOf flags i +
      (if hasFlag (flags i) Particle.Zombie = true then 0 else 1) := by
  unfold newIndexOf
  rw [survivors_succ flags h]
  by_cases hz : hasFlag (flags i) Particle.Zombie = true
  · simp [hz]
  · simp [hz]

theorem PackedUpTo.skip {α : Type} {orig cur : Int → α} {surv : List Int} {n i : Int}
    (h : PackedUpTo orig cur surv n i) : PackedUpTo orig cur surv n (i + 1) :=
  ⟨h.1, fun k hk => h.2 k (by omega)⟩

theorem PackedUpTo.keep {α : Type} {orig cur : Int → α} {surv : List Int} {n i : Int}
    (h : PackedUpTo orig cur surv n i) (hn0 : 0 ≤ n) (hni : n ≤ i) :
    PackedUpTo orig (setAt cur n (cur i)) (surv ++ [i]) (n + 1) (i + 1) := by
  constructor
  · rw [bufToList_succ _ hn0, setAt_same, List.map_append, ← h.1, h.2 i le_rfl]
    congr 1
    apply bufToList_congr
    intro k _ hk
    exact setAt_other _ _ (by omega)
  · intro k hk
    rw [setAt_other _ _ (by omega)]
    exact h.2 k (by omega)

theorem PackedUpTo.keep_if {α : Type} {orig cur : Int → α} {surv : List Int} {n i : Int}
    (h : PackedUpTo orig cur surv n i) (hn0 : 0 ≤ n) (hni : n ≤ i) :
    PackedUpTo orig (if i ≠ n then setAt cur n (cur i) else cur) (surv ++ [i]) (n + 1)
      (i + 1) := by
  by_cases hin : i ≠ n
  · rw [if_pos hin]; exact h.keep hn0 hni
  · rw [if_neg hin]
    have e : i = n := by omega
    have := h.keep hn0 hni
    have e2 : setAt cur n (cur i) = cur := by
      funext k
      unfold setAt
      split
      · next hk => rw [hk, e]
      · rfl
    rwa [e2] at this

theorem SolveZombie_scanStep_inv (s : b2ParticleSystem) (i : Int) (st : ZombieScan)
    (hi : 0 ≤ i) (h : ScanInv s i st) : ScanInv s (i + 1) (SolveZombie_scanStep st i) := by
  obtain ⟨h1, h2, h3, hF, hP, hV, hG, hM, hH, hHe⟩ := h
  have hfl : st.sys.m_flags i = s.m_flags i := hF.2 i le_rfl
  have hn0 : 0 ≤ st.newCount := by rw [h1]; exact newIndexOf_nonneg _ _
  by_cases hz : hasFlag (s.m_flags i) Particle.Zombie = true
  · have hz2 : hasFlag (st.sys.m_flags i) Particle.Zombie = true := by rw [hfl]; exact hz
    have hsurv : survivors s.m_flags (i + 1) = survivors s.m_flags i := by
      rw [survivors_succ _ hi, if_pos hz, List.append_nil]
    have hfields : ∀ t : b2ParticleSystem,
        (SolveZombie_scanStep st i).sys = t → t.m_flags = st.sys.m_flags ∧
          t.m_positions = st.sys.m_positions ∧ t.m_velocities = st.sys.m_velocities ∧
          t.m_partGroupIdxBuffer = st.sys.m_partGroupIdxBuffer ∧
          t.m_matIdxs = st.sys.m_matIdxs ∧ t.m_heats = st.sys.m_heats ∧
          t.m_healthBuffer = st.sys.m_healthBuffer := by
      intro t ht
      subst ht
      simp only [SolveZombie_scanStep, hz2, if_true]
      split_ifs
      · split <;> simp
      · simp
    obtain ⟨e1, e2, e3, e4, e5, e6, e7⟩ := hfields _ rfl
    have ec : (SolveZombie_scanStep st i).newCount = st.newCount := by
      simp only [SolveZombie_scanStep, hz2, if_true]
    have ei : (SolveZombie_scanStep st i).newIndices = setAt st.newIndices i INVALID_IDX := by
      simp only [SolveZombie_scanStep, hz2, if_true]
    unfold ScanInv
    rw [ec, ei, e1, e2, e3, e4, e5, e6, e7, hsurv]
    refine ⟨?_, by omega, ?_, hF.skip, hP.skip, hV.skip, hG.skip, hM.skip, hH.skip, hHe.skip⟩
    · rw [h1, newIndexOf_succ _ hi, if_pos hz, add_zero]
    · intro k hk0 hk1
      by_cases hk : k = i
      · subst hk; rw [setAt_same, if_pos hz]
      · rw [setAt_other _ _ hk]; exact h3 k hk0 (by omega)
  · have hz2 : hasFlag (st.sys.m_flags i) Particle.Zombie = false := by
      rw [hfl]; simpa using hz
    have hsurv : survivors s.m_flags (i + 1) = survivors s.m_flags i ++ [i] := by
      rw [survivors_succ _ hi, if_neg hz]
    have hfields : ∀ t : b2ParticleSystem,
        (SolveZombie_scanStep st i).sys = t →
          t.m_flags = (if i ≠ st.newCount then setAt st.sys.m_flags st.newCount
            (st.sys.m_flags i) else st.sys.m_flags) ∧
          t.m_positions = (if i ≠ st.newCount then setAt st.sys.m_positions st.newCount
            (st.sys.m_positions i) else st.sys.m_positions) ∧
          t.m_velocities = (if i ≠ st.newCount then setAt st.sys.m_velocities st.newCount
            (st.sys.m_velocities i) else st.sys.m_velocities) ∧
          t.m_partGroupIdxBuffer = (if i ≠ st.newCount then
            setAt st.sys.m_partGroupIdxBuffer st.newCount (st.sys.m_partGroupIdxBuffer i)
            else st.sys.m_partGroupIdxBuffer) ∧
          t.m_matIdxs = (if i ≠ st.newCount then setAt st.sys.m_matIdxs st.newCount
            (st.sys.m_matIdxs i) else st.sys.m_matIdxs) ∧
          t.m_heats = (if i ≠ st.newCount then setAt st.sys.m_heats st.newCount
            (st.sys.m_heats i) else st.sys.m_heats) ∧
          t.m_healthBuffer = (if i ≠ st.newCount then setAt st.sys.m_healthBuffer st.newCount
            (st.sys.m_healthBuffer i) else st.sys.m_healthBuffer) := by
      intro t ht
      subst ht
      simp only [SolveZombie_scanStep, hz2, Bool.false_eq_true, if_false]
      by_cases hin : i ≠ st.newCount
      · simp only [hin, ne_eq, not_false_eq_true, if_true, SolveZombie_move]
        split_ifs <;> simp
      · simp only [hin, if_false]
        simp
    obtain ⟨e1, e2, e3, e4, e5, e6, e7⟩ := hfields _ rfl
    have ec : (SolveZombie_scanStep st i).newCount = st.newCount + 1 := by
      simp only [SolveZombie_scanStep, hz2, Bool.false_eq_true, if_false]
    have ei : (SolveZombie_scanStep st i).newIndices = setAt st.newIndices i st.newCount := by
      simp only [SolveZombie_scanStep, hz2, Bool.false_eq_true, if_false]
    unfold ScanInv
    rw [ec, ei, e1, e2, e3, e4, e5, e6, e7, hsurv]
    refine ⟨?_, by omega, ?_, hF.keep_if hn0 h2, hP.keep_if hn0 h2, hV.keep_if hn0 h2,
      hG.keep_if hn0 h2, hM.keep_if hn0 h2, hH.keep_if hn0 h2, hHe.keep_if hn0 h2⟩
    · rw [h1, newIndexOf_succ _ hi, if_neg hz]
    · intro k hk0 hk1
      by_cases hk : k = i
      · subst hk; rw [setAt_same, if_neg hz, h1]
      · rw [setAt_other _ _ hk]; exact h3 k hk0 (by omega)

theorem SolveZombie_scan_inv (s : b2ParticleSystem) (h : 0 ≤ s.m_count) :
    ScanInv s s.m_count (SolveZombie_scan s) := by
  unfold SolveZombie_scan
  refine forLoop_induction (ScanInv s) SolveZombie_scanStep _ h ?_ ?_
  · have e : survivors s.m_flags 0 = [] := survivors_of_nonpos _ le_rfl
    unfold ScanInv
    rw [e]
    refine ⟨by simp [newIndexOf, e], le_rfl, fun k h0 h1 => by omega,
      ?_, ?_, ?_, ?_, ?_, ?_, ?_⟩ <;>
    exact ⟨by simp [bufToList_of_nonpos], fun _ _ => rfl⟩
  · intro i st hi0 _ hinv
    exact SolveZombie_scanStep_inv s i st hi0 hinv

/-! ## Flags -/

theorem lor_eq_zero_iff (x y : Nat) : x ||| y = 0 ↔ x = 0 ∧ y = 0 := by
  constructor
  · intro h
    have key : ∀ i, x.testBit i = false ∧ y.testBit i = false := by
      intro i
      have := congrArg (fun n => Nat.testBit n i) h
      simpa [Nat.testBit_or] using this
    constructor
    · apply Nat.eq_of_testBit_eq
      intro i
      rw [(key i).1, Nat.zero_testBit]
    · apply Nat.eq_of_testBit_eq
      intro i
      rw [(key i).2, Nat.zero_testBit]
  · rintro ⟨rfl, rfl⟩; rfl

theorem hasFlag_iff (a m : Nat) : hasFlag a m = true ↔ a &&& m ≠ 0 := by
  simp [hasFlag]

theorem hasFlag_or (a b m : Nat) : hasFlag (a ||| b) m = (hasFlag a m || hasFlag b m) := by
  rw [Bool.eq_iff_iff, Bool.or_eq_true, hasFlag_iff, hasFlag_iff, hasFlag_iff,
    Nat.and_distrib_right, Ne, lor_eq_zero_iff]
  tauto

theorem hasFlag_and_left {a b m : Nat} (h : hasFlag a m = false) :
    hasFlag (a &&& b) m = false := by
  unfold hasFlag at *
  have h1 : a &&& m = 0 := by simpa using h
  have : a &&& b &&& m = 0 := by
    rw [Nat.and_assoc, Nat.and_comm b m, ← Nat.and_assoc, h1]; simp
  simp [this]

theorem hasFlag_of_disjoint {a m : Nat} (h : a &&& m = 0) : hasFlag a m = false := by
  simp [hasFlag, h]

/-! ## Groups in `SolveZombie` -/

theorem withGroup_same (s : b2ParticleSystem) (k : Int) (g : ParticleGroup) :
    (withGroup s k g).m_groupBuffer k = g := setAt_same _ _ _

theorem withGroup_other (s : b2ParticleSystem) {k j : Int} (g : ParticleGroup) (h : j ≠ k) :
    (withGroup s k g).m_groupBuffer j = s.m_groupBuffer j := setAt_other _ _ h

theorem SetGroupFlags_group (K : Settings) (s : b2ParticleSystem) (k : Int) (newFlags : Nat) :
    let t := SetGroupFlags K s k newFlags
    (∀ j, j ≠ k → t.m_groupBuffer j = s.m_groupBuffer j) ∧
      (t.m_groupBuffer k).m_firstIndex = (s.m_groupBuffer k).m_firstIndex ∧
      (t.m_groupBuffer k).m_lastIndex = (s.m_groupBuffer k).m_lastIndex ∧
      (K.NeedsUpdateDepth &&& K.WillBeDestroyed = 0 →
        hasFlag (s.m_groupBuffer k).m_groupFlags K.WillBeDestroyed = false →
        hasFlag newFlags K.WillBeDestroyed = false →
        hasFlag (t.m_groupBuffer k).m_groupFlags K.WillBeDestroyed = false) := by
  intro t
  have hb : t.m_groupBuffer = setAt s.m_groupBuffer k
      { s.m_groupBuffer k with m_groupFlags :=
        (if ((s.m_groupBuffer k).m_groupFlags ^^^
            (newFlags ||| ((s.m_groupBuffer k).m_groupFlags &&& K.InternalMask))) &&& K.Solid != 0
          then newFlags ||| ((s.m_groupBuffer k).m_groupFlags &&& K.InternalMask) |||
            K.NeedsUpdateDepth
          else newFlags ||| ((s.m_groupBuffer k).m_groupFlags &&& K.InternalMask)) } := by
    simp only [t, SetGroupFlags, withGroup]
    split_ifs <;> rfl
  rw [hb]
  refine ⟨fun j hj => setAt_other _ _ hj, ?_, ?_, ?_⟩
  · rw [setAt_same]
  · rw [setAt_same]
  · intro hd h1 h2
    rw [setAt_same]
    simp only
    split_ifs
    · rw [hasFlag_or, hasFlag_or, h2, hasFlag_and_left h1, hasFlag_of_disjoint hd]; rfl
    · rw [hasFlag_or, h2, hasFlag_and_left h1]; rfl

theorem SolveZombie_groupStep_spec (K : Settings) (newIndices : Int → Int) (newCount : Int)
    (s : b2ParticleSystem) (k : Int) (hd : K.NeedsUpdateDepth &&& K.WillBeDestroyed = 0)
    (hk : (s.m_groupBuffer k).m_firstIndex ≠ INVALID_IDX →
      hasFlag (s.m_groupBuffer k).m_groupFlags K.WillBeDestroyed = false) :
    let t := SolveZombie_groupStep K newIndices newCount s k
    (∀ j, j ≠ k → t.m_groupBuffer j = s.m_groupBuffer j) ∧
      (hasFlag (t.m_groupBuffer k).m_groupFlags K.WillBeDestroyed = true →
        (t.m_groupBuffer k).m_firstIndex ≠ INVALID_IDX →
        (t.m_groupBuffer k).m_firstIndex = 0 ∧ (t.m_groupBuffer k).m_lastIndex = 0) := by
  intro t
  by_cases hlive : (s.m_groupBuffer k).m_firstIndex ≠ INVALID_IDX
  · have hw := hk hlive
    by_cases hr : (SolveZombie_groupRange newIndices newCount (s.m_groupBuffer k)).1 <
        (SolveZombie_groupRange newIndices newCount (s.m_groupBuffer k)).2.1
    · -- the group keeps particles: its flags gain at most `NeedsUpdateDepth`
      have key : (∀ j, j ≠ k → t.m_groupBuffer j = s.m_groupBuffer j) ∧
          hasFlag (t.m_groupBuffer k).m_groupFlags K.WillBeDestroyed = false := by
        simp only [t, SolveZombie_groupStep, hlive, ne_eq, not_false_eq_true, if_true, hr]
        split_ifs
        · obtain ⟨x1, _, _, x4⟩ := SetGroupFlags_group K (withGroup s k _) k
            ((s.m_groupBuffer k).m_groupFlags ||| K.NeedsUpdateDepth)
          refine ⟨fun j hj => ?_, ?_⟩
          · rw [x1 j hj]; exact withGroup_other _ _ hj
          · apply x4 hd
            · rw [withGroup_same]; exact hw
            · rw [hasFlag_or, hw, hasFlag_of_disjoint hd]; rfl
        · exact ⟨fun j hj => withGroup_other _ _ hj, by rw [withGroup_same]; exact hw⟩
        · exact ⟨fun j hj => withGroup_other _ _ hj, by rw [withGroup_same]; exact hw⟩
      refine ⟨key.1, fun h => ?_⟩
      rw [key.2] at h; cases h
    · -- the group is emptied: its range becomes `[0, 0)`
      simp only [t, SolveZombie_groupStep, hlive, ne_eq, not_false_eq_true, if_true, hr,
        if_false]
      split_ifs
      · obtain ⟨x1, x2, x3, _⟩ := SetGroupFlags_group K (withGroup s k
            { s.m_groupBuffer k with m_firstIndex := 0, m_lastIndex := 0 }) k
          ((s.m_groupBuffer k).m_groupFlags ||| K.WillBeDestroyed)
        refine ⟨fun j hj => ?_, fun _ _ => ⟨?_, ?_⟩⟩
        · rw [x1 j hj]; exact withGroup_other _ _ hj
        · rw [x2, withGroup_same]
        · rw [x3, withGroup_same]
      · exact ⟨fun j hj => withGroup_other _ _ hj, fun _ _ => by rw [withGroup_same]; simp⟩
  · have e : t = s := by
      simp only [t, SolveZombie_groupStep, hlive, if_false]
    rw [e]
    exact ⟨fun _ _ => rfl, fun _ h => absurd h hlive⟩

/-! ## What the phases of `SolveZombie` leave alone -/

theorem SolveZombie_scan_frame (s : b2ParticleSystem) :
    tableView (SolveZombie_scan s).sys = tableView s ∧
      listView (SolveZombie_scan s).sys = listView s := by
  unfold SolveZombie_scan
  constructor
  · refine forLoop_frame (fun st : ZombieScan => tableView st.sys) _ ?_ _ _ _
    intro st i
    simp only [SolveZombie_scanStep, SolveZombie_move, tableView]
    split_ifs <;> first | rfl | (split <;> rfl)
  · refine forLoop_frame (fun st : ZombieScan => listView st.sys) _ ?_ _ _ _
    intro st i
    simp only [SolveZombie_scanStep, SolveZombie_move, listView]
    split_ifs <;> first | rfl | (split <;> rfl)

theorem withGroup_frame (s : b2ParticleSystem) (k : Int) (g : ParticleGroup) :
    bodyView (withGroup s k g) = bodyView s ∧ tableView (withGroup s k g) = tableView s :=
  ⟨rfl, rfl⟩

theorem SetGroupFlags_frame (K : Settings) (s : b2ParticleSystem) (k : Int) (newFlags : Nat) :
    bodyView (SetGroupFlags K s k newFlags) = bodyView s ∧
      tableView (SetGroupFlags K s k newFlags) = tableView s := by
  unfold SetGroupFlags
  simp only
  rw [(withGroup_frame _ _ _).1, (withGroup_frame _ _ _).2]
  constructor <;> split_ifs <;> rfl

theorem SolveZombie_groupStep_frame (K : Settings) (newIndices : Int → Int) (newCount : Int)
    (s : b2ParticleSystem) (k : Int) :
    bodyView (SolveZombie_groupStep K newIndices newCount s k) = bodyView s ∧
      tableView (SolveZombie_groupStep K newIndices newCount s k) = tableView s := by
  unfold SolveZombie_groupStep
  simp only
  constructor <;> split_ifs <;>
    simp only [(SetGroupFlags_frame _ _ _ _).1, (SetGroupFlags_frame _ _ _ _).2,
      (withGroup_frame _ _ _).1, (withGroup_frame _ _ _).2]

theorem SolveZombie_groups_spec (K : Settings) (newIndices : Int → Int) (newCount : Int)
    (s : b2ParticleSystem) (hd : K.NeedsUpdateDepth &&& K.WillBeDestroyed = 0)
    (h0 : 0 ≤ s.m_groupCount) (hno : NoGroupWillBeDestroyed K s) :
    let t := forLoop 0 s.m_groupCount (SolveZombie_groupStep K newIndices newCount) s
    bodyView t = bodyView s ∧ tableView t = tableView s ∧
      DoomedGroupsEmpty K t 0 s.m_groupCount := by
  intro t
  refine ⟨?_, ?_, ?_⟩
  · exact forLoop_frame bodyView _
      (fun st i => (SolveZombie_groupStep_frame K newIndices newCount st i).1) _ _ _
  · exact forLoop_frame tableView _
      (fun st i => (SolveZombie_groupStep_frame K newIndices newCount st i).2) _ _ _
  · have key := forLoop_induction
      (fun i (st : b2ParticleSystem) =>
        DoomedGroupsEmpty K st 0 i ∧ ∀ j, i ≤ j → st.m_groupBuffer j = s.m_groupBuffer j)
      (SolveZombie_groupStep K newIndices newCount) s h0
      ⟨fun k hk0 hk1 => by omega, fun _ _ => rfl⟩
      (by
        rintro i st hi0 hin ⟨hA, hB⟩
        have hk : (st.m_groupBuffer i).m_firstIndex ≠ INVALID_IDX →
            hasFlag (st.m_groupBuffer i).m_groupFlags K.WillBeDestroyed = false := by
          rw [hB i le_rfl]
          exact hno i hi0 hin
        obtain ⟨x1, x2⟩ := SolveZombie_groupStep_spec K newIndices newCount st i hd hk
        refine ⟨fun k hk0 hk1 hlive hw => ?_, fun j hj => ?_⟩
        · by_cases hki : k = i
          · subst hki; exact x2 hw hlive
          · rw [x1 k hki] at hlive hw ⊢
            exact hA k hk0 (by omega) hlive hw
        · rw [x1 j (by omega)]
          exact hB j (by omega))
    exact key.1

/-! ## The destruction of emptied groups -/

theorem AddZombieRange_frame (s : b2ParticleSystem) (a b : Int) :
    bodyView (AddZombieRange s a b) = bodyView s ∧
      (AddZombieRange s a b).m_groupBuffer = s.m_groupBuffer ∧
      (AddZombieRange s a b).m_groupCount = s.m_groupCount := by
  unfold AddZombieRange
  split_ifs
  · simp only
    split
    · split_ifs <;> exact ⟨rfl, rfl, rfl⟩
    · exact ⟨rfl, rfl, rfl⟩
  · split
    · exact ⟨rfl, rfl, rfl⟩
    · split
      · split_ifs <;> exact ⟨rfl, rfl, rfl⟩
      · exact ⟨rfl, rfl, rfl⟩

theorem RangesOk_dropLast {l : List (Int × Int)} (h : RangesOk l) : RangesOk l.dropLast :=
  fun r hr => h r (List.mem_of_mem_dropLast hr)

theorem AddZombieRange_empty (s : b2ParticleSystem)
    (hr : s.m_count = 0 → RangesOk s.m_zombieRanges) :
    (AddZombieRange s 0 0).m_count = s.m_count ∧
      ((AddZombieRange s 0 0).m_count = 0 → RangesOk (AddZombieRange s 0 0).m_zombieRanges) := by
  by_cases hc : s.m_count = 0
  · have hok := hr hc
    unfold AddZombieRange
    rw [if_pos hc]
    simp only
    split
    · next back hback =>
      have hmem : back ∈ s.m_zombieRanges := List.mem_of_mem_getLast? hback
      split_ifs with h2
      · have := hok back hmem
        simp only
        refine ⟨by omega, fun _ => RangesOk_dropLast hok⟩
      · exact ⟨hc.symm, fun _ => hok⟩
    · exact ⟨hc.symm, fun _ => hok⟩
  · have hcount : (AddZombieRange s 0 0).m_count = s.m_count := by
      unfold AddZombieRange
      rw [if_neg hc]
      split
      · rfl
      · split
        · split_ifs <;> rfl
        · rfl
    exact ⟨hcount, fun h => absurd (hcount ▸ h) hc⟩

theorem ResizeParticleBuffers_frame (K : Settings) (s : b2ParticleSystem) (size : Int) :
    bodyView (ResizeParticleBuffers K s size) = bodyView s ∧
      (ResizeParticleBuffers K s size).m_groupBuffer = s.m_groupBuffer ∧
      tableView (ResizeParticleBuffers K s size) = tableView s := by
  unfold ResizeParticleBuffers
  simp only
  split_ifs <;> exact ⟨rfl, rfl, rfl⟩

theorem DestroyGroup_zombify_frame (s : b2ParticleSystem) (a b : Int) (dp : Bool) :
    bodyView (DestroyGroup_zombify s a b dp) = bodyView s ∧
      (DestroyGroup_zombify s a b dp).m_groupBuffer = s.m_groupBuffer ∧
      tableView (DestroyGroup_zombify s a b dp) = tableView s := by
  unfold DestroyGroup_zombify
  split_ifs
  · refine ⟨?_, ?_, ?_⟩
    · apply forLoop_frame bodyView; intro st i; rfl
    · apply forLoop_frame (fun t : b2ParticleSystem => t.m_groupBuffer); intro st i; rfl
    · apply forLoop_frame tableView; intro st i; rfl
  · refine ⟨?_, ?_, ?_⟩
    · apply forLoop_frame bodyView; intro st i; rfl
    · apply forLoop_frame (fun t : b2ParticleSystem => t.m_groupBuffer); intro st i; rfl
    · apply forLoop_frame tableView; intro st i; rfl
  · exact ⟨rfl, rfl, rfl⟩

theorem DestroyGroup_release_frame (s : b2ParticleSystem) (k : Int) :
    bodyView (DestroyGroup_release s k) = bodyView s ∧
      (∀ j, j ≠ k → (DestroyGroup_release s k).m_groupBuffer j = s.m_groupBuffer j) ∧
      (DestroyGroup_release s k).m_count = s.m_count ∧
      (DestroyGroup_release s k).m_zombieRanges = s.m_zombieRanges ∧
      (DestroyGroup_release s k).m_groupCount ≤ s.m_groupCount := by
  unfold DestroyGroup_release
  simp only
  split_ifs
  · refine ⟨rfl, fun j hj => withGroup_other _ _ hj, rfl, rfl, ?_⟩
    show s.m_groupCount - 1 ≤ s.m_groupCount
    omega
  · exact ⟨rfl, fun j hj => withGroup_other _ _ hj, rfl, rfl, le_rfl⟩

theorem tableView_count {s t : b2ParticleSystem} (h : tableView t = tableView s) :
    t.m_count = s.m_count := congrArg (fun v => v.1) h

theorem tableView_ranges {s t : b2ParticleSystem} (h : tableView t = tableView s) :
    t.m_zombieRanges = s.m_zombieRanges := congrArg (fun v => v.2.1) h

theorem tableView_groupCount {s t : b2ParticleSystem} (h : tableView t = tableView s) :
    t.m_groupCount = s.m_groupCount := congrArg (fun v => v.2.2) h

/-- `DestroyGroup` on a group whose range is `[0, 0)` keeps the particle count. -/
theorem DestroyGroup_empty (K : Settings) (s : b2ParticleSystem) (k timestamp : Int)
    (destroyParticles : Bool)
    (hf : (s.m_groupBuffer k).m_firstIndex = 0) (hl : (s.m_groupBuffer k).m_lastIndex = 0)
    (hr : s.m_count = 0 → RangesOk s.m_zombieRanges) :
    let t := DestroyGroup K s k timestamp destroyParticles
    t.m_count = s.m_count ∧ (t.m_count = 0 → RangesOk t.m_zombieRanges) ∧
      bodyView t = bodyView s ∧ (∀ j, j ≠ k → t.m_groupBuffer j = s.m_groupBuffer j) ∧
      t.m_groupCount ≤ s.m_groupCount := by
  intro t
  by_cases hg : timestamp ≠ INVALID_IDX ∧ timestamp ≠ 0 ∧
      timestamp ≠ (s.m_groupBuffer k).m_timestamp
  · have e : t = s := by
      simp only [t, DestroyGroup]
      rw [if_pos hg]
    rw [e]
    exact ⟨rfl, hr, rfl, fun _ _ => rfl, le_rfl⟩
  · obtain ⟨a1, a2⟩ := AddZombieRange_empty s hr
    obtain ⟨a3, a4, a5⟩ := AddZombieRange_frame s 0 0
    generalize hs1 : AddZombieRange s 0 0 = s1 at a1 a2 a3 a4 a5
    obtain ⟨r1, r2, r3⟩ := ResizeParticleBuffers_frame K s1 s1.m_count
    generalize hs2 : ResizeParticleBuffers K s1 s1.m_count = s2 at r1 r2 r3
    obtain ⟨z1, z2, z3⟩ := DestroyGroup_zombify_frame s2 0 0 destroyParticles
    generalize hs3 : DestroyGroup_zombify s2 0 0 destroyParticles = s3 at z1 z2 z3
    obtain ⟨l1, l2, l3, l4, l5⟩ := DestroyGroup_release_frame s3 k
    have e : t = DestroyGroup_release s3 k := by
      simp only [t, DestroyGroup]
      rw [if_neg hg, hf, hl, hs1, hs2, hs3]
    rw [e]
    have c3 : s3.m_count = s1.m_count := (tableView_count z3).trans (tableView_count r3)
    have g3 : s3.m_zombieRanges = s1.m_zombieRanges :=
      (tableView_ranges z3).trans (tableView_ranges r3)
    refine ⟨by rw [l3, c3, a1], ?_, by rw [l1, z1, r1, a3], ?_, ?_⟩
    · intro h0
      rw [l4, g3]
      apply a2
      rw [← c3, ← l3]; exact h0
    · intro j hj
      rw [l2 j hj, z2, r2, a4]
    · have : s3.m_groupCount = s.m_groupCount := by
        rw [tableView_groupCount z3, tableView_groupCount r3, a5]
      omega

theorem SolveZombie_destroy_spec (K : Settings) (timestamp : Int) (destroyParticles : Bool) :
    ∀ (fuel : Nat) (k : Int) (s : b2ParticleSystem),
      (s.m_count = 0 → RangesOk s.m_zombieRanges) →
      DoomedGroupsEmpty K s k s.m_groupCount →
      (SolveZombie_destroy K timestamp destroyParticles fuel k s).m_count = s.m_count ∧
        bodyView (SolveZombie_destroy K timestamp destroyParticles fuel k s) = bodyView s := by
  intro fuel
  induction fuel with
  | zero => intro k s _ _; exact ⟨rfl, rfl⟩
  | succ n ih =>
    intro k s hr hd
    unfold SolveZombie_destroy
    by_cases hk : k < s.m_groupCount
    · rw [if_pos hk]
      simp only
      by_cases hlive : (s.m_groupBuffer k).m_firstIndex ≠ INVALID_IDX
      · by_cases hw : hasFlag (s.m_groupBuffer k).m_groupFlags K.WillBeDestroyed = true
        · rw [if_pos hlive, if_pos hw]
          obtain ⟨hf, hl⟩ := hd k le_rfl hk hlive hw
          obtain ⟨d1, d2, d3, d4, d5⟩ :=
            DestroyGroup_empty K s k timestamp destroyParticles hf hl hr
          obtain ⟨i1, i2⟩ := ih (k + 1) (DestroyGroup K s k timestamp destroyParticles) d2
            (fun j hj0 hj1 hjl hjw => by
              rw [d4 j (by omega)] at hjl hjw ⊢
              exact hd j (by omega) (by omega) hjl hjw)
          exact ⟨i1.trans d1, i2.trans d3⟩
        · rw [if_pos hlive, if_neg hw]
          exact ih (k + 1) s hr (fun j hj0 hj1 => hd j (by omega) hj1)
      · rw [if_neg hlive]
        exact ih (k + 1) s hr (fun j hj0 hj1 => hd j (by omega) hj1)
    · rw [if_neg hk]
      exact ⟨rfl, rfl⟩

/-! ## `SolveZombie` packs the surviving particles -/

theorem SolveZombie_scan_result (s : b2ParticleSystem) :
    let sc := SolveZombie_scan s
    sc.newCount = newIndexOf s.m_flags s.m_count ∧
      bufToList sc.sys.m_positions sc.newCount =
        (survivors s.m_flags s.m_count).map s.m_positions ∧
      bufToList sc.sys.m_velocities sc.newCount =
        (survivors s.m_flags s.m_count).map s.m_velocities := by
  intro sc
  by_cases h : 0 ≤ s.m_count
  · obtain ⟨h1, _, _, _, hP, hV, _⟩ := SolveZombie_scan_inv s h
    exact ⟨h1, hP.1, hV.1⟩
  · have e : sc = { sys := s, newCount := 0, newIndices := fun _ => 0, allParticleFlags := 0 } := by
      simp only [sc, SolveZombie_scan]
      exact forLoop_of_le (by omega) _ _
    have e2 : survivors s.m_flags s.m_count = [] := survivors_of_nonpos _ (by omega)
    rw [e, e2]
    refine ⟨by simp [newIndexOf, e2], ?_, ?_⟩ <;> simp [bufToList_of_nonpos]

theorem bufToList_zip {α β : Type} (p : Int → α) (v : Int → β) (n : Int) :
    bufToList (fun k => (p k, v k)) n = List.zip (bufToList p n) (bufToList v n) := by
  unfold bufToList
  rw [List.zip_map']

theorem bodyView_positions {s t : b2ParticleSystem} (h : bodyView t = bodyView s) :
    t.m_positions = s.m_positions := congrArg (fun v => v.1) h

theorem bodyView_velocities {s t : b2ParticleSystem} (h : bodyView t = bodyView s) :
    t.m_velocities = s.m_velocities := congrArg (fun v => v.2.1) h

/-- The phases of `SolveZombie` after the first loop, seen from the state `s1`
that the renumbering leaves: the particle count becomes `newCount`, and the
particle data and index-bearing lists stay as the renumbering left them. -/
theorem SolveZombie_tail (K : Settings) (timestamp : Int) (destroyParticles : Bool)
    (newIndices : Int → Int) (newCount : Int) (s1 : b2ParticleSystem)
    (hd : K.NeedsUpdateDepth &&& K.WillBeDestroyed = 0)
    (hno : NoGroupWillBeDestroyed K s1) (hr : RangesOk s1.m_zombieRanges) :
    let s2 := forLoop 0 s1.m_groupCount (SolveZombie_groupStep K newIndices newCount) s1
    let s3 := { s2 with m_count := newCount, m_needsUpdateAllParticleFlags := true }
    let t := SolveZombie_destroy K timestamp destroyParticles s3.m_groupCount.toNat 0 s3
    t.m_count = newCount ∧ bodyView t = bodyView s1 := by
  intro s2 s3 t
  have hs2 : bodyView s2 = bodyView s1 ∧ tableView s2 = tableView s1 ∧
      DoomedGroupsEmpty K s2 0 s1.m_groupCount := by
    by_cases h0 : 0 ≤ s1.m_groupCount
    · exact SolveZombie_groups_spec K newIndices newCount s1 hd h0 hno
    · have e : s2 = s1 := forLoop_of_le (by omega) _ _
      rw [e]
      exact ⟨rfl, rfl, fun k hk0 hk1 => by omega⟩
  obtain ⟨b2, t2, d2⟩ := hs2
  have hgc : s3.m_groupCount = s1.m_groupCount :=
    (tableView_groupCount t2 : s2.m_groupCount = s1.m_groupCount)
  have hzr : s3.m_zombieRanges = s1.m_zombieRanges :=
    (tableView_ranges t2 : s2.m_zombieRanges = s1.m_zombieRanges)
  obtain ⟨c, b⟩ := SolveZombie_destroy_spec K timestamp destroyParticles
    s3.m_groupCount.toNat 0 s3 (fun _ => by rw [hzr]; exact hr)
    (by rw [hgc]; exact d2)
  exact ⟨c, b.trans b2⟩

/-- C2: `SolveZombie` sets the particle count to the number of particles without
the Zombie flag and packs those particles to the front in their original order:
the (position, velocity) sequence at the indices `0 .. newCount - 1` after the
pass is the sequence before the pass restricted to the particles that are not
zombies. -/
theorem SolveZombie_packs (K : Settings) (timestamp : Int) (destroyParticles : Bool)
    (s : b2ParticleSystem) (hready : SolveZombieReady K s) :
    let t := SolveZombie K timestamp destroyParticles s
    t.m_count = ((survivors s.m_flags s.m_count).length : Int) ∧
      bufToList (fun k => (t.m_positions k, t.m_velocities k)) t.m_count =
        (survivors s.m_flags s.m_count).map (fun i => (s.m_positions i, s.m_velocities i)) := by
  intro t
  obtain ⟨hd, hno, hr⟩ := hready
  obtain ⟨c1, c2, c3⟩ := SolveZombie_scan_result s
  obtain ⟨f1, f2⟩ := SolveZombie_scan_frame s
  generalize hsc : SolveZombie_scan s = sc at c1 c2 c3 f1 f2
  have hgb : sc.sys.m_groupBuffer = s.m_groupBuffer := congrArg (fun v => v.1) f2
  have hno1 : NoGroupWillBeDestroyed K (SolveZombie_remap sc.sys sc.newIndices) := by
    intro k hk0 hk1 hlive
    have e1 : (SolveZombie_remap sc.sys sc.newIndices).m_groupBuffer = s.m_groupBuffer := hgb
    have e2 : (SolveZombie_remap sc.sys sc.newIndices).m_groupCount = s.m_groupCount :=
      tableView_groupCount f1
    rw [e1] at hlive ⊢
    exact hno k hk0 (by rw [← e2]; exact hk1) hlive
  have hr1 : RangesOk (SolveZombie_remap sc.sys sc.newIndices).m_zombieRanges := by
    have e : (SolveZombie_remap sc.sys sc.newIndices).m_zombieRanges = s.m_zombieRanges :=
      tableView_ranges f1
    rw [e]; exact hr
  obtain ⟨tc, tb⟩ := SolveZombie_tail K timestamp destroyParticles sc.newIndices sc.newCount
    (SolveZombie_remap sc.sys sc.newIndices) hd hno1 hr1
  have ht : t = SolveZombie_destroy K timestamp destroyParticles
      ({ forLoop 0 (SolveZombie_remap sc.sys sc.newIndices).m_groupCount
          (SolveZombie_groupStep K sc.newIndices sc.newCount)
          (SolveZombie_remap sc.sys sc.newIndices) with
        m_count := sc.newCount, m_needsUpdateAllParticleFlags := true }).m_groupCount.toNat 0
      { forLoop 0 (SolveZombie_remap sc.sys sc.newIndices).m_groupCount
          (SolveZombie_groupStep K sc.newIndices sc.newCount)
          (SolveZombie_remap sc.sys sc.newIndices) with
        m_count := sc.newCount, m_needsUpdateAllParticleFlags := true } := by
    simp only [t, SolveZombie, hsc]
  rw [← ht] at tc tb
  have hp : t.m_positions = sc.sys.m_positions :=
    (bodyView_positions tb :
      t.m_positions = (SolveZombie_remap sc.sys sc.newIndices).m_positions)
  have hv : t.m_velocities = sc.sys.m_velocities :=
    (bodyView_velocities tb :
      t.m_velocities = (SolveZombie_remap sc.sys sc.newIndices).m_velocities)
  refine ⟨by rw [tc, c1]; rfl, ?_⟩
  rw [bufToList_zip, hp, hv, tc, c2, c3, List.zip_map']

/-! ## `SolveZombie` renumbers the index-bearing lists -/

theorem RemoveFromVectorIf_list {α : Type} (v : Int → α) (size : Int) (pred : α → Bool) :
    let r := RemoveFromVectorIf v size pred true
    bufToList r.1 r.2 = (bufToList v size).filter (fun x => !pred x) := by
  intro r
  by_cases h : 0 ≤ size
  · exact (RemoveFromVectorIf_spec v size pred h).2
  · have e : r = (v, 0) := by
      simp only [r, RemoveFromVectorIf]
      rw [forLoop_of_le (by omega)]
      rfl
    rw [e, bufToList_of_nonpos _ (by omega : size ≤ 0)]
    simp [bufToList_of_nonpos]

theorem remap_filter_spec {α : Type} (buf : Int → α) (n : Int) (f g : α → α)
    (invalid keep : α → Bool)
    (h1 : ∀ x ∈ bufToList buf n, (!invalid (f x)) = keep x)
    (h2 : ∀ x ∈ bufToList buf n, keep x = true → f x = g x) :
    let r := RemoveFromVectorIf (remapBuf buf n f) n invalid true
    bufToList r.1 r.2 = ((bufToList buf n).filter keep).map g := by
  intro r
  rw [RemoveFromVectorIf_list, bufToList_remapBuf, List.filter_map]
  have e1 : (bufToList buf n).filter ((fun x => !invalid x) ∘ f) =
      (bufToList buf n).filter keep := by
    apply List.filter_congr
    intro x hx
    exact h1 x hx
  rw [e1]
  apply List.map_congr_left
  intro x hx
  rw [List.mem_filter] at hx
  exact h2 x hx.1 hx.2

theorem SolveZombie_scan_newIndices (s : b2ParticleSystem) (k : Int) (h0 : 0 ≤ k)
    (h1 : k < s.m_count) :
    (SolveZombie_scan s).newIndices k =
      if hasFlag (s.m_flags k) Particle.Zombie = true then INVALID_IDX
      else newIndexOf s.m_flags k := by
  obtain ⟨_, _, h3, _⟩ := SolveZombie_scan_inv s (by omega)
  exact h3 k h0 h1

theorem newIndices_valid (s : b2ParticleSystem) (k : Int) (h0 : 0 ≤ k) (h1 : k < s.m_count) :
    decide ((SolveZombie_scan s).newIndices k < 0) = !survives s k := by
  rw [SolveZombie_scan_newIndices s k h0 h1]
  unfold survives
  by_cases hz : hasFlag (s.m_flags k) Particle.Zombie = true
  · rw [if_pos hz, hz]; rfl
  · rw [if_neg hz]
    have := newIndexOf_nonneg s.m_flags k
    have hz2 : hasFlag (s.m_flags k) Particle.Zombie = false := by simpa using hz
    rw [hz2]
    simp only [Bool.not_false, Bool.not_true, decide_eq_false_iff_not, not_lt]
    exact this

theorem newIndices_of_survives (s : b2ParticleSystem) (k : Int) (h0 : 0 ≤ k)
    (h1 : k < s.m_count) (hs : survives s k = true) :
    (SolveZombie_scan s).newIndices k = newIndexOf s.m_flags k := by
  rw [SolveZombie_scan_newIndices s k h0 h1, if_neg]
  unfold survives at hs
  simpa using hs

theorem survivors_split (flags : Int → Nat) (i : Int) (h0 : 0 ≤ i)
    (hl : hasFlag (flags i) Particle.Zombie = false) :
    ∀ d : Nat, ∃ rest, survivors flags (i + 1 + d) = survivors flags i ++ i :: rest := by
  intro d
  induction d with
  | zero =>
    refine ⟨[], ?_⟩
    rw [Nat.cast_zero, add_zero, survivors_succ _ h0, if_neg (by simp [hl])]
  | succ d ih =>
    obtain ⟨rest, hrest⟩ := ih
    have e : i + 1 + ((d + 1 : Nat) : Int) = (i + 1 + d) + 1 := by push_cast; ring
    rw [e, survivors_succ _ (by omega), hrest]
    exact ⟨rest ++ (if hasFlag (flags (i + 1 + ↑d)) Particle.Zombie = true then []
      else [i + 1 + ↑d]), by simp⟩

/-- A surviving particle `i` gets the new index `newIndexOf i`, which is below
the number of survivors, and is the `newIndexOf i`-th survivor. -/
theorem survivors_get (flags : Int → Nat) (i n : Int) (h0 : 0 ≤ i) (h1 : i < n)
    (hl : hasFlag (flags i) Particle.Zombie = false) :
    newIndexOf flags i < newIndexOf flags n ∧
      (survivors flags n).get? (newIndexOf flags i).toNat = some i := by
  obtain ⟨rest, hrest⟩ := survivors_split flags i h0 hl (n - (i + 1)).toNat
  have e : i + 1 + ((n - (i + 1)).toNat : Int) = n := by omega
  rw [e] at hrest
  unfold newIndexOf
  rw [hrest]
  constructor
  · simp only [List.length_append, List.length_cons]
    push_cast
    omega
  · rw [Int.toNat_ofNat, List.get?_eq_getElem?, List.getElem?_append_right (le_refl _)]
    simp

/-- C3: after `SolveZombie`, when every stored index denoted a particle, the
retained contacts, body contacts, pairs and triads are, in their former order,
exactly the entries none of whose particles was a zombie, each index replaced by
the new index of the same particle; that new index lies in `[0, newCount)` and the
slot it names holds the position and velocity the particle had before the pass. -/
theorem SolveZombie_remaps (K : Settings) (timestamp : Int) (destroyParticles : Bool)
    (s : b2ParticleSystem) (hready : SolveZombieReady K s) (hidx : StoredIndicesInRange s) :
    let t := SolveZombie K timestamp destroyParticles s
    let ni := newIndexOf s.m_flags
    bufToList t.m_partContactBuf t.m_contactCount =
        ((bufToList s.m_partContactBuf s.m_contactCount).filter
          (fun c => survives s c.idxA && survives s c.idxB)).map
          (fun c => { c with idxA := ni c.idxA, idxB := ni c.idxB }) ∧
      bufToList t.m_bodyContactBuf t.m_bodyContactCount =
        ((bufToList s.m_bodyContactBuf s.m_bodyContactCount).filter
          (fun c => survives s c.partIdx)).map
          (fun c => { c with partIdx := ni c.partIdx }) ∧
      bufToList t.m_pairBuffer t.m_pairCount =
        ((bufToList s.m_pairBuffer s.m_pairCount).filter
          (fun p => survives s p.indexA && survives s p.indexB)).map
          (fun p => { p with indexA := ni p.indexA, indexB := ni p.indexB }) ∧
      bufToList t.m_triadBuffer t.m_triadCount =
        ((bufToList s.m_triadBuffer s.m_triadCount).filter
          (fun x => survives s x.indexA && survives s x.indexB && survives s x.indexC)).map
          (fun x => { x with indexA := ni x.indexA, indexB := ni x.indexB,
                             indexC := ni x.indexC }) ∧
      ∀ i, 0 ≤ i → i < s.m_count → survives s i = true →
        0 ≤ ni i ∧ ni i < t.m_count ∧ t.m_positions (ni i) = s.m_positions i ∧
          t.m_velocities (ni i) = s.m_velocities i := by
  intro t ni
  obtain ⟨hC, hB, hP, hT⟩ := hidx
  obtain ⟨hd, hno, hr⟩ := hready
  obtain ⟨c1, c2, c3⟩ := SolveZombie_scan_result s
  obtain ⟨f1, f2⟩ := SolveZombie_scan_frame s
  have N1 := newIndices_valid s
  have N2 := newIndices_of_survives s
  generalize hsc : SolveZombie_scan s = sc at c1 c2 c3 f1 f2 N1 N2
  have hgb : sc.sys.m_groupBuffer = s.m_groupBuffer := congrArg (fun v => v.1) f2
  have hno1 : NoGroupWillBeDestroyed K (SolveZombie_remap sc.sys sc.newIndices) := by
    intro k hk0 hk1 hlive
    have e1 : (SolveZombie_remap sc.sys sc.newIndices).m_groupBuffer = s.m_groupBuffer := hgb
    have e2 : (SolveZombie_remap sc.sys sc.newIndices).m_groupCount = s.m_groupCount :=
      tableView_groupCount f1
    rw [e1] at hlive ⊢
    exact hno k hk0 (by rw [← e2]; exact hk1) hlive
  have hr1 : RangesOk (SolveZombie_remap sc.sys sc.newIndices).m_zombieRanges := by
    have e : (SolveZombie_remap sc.sys sc.newIndices).m_zombieRanges = s.m_zombieRanges :=
      tableView_ranges f1
    rw [e]; exact hr
  obtain ⟨tc, tb⟩ := SolveZombie_tail K timestamp destroyParticles sc.newIndices sc.newCount
    (SolveZombie_remap sc.sys sc.newIndices) hd hno1 hr1
  have ht : t = SolveZombie_destroy K timestamp destroyParticles
      ({ forLoop 0 (SolveZombie_remap sc.sys sc.newIndices).m_groupCount
          (SolveZombie_groupStep K sc.newIndices sc.newCount)
          (SolveZombie_remap sc.sys sc.newIndices) with
        m_count := sc.newCount, m_needsUpdateAllParticleFlags := true }).m_groupCount.toNat 0
      { forLoop 0 (SolveZombie_remap sc.sys sc.newIndices).m_groupCount
          (SolveZombie_groupStep K sc.newIndices sc.newCount)
          (SolveZombie_remap sc.sys sc.newIndices) with
        m_count := sc.newCount, m_needsUpdateAllParticleFlags := true } := by
    simp only [t, SolveZombie, hsc]
  rw [← ht] at tc tb
  -- the lists of the state before the pass, as the first loop leaves them
  have g1 : sc.sys.m_partContactBuf = s.m_partContactBuf := congrArg (fun v => v.2.1) f2
  have g2 : sc.sys.m_contactCount = s.m_contactCount := congrArg (fun v => v.2.2.1) f2
  have g3 : sc.sys.m_bodyContactBuf = s.m_bodyContactBuf := congrArg (fun v => v.2.2.2.1) f2
  have g4 : sc.sys.m_bodyContactCount = s.m_bodyContactCount :=
    congrArg (fun v => v.2.2.2.2.1) f2
  have g5 : sc.sys.m_pairBuffer = s.m_pairBuffer := congrArg (fun v => v.2.2.2.2.2.1) f2
  have g6 : sc.sys.m_pairCount = s.m_pairCount := congrArg (fun v => v.2.2.2.2.2.2.1) f2
  have g7 : sc.sys.m_triadBuffer = s.m_triadBuffer :=
    congrArg (fun v => v.2.2.2.2.2.2.2.1) f2
  have g8 : sc.sys.m_triadCount = s.m_triadCount := congrArg (fun v => v.2.2.2.2.2.2.2.2) f2
  -- the lists of the final state, as the renumbering leaves them
  have b1 : t.m_partContactBuf = (SolveZombie_remap sc.sys sc.newIndices).m_partContactBuf :=
    congrArg (fun v => v.2.2.1) tb
  have b2 : t.m_contactCount = (SolveZombie_remap sc.sys sc.newIndices).m_contactCount :=
    congrArg (fun v => v.2.2.2.1) tb
  have b3 : t.m_bodyContactBuf = (SolveZombie_remap sc.sys sc.newIndices).m_bodyContactBuf :=
    congrArg (fun v => v.2.2.2.2.1) tb
  have b4 : t.m_bodyContactCount =
      (SolveZombie_remap sc.sys sc.newIndices).m_bodyContactCount :=
    congrArg (fun v => v.2.2.2.2.2.1) tb
  have b5 : t.m_pairBuffer = (SolveZombie_remap sc.sys sc.newIndices).m_pairBuffer :=
    congrArg (fun v => v.2.2.2.2.2.2.1) tb
  have b6 : t.m_pairCount = (SolveZombie_remap sc.sys sc.newIndices).m_pairCount :=
    congrArg (fun v => v.2.2.2.2.2.2.2.1) tb
  have b7 : t.m_triadBuffer = (SolveZombie_remap sc.sys sc.newIndices).m_triadBuffer :=
    congrArg (fun v => v.2.2.2.2.2.2.2.2.1) tb
  have b8 : t.m_triadCount = (SolveZombie_remap sc.sys sc.newIndices).m_triadCount :=
    congrArg (fun v => v.2.2.2.2.2.2.2.2.2) tb
  have hp : t.m_positions = sc.sys.m_positions :=
    (bodyView_positions tb :
      t.m_positions = (SolveZombie_remap sc.sys sc.newIndices).m_positions)
  have hv : t.m_velocities = sc.sys.m_velocities :=
    (bodyView_velocities tb :
      t.m_velocities = (SolveZombie_remap sc.sys sc.newIndices).m_velocities)
  refine ⟨?_, ?_, ?_, ?_, ?_⟩
  · rw [b1, b2]
    simp only [SolveZombie_remap, g1, g2]
    apply remap_filter_spec
    · intro c hc
      obtain ⟨a0, a1, a2, a3⟩ := hC c hc
      simp only [IsContactIdxInvalid, N1 _ a0 a1, N1 _ a2 a3, Bool.not_or, Bool.not_not]
    · intro c hc hk
      obtain ⟨a0, a1, a2, a3⟩ := hC c hc
      simp only [Bool.and_eq_true] at hk
      rw [N2 _ a0 a1 hk.1, N2 _ a2 a3 hk.2]
  · rw [b3, b4]
    simp only [SolveZombie_remap, g3, g4]
    apply remap_filter_spec
    · intro c hc
      obtain ⟨a0, a1⟩ := hB c hc
      simp only [IsBodyContactInvalid, N1 _ a0 a1, Bool.not_not]
    · intro c hc hk
      obtain ⟨a0, a1⟩ := hB c hc
      rw [N2 _ a0 a1 hk]
  · rw [b5, b6]
    simp only [SolveZombie_remap, g5, g6]
    apply remap_filter_spec
    · intro c hc
      obtain ⟨a0, a1, a2, a3⟩ := hP c hc
      simp only [IsPairInvalid, N1 _ a0 a1, N1 _ a2 a3, Bool.not_or, Bool.not_not]
    · intro c hc hk
      obtain ⟨a0, a1, a2, a3⟩ := hP c hc
      simp only [Bool.and_eq_true] at hk
      rw [N2 _ a0 a1 hk.1, N2 _ a2 a3 hk.2]
  · rw [b7, b8]
    simp only [SolveZombie_remap, g7, g8]
    apply remap_filter_spec
    · intro c hc
      obtain ⟨a0, a1, a2, a3, a4, a5⟩ := hT c hc
      simp only [IsTriadInvalid, N1 _ a0 a1, N1 _ a2 a3, N1 _ a4 a5, Bool.not_or,
        Bool.not_not]
    · intro c hc hk
      obtain ⟨a0, a1, a2, a3, a4, a5⟩ := hT c hc
      simp only [Bool.and_eq_true] at hk
      rw [N2 _ a0 a1 hk.1.1, N2 _ a2 a3 hk.1.2, N2 _ a4 a5 hk.2]
  · intro i h0 h1 hs
    have hl : hasFlag (s.m_flags i) Particle.Zombie = false := by
      unfold survives at hs; simpa using hs
    obtain ⟨k1, k2⟩ := survivors_get s.m_flags i s.m_count h0 h1 hl
    have hnn : 0 ≤ ni i := newIndexOf_nonneg _ _
    have hlt : ni i < sc.newCount := by rw [c1]; exact k1
    have hcast : (((ni i).toNat : Nat) : Int) = ni i := Int.toNat_of_nonneg hnn
    refine ⟨hnn, by rw [tc]; exact hlt, ?_, ?_⟩
    · have e1 := bufToList_get sc.sys.m_positions sc.newCount (ni i).toNat
        (by rw [hcast]; exact hlt)
      rw [c2, List.get?_eq_getElem?, List.getElem?_map, ← List.get?_eq_getElem?, k2,
        hcast] at e1
      rw [hp]
      exact (Option.some.inj e1).symm
    · have e1 := bufToList_get sc.sys.m_velocities sc.newCount (ni i).toNat
        (by rw [hcast]; exact hlt)
      rw [c3, List.get?_eq_getElem?, List.getElem?_map, ← List.get?_eq_getElem?, k2,
        hcast] at e1
      rw [hv]
      exact (Option.some.inj e1).symm

theorem zombieSample_ready : SolveZombieReady sampleSettings zombieSample := by
  refine ⟨by decide, ?_, ?_⟩
  · intro k hk0 hk1
    have : zombieSample.m_groupCount = 0 := rfl
    omega
  · intro r hr
    cases hr

theorem zombieSample_indices : StoredIndicesInRange zombieSample := by
  refine ⟨?_, ?_, ?_, ?_⟩
  · intro c hc
    rw [mem_bufToList] at hc
    obtain ⟨k, h0, h1, rfl⟩ := hc
    have h2 : k < 2 := h1
    have hk : k = 0 ∨ k = 1 := by omega
    rcases hk with rfl | rfl <;> decide
  · intro c hc
    rw [mem_bufToList] at hc
    obtain ⟨k, h0, h1, rfl⟩ := hc
    have h2 : k < 0 := h1
    omega
  · intro c hc
    rw [mem_bufToList] at hc
    obtain ⟨k, h0, h1, rfl⟩ := hc
    exact (by decide : (0 : Int) ≤ 1 ∧ (1 : Int) < 3 ∧ (0 : Int) ≤ 2 ∧ (2 : Int) < 3)
  · intro c hc
    rw [mem_bufToList] at hc
    obtain ⟨k, h0, h1, rfl⟩ := hc
    have h2 : k < 0 := h1
    omega

/-- The hypothesis of `SolveZombie_packs` on three particles, one of them a zombie:
two particles are left. -/
theorem SolveZombie_packs_witness :
    SolveZombieReady sampleSettings zombieSample ∧
      (SolveZombie sampleSettings INVALID_IDX false zombieSample).m_count = 2 :=
  ⟨zombieSample_ready,
    (SolveZombie_packs sampleSettings INVALID_IDX false zombieSample zombieSample_ready).1.trans
      (by decide)⟩

/-- The hypotheses of `SolveZombie_remaps` on three particles, one of them a
zombie: of the contacts `(0, 1)` and `(1, 2)` the second is retained, as `(0, 1)`. -/
theorem SolveZombie_remaps_witness :
    SolveZombieReady sampleSettings zombieSample ∧ StoredIndicesInRange zombieSample ∧
      bufToList (SolveZombie sampleSettings INVALID_IDX false zombieSample).m_partContactBuf
        (SolveZombie sampleSettings INVALID_IDX false zombieSample).m_contactCount =
        [⟨0, 1, 0, 0, 0, 0⟩] :=
  ⟨zombieSample_ready, zombieSample_indices,
    (SolveZombie_remaps sampleSettings INVALID_IDX false zombieSample zombieSample_ready
      zombieSample_indices).1.trans (by decide)⟩

/-! ## The health pass -/

/-- C9 at health `0`: on the host path `SolveHealth` tests `health < 0`, so a
particle of health exactly `0` whose material has no dead-material target gets no
Zombie flag and compaction keeps the particle count at `1`; on the accelerated
path the same particle is flagged. -/
theorem SolveHealth_zero_health :
    healthZeroHost.m_healthBuffer 0 ≤ 0 ∧
      (healthZeroHost.m_mats (healthZeroHost.m_matIdxs 0)).m_changeToDeadMatIdx = INVALID_IDX ∧
      hasFlag ((SolveHealth healthZeroHost).m_flags 0) Particle.Zombie = false ∧
      (SolveZombie sampleSettings INVALID_IDX false (SolveHealth healthZeroHost)).m_count = 1 ∧
      hasFlag ((SolveHealth healthZeroAmp).m_ampFlags 0) Particle.Zombie = true := by
  have e : SolveHealth healthZeroHost = healthZeroHost := by
    have h1 : SolveHealth healthZeroHost = forLoop 0 1
        (fun st k => if st.m_healthBuffer k < 0 then DestroyParticle st k else st)
        healthZeroHost := rfl
    rw [h1, show (1 : Int) = 0 + 1 from rfl, forLoop_succ le_rfl, forLoop_of_le le_rfl]
    have : ¬ (healthZeroHost.m_healthBuffer 0 < 0) := by
      show ¬ ((0 : ℚ) < 0)
      exact lt_irrefl 0
    rw [if_neg this]
  have a : SolveHealth healthZeroAmp = forLoop 0 1
      (fun st i => if hasFlag (st.m_ampFlags i) Particle.Zombie then st else
        (fun st i =>
          if st.m_ampHealths i > 0 then st
          else
            let deadMatIdx := (st.m_ampMats (st.m_ampMatIdxs i)).m_changeToDeadMatIdx
            if deadMatIdx ≠ INVALID_IDX then
              let st := SolveHealth_UpdateParticle st i (st.m_ampMats deadMatIdx)
              { st with m_ampHealths := setAt st.m_ampHealths i 1 }
            else { st with m_ampFlags := setAt st.m_ampFlags i Particle.Zombie }) st i)
      healthZeroAmp := rfl
  refine ⟨le_refl _, rfl, ?_, ?_, ?_⟩
  · rw [e]; decide
  · rw [e]; decide
  · rw [a, show (1 : Int) = 0 + 1 from rfl, forLoop_succ le_rfl, forLoop_of_le le_rfl]
    have h1 : hasFlag (healthZeroAmp.m_ampFlags 0) Particle.Zombie = false := by decide
    have h2 : ¬ (healthZeroAmp.m_ampHealths 0 > 0) := by
      show ¬ ((0 : ℚ) > 0)
      exact lt_irrefl 0
    have h3 : ¬ ((healthZeroAmp.m_ampMats (healthZeroAmp.m_ampMatIdxs 0)).m_changeToDeadMatIdx
        ≠ INVALID_IDX) := by decide
    simp only [h1, Bool.false_eq_true, if_false, h2, h3]
    decide

/-! ## Group ranges -/

/-- C4 at a failing input: three groups of one particle each are created in the
empty system, group `0` is destroyed with its particle, `SolveZombie` compacts, and
a fourth group of one particle is created.  `SolveZombie` moves the particle of
group `1` to index `0` but leaves the free range `[0, 1)` in `m_zombieRanges`, so
`GetWriteIdx` hands index `0` out again: the live groups `0` and `1` both end with
the range `[0, 1)`. -/
theorem CreateGroup_after_SolveZombie_overlaps :
    ((threeGroups.m_groupBuffer 0).m_firstIndex, (threeGroups.m_groupBuffer 0).m_lastIndex) = (0, 1) ∧
      ((threeGroups.m_groupBuffer 1).m_firstIndex, (threeGroups.m_groupBuffer 1).m_lastIndex) = (1, 2) ∧
      ((threeGroups.m_groupBuffer 2).m_firstIndex, (threeGroups.m_groupBuffer 2).m_lastIndex) = (2, 3) ∧
      threeGroupsCompacted.m_count = 2 ∧
      threeGroupsCompacted.m_zombieRanges = [(0, 1)] ∧
      reusedSlot.1 = 0 ∧
      reusedSlot.2.m_groupCount = 3 ∧
      (reusedSlot.2.m_groupBuffer 0).m_firstIndex ≠ INVALID_IDX ∧
      (reusedSlot.2.m_groupBuffer 1).m_firstIndex ≠ INVALID_IDX ∧
      ((reusedSlot.2.m_groupBuffer 0).m_firstIndex, (reusedSlot.2.m_groupBuffer 0).m_lastIndex) = (0, 1) ∧
      ((reusedSlot.2.m_groupBuffer 1).m_firstIndex, (reusedSlot.2.m_groupBuffer 1).m_lastIndex) = (0, 1) := by
  decide

/-! ## Pairs -/

theorem ResizePairBuffers_pairCount (K : Settings) (s : b2ParticleSystem) (size : Int) :
    (ResizePairBuffers K s size).m_pairCount = s.m_pairCount := by
  simp only [ResizePairBuffers]
  split_ifs <;> rfl

/-- The contact loop of `UpdatePairsAndTriads` writes every pair to the slot
`m_pairCount` and never advances `m_pairCount`. -/
theorem UpdatePairsAndTriads_loop_pairCount (K : Settings) (s : b2ParticleSystem)
    (firstIndex lastIndex : Int) (filter : ConnectionFilter) (n : Int) :
    (forLoop 0 n (UpdatePairsAndTriads_pairStep K firstIndex lastIndex filter) s).m_pairCount
      = s.m_pairCount := by
  apply forLoop_frame (fun (t : b2ParticleSystem) => t.m_pairCount)
  intro st i
  unfold UpdatePairsAndTriads_pairStep
  split_ifs
  · exact ResizePairBuffers_pairCount K st st.m_pairCount
  · rfl

/-- C6 at a failing input: three Spring particles in a row with the two eligible
contacts `(0, 1)` and `(1, 2)` and an empty pair buffer.  Both pairs are written
to slot `0`, and `m_pairCount` is then set to the size of the pair buffer: with a
minimum buffer capacity of `256` the pair list has `256` entries instead of `2`,
and no entry is the pair `(0, 1)`. -/
theorem UpdatePairsAndTriads_pairs_chain :
    UpdatePairsAndTriads_eligible sampleSettings 0 3 acceptAll springChain 0 = true ∧
      UpdatePairsAndTriads_eligible sampleSettings 0 3 acceptAll springChain 1 = true ∧
      (UpdatePairsAndTriads_pairs sampleSettings springChain 0 3 acceptAll).m_pairCount = 256 ∧
      (∀ p ∈ bufToList
          (UpdatePairsAndTriads_pairs sampleSettings springChain 0 3 acceptAll).m_pairBuffer
          (UpdatePairsAndTriads_pairs sampleSettings springChain 0 3 acceptAll).m_pairCount,
        ¬ (p.indexA = 0 ∧ p.indexB = 1)) := by
  set_option maxRecDepth 1000000 in decide

/-! ## `AddContact` -/

theorem AddContact_eq (K : Settings) (s : b2ParticleSystem) (a b : Int) :
    AddContact K s a b =
      if AddContact_accepts s a b then
        (true,
          { s with
            m_partContactBuf := setAt s.m_partContactBuf s.m_contactCount
              (AddContact_entry K s a b)
            m_contactCount := s.m_contactCount + 1 })
      else (false, s) := by
  unfold AddContact AddContact_entry
  by_cases h1 : (s.m_groupBuffer (s.m_partGroupIdxBuffer a)).m_collisionGroup > 0 ∧
      (s.m_groupBuffer (s.m_partGroupIdxBuffer a)).m_collisionGroup ≠
        (s.m_groupBuffer (s.m_partGroupIdxBuffer b)).m_collisionGroup
  · have e : AddContact_accepts s a b = false := by
      simp only [AddContact_accepts, decide_eq_true h1.1, decide_eq_true h1.2]
      rfl
    rw [e, if_pos h1]
    rfl
  · by_cases h2 : (s.m_positions b - s.m_positions a).dot (s.m_positions b - s.m_positions a)
        > s.m_squaredDiameter
    · have e : AddContact_accepts s a b = false := by
        simp only [AddContact_accepts, decide_eq_true h2]
        simp
      rw [e, if_neg h1, if_pos h2]
      rfl
    · have e : AddContact_accepts s a b = true := by
        simp only [AddContact_accepts, decide_eq_false h2]
        have : (decide ((s.m_groupBuffer (s.m_partGroupIdxBuffer a)).m_collisionGroup > 0) &&
            decide ((s.m_groupBuffer (s.m_partGroupIdxBuffer a)).m_collisionGroup ≠
              (s.m_groupBuffer (s.m_partGroupIdxBuffer b)).m_collisionGroup)) = false := by
          rw [Bool.and_eq_false_iff, decide_eq_false_iff_not, decide_eq_false_iff_not]
          by_contra hc
          push_neg at hc
          exact h1 ⟨hc.1, hc.2⟩
        rw [this]
        rfl
      rw [e, if_neg h1, if_neg h2]
      rfl

theorem AddContact_accepts_congr {s s0 : b2ParticleSystem} (h : contactView s = contactView s0)
    (a b : Int) : AddContact_accepts s a b = AddContact_accepts s0 a b := by
  simp only [contactView, Prod.mk.injEq] at h
  obtain ⟨h1, h2, h3, -, -, h6, -, -, -⟩ := h
  simp only [AddContact_accepts, h1, h2, h3, h6]

theorem AddContact_entry_congr (K : Settings) {s s0 : b2ParticleSystem}
    (h : contactView s = contactView s0) (a b : Int) :
    AddContact_entry K s a b = AddContact_entry K s0 a b := by
  simp only [contactView, Prod.mk.injEq] at h
  obtain ⟨-, -, h3, h4, h5, -, h7, -, -⟩ := h
  simp only [AddContact_entry, h3, h4, h5, h7]

theorem Emitted.add (K : Settings) {s0 s : b2ParticleSystem} {L : List b2ParticleContact}
    (h : Emitted s0 s L) (a b : Int) (hacc : AddContact_accepts s0 a b = true) :
    (AddContact K s a b).1 = true ∧
      Emitted s0 (AddContact K s a b).2 (L ++ [AddContact_entry K s0 a b]) := by
  obtain ⟨hv, hc, hl⟩ := h
  rw [AddContact_eq, AddContact_accepts_congr hv, hacc, if_pos rfl, AddContact_entry_congr K hv]
  refine ⟨rfl, hv, ?_, ?_⟩
  · show s.m_contactCount + 1 = _
    rw [hc, List.length_append]
    simp
  · show bufToList (setAt s.m_partContactBuf s.m_contactCount _) (s.m_contactCount + 1) = _
    have h0 : 0 ≤ s.m_contactCount := by rw [hc]; exact Int.natCast_nonneg _
    rw [bufToList_succ _ h0, setAt_same, ← hl]
    congr 1
    apply bufToList_congr
    intro k _ hk
    exact setAt_other _ _ (by omega)

theorem Emitted.rejected (K : Settings) {s0 s : b2ParticleSystem} {L : List b2ParticleContact}
    (h : Emitted s0 s L) (a b : Int) (hacc : AddContact_accepts s0 a b = false) :
    AddContact K s a b = (false, s) := by
  rw [AddContact_eq, AddContact_accepts_congr h.1, hacc]
  rfl

/-! ## Proxies as a list -/

theorem proxiesFrom_congr {s s0 : b2ParticleSystem} (h : contactView s = contactView s0)
    (b : Int) : proxiesFrom s b = proxiesFrom s0 b := by
  simp only [contactView, Prod.mk.injEq] at h
  obtain ⟨-, -, -, -, -, -, -, h8, h9⟩ := h
  simp only [proxiesFrom, h8, h9]

theorem proxiesFrom_of_le (s : b2ParticleSystem) {b : Int} (h : s.m_count ≤ b) :
    proxiesFrom s b = [] := by
  unfold proxiesFrom
  apply List.drop_eq_nil_of_le
  rw [bufToList_length]
  omega

theorem proxiesFrom_cons (s : b2ParticleSystem) {b : Int} (h0 : 0 ≤ b) (h1 : b < s.m_count) :
    proxiesFrom s b = s.m_proxyBuffer b :: proxiesFrom s (b + 1) := by
  unfold proxiesFrom
  have e : (b + 1).toNat = b.toNat + 1 := by omega
  have hlt : b.toNat < (bufToList s.m_proxyBuffer s.m_count).length := by
    rw [bufToList_length]; omega
  rw [e, List.drop_eq_getElem_cons hlt]
  congr 1
  have := bufToList_get s.m_proxyBuffer s.m_count b.toNat (by omega)
  rw [List.get?_eq_getElem?, List.getElem?_eq_getElem hlt] at this
  have e2 : ((b.toNat : Nat) : Int) = b := by omega
  rw [e2] at this
  exact Option.some.inj this

theorem proxiesFrom_zero (s : b2ParticleSystem) :
    proxiesFrom s 0 = bufToList s.m_proxyBuffer s.m_count := by
  simp [proxiesFrom]

theorem mem_proxiesFrom (s : b2ParticleSystem) {b : Int} (h0 : 0 ≤ b) (p : Proxy) :
    p ∈ proxiesFrom s b ↔ ∃ k, b ≤ k ∧ k < s.m_count ∧ s.m_proxyBuffer k = p := by
  unfold proxiesFrom
  constructor
  · intro h
    obtain ⟨i, hi, rfl⟩ := List.getElem_of_mem h
    rw [List.length_drop, bufToList_length] at hi
    rw [List.getElem_drop]
    have hb := bufToList_get s.m_proxyBuffer s.m_count (b.toNat + i) (by push_cast; omega)
    rw [List.get?_eq_getElem?, List.getElem?_eq_getElem (by rw [bufToList_length]; omega)] at hb
    refine ⟨((b.toNat + i : Nat) : Int), by push_cast; omega, by push_cast; omega, ?_⟩
    exact (Option.some.inj hb).symm
  · rintro ⟨k, hk0, hk1, rfl⟩
    have hlt : k.toNat < (bufToList s.m_proxyBuffer s.m_count).length := by
      rw [bufToList_length]; omega
    have hb := bufToList_get s.m_proxyBuffer s.m_count k.toNat (by omega)
    rw [List.get?_eq_getElem?, List.getElem?_eq_getElem hlt] at hb
    have e2 : ((k.toNat : Nat) : Int) = k := by omega
    rw [e2] at hb
    rw [← Option.some.inj hb]
    have e3 : k.toNat = b.toNat + (k.toNat - b.toNat) := by omega
    have hlt2 : k.toNat - b.toNat < (List.drop b.toNat (bufToList s.m_proxyBuffer s.m_count)).length := by
      rw [List.length_drop, bufToList_length]; omega
    have := List.getElem_mem hlt2
    rw [List.getElem_drop] at this
    simpa [← e3] using this


/-! ## Sorted lists -/

theorem takeWhile_eq_filter_of_pairwise {α : Type} (p : α → Bool) (l : List α)
    (h : l.Pairwise (fun x y => p y = true → p x = true)) : l.takeWhile p = l.filter p := by
  induction l with
  | nil => rfl
  | cons x l ih =>
    rw [List.pairwise_cons] at h
    by_cases hx : p x = true
    · rw [List.takeWhile_cons_of_pos hx, List.filter_cons_of_pos hx, ih h.2]
    · rw [List.takeWhile_cons_of_neg hx, List.filter_cons_of_neg hx]
      symm
      rw [List.filter_eq_nil_iff]
      intro y hy hpy
      exact hx (h.1 y hy hpy)

theorem dropWhile_eq_filter_of_pairwise {α : Type} (p : α → Bool) (l : List α)
    (h : l.Pairwise (fun x y => p y = true → p x = true)) :
    l.dropWhile p = l.filter (fun x => !p x) := by
  induction l with
  | nil => rfl
  | cons x l ih =>
    rw [List.pairwise_cons] at h
    by_cases hx : p x = true
    · rw [List.dropWhile_cons_of_pos hx, List.filter_cons_of_neg (by simp [hx]), ih h.2]
    · rw [List.dropWhile_cons_of_neg hx, List.filter_cons_of_pos (by simpa using hx)]
      congr 1
      symm
      rw [List.filter_eq_self]
      intro y hy
      have : ¬ p y = true := fun hpy => hx (h.1 y hy hpy)
      simpa using this

/-! ## The inner loops of `FindContacts` -/

theorem Emitted.count {s0 s : b2ParticleSystem} {L : List b2ParticleContact}
    (h : Emitted s0 s L) : s.m_count = s0.m_count := by
  have := h.1
  simp only [contactView, Prod.mk.injEq] at this
  exact this.2.2.2.2.2.2.2.2

theorem Emitted.proxy {s0 s : b2ParticleSystem} {L : List b2ParticleContact}
    (h : Emitted s0 s L) : s.m_proxyBuffer = s0.m_proxyBuffer := by
  have := h.1
  simp only [contactView, Prod.mk.injEq] at this
  exact this.2.2.2.2.2.2.2.1

theorem FindContacts_scan_spec (K : Settings) (s0 : b2ParticleSystem) (aIdx : Int)
    (limit : Nat) :
    ∀ (fuel : Nat) (b cnt : Int) (s : b2ParticleSystem) (L : List b2ParticleContact)
      (A : List Proxy),
      Emitted s0 s L → 0 ≤ b → (s0.m_count - b).toNat ≤ fuel → 0 ≤ cnt →
      cnt < K.MAX_CONTACTS_PER_PARTICLE →
      A = ((proxiesFrom s0 b).takeWhile (fun p => decide (p.tag ≤ limit))).filter
              (fun p => AddContact_accepts s0 aIdx p.idx) →
      Emitted s0 (FindContacts_scan K aIdx limit fuel b cnt s).2.2
          (L ++ (A.take (K.MAX_CONTACTS_PER_PARTICLE - cnt).toNat).map
            (fun p => AddContact_entry K s0 aIdx p.idx)) ∧
        ((FindContacts_scan K aIdx limit fuel b cnt s).1 = true →
          (K.MAX_CONTACTS_PER_PARTICLE - cnt).toNat ≤ A.length) ∧
        ((FindContacts_scan K aIdx limit fuel b cnt s).1 = false →
          (FindContacts_scan K aIdx limit fuel b cnt s).2.1 = cnt + (A.length : Int) ∧
          cnt + (A.length : Int) < K.MAX_CONTACTS_PER_PARTICLE) := by
  have hnilcase : ∀ (cnt : Int) (s : b2ParticleSystem) (L : List b2ParticleContact),
      Emitted s0 s L → cnt < K.MAX_CONTACTS_PER_PARTICLE →
      Emitted s0 ((false, cnt, s) : Bool × Int × b2ParticleSystem).2.2
          (L ++ (([] : List Proxy).take (K.MAX_CONTACTS_PER_PARTICLE - cnt).toNat).map
            (fun p => AddContact_entry K s0 aIdx p.idx)) ∧
        (((false, cnt, s) : Bool × Int × b2ParticleSystem).1 = true →
          (K.MAX_CONTACTS_PER_PARTICLE - cnt).toNat ≤ ([] : List Proxy).length) ∧
        (((false, cnt, s) : Bool × Int × b2ParticleSystem).1 = false →
          ((false, cnt, s) : Bool × Int × b2ParticleSystem).2.1
              = cnt + ((([] : List Proxy).length : Nat) : Int) ∧
          cnt + ((([] : List Proxy).length : Nat) : Int) < K.MAX_CONTACTS_PER_PARTICLE) := by
    intro cnt s L hE hc1
    refine ⟨by simpa using hE, fun h => by simp at h, fun _ => ⟨by simp, by simpa using hc1⟩⟩
  intro fuel
  induction fuel with
  | zero =>
    intro b cnt s L A hE hb hf hc0 hc1 hA
    have hnil : proxiesFrom s0 b = [] := proxiesFrom_of_le s0 (by omega)
    rw [hnil] at hA
    simp only [List.takeWhile_nil, List.filter_nil] at hA
    subst hA
    rw [FindContacts_scan]
    exact hnilcase cnt s L hE hc1
  | succ fuel ih =>
    intro b cnt s L A hE hb hf hc0 hc1 hA
    rw [FindContacts_scan]
    have hcount := hE.count
    have hproxy := hE.proxy
    by_cases hbn : b < s.m_count
    · rw [if_pos hbn]
      have hcons : proxiesFrom s0 b = s0.m_proxyBuffer b :: proxiesFrom s0 (b + 1) :=
        proxiesFrom_cons s0 hb (by omega)
      rw [hcons, List.takeWhile_cons] at hA
      rw [hproxy]
      by_cases hlim : limit < (s0.m_proxyBuffer b).tag
      · rw [if_pos hlim]
        have hw : decide ((s0.m_proxyBuffer b).tag ≤ limit) = false := by
          rw [decide_eq_false_iff_not]; omega
        simp only [hw, Bool.false_eq_true, if_false, List.filter_nil] at hA
        subst hA
        exact hnilcase cnt s L hE hc1
      · rw [if_neg hlim]
        have hw : decide ((s0.m_proxyBuffer b).tag ≤ limit) = true := by
          rw [decide_eq_true_eq]; omega
        simp only [hw, if_true, List.filter_cons] at hA
        by_cases hacc : AddContact_accepts s0 aIdx (s0.m_proxyBuffer b).idx = true
        · obtain ⟨h1, h2⟩ := hE.add K aIdx (s0.m_proxyBuffer b).idx hacc
          simp only [hacc, if_true] at hA
          simp only [h1, if_true]
          by_cases hfull : cnt + 1 = K.MAX_CONTACTS_PER_PARTICLE
          · rw [if_pos hfull]
            have e1 : (K.MAX_CONTACTS_PER_PARTICLE - cnt).toNat = 1 := by omega
            rw [e1, hA]
            refine ⟨?_, fun _ => ?_, fun h => by simp at h⟩
            · simpa using h2
            · simp
          · rw [if_neg hfull]
            have e1 : (K.MAX_CONTACTS_PER_PARTICLE - cnt).toNat
                = (K.MAX_CONTACTS_PER_PARTICLE - (cnt + 1)).toNat + 1 := by omega
            obtain ⟨i1, i2, i3⟩ := ih (b + 1) (cnt + 1) _ _ _ h2 (by omega) (by omega) (by omega)
              (by omega) rfl
            rw [e1, hA]
            refine ⟨?_, fun h => ?_, fun h => ?_⟩
            · rw [List.append_assoc] at i1
              simpa using i1
            · have := i2 h
              simp only [List.length_cons]
              omega
            · have := i3 h
              simp only [List.length_cons]
              push_cast
              omega
        · have hacc' : AddContact_accepts s0 aIdx (s0.m_proxyBuffer b).idx = false := by
            simpa using hacc
          simp only [hacc', Bool.false_eq_true, if_false] at hA
          rw [hE.rejected K aIdx _ hacc']
          simp only [Bool.false_eq_true, if_false]
          exact ih (b + 1) cnt s L A hE (by omega) (by omega) hc0 hc1 hA
    · rw [if_neg hbn]
      have hnil : proxiesFrom s0 b = [] := proxiesFrom_of_le s0 (by omega)
      rw [hnil] at hA
      simp only [List.takeWhile_nil, List.filter_nil] at hA
      subst hA
      exact hnilcase cnt s L hE hc1

theorem FindContacts_advance_spec (s : b2ParticleSystem) (bl : Nat) :
    ∀ (fuel : Nat) (c : Int), 0 ≤ c → c ≤ s.m_count → (s.m_count - c).toNat ≤ fuel →
      c ≤ FindContacts_advance s bl fuel c ∧ FindContacts_advance s bl fuel c ≤ s.m_count ∧
      (∀ i, c ≤ i → i < FindContacts_advance s bl fuel c → (s.m_proxyBuffer i).tag < bl) ∧
      (FindContacts_advance s bl fuel c < s.m_count →
        bl ≤ (s.m_proxyBuffer (FindContacts_advance s bl fuel c)).tag) := by
  intro fuel
  induction fuel with
  | zero =>
    intro c h0 h1 hf
    rw [FindContacts_advance]
    exact ⟨le_refl _, h1, fun i _ _ => by omega, fun h => by omega⟩
  | succ fuel ih =>
    intro c h0 h1 hf
    rw [FindContacts_advance]
    by_cases hc : c < s.m_count
    · rw [if_pos hc]
      by_cases ht : bl ≤ (s.m_proxyBuffer c).tag
      · rw [if_pos ht]
        exact ⟨le_refl _, h1, fun i _ _ => by omega, fun _ => ht⟩
      · rw [if_neg ht]
        obtain ⟨i1, i2, i3, i4⟩ := ih (c + 1) (by omega) (by omega) (by omega)
        refine ⟨by omega, i2, fun i hi1 hi2 => ?_, i4⟩
        by_cases hic : i = c
        · subst hic; omega
        · exact i3 i (by omega) hi2
    · rw [if_neg hc]
      exact ⟨le_refl _, h1, fun i _ _ => by omega, fun h => by omega⟩

theorem computeRelativeTag_right {t : Nat} (h : t < 4094 * 2 ^ 20) :
    computeRelativeTag t 1 0 = t + 256 := by
  unfold computeRelativeTag
  rw [yShift_eq, xShift_eq]
  omega

theorem computeRelativeTag_bottomLeft {t : Nat} (h : t < 4094 * 2 ^ 20) :
    computeRelativeTag t (-1) 1 = t + 2 ^ 20 - 256 := by
  unfold computeRelativeTag
  rw [yShift_eq, xShift_eq]
  omega

theorem computeRelativeTag_bottomRight {t : Nat} (h : t < 4094 * 2 ^ 20) :
    computeRelativeTag t 1 1 = t + 2 ^ 20 + 256 := by
  unfold computeRelativeTag
  rw [yShift_eq, xShift_eq]
  omega

theorem bufToList_pairwise {α : Type} (buf : Int → α) (n : Int) (R : α → α → Prop)
    (h : ∀ i j, 0 ≤ i → i < j → j < n → R (buf i) (buf j)) :
    (bufToList buf n).Pairwise R := by
  unfold bufToList
  rw [List.pairwise_map]
  refine (List.pairwise_lt_range n.toNat).imp_of_mem ?_
  intro i j hi hj hij
  rw [List.mem_range] at hi hj
  exact h _ _ (by simp) (by simp only [Int.ofNat_eq_coe]; omega)
    (by simp only [Int.ofNat_eq_coe]; omega)

theorem proxiesFrom_pairwise (s : b2ParticleSystem) (hs : SortedByTag s) (b : Int) :
    (proxiesFrom s b).Pairwise (fun p q => p.tag ≤ q.tag) := by
  unfold proxiesFrom
  refine List.Pairwise.sublist (List.drop_sublist _ _) ?_
  apply bufToList_pairwise
  intro i j hi hij hj
  exact hs i j hi (by omega) hj

theorem proxiesFrom_filter (s : b2ParticleSystem) (q : Proxy → Bool) (c : Int) :
    ∀ (k : Nat) (b : Int), 0 ≤ b → b + k = c → c ≤ s.m_count →
      (∀ i, b ≤ i → i < c → q (s.m_proxyBuffer i) = false) →
      (∀ i, c ≤ i → i < s.m_count → q (s.m_proxyBuffer i) = true) →
      (proxiesFrom s b).filter q = proxiesFrom s c := by
  intro k
  induction k with
  | zero =>
    intro b hb hbc hcn hlo hhi
    have e : b = c := by simpa using hbc
    subst e
    rw [List.filter_eq_self]
    intro p hp
    obtain ⟨i, hi0, hi1, rfl⟩ := (mem_proxiesFrom s hb p).mp hp
    exact hhi i hi0 hi1
  | succ k ih =>
    intro b hb hbc hcn hlo hhi
    push_cast at hbc
    rw [proxiesFrom_cons s hb (by omega), List.filter_cons_of_neg (by
      rw [hlo b (le_refl _) (by omega)]; simp)]
    exact ih (b + 1) (by omega) (by omega) hcn (fun i h1 h2 => hlo i (by omega) h2) hhi

/-! ## One round of the outer loop of `FindContacts` -/

theorem filter_windows (later : List Proxy) (acc : Proxy → Bool) (right bl br : Nat)
    (hs : later.Pairwise (fun p q => p.tag ≤ q.tag)) (h1 : right < bl)
    (hcover : ∀ p ∈ later, acc p = true → p.tag ≤ right ∨ (bl ≤ p.tag ∧ p.tag ≤ br)) :
    later.filter acc =
      (later.takeWhile (fun p => decide (p.tag ≤ right))).filter acc ++
        (((later.filter (fun p => decide (bl ≤ p.tag))).takeWhile
          (fun p => decide (p.tag ≤ br))).filter acc) := by
  have hdw : later.dropWhile (fun p => decide (p.tag ≤ right))
      = later.filter (fun p => !decide (p.tag ≤ right)) := by
    apply dropWhile_eq_filter_of_pairwise
    refine hs.imp ?_
    intro p q hpq hq
    simp only [decide_eq_true_eq] at hq ⊢
    omega
  have hs2 : (later.filter (fun p => decide (bl ≤ p.tag))).Pairwise (fun p q => p.tag ≤ q.tag) :=
    List.Pairwise.sublist (List.filter_sublist _) hs
  have htw : (later.filter (fun p => decide (bl ≤ p.tag))).takeWhile
      (fun p => decide (p.tag ≤ br))
      = (later.filter (fun p => decide (bl ≤ p.tag))).filter (fun p => decide (p.tag ≤ br)) := by
    apply takeWhile_eq_filter_of_pairwise
    refine hs2.imp ?_
    intro p q hpq hq
    simp only [decide_eq_true_eq] at hq ⊢
    omega
  conv_lhs => rw [← List.takeWhile_append_dropWhile (fun p => decide (p.tag ≤ right)) later]
  rw [List.filter_append, hdw, htw]
  congr 1
  rw [List.filter_filter, List.filter_filter, List.filter_filter]
  apply List.filter_congr
  intro p hp
  by_cases hacc : acc p = true
  · rcases hcover p hp hacc with h | ⟨h2, h3⟩
    · have e1 : decide (p.tag ≤ right) = true := by simpa using h
      have e2 : decide (bl ≤ p.tag) = false := by
        rw [decide_eq_false_iff_not]; omega
      simp [e1, e2]
    · have e1 : decide (p.tag ≤ right) = false := by
        rw [decide_eq_false_iff_not]; omega
      have e2 : decide (bl ≤ p.tag) = true := by simpa using h2
      have e3 : decide (p.tag ≤ br) = true := by simpa using h3
      simp [e1, e2, e3]
  · have : acc p = false := by simpa using hacc
    simp [this]

theorem take_filter_windows {α : Type} (A1 A2 : List α) (cap : Nat) (h : A1.length < cap) :
    (A1 ++ A2).take cap = A1 ++ A2.take (cap - A1.length) := by
  rw [List.take_append_eq_append_take, List.take_of_length_le (by omega)]

theorem FindContacts_step_spec (K : Settings) (s0 : b2ParticleSystem)
    (hcap : 0 < K.MAX_CONTACTS_PER_PARTICLE) (hsorted : SortedByTag s0)
    (hbound : ∀ i, 0 ≤ i → i < s0.m_count → (s0.m_proxyBuffer i).tag < 4094 * 2 ^ 20)
    (hcover : ∀ i j, 0 ≤ i → i ≤ j → j < s0.m_count →
      AddContact_accepts s0 (s0.m_proxyBuffer i).idx (s0.m_proxyBuffer j).idx = true →
      (s0.m_proxyBuffer j).tag ≤ (s0.m_proxyBuffer i).tag + 256 ∨
        ((s0.m_proxyBuffer i).tag + 2 ^ 20 ≤ (s0.m_proxyBuffer j).tag + 256 ∧
          (s0.m_proxyBuffer j).tag ≤ (s0.m_proxyBuffer i).tag + 2 ^ 20 + 256))
    (a : Int) (ha0 : 0 ≤ a) (ha1 : a < s0.m_count) (c : Int) (s : b2ParticleSystem)
    (L : List b2ParticleContact) (hE : Emitted s0 s L) (hc0 : 0 ≤ c) (hcn : c ≤ s0.m_count)
    (hcinv : ∀ i, 0 ≤ i → i < c →
      (s0.m_proxyBuffer i).tag + 256 < (s0.m_proxyBuffer a).tag + 2 ^ 20) :
    Emitted s0 (FindContacts_step K (c, s) a).2
        (L ++ (((proxiesFrom s0 (a + 1)).filter
            (fun p => AddContact_accepts s0 (s0.m_proxyBuffer a).idx p.idx)).take
              K.MAX_CONTACTS_PER_PARTICLE.toNat).map
          (fun p => AddContact_entry K s0 (s0.m_proxyBuffer a).idx p.idx)) ∧
      0 ≤ (FindContacts_step K (c, s) a).1 ∧ (FindContacts_step K (c, s) a).1 ≤ s0.m_count ∧
      ∀ i, 0 ≤ i → i < (FindContacts_step K (c, s) a).1 →
        (s0.m_proxyBuffer i).tag + 256 < (s0.m_proxyBuffer a).tag + 2 ^ 20 := by
  have hcount := hE.count
  have hproxy := hE.proxy
  have hTa := hbound a ha0 ha1
  have hsl := proxiesFrom_pairwise s0 hsorted (a + 1)
  -- the windows cover the accepted proxies behind `a`
  have hcov : ∀ p ∈ proxiesFrom s0 (a + 1),
      AddContact_accepts s0 (s0.m_proxyBuffer a).idx p.idx = true →
      p.tag ≤ (s0.m_proxyBuffer a).tag + 256 ∨
        ((s0.m_proxyBuffer a).tag + 2 ^ 20 - 256 ≤ p.tag ∧
          p.tag ≤ (s0.m_proxyBuffer a).tag + 2 ^ 20 + 256) := by
    intro p hp hacc
    obtain ⟨j, hj0, hj1, rfl⟩ := (mem_proxiesFrom s0 (by omega) p).mp hp
    rcases hcover a j ha0 (by omega) hj1 hacc with h | ⟨h1, h2⟩
    · exact Or.inl h
    · exact Or.inr ⟨by omega, h2⟩
  have hwin := filter_windows (proxiesFrom s0 (a + 1))
    (fun p => AddContact_accepts s0 (s0.m_proxyBuffer a).idx p.idx)
    ((s0.m_proxyBuffer a).tag + 256) ((s0.m_proxyBuffer a).tag + 2 ^ 20 - 256)
    ((s0.m_proxyBuffer a).tag + 2 ^ 20 + 256) hsl (by omega) hcov
  -- the first inner loop
  obtain ⟨e1, f1, g1⟩ := FindContacts_scan_spec K s0 (s0.m_proxyBuffer a).idx
    ((s0.m_proxyBuffer a).tag + 256) (s0.m_count - (a + 1)).toNat (a + 1) 0 s L _ hE (by omega)
    (le_refl _) (le_refl _) hcap rfl
  simp only [FindContacts_step]
  rw [hproxy, hcount, computeRelativeTag_right hTa, computeRelativeTag_bottomLeft hTa,
    computeRelativeTag_bottomRight hTa]
  generalize FindContacts_scan K (s0.m_proxyBuffer a).idx ((s0.m_proxyBuffer a).tag + 256)
    (s0.m_count - (a + 1)).toNat (a + 1) 0 s = r1 at e1 f1 g1 ⊢
  rw [sub_zero] at e1 f1
  by_cases hr : r1.1 = true
  · rw [if_pos hr]
    refine ⟨?_, hc0, hcn, hcinv⟩
    rw [hwin, List.take_append_of_le_length (f1 hr)]
    exact e1
  · rw [if_neg hr]
    have hr' : r1.1 = false := by simpa using hr
    obtain ⟨g2, g3⟩ := g1 hr'
    rw [zero_add] at g2 g3
    have hcount1 := e1.count
    have hproxy1 := e1.proxy
    rw [hcount1]
    -- the pointer `c`
    obtain ⟨a1, a2, a3, a4⟩ := FindContacts_advance_spec r1.2.2
      ((s0.m_proxyBuffer a).tag + 2 ^ 20 - 256) (s0.m_count - c).toNat c hc0
      (by rw [hcount1]; exact hcn) (by rw [hcount1])
    rw [hcount1] at a2 a4
    rw [hproxy1] at a3 a4
    generalize FindContacts_advance r1.2.2 ((s0.m_proxyBuffer a).tag + 2 ^ 20 - 256)
      (s0.m_count - c).toNat c = c1 at a1 a2 a3 a4 ⊢
    have hlow : ∀ i, 0 ≤ i → i < c1 →
        (s0.m_proxyBuffer i).tag + 256 < (s0.m_proxyBuffer a).tag + 2 ^ 20 := by
      intro i hi0 hi1
      by_cases hic : i < c
      · exact hcinv i hi0 hic
      · have := a3 i (by omega) hi1
        omega
    have hhigh : ∀ i, c1 ≤ i → i < s0.m_count →
        (s0.m_proxyBuffer a).tag + 2 ^ 20 - 256 ≤ (s0.m_proxyBuffer i).tag := by
      intro i hi0 hi1
      have h1 := a4 (by omega)
      have h2 := hsorted c1 i (by omega) hi0 hi1
      omega
    have hac : a + 1 ≤ c1 := by
      by_contra hlt
      have h1 := hhigh a (by omega) ha1
      omega
    have hfrom : (proxiesFrom s0 (a + 1)).filter
        (fun p => decide ((s0.m_proxyBuffer a).tag + 2 ^ 20 - 256 ≤ p.tag))
        = proxiesFrom s0 c1 := by
      apply proxiesFrom_filter s0 _ c1 (c1 - (a + 1)).toNat (a + 1) (by omega) (by omega) a2
      · intro i hi0 hi1
        rw [decide_eq_false_iff_not]
        have := hlow i (by omega) hi1
        omega
      · intro i hi0 hi1
        rw [decide_eq_true_eq]
        exact hhigh i hi0 hi1
    -- the second inner loop
    obtain ⟨e2, f2, -⟩ := FindContacts_scan_spec K s0 (s0.m_proxyBuffer a).idx
      ((s0.m_proxyBuffer a).tag + 2 ^ 20 + 256) (s0.m_count - c1).toNat c1 r1.2.1 r1.2.2 _ _ e1
      (by omega) (le_refl _) (by rw [g2]; exact Int.natCast_nonneg _) (by rw [g2]; exact g3) rfl
    refine ⟨?_, by omega, a2, hlow⟩
    rw [hwin, hfrom, take_filter_windows _ _ _ (by omega), List.map_append, ← List.append_assoc]
    rw [List.take_of_length_le (by omega)] at e2
    have e3 : (K.MAX_CONTACTS_PER_PARTICLE - r1.2.1).toNat = K.MAX_CONTACTS_PER_PARTICLE.toNat -
        (List.filter (fun p => AddContact_accepts s0 (s0.m_proxyBuffer a).idx p.idx)
          (List.takeWhile (fun p => decide (p.tag ≤ (s0.m_proxyBuffer a).tag + 256))
            (proxiesFrom s0 (a + 1)))).length := by
      rw [g2]; omega
    rw [e3] at e2
    exact e2

/-! ## The outer loop of `FindContacts` -/

theorem cappedAllPairs_cons (K : Settings) (s : b2ParticleSystem) (a : Proxy)
    (later : List Proxy) :
    cappedAllPairs K s (a :: later) =
      (((later.filter (fun b => AddContact_accepts s a.idx b.idx)).take
          K.MAX_CONTACTS_PER_PARTICLE.toNat).map
        (fun b => AddContact_entry K s a.idx b.idx)) ++ cappedAllPairs K s later := rfl

theorem FindContacts_loop_spec (K : Settings) (s0 : b2ParticleSystem)
    (hcap : 0 < K.MAX_CONTACTS_PER_PARTICLE) (hsorted : SortedByTag s0)
    (hbound : ∀ i, 0 ≤ i → i < s0.m_count → (s0.m_proxyBuffer i).tag < 4094 * 2 ^ 20)
    (hcover : ∀ i j, 0 ≤ i → i ≤ j → j < s0.m_count →
      AddContact_accepts s0 (s0.m_proxyBuffer i).idx (s0.m_proxyBuffer j).idx = true →
      (s0.m_proxyBuffer j).tag ≤ (s0.m_proxyBuffer i).tag + 256 ∨
        ((s0.m_proxyBuffer i).tag + 2 ^ 20 ≤ (s0.m_proxyBuffer j).tag + 256 ∧
          (s0.m_proxyBuffer j).tag ≤ (s0.m_proxyBuffer i).tag + 2 ^ 20 + 256))
    (s1 : b2ParticleSystem) (hE : Emitted s0 s1 []) :
    Emitted s0 (forLoop 0 s0.m_count (FindContacts_step K) (0, s1)).2
      (cappedAllPairs K s0 (proxiesFrom s0 0)) := by
  by_cases hn : 0 ≤ s0.m_count
  · have key := forLoop_induction
      (fun (a : Int) (st : Int × b2ParticleSystem) =>
        ∃ L, Emitted s0 st.2 L ∧
          L ++ cappedAllPairs K s0 (proxiesFrom s0 a) = cappedAllPairs K s0 (proxiesFrom s0 0) ∧
          0 ≤ st.1 ∧ st.1 ≤ s0.m_count ∧
          (a < s0.m_count → ∀ i, 0 ≤ i → i < st.1 →
            (s0.m_proxyBuffer i).tag + 256 < (s0.m_proxyBuffer a).tag + 2 ^ 20))
      (FindContacts_step K) (0, s1) hn
      ⟨[], hE, rfl, le_refl _, hn, fun _ i h0 h1 => by omega⟩
      (by
        intro a st ha0 ha1 hP
        obtain ⟨L, h1, h2, h3, h4, h5⟩ := hP
        obtain ⟨c, s⟩ := st
        obtain ⟨k1, k2, k3, k4⟩ := FindContacts_step_spec K s0 hcap hsorted hbound hcover a ha0
          ha1 c s L h1 h3 h4 (h5 ha1)
        refine ⟨_, k1, ?_, k2, k3, ?_⟩
        · rw [← h2, proxiesFrom_cons s0 ha0 ha1, cappedAllPairs_cons, List.append_assoc]
        · intro ha2 i hi0 hi1
          have := k4 i hi0 hi1
          have := hsorted a (a + 1) ha0 (by omega) ha2
          omega)
    obtain ⟨L, h1, h2, -⟩ := key
    rw [proxiesFrom_of_le s0 (le_refl _)] at h2
    have e : L = cappedAllPairs K s0 (proxiesFrom s0 0) := by
      rw [← h2]
      show L = L ++ []
      rw [List.append_nil]
    rw [← e]
    exact h1
  · rw [forLoop_of_le (by omega), proxiesFrom_of_le s0 (by omega)]
    exact hE

theorem ResizeContactBuffers_view (K : Settings) (s : b2ParticleSystem) (size : Int) :
    contactView (ResizeContactBuffers K s size) = contactView s := by
  simp only [ResizeContactBuffers]
  split_ifs <;> rfl

theorem FindContacts_spec (K : Settings) (s : b2ParticleSystem)
    (hcap : 0 < K.MAX_CONTACTS_PER_PARTICLE) (hsorted : SortedByTag s)
    (hbound : ∀ i, 0 ≤ i → i < s.m_count → (s.m_proxyBuffer i).tag < 4094 * 2 ^ 20)
    (hcover : ∀ i j, 0 ≤ i → i ≤ j → j < s.m_count →
      AddContact_accepts s (s.m_proxyBuffer i).idx (s.m_proxyBuffer j).idx = true →
      (s.m_proxyBuffer j).tag ≤ (s.m_proxyBuffer i).tag + 256 ∨
        ((s.m_proxyBuffer i).tag + 2 ^ 20 ≤ (s.m_proxyBuffer j).tag + 256 ∧
          (s.m_proxyBuffer j).tag ≤ (s.m_proxyBuffer i).tag + 2 ^ 20 + 256)) :
    bufToList (FindContacts K s).m_partContactBuf (FindContacts K s).m_contactCount =
      cappedAllPairs K s (bufToList s.m_proxyBuffer s.m_count) := by
  have hv := ResizeContactBuffers_view K s (s.m_count * K.MAX_CONTACTS_PER_PARTICLE)
  have hE : Emitted s
      { ResizeContactBuffers K s (s.m_count * K.MAX_CONTACTS_PER_PARTICLE) with
        m_contactCount := 0 } [] :=
    ⟨hv, rfl, bufToList_of_nonpos _ (le_refl _)⟩
  have hc : (ResizeContactBuffers K s (s.m_count * K.MAX_CONTACTS_PER_PARTICLE)).m_count
      = s.m_count := hE.count
  have := FindContacts_loop_spec K s hcap hsorted hbound hcover _ hE
  rw [proxiesFrom_zero] at this
  have e : FindContacts K s = (forLoop 0 s.m_count (FindContacts_step K)
      (0, { ResizeContactBuffers K s (s.m_count * K.MAX_CONTACTS_PER_PARTICLE) with
        m_contactCount := 0 })).2 := by
    simp only [FindContacts]
    rw [hc]
  rw [e]
  exact this.2.2

/-! ## `FindContacts` against the all-pairs check -/

/-- Six particles at one point, all in collision group `0`, with a cap of four
contacts per particle.  The proxy array is sorted by tag and the particles `0`
and `5` are within one diameter with `AddContact` accepting them in either order,
but the four contacts of particle `0` go to the particles `1 .. 4` and no contact
joins `0` and `5`. -/
theorem FindContacts_misses_pair_at_cap :
    SortedByTag crowd ∧
      AddContact_accepts crowd 0 5 = true ∧ AddContact_accepts crowd 5 0 = true ∧
      (crowd.m_positions 5 - crowd.m_positions 0).dot (crowd.m_positions 5 - crowd.m_positions 0)
        ≤ crowd.m_squaredDiameter ∧
      ∀ c ∈ bufToList (FindContacts sampleSettings crowd).m_partContactBuf
          (FindContacts sampleSettings crowd).m_contactCount,
        ¬ ((c.idxA = 0 ∧ c.idxB = 5) ∨ (c.idxA = 5 ∧ c.idxB = 0)) :=
  ⟨fun _ _ _ _ _ => le_refl _, by decide!, by decide!, by decide!, by decide!⟩

/-- C1 at a failing input: two particles of diameter `1` in collision group `0`,
at `(-3/32768, 0)` and `(1 - 1/8192, 0)`, so `1 - 2^-15` apart, with a cap of four
contacts per particle.  Their proxies carry the tags that `UpdateProxies` computes
and are sorted.  The column sum of the first particle, `524288 - 3/128`, rounds
in `float32` to `524288 - 1/32` and is truncated to `524287`; that of the second,
`524544 - 1/32`, is a tie that rounds up to `524544`.  The tags are `257` apart,
the window of the first scan ends at `tag + 256`, the second window starts a row
further, and `FindContacts` writes no contact, although `AddContact` accepts the
pair in either order. -/
theorem FindContacts_misses_rounded_neighbour :
    roundedNeighbours.m_count = 2 ∧
      (roundedNeighbours.m_proxyBuffer 0).tag =
        proxyTag roundedNeighbours (roundedNeighbours.m_positions 0) ∧
      (roundedNeighbours.m_proxyBuffer 1).tag =
        proxyTag roundedNeighbours (roundedNeighbours.m_positions 1) ∧
      (roundedNeighbours.m_proxyBuffer 0).tag + 257 = (roundedNeighbours.m_proxyBuffer 1).tag ∧
      computeRelativeTag (roundedNeighbours.m_proxyBuffer 0).tag 1 0 + 1 =
        (roundedNeighbours.m_proxyBuffer 1).tag ∧
      (roundedNeighbours.m_positions 1 - roundedNeighbours.m_positions 0).dot
          (roundedNeighbours.m_positions 1 - roundedNeighbours.m_positions 0)
        < roundedNeighbours.m_squaredDiameter ∧
      AddContact_accepts roundedNeighbours 0 1 = true ∧
      AddContact_accepts roundedNeighbours 1 0 = true ∧
      (FindContacts sampleSettings roundedNeighbours).m_contactCount = 0 := by
  refine ⟨rfl, by decide!, by decide!, by decide!, by decide!, by decide!, by decide!,
    by decide!, by decide!⟩

/-! ## Collision groups -/

theorem toInt32_of_IsInt32 {x : Int} (h : IsInt32 x) : toInt32 x = x := by
  obtain ⟨h0, h1⟩ := h
  unfold toInt32
  omega

theorem toInt32_neg {b : Int} (hb : IsInt32 b) (hmin : b ≠ -2 ^ 31) : toInt32 (-b) = -b := by
  obtain ⟨h0, h1⟩ := hb
  unfold toInt32
  omega

/-- C11: for all `int32` group ids `a` and `b`, `ShouldCollisionGroupsCollide(a, b)`
returns true exactly when `a = 0` or `a` differs from `-b` (the negation being the
32-bit one, which is the integer negation unless `b` is the least `int32`); it
returns false for every nonzero `g` paired with `-g`. -/
theorem ShouldCollisionGroupsCollide_rule (a b : Int) (ha : IsInt32 a) (hb : IsInt32 b) :
    (ShouldCollisionGroupsCollide a b = true ↔ a = 0 ∨ a ≠ toInt32 (-b)) ∧
      (b ≠ -2 ^ 31 → (ShouldCollisionGroupsCollide a b = true ↔ a = 0 ∨ a ≠ -b)) ∧
      (a ≠ 0 → b = -a → ShouldCollisionGroupsCollide a b = false) := by
  have key : ShouldCollisionGroupsCollide a b = true ↔ a = 0 ∨ a ≠ toInt32 (-b) := by
    unfold ShouldCollisionGroupsCollide
    by_cases h : a = 0
    · simp [h]
    · simp [h]
  refine ⟨key, fun hmin => ?_, fun h0 hneg => ?_⟩
  · rw [key, toInt32_neg hb hmin]
  · have hmin : b ≠ -2 ^ 31 := by
      obtain ⟨a0, a1⟩ := ha
      omega
    have e : toInt32 (-b) = a := by rw [toInt32_neg hb hmin]; omega
    have : ¬ (ShouldCollisionGroupsCollide a b = true) := by
      rw [key, e]
      simp [h0]
    simpa using this

/-- The hypotheses of `ShouldCollisionGroupsCollide_rule` hold for the groups `7`
and `-7`, which do not collide. -/
theorem ShouldCollisionGroupsCollide_rule_witness :
    IsInt32 7 ∧ IsInt32 (-7) ∧ ShouldCollisionGroupsCollide 7 (-7) = false :=
  ⟨by unfold IsInt32; decide, by unfold IsInt32; decide,
    (ShouldCollisionGroupsCollide_rule 7 (-7) (by unfold IsInt32; decide)
      (by unfold IsInt32; decide)).2.2 (by decide) (by decide)⟩

/-- C12 at failing inputs.  On the host path `AddContact` lets a particle of
collision group `-3` collide with one of group `3` when the first comes first, and
`FindContacts` emits their contact, while in the other order the pair is refused;
a particle of group `5` is refused a particle of group `0` that it meets as first
particle, though group `0` is accepted with group `5` in the other order.  On the
accelerated path `ShouldCollisionGroupsCollide` lets the distinct positive groups
`5` and `7` collide. -/
theorem collision_filter_breaks_group_rule :
    AddContact_accepts opposedGroups 0 1 = true ∧
      AddContact_accepts opposedGroups 1 0 = false ∧
      (bufToList (FindContacts sampleSettings opposedGroups).m_partContactBuf
        (FindContacts sampleSettings opposedGroups).m_contactCount).map
          (fun c => (c.idxA, c.idxB)) = [(0, 1)] ∧
      AddContact_accepts zeroAndFive 0 1 = true ∧
      AddContact_accepts zeroAndFive 1 0 = false ∧
      ShouldCollisionGroupsCollide 5 7 = true ∧
      ShouldCollisionGroupsCollide (-3) 3 = false := by
  refine ⟨by decide!, by decide!, by decide!, by decide!, by decide!, by decide!, by decide!⟩

/-! ## The fields of a contact -/

/-- The weight and the normal that both `AddContact` and the lambda of
`AmpFindContacts` compute from the offset `d`, when `invD` is the inverse of the
distance `dist`. -/
theorem contact_weight_normal (d : b2Vec3) (dist invD diameter invDiameter : ℚ)
    (hpos : 0 < dist) (hsq : dist * dist = d.dot d) (hinv : invD * dist = 1)
    (hdiam : invDiameter * diameter = 1) (hle : dist ≤ diameter) :
    1 - d.dot d * invD * invDiameter = 1 - dist / diameter ∧
      0 ≤ 1 - dist / diameter ∧ 1 - dist / diameter ≤ 1 ∧
      invD • d = (1 / dist) • d ∧ (invD • d).dot (invD • d) = 1 := by
  have hd0 : 0 < diameter := lt_of_lt_of_le hpos hle
  have e1 : invD = 1 / dist := by field_simp; linarith
  have e2 : invDiameter = 1 / diameter := by field_simp; linarith
  refine ⟨?_, ?_, ?_, by rw [e1], ?_⟩
  · rw [← hsq, e1, e2]
    field_simp
  · have : dist / diameter ≤ 1 := (div_le_one hd0).mpr hle
    linarith
  · have : 0 ≤ dist / diameter := div_nonneg hpos.le hd0.le
    linarith
  · have h2 : (invD • d).dot (invD • d) = invD * invD * d.dot d := by
      simp only [b2Vec3.dot, b2Vec3.smul_x, b2Vec3.smul_y, b2Vec3.smul_z]
      ring
    rw [h2, ← hsq]
    have : invD * invD * (dist * dist) = (invD * dist) * (invD * dist) := by ring
    rw [this, hinv]
    norm_num

/-- The mass that the lambda of `AmpFindContacts` stores: the inverse of the sum of
the inverse masses, those of Wall particles counting as `0`, and `0` when the sum
is not positive. -/
theorem AmpFindContacts_addContact_mass (K : Settings) (shouldCollide : Int → Int → Bool)
    (positions : Int → b2Vec3) (flags : Int → Nat) (invMasses : Int → ℚ)
    (invDiameter sqrDiameter : ℚ) (a b : Int) (contact : b2ParticleContact)
    (h : (AmpFindContacts_addContact K shouldCollide positions flags invMasses invDiameter
      sqrDiameter a b contact).1 = true) :
    (AmpFindContacts_addContact K shouldCollide positions flags invMasses invDiameter
      sqrDiameter a b contact).2.mass =
      if (if hasFlag (flags a) Particle.Mat.Wall then 0 else invMasses a) +
          (if hasFlag (flags b) Particle.Mat.Wall then 0 else invMasses b) > 0
      then 1 / ((if hasFlag (flags a) Particle.Mat.Wall then 0 else invMasses a) +
          (if hasFlag (flags b) Particle.Mat.Wall then 0 else invMasses b))
      else 0 := by
  unfold AmpFindContacts_addContact at h ⊢
  by_cases h1 : (!shouldCollide a b) = true
  · rw [if_pos h1] at h
    simp at h
  · rw [if_neg h1] at h ⊢
    by_cases h2 : (positions b - positions a).dot (positions b - positions a) > sqrDiameter
    · simp only [h2, if_true] at h
      simp at h
    · simp only [h2, if_false]

/-- The mass that the host `AddContact` stores is the sum of the two masses when
that sum is positive. -/
theorem AddContact_entry_mass (K : Settings) (s : b2ParticleSystem) (a b : Int)
    (h : 0 < s.m_masses a + s.m_masses b) :
    (AddContact_entry K s a b).mass = s.m_masses a + s.m_masses b := by
  have h1 : 1 / (s.m_masses a + s.m_masses b) > 0 := one_div_pos.mpr h
  show (if 1 / (s.m_masses a + s.m_masses b) > 0 then 1 / (1 / (s.m_masses a + s.m_masses b))
    else 0) = _
  rw [if_pos h1, one_div_one_div]

/-- C13 at a failing input: two particles of mass `1` (inverse mass `1`) at
distance `1`, diameter `2`.  The contact of the host `AddContact` has weight `1/2`
and normal `(1, 0, 0)`, but its mass is `2`, the sum of the masses, where
`1 / (ia + ib)` is `1/2`; the lambda of `AmpFindContacts` stores `1/2`. -/
theorem AddContact_mass_is_sum_of_masses :
    (AddContact sampleSettings unitMassPair 0 1).1 = true ∧
      ((AddContact sampleSettings unitMassPair 0 1).2.m_partContactBuf 0).weight = 1 / 2 ∧
      ((AddContact sampleSettings unitMassPair 0 1).2.m_partContactBuf 0).normal = ⟨1, 0, 0⟩ ∧
      ((AddContact sampleSettings unitMassPair 0 1).2.m_partContactBuf 0).mass = 2 ∧
      1 / (unitMassPair.m_invMasses 0 + unitMassPair.m_invMasses 1) = 1 / 2 ∧
      (AmpFindContacts_addContact sampleSettings (fun _ _ => true) unitMassPair.m_ampPositions
        unitMassPair.m_ampFlags unitMassPair.m_ampInvMasses unitMassPair.m_inverseDiameter
        unitMassPair.m_squaredDiameter 0 1 ⟨0, 0, 0, 0, 0, 0⟩).2.mass = 1 / 2 := by
  refine ⟨by decide!, by decide!, by decide!, by decide!, by decide!, by decide!⟩

/-! ## Masses under compaction -/

/-- C14 at a failing input: a zombie of mass `1` at index `0` and a live particle
of mass `2` at index `1`.  `SolveZombie` moves the live particle to index `0` with
its position, but the loop has no assignment for `m_masses` and `m_invMasses`: the
mass and inverse mass found at the new index are those of the removed particle. -/
theorem SolveZombie_leaves_masses :
    survives zombieMasses 1 = true ∧ newIndexOf zombieMasses.m_flags 1 = 0 ∧
      (SolveZombie sampleSettings INVALID_IDX false zombieMasses).m_count = 1 ∧
      (SolveZombie sampleSettings INVALID_IDX false zombieMasses).m_positions 0
        = zombieMasses.m_positions 1 ∧
      zombieMasses.m_masses 1 = 2 ∧
      (SolveZombie sampleSettings INVALID_IDX false zombieMasses).m_masses 0 = 1 ∧
      zombieMasses.m_invMasses 1 = 1 / 2 ∧
      (SolveZombie sampleSettings INVALID_IDX false zombieMasses).m_invMasses 0 = 1 := by
  refine ⟨by decide!, by decide!, by decide!, by decide!, by decide!, by decide!, by decide!,
    by decide!⟩

/-! ## Relative tags -/

theorem computeRelativeTag_add {t : Nat} (dx dy : Int)
    (h0 : 0 ≤ (t : Int) + dy * 2 ^ 20 + dx * 2 ^ 8)
    (h1 : (t : Int) + dy * 2 ^ 20 + dx * 2 ^ 8 < 2 ^ 32) :
    (computeRelativeTag t dx dy : Int) = (t : Int) + dy * 2 ^ 20 + dx * 2 ^ 8 := by
  unfold computeRelativeTag
  rw [yShift_eq, xShift_eq]
  omega

theorem relativeTagRight_eq : relativeTagRight = 256 := by decide

theorem relativeTagBottomLeft_eq : relativeTagBottomLeft = 1048320 := by
  unfold relativeTagBottomLeft
  rw [yShift_eq, xShift_eq]
  omega

theorem relativeTagBottomRight_eq : relativeTagBottomRight = 1048832 := by decide

theorem computeRelativeTag_zero (dx dy : Int) (h0 : 0 ≤ dy * 2 ^ 20 + dx * 2 ^ 8)
    (h1 : dy * 2 ^ 20 + dx * 2 ^ 8 < 2 ^ 32) :
    (computeRelativeTag 0 dx dy : Int) = dy * 2 ^ 20 + dx * 2 ^ 8 := by
  have := computeRelativeTag_add (t := 0) dx dy (by push_cast; omega) (by push_cast; omega)
  rw [this]
  push_cast
  ring

theorem computeRelativeTag_right_mod (t : Nat) :
    computeRelativeTag t 1 0 = (t + relativeTagRight) % 2 ^ 32 := by
  rw [relativeTagRight_eq]
  unfold computeRelativeTag
  rw [yShift_eq, xShift_eq]
  omega

theorem computeRelativeTag_bottomLeft_mod (t : Nat) :
    computeRelativeTag t (-1) 1 = (t + relativeTagBottomLeft) % 2 ^ 32 := by
  rw [relativeTagBottomLeft_eq]
  unfold computeRelativeTag
  rw [yShift_eq, xShift_eq]
  omega

theorem computeRelativeTag_bottomRight_mod (t : Nat) :
    computeRelativeTag t 1 1 = (t + relativeTagBottomRight) % 2 ^ 32 := by
  rw [relativeTagBottomRight_eq]
  unfold computeRelativeTag
  rw [yShift_eq, xShift_eq]
  omega

theorem OnTagGrid.add_int {x : ℚ} (h : OnTagGrid x) (d : Int) : OnTagGrid (x + d) := by
  obtain ⟨m, rfl⟩ := h
  refine ⟨m + 4096 * d, ?_⟩
  push_cast
  ring

/-- C20, amended: for scaled coordinates in the tag range that are multiples of
`2^-12`, for which the `float32` sums of `computeTag` are exact, and integer cell
offsets `dx`, `dy` (in particular those in `{-1, 0, 1}`) that stay in the range,
`computeRelativeTag(computeTag(x, y), dx, dy)` is `computeTag(x + dx, y + dy)`; the
constants `relativeTagRight`, `relativeTagBottomLeft` and `relativeTagBottomRight`
are the relative tags of the offsets `(1, 0)`, `(-1, 1)` and `(1, 1)`, and adding
them in `uint32` arithmetic is `computeRelativeTag` at these offsets. -/
theorem computeRelativeTag_computeTag (x y : ℚ) (dx dy : Int)
    (hgx : OnTagGrid x) (hgy : OnTagGrid y)
    (h : InTagRange x y) (h2 : InTagRange (x + dx) (y + dy)) :
    computeRelativeTag (computeTag x y) dx dy = computeTag (x + dx) (y + dy) ∧
      relativeTagRight = computeRelativeTag 0 1 0 ∧
      relativeTagBottomLeft = computeRelativeTag 0 (-1) 1 ∧
      relativeTagBottomRight = computeRelativeTag 0 1 1 ∧
      computeRelativeTag (computeTag x y) 1 0 = (computeTag x y + relativeTagRight) % 2 ^ 32 ∧
      computeRelativeTag (computeTag x y) (-1) 1
        = (computeTag x y + relativeTagBottomLeft) % 2 ^ 32 ∧
      computeRelativeTag (computeTag x y) 1 1
        = (computeTag x y + relativeTagBottomRight) % 2 ^ 32 := by
  obtain ⟨e1, r1, c1⟩ := computeTag_eq_exact hgx hgy h
  obtain ⟨e2, r2, c2⟩ := computeTag_eq_exact (hgx.add_int dx) (hgy.add_int dy) h2
  have hy0 : 0 ≤ ⌊y + 2048⌋ := Int.floor_nonneg.mpr h.1
  have hx0 : 0 ≤ ⌊256 * x + 524288⌋ := Int.floor_nonneg.mpr h.2.2.1
  have hy2 : 0 ≤ ⌊y + dy + 2048⌋ := Int.floor_nonneg.mpr h2.1
  have hx2 : 0 ≤ ⌊256 * (x + dx) + 524288⌋ := Int.floor_nonneg.mpr h2.2.2.1
  have fy : ⌊y + dy + 2048⌋ = ⌊y + 2048⌋ + dy := by
    rw [← Int.floor_add_int]
    congr 1
    ring
  have fx : ⌊256 * (x + dx) + 524288⌋ = ⌊256 * x + 524288⌋ + 256 * dx := by
    rw [← Int.floor_add_int]
    congr 1
    push_cast
    ring
  have cR := relativeTagRight_eq
  have cBL := relativeTagBottomLeft_eq
  have cBR := relativeTagBottomRight_eq
  have z1 := computeRelativeTag_zero 1 0 (by norm_num) (by norm_num)
  have z2 := computeRelativeTag_zero (-1) 1 (by norm_num) (by norm_num)
  have z3 := computeRelativeTag_zero 1 1 (by norm_num) (by norm_num)
  refine ⟨?_, by omega, by omega, by omega, ?_, ?_, ?_⟩
  · have key := computeRelativeTag_add (t := computeTag x y) dx dy
      (by rw [e1]; push_cast; omega) (by rw [e1]; push_cast; omega)
    have : (computeRelativeTag (computeTag x y) dx dy : Int) = (computeTag (x + dx) (y + dy) : Int) := by
      rw [key, e1, e2]
      push_cast
      omega
    exact_mod_cast this
  · exact computeRelativeTag_right_mod _
  · exact computeRelativeTag_bottomLeft_mod _
  · exact computeRelativeTag_bottomRight_mod _

/-- The hypotheses of `computeRelativeTag_computeTag` hold at the origin for the
bottom-left neighbour. -/
theorem computeRelativeTag_computeTag_witness :
    OnTagGrid 0 ∧ InTagRange 0 0 ∧ InTagRange (0 + ((-1 : Int) : ℚ)) (0 + ((1 : Int) : ℚ)) ∧
      computeRelativeTag (computeTag 0 0) (-1) 1
        = computeTag (0 + ((-1 : Int) : ℚ)) (0 + ((1 : Int) : ℚ)) :=
  ⟨⟨0, by norm_num⟩, by unfold InTagRange; norm_num, by unfold InTagRange; norm_num,
    (computeRelativeTag_computeTag 0 0 (-1) 1 ⟨0, by norm_num⟩ ⟨0, by norm_num⟩
      (by unfold InTagRange; norm_num) (by unfold InTagRange; norm_num)).1⟩

/-- C20 fails as stated: `x = -2^-13`, `y = 0` and the right neighbour `x + 1` are
inside the tag range.  The column sum of `x`, `524288 - 1/32`, is a `float32` and
is truncated to `524287`; the column sum of `x + 1`, `524544 - 1/32`, is a tie
between two `float32` numbers and rounds up to `524544`.  The relative tag
`computeTag(x, y) + 256 = 2148008191` is one less than `computeTag(x + 1, y)`. -/
theorem computeRelativeTag_misses_rounded_tag :
    InTagRange (-1 / 8192) 0 ∧ InTagRange (-1 / 8192 + ((1 : Int) : ℚ)) (0 + ((0 : Int) : ℚ)) ∧
      computeRelativeTag (computeTag (-1 / 8192) 0) 1 0 = 2148008191 ∧
      computeTag (-1 / 8192 + ((1 : Int) : ℚ)) (0 + ((0 : Int) : ℚ)) = 2148008192 := by
  refine ⟨by norm_num [InTagRange], by norm_num [InTagRange], by decide!, by decide!⟩

/-! ## `AdjustCapacityToSize` -/

theorem growCapacity_spec (size : Int) :
    ∀ (fuel : Nat) (cap : Int), 0 < cap → size ≤ cap * 2 ^ fuel →
      size ≤ growCapacity fuel cap size ∧ cap ≤ growCapacity fuel cap size ∧
        ∃ k : Nat, growCapacity fuel cap size = cap * 2 ^ k := by
  intro fuel
  induction fuel with
  | zero =>
    intro cap hc hs
    rw [growCapacity]
    exact ⟨by simpa using hs, le_refl _, 0, by simp⟩
  | succ fuel ih =>
    intro cap hc hs
    rw [growCapacity]
    by_cases h : size > cap
    · rw [if_pos h]
      obtain ⟨i1, i2, k, i3⟩ := ih (cap * 2) (by omega) (by rw [pow_succ] at hs; linarith)
      exact ⟨i1, by omega, k + 1, by rw [i3, pow_succ]; ring⟩
    · rw [if_neg h]
      exact ⟨by omega, le_refl _, 0, by simp⟩

theorem ediv_two_ediv_pow (a : Int) (ha : 0 ≤ a) (k : Nat) :
    a / 2 / 2 ^ k = a / 2 ^ (k + 1) := by
  obtain ⟨n, rfl⟩ := Int.eq_ofNat_of_zero_le ha
  have h : ((n / 2 / 2 ^ k : Nat) : Int) = ((n / 2 ^ (k + 1) : Nat) : Int) := by
    rw [Nat.div_div_eq_div_mul, pow_succ, mul_comm]
  push_cast at h
  exact h

theorem shrinkCapacity_spec (size : Int) (hsize : 0 ≤ size) :
    ∀ (fuel : Nat) (cap : Int), 0 ≤ cap → cap < 2 ^ fuel → size ≤ cap →
      size ≤ shrinkCapacity fuel cap size ∧ ¬ (size < shrinkCapacity fuel cap size / 4) ∧
        shrinkCapacity fuel cap size ≤ cap ∧
        ∃ k : Nat, shrinkCapacity fuel cap size = cap / 2 ^ k := by
  intro fuel
  induction fuel with
  | zero =>
    intro cap hc hf hs
    rw [shrinkCapacity]
    have : cap = 0 := by simp at hf; omega
    subst this
    exact ⟨hs, by omega, le_refl _, 0, by simp⟩
  | succ fuel ih =>
    intro cap hc hf hs
    rw [shrinkCapacity]
    by_cases h : size < cap / 4
    · rw [if_pos h]
      have hf2 : cap / 2 < 2 ^ fuel := by
        rw [pow_succ] at hf
        omega
      obtain ⟨i1, i2, i3, k, i4⟩ := ih (cap / 2) (by omega) hf2 (by omega)
      refine ⟨i1, i2, by omega, k + 1, ?_⟩
      rw [i4, ediv_two_ediv_pow _ hc]
    · rw [if_neg h]
      exact ⟨hs, h, le_refl _, 0, by simp⟩

theorem lt_two_pow_toNat (x : Int) : x < 2 ^ x.toNat := by
  rcases lt_or_le x 0 with h | h
  · have : (0 : Int) < 2 ^ x.toNat := by positivity
    omega
  · have h1 : x.toNat < 2 ^ x.toNat := Nat.lt_two_pow _
    have h2 : ((x.toNat : Nat) : Int) < ((2 ^ x.toNat : Nat) : Int) := by exact_mod_cast h1
    push_cast at h2
    omega

/-- C19: for `minCapacity > 0`, `capacity ≥ 0` and every `size`, `AdjustCapacityToSize`
ends both of its loops by their own tests and leaves a capacity of at least
`max(size, minCapacity)`; it returns true exactly when the capacity has changed; a
larger capacity is the old one (or `minCapacity`, when the old one was `0`) doubled
a number of times, and is only chosen when the old one was too small; a smaller
capacity is the old one halved a number of times, is only chosen when
`max(size, minCapacity) < capacity / 4`, and is not halved further than that test
allows. -/
theorem AdjustCapacityToSize_spec (capacity size minCapacity : Int)
    (hmin : 0 < minCapacity) (hcap : 0 ≤ capacity) :
    max size minCapacity ≤ (AdjustCapacityToSize capacity size minCapacity).2 ∧
      ((AdjustCapacityToSize capacity size minCapacity).1 = true ↔
        (AdjustCapacityToSize capacity size minCapacity).2 ≠ capacity) ∧
      (capacity < (AdjustCapacityToSize capacity size minCapacity).2 →
        capacity < max size minCapacity ∧
        ∃ k : Nat, (AdjustCapacityToSize capacity size minCapacity).2 =
          (if capacity = 0 then minCapacity else capacity * 2) * 2 ^ k) ∧
      ((AdjustCapacityToSize capacity size minCapacity).2 < capacity →
        max size minCapacity < capacity / 4 ∧
        ¬ (max size minCapacity < (AdjustCapacityToSize capacity size minCapacity).2 / 4) ∧
        ∃ k : Nat, 0 < k ∧
          (AdjustCapacityToSize capacity size minCapacity).2 = capacity / 2 ^ k) := by
  have hm : (if size < minCapacity then minCapacity else size) = max size minCapacity := by
    split_ifs with h
    · exact (max_eq_right (le_of_lt h)).symm
    · exact (max_eq_left (not_lt.mp h)).symm
  have hm1 : 0 < max size minCapacity := lt_of_lt_of_le hmin (le_max_right _ _)
  simp only [AdjustCapacityToSize]
  rw [hm]
  generalize max size minCapacity = m at hm1 ⊢
  by_cases hg : m > capacity
  · -- grow
    rw [if_pos hg]
    have hc2 : capacity * 2 = 0 ↔ capacity = 0 := by omega
    have hstart : 0 < (if capacity * 2 = 0 then minCapacity else capacity * 2) := by
      split_ifs <;> omega
    have hfuel : m ≤ (if capacity * 2 = 0 then minCapacity else capacity * 2) * 2 ^ m.toNat := by
      have h1 := lt_two_pow_toNat m
      have h2 : (1 : Int) * 2 ^ m.toNat
          ≤ (if capacity * 2 = 0 then minCapacity else capacity * 2) * 2 ^ m.toNat :=
        mul_le_mul_of_nonneg_right (by omega) (by positivity)
      linarith
    obtain ⟨g1, g2, k, g3⟩ := growCapacity_spec m m.toNat _ hstart hfuel
    have hgt : capacity < growCapacity m.toNat
        (if capacity * 2 = 0 then minCapacity else capacity * 2) m := by omega
    refine ⟨g1, ?_, fun _ => ⟨hg, k, ?_⟩, fun h => ?_⟩
    · simp only [true_iff]
      omega
    · rw [g3]
      by_cases h0 : capacity = 0
      · simp [h0]
      · rw [if_neg (by omega), if_neg h0]
    · exact absurd h (show ¬ _ by simp only []; omega)
  · rw [if_neg hg]
    by_cases hs : m < capacity / 4
    · -- shrink
      rw [if_pos hs]
      obtain ⟨s1, s2, s3, k, s4⟩ := shrinkCapacity_spec m (le_of_lt hm1) (capacity / 2).toNat
        (capacity / 2) (by omega) (lt_two_pow_toNat _) (by omega)
      have hlt : shrinkCapacity (capacity / 2).toNat (capacity / 2) m < capacity := by omega
      refine ⟨s1, ?_, fun h => ?_, fun _ => ⟨hs, s2, k + 1, by omega, ?_⟩⟩
      · simp only [true_iff]
        omega
      · exact absurd h (show ¬ _ by simp only []; omega)
      · show shrinkCapacity (capacity / 2).toNat (capacity / 2) m = _
        rw [s4, ediv_two_ediv_pow _ hcap]
    · rw [if_neg hs]
      refine ⟨by simp only []; omega, ?_, fun h => ?_, fun h => ?_⟩
      · simp
      · exact absurd h (by simp)
      · exact absurd h (by simp)

/-- The hypotheses of `AdjustCapacityToSize_spec` hold for an empty buffer that
has to take three entries with a minimum capacity of two: the capacity becomes
`4`. -/
theorem AdjustCapacityToSize_spec_witness :
    (0 : Int) < 2 ∧ (0 : Int) ≤ 0 ∧
      max (3 : Int) 2 ≤ (AdjustCapacityToSize 0 3 2).2 ∧ AdjustCapacityToSize 0 3 2 = (true, 4) :=
  ⟨by decide, by decide,
    (AdjustCapacityToSize_spec 0 3 2 (by decide) (by decide)).1, by decide⟩

/-! ## Handles under compaction -/

theorem newIndexOf_le (flags : Int → Nat) {k : Int} (h : 0 ≤ k) : newIndexOf flags k ≤ k := by
  unfold newIndexOf survivors
  have h1 := List.length_filter_le (fun k => !hasFlag (flags k) Particle.Zombie)
    (bufToList (fun k => k) k)
  rw [bufToList_length] at h1
  omega

theorem SolveZombie_scanStep_handles (st : ZombieScan) (i : Int)
    (hsize : st.sys.m_handleIndexBufferSize ≠ 0) :
    (SolveZombie_scanStep st i).sys.m_handleIndexBufferSize = st.sys.m_handleIndexBufferSize ∧
      handleView (SolveZombie_scanStep st i).sys =
        if hasFlag (st.sys.m_flags i) Particle.Zombie then
          match st.sys.m_handleIndexBuffer i with
          | some h =>
            (Function.update st.sys.m_handles h INVALID_IDX,
              setAt st.sys.m_handleIndexBuffer i none, h :: st.sys.m_freedHandles)
          | none => handleView st.sys
        else if i ≠ st.newCount then
          ((match st.sys.m_handleIndexBuffer i with
            | some h => Function.update st.sys.m_handles h st.newCount
            | none => st.sys.m_handles),
            setAt st.sys.m_handleIndexBuffer st.newCount (st.sys.m_handleIndexBuffer i),
            st.sys.m_freedHandles)
        else handleView st.sys := by
  unfold SolveZombie_scanStep
  simp only
  by_cases hz : hasFlag (st.sys.m_flags i) Particle.Zombie = true
  · rw [if_pos hz, if_pos hz, if_pos hsize]
    cases hb : st.sys.m_handleIndexBuffer i with
    | none => exact ⟨rfl, rfl⟩
    | some h => exact ⟨rfl, rfl⟩
  · rw [if_neg hz, if_neg hz]
    by_cases hm : i ≠ st.newCount
    · rw [if_pos hm, if_pos hm]
      refine ⟨?_, ?_⟩
      · simp only [SolveZombie_move, if_pos hsize]
      · simp only [SolveZombie_move, if_pos hsize]
        rfl
    · rw [if_neg hm, if_neg hm]
      exact ⟨rfl, rfl⟩

theorem HandleInv_step (s : b2ParticleSystem) (hm : HandlesMatchSlots s) (i : Int)
    (st : ZombieScan) (hi0 : 0 ≤ i) (hi1 : i < s.m_count) (hscan : ScanInv s i st)
    (h : HandleInv s i st) : HandleInv s (i + 1) (SolveZombie_scanStep st i) := by
  obtain ⟨hcov, hslot⟩ := hm
  obtain ⟨hs, h1, h2, h3⟩ := h
  have hnc : st.newCount = newIndexOf s.m_flags i := hscan.1
  have hle : st.newCount ≤ i := hscan.2.1
  have hfl : st.sys.m_flags i = s.m_flags i := hscan.2.2.2.1.2 i le_rfl
  have hsize : st.sys.m_handleIndexBufferSize ≠ 0 := by rw [hs]; omega
  obtain ⟨e1, e2⟩ := SolveZombie_scanStep_handles st i hsize
  have hbi : st.sys.m_handleIndexBuffer i = s.m_handleIndexBuffer i := h1 i le_rfl
  -- two slots never share a handle
  have hdist : ∀ k k2 h, 0 ≤ k → k < s.m_count → 0 ≤ k2 → k2 < s.m_count → k ≠ k2 →
      s.m_handleIndexBuffer k = some h → s.m_handleIndexBuffer k2 ≠ some h := by
    intro k k2 h a0 a1 b0 b1 hne hk hk2
    have := hslot k h a0 a1 hk
    have := hslot k2 h b0 b1 hk2
    omega
  rw [hfl, hbi] at e2
  generalize SolveZombie_scanStep st i = st2 at e1 e2 ⊢
  simp only [handleView, Prod.mk.injEq] at e2
  by_cases hz : hasFlag (s.m_flags i) Particle.Zombie = true
  · rw [if_pos hz] at e2
    cases hb : s.m_handleIndexBuffer i with
    | none =>
      rw [hb] at e2
      simp only [Prod.mk.injEq] at e2
      have f1 := e2.1
      have f2 := e2.2.1
      have f3 := e2.2.2
      refine ⟨e1.trans hs, fun k hk => ?_, fun k h a0 a1 hk => ?_, fun k h a0 a1 hk => ?_⟩
      · rw [f2]; exact h1 k (by omega)
      · by_cases hki : k = i
        · subst hki; rw [hb] at hk; cases hk
        · rw [f1, f2, f3]; exact h2 k h a0 (by omega) hk
      · rw [f1]; exact h3 k h (by omega) a1 hk
    | some h0 =>
      rw [hb] at e2
      simp only [Prod.mk.injEq] at e2
      have f1 := e2.1
      have f2 := e2.2.1
      have f3 := e2.2.2
      refine ⟨e1.trans hs, fun k hk => ?_, fun k h a0 a1 hk => ?_, fun k h a0 a1 hk => ?_⟩
      · rw [f2, setAt_other _ _ (by omega)]; exact h1 k (by omega)
      · by_cases hki : k = i
        · subst hki
          rw [hb] at hk
          cases hk
          rw [if_pos hz, f1, f3]
          exact ⟨by simp, List.mem_cons_self _ _⟩
        · have hne : h ≠ h0 := by
            intro e; subst e
            exact hdist k i h a0 (by omega) hi0 hi1 hki hk hb
          have := h2 k h a0 (by omega) hk
          by_cases hzk : hasFlag (s.m_flags k) Particle.Zombie = true
          · rw [if_pos hzk] at this ⊢
            rw [f1, f3, Function.update_noteq hne]
            exact ⟨this.1, List.mem_cons_of_mem _ this.2⟩
          · rw [if_neg hzk] at this ⊢
            have hlek := newIndexOf_le s.m_flags a0
            rw [f1, f2, Function.update_noteq hne, setAt_other _ _ (by omega)]
            exact this
      · have hne : h ≠ h0 := by
          intro e; subst e
          exact hdist k i h (by omega) a1 hi0 hi1 (by omega) hk hb
        rw [f1, Function.update_noteq hne]
        exact h3 k h (by omega) a1 hk
  · rw [if_neg hz] at e2
    have hzf : hasFlag (s.m_flags i) Particle.Zombie = false := by simpa using hz
    by_cases hmv : i ≠ st.newCount
    · rw [if_pos hmv] at e2
      simp only [Prod.mk.injEq] at e2
      have f1 := e2.1
      have f2 := e2.2.1
      have f3 := e2.2.2
      have hother : ∀ k h, 0 ≤ k → k < s.m_count → k ≠ i → s.m_handleIndexBuffer k = some h →
          st2.sys.m_handles h = st.sys.m_handles h := by
        intro k h a0 a1 hki hk
        rw [f1]
        cases hb : s.m_handleIndexBuffer i with
        | none => rfl
        | some h0 =>
          have hne : h ≠ h0 := by
            intro e; subst e
            exact hdist k i h a0 a1 hi0 hi1 hki hk hb
          exact Function.update_noteq hne _ _
      refine ⟨e1.trans hs, fun k hk => ?_, fun k h a0 a1 hk => ?_, fun k h a0 a1 hk => ?_⟩
      · rw [f2, setAt_other _ _ (by omega)]; exact h1 k (by omega)
      · by_cases hki : k = i
        · subst hki
          rw [if_neg hz, f1, f2, hk, ← hnc, setAt_same]
          exact ⟨by simp, rfl⟩
        · have := h2 k h a0 (by omega) hk
          rw [hother k h a0 (by omega) hki hk, f3]
          by_cases hzk : hasFlag (s.m_flags k) Particle.Zombie = true
          · rw [if_pos hzk] at this ⊢
            exact this
          · rw [if_neg hzk] at this ⊢
            have hzkf : hasFlag (s.m_flags k) Particle.Zombie = false := by simpa using hzk
            have hlt := (survivors_get s.m_flags k i a0 (by omega) hzkf).1
            rw [f2, setAt_other _ _ (by omega)]
            exact this
      · rw [hother k h (by omega) a1 (by omega) hk]
        exact h3 k h (by omega) a1 hk
    · rw [if_neg hmv] at e2
      simp only [Prod.mk.injEq] at e2
      have f1 := e2.1
      have f2 := e2.2.1
      have f3 := e2.2.2
      have hieq : i = st.newCount := by
        by_contra hc
        exact hmv hc
      refine ⟨e1.trans hs, fun k hk => ?_, fun k h a0 a1 hk => ?_, fun k h a0 a1 hk => ?_⟩
      · rw [f2]; exact h1 k (by omega)
      · rw [f1, f2, f3]
        by_cases hki : k = i
        · subst hki
          rw [if_neg hz, ← hnc, ← hieq, hbi]
          exact ⟨h3 k h le_rfl hi1 hk, hk⟩
        · exact h2 k h a0 (by omega) hk
      · rw [f1]; exact h3 k h (by omega) a1 hk

theorem SolveZombie_scan_handles (s : b2ParticleSystem) (hm : HandlesMatchSlots s)
    (h : 0 ≤ s.m_count) : HandleInv s s.m_count (SolveZombie_scan s) := by
  have key := forLoop_induction
    (fun (i : Int) (st : ZombieScan) => ScanInv s i st ∧ HandleInv s i st)
    SolveZombie_scanStep
    { sys := s, newCount := 0, newIndices := fun _ => 0, allParticleFlags := 0 } h
    (by
      have hscan0 : ScanInv s 0
          { sys := s, newCount := 0, newIndices := fun _ => 0, allParticleFlags := 0 } := by
        have e : survivors s.m_flags 0 = [] := survivors_of_nonpos _ le_rfl
        unfold ScanInv
        rw [e]
        refine ⟨by simp [newIndexOf, e], le_rfl, fun k h0 h1 => by omega,
          ?_, ?_, ?_, ?_, ?_, ?_, ?_⟩ <;>
        exact ⟨by simp [bufToList_of_nonpos], fun _ _ => rfl⟩
      exact ⟨hscan0, rfl, fun _ _ => rfl, fun k h a0 a1 => by omega,
        fun k hh a0 a1 hk => hm.2 k hh a0 a1 hk⟩)
    (by
      intro i st hi0 hi1 hinv
      exact ⟨SolveZombie_scanStep_inv s i st hi0 hinv.1,
        HandleInv_step s hm i st hi0 hi1 hinv.1 hinv.2⟩)
  exact key.2

theorem AdjustCapacityToSize_ge (capacity size minCapacity : Int)
    (hmin : 0 < minCapacity) (hcap : 0 ≤ capacity) :
    size ≤ (AdjustCapacityToSize capacity size minCapacity).2 ∧
      0 ≤ (AdjustCapacityToSize capacity size minCapacity).2 := by
  have hm : (if size < minCapacity then minCapacity else size) = max size minCapacity := by
    split_ifs with h
    · exact (max_eq_right (le_of_lt h)).symm
    · exact (max_eq_left (not_lt.mp h)).symm
  have hm1 : 0 < max size minCapacity := lt_of_lt_of_le hmin (le_max_right _ _)
  have hm2 : size ≤ max size minCapacity := le_max_left _ _
  simp only [AdjustCapacityToSize]
  rw [hm]
  generalize max size minCapacity = m at hm1 hm2 ⊢
  by_cases hg : m > capacity
  · rw [if_pos hg]
    have hstart : 0 < (if capacity * 2 = 0 then minCapacity else capacity * 2) := by
      split_ifs <;> omega
    have hfuel : m ≤ (if capacity * 2 = 0 then minCapacity else capacity * 2) * 2 ^ m.toNat := by
      have h1 := lt_two_pow_toNat m
      have h2 : (1 : Int) * 2 ^ m.toNat
          ≤ (if capacity * 2 = 0 then minCapacity else capacity * 2) * 2 ^ m.toNat :=
        mul_le_mul_of_nonneg_right (by omega) (by positivity)
      linarith
    obtain ⟨g1, g2, _⟩ := growCapacity_spec m m.toNat _ hstart hfuel
    exact ⟨by simp only []; omega, by simp only []; omega⟩
  · rw [if_neg hg]
    by_cases hs : m < capacity / 4
    · rw [if_pos hs]
      obtain ⟨s1, _⟩ := shrinkCapacity_spec m (le_of_lt hm1) (capacity / 2).toNat
        (capacity / 2) (by omega) (lt_two_pow_toNat _) (by omega)
      exact ⟨by simp only []; omega, by simp only []; omega⟩
    · rw [if_neg hs]
      exact ⟨by simp only []; omega, by simp only []; omega⟩

theorem KeepsHandles_of_view {n : Int} {s0 s t : b2ParticleSystem}
    (e : capacityView t = capacityView s) (h : KeepsHandles n s0 s) : KeepsHandles n s0 t := by
  simp only [capacityView, Prod.mk.injEq] at e
  obtain ⟨h1, h2, h3, h4, h5⟩ := h
  unfold KeepsHandles
  rw [e.1, e.2.1, e.2.2.1, e.2.2.2.1, e.2.2.2.2]
  exact ⟨h1, h2, h3, h4, h5⟩

theorem ResizeParticleBuffers_keeps (K : Settings) (s0 s : b2ParticleSystem) (size n : Int)
    (hmin : 0 < K.b2_minParticleBufferCapacity) (hsz : n ≤ size) (h : KeepsHandles n s0 s) :
    KeepsHandles n s0 (ResizeParticleBuffers K s size) := by
  obtain ⟨h1, h2, h3, h4, h5⟩ := h
  obtain ⟨a1, a2⟩ := AdjustCapacityToSize_ge s.m_capacity size K.b2_minParticleBufferCapacity
    hmin h4
  unfold ResizeParticleBuffers
  simp only
  split_ifs
  · refine ⟨h1, h2, le_trans hsz a1, a2, fun k hk => ?_⟩
    show resizeBuf s.m_handleIndexBuffer s.m_handleIndexBufferSize _ none k = _
    unfold resizeBuf
    rw [if_neg (by omega)]
    exact h5 k hk
  · exact ⟨h1, h2, h3, h4, h5⟩

theorem SetGroupFlags_capacityView (K : Settings) (s : b2ParticleSystem) (k : Int)
    (newFlags : Nat) : capacityView (SetGroupFlags K s k newFlags) = capacityView s := by
  unfold SetGroupFlags
  simp only
  show capacityView _ = _
  unfold withGroup capacityView
  simp only
  split_ifs <;> rfl

theorem SolveZombie_groupStep_capacityView (K : Settings) (newIndices : Int → Int)
    (newCount : Int) (s : b2ParticleSystem) (k : Int) :
    capacityView (SolveZombie_groupStep K newIndices newCount s k) = capacityView s := by
  unfold SolveZombie_groupStep
  simp only
  split_ifs <;> first | rfl | (rw [SetGroupFlags_capacityView]; rfl)

theorem AddZombieRange_capacityView (s : b2ParticleSystem) (a b : Int) :
    capacityView (AddZombieRange s a b) = capacityView s := by
  unfold AddZombieRange
  split_ifs
  · simp only
    split
    · split_ifs <;> rfl
    · rfl
  · split
    · rfl
    · split
      · split_ifs <;> rfl
      · rfl

theorem DestroyGroup_zombify_capacityView (s : b2ParticleSystem) (a b : Int) (dp : Bool) :
    capacityView (DestroyGroup_zombify s a b dp) = capacityView s := by
  unfold DestroyGroup_zombify
  split_ifs
  · apply forLoop_frame capacityView; intro st i; rfl
  · apply forLoop_frame capacityView; intro st i; rfl
  · rfl

theorem DestroyGroup_release_capacityView (s : b2ParticleSystem) (k : Int) :
    capacityView (DestroyGroup_release s k) = capacityView s := by
  unfold DestroyGroup_release
  simp only
  split_ifs <;> rfl

/-- `DestroyGroup` on a group whose range is `[0, 0)` keeps the handles of the
first `n` particles when the system has at least `n` particles. -/
theorem DestroyGroup_empty_keeps (K : Settings) (s0 s : b2ParticleSystem) (k timestamp : Int)
    (destroyParticles : Bool) (n : Int) (hmin : 0 < K.b2_minParticleBufferCapacity)
    (hf : (s.m_groupBuffer k).m_firstIndex = 0) (hl : (s.m_groupBuffer k).m_lastIndex = 0)
    (hr : s.m_count = 0 → RangesOk s.m_zombieRanges) (hn : n ≤ s.m_count)
    (h : KeepsHandles n s0 s) :
    KeepsHandles n s0 (DestroyGroup K s k timestamp destroyParticles) := by
  by_cases hg : timestamp ≠ INVALID_IDX ∧ timestamp ≠ 0 ∧
      timestamp ≠ (s.m_groupBuffer k).m_timestamp
  · have e : DestroyGroup K s k timestamp destroyParticles = s := by
      simp only [DestroyGroup]
      rw [if_pos hg]
    rw [e]
    exact h
  · obtain ⟨a1, _⟩ := AddZombieRange_empty s hr
    have a2 := AddZombieRange_capacityView s 0 0
    generalize hs1 : AddZombieRange s 0 0 = s1 at a1 a2
    have r1 := ResizeParticleBuffers_keeps K s0 s1 s1.m_count n hmin (by omega)
      (KeepsHandles_of_view a2 h)
    generalize hs2 : ResizeParticleBuffers K s1 s1.m_count = s2 at r1
    have z1 := DestroyGroup_zombify_capacityView s2 0 0 destroyParticles
    generalize hs3 : DestroyGroup_zombify s2 0 0 destroyParticles = s3 at z1
    have l1 := DestroyGroup_release_capacityView s3 k
    have e : DestroyGroup K s k timestamp destroyParticles = DestroyGroup_release s3 k := by
      simp only [DestroyGroup]
      rw [if_neg hg, hf, hl, hs1, hs2, hs3]
    rw [e]
    exact KeepsHandles_of_view l1 (KeepsHandles_of_view z1 r1)

theorem SolveZombie_destroy_keeps (K : Settings) (timestamp : Int) (destroyParticles : Bool)
    (s0 : b2ParticleSystem) (n : Int) (hmin : 0 < K.b2_minParticleBufferCapacity) :
    ∀ (fuel : Nat) (k : Int) (s : b2ParticleSystem),
      (s.m_count = 0 → RangesOk s.m_zombieRanges) →
      DoomedGroupsEmpty K s k s.m_groupCount → n ≤ s.m_count → KeepsHandles n s0 s →
      KeepsHandles n s0 (SolveZombie_destroy K timestamp destroyParticles fuel k s) := by
  intro fuel
  induction fuel with
  | zero => intro k s _ _ _ h; exact h
  | succ m ih =>
    intro k s hr hd hn h
    unfold SolveZombie_destroy
    by_cases hk : k < s.m_groupCount
    · rw [if_pos hk]
      simp only
      by_cases hlive : (s.m_groupBuffer k).m_firstIndex ≠ INVALID_IDX
      · by_cases hw : hasFlag (s.m_groupBuffer k).m_groupFlags K.WillBeDestroyed = true
        · rw [if_pos hlive, if_pos hw]
          obtain ⟨hf, hl⟩ := hd k le_rfl hk hlive hw
          obtain ⟨d1, d2, d3, d4, d5⟩ :=
            DestroyGroup_empty K s k timestamp destroyParticles hf hl hr
          exact ih (k + 1) (DestroyGroup K s k timestamp destroyParticles) d2
            (fun j hj0 hj1 hjl hjw => by
              rw [d4 j (by omega)] at hjl hjw ⊢
              exact hd j (by omega) (by omega) hjl hjw)
            (by rw [d1]; exact hn)
            (DestroyGroup_empty_keeps K s0 s k timestamp destroyParticles n hmin hf hl hr hn h)
        · rw [if_pos hlive, if_neg hw]
          exact ih (k + 1) s hr (fun j hj0 hj1 => hd j (by omega) hj1) hn h
      · rw [if_neg hlive]
        exact ih (k + 1) s hr (fun j hj0 hj1 => hd j (by omega) hj1) hn h
    · rw [if_neg hk]
      exact h

/-- The phases of `SolveZombie` after the first loop keep the handle records, the
freed handles and the first `newCount` entries of the handle table. -/
theorem SolveZombie_tail_handles (K : Settings) (timestamp : Int) (destroyParticles : Bool)
    (newIndices : Int → Int) (newCount : Int) (s1 : b2ParticleSystem)
    (hd : K.NeedsUpdateDepth &&& K.WillBeDestroyed = 0)
    (hno : NoGroupWillBeDestroyed K s1) (hr : RangesOk s1.m_zombieRanges)
    (hmin : 0 < K.b2_minParticleBufferCapacity) (hcap : 0 ≤ s1.m_capacity)
    (hn : newCount ≤ s1.m_handleIndexBufferSize) :
    let s2 := forLoop 0 s1.m_groupCount (SolveZombie_groupStep K newIndices newCount) s1
    let s3 := { s2 with m_count := newCount, m_needsUpdateAllParticleFlags := true }
    let t := SolveZombie_destroy K timestamp destroyParticles s3.m_groupCount.toNat 0 s3
    KeepsHandles newCount s1 t := by
  intro s2 s3 t
  have hv : capacityView s2 = capacityView s1 :=
    forLoop_frame capacityView _
      (fun st i => SolveZombie_groupStep_capacityView K newIndices newCount st i) _ _ _
  have hs2 : tableView s2 = tableView s1 ∧ DoomedGroupsEmpty K s2 0 s1.m_groupCount := by
    by_cases h0 : 0 ≤ s1.m_groupCount
    · exact (SolveZombie_groups_spec K newIndices newCount s1 hd h0 hno).2
    · have e : s2 = s1 := forLoop_of_le (by omega) _ _
      rw [e]
      exact ⟨rfl, fun k hk0 hk1 => by omega⟩
  obtain ⟨t2, d2⟩ := hs2
  have hgc : s3.m_groupCount = s1.m_groupCount :=
    (tableView_groupCount t2 : s2.m_groupCount = s1.m_groupCount)
  have hzr : s3.m_zombieRanges = s1.m_zombieRanges :=
    (tableView_ranges t2 : s2.m_zombieRanges = s1.m_zombieRanges)
  have hv3 : capacityView s3 = capacityView s1 := hv
  exact SolveZombie_destroy_keeps K timestamp destroyParticles s1 newCount hmin
    s3.m_groupCount.toNat 0 s3 (fun _ => by rw [hzr]; exact hr) (by rw [hgc]; exact d2)
    le_rfl (KeepsHandles_of_view hv3 ⟨rfl, rfl, hn, hcap, fun _ _ => rfl⟩)

theorem SolveZombie_scan_capacity (s : b2ParticleSystem) :
    (SolveZombie_scan s).sys.m_capacity = s.m_capacity := by
  unfold SolveZombie_scan
  refine forLoop_frame (fun st : ZombieScan => st.sys.m_capacity) _ ?_ _ _ _
  intro st i
  simp only [SolveZombie_scanStep, SolveZombie_move]
  split_ifs <;> first | rfl | (split <;> rfl)

/-- C15: let the handle table cover the particles and let every handle in it hold
the index of its slot.  After `SolveZombie` (on a state as `SolveZombieReady`
describes, with a positive minimum capacity), the handle of a particle that
carried the Zombie flag has the index `INVALID_IDX` and is among the handles
given back to the allocator; the handle of a particle that did not carry the
flag has the particle's new index, which is an index of the compacted system and
of the handle table, and the table entry at that index is this handle. -/
theorem SolveZombie_handles (K : Settings) (timestamp : Int) (destroyParticles : Bool)
    (s : b2ParticleSystem) (hm : HandlesMatchSlots s) (hready : SolveZombieReady K s)
    (hmin : 0 < K.b2_minParticleBufferCapacity) (hcap : 0 ≤ s.m_capacity) :
    let t := SolveZombie K timestamp destroyParticles s
    ∀ i h, 0 ≤ i → i < s.m_count → s.m_handleIndexBuffer i = some h →
      if survives s i then
        t.m_handles h = newIndexOf s.m_flags i ∧
          0 ≤ newIndexOf s.m_flags i ∧ newIndexOf s.m_flags i < t.m_count ∧
          t.m_count ≤ t.m_handleIndexBufferSize ∧
          t.m_handleIndexBuffer (newIndexOf s.m_flags i) = some h
      else t.m_handles h = INVALID_IDX ∧ h ∈ t.m_freedHandles := by
  intro t i h hi0 hi1 hslot
  have hc0 : 0 ≤ s.m_count := by omega
  obtain ⟨hd, hno, hr⟩ := hready
  obtain ⟨c1, _, _⟩ := SolveZombie_scan_result s
  obtain ⟨f1, f2⟩ := SolveZombie_scan_frame s
  obtain ⟨v1, _, v3, _⟩ := SolveZombie_scan_handles s hm hc0
  have vc := SolveZombie_scan_capacity s
  generalize hsc : SolveZombie_scan s = sc at c1 f1 f2 v1 v3 vc
  have hgb : sc.sys.m_groupBuffer = s.m_groupBuffer := congrArg (fun v => v.1) f2
  have hno1 : NoGroupWillBeDestroyed K (SolveZombie_remap sc.sys sc.newIndices) := by
    intro k hk0 hk1 hlive
    have e1 : (SolveZombie_remap sc.sys sc.newIndices).m_groupBuffer = s.m_groupBuffer := hgb
    have e2 : (SolveZombie_remap sc.sys sc.newIndices).m_groupCount = s.m_groupCount :=
      tableView_groupCount f1
    rw [e1] at hlive ⊢
    exact hno k hk0 (by rw [← e2]; exact hk1) hlive
  have hr1 : RangesOk (SolveZombie_remap sc.sys sc.newIndices).m_zombieRanges := by
    have e : (SolveZombie_remap sc.sys sc.newIndices).m_zombieRanges = s.m_zombieRanges :=
      tableView_ranges f1
    rw [e]; exact hr
  have hle : sc.newCount ≤ s.m_count := by
    rw [c1]; exact newIndexOf_le s.m_flags hc0
  obtain ⟨tc, _⟩ := SolveZombie_tail K timestamp destroyParticles sc.newIndices sc.newCount
    (SolveZombie_remap sc.sys sc.newIndices) hd hno1 hr1
  obtain ⟨k1, k2, k3, _, k5⟩ := SolveZombie_tail_handles K timestamp destroyParticles
    sc.newIndices sc.newCount (SolveZombie_remap sc.sys sc.newIndices) hd hno1 hr1 hmin
    (by show 0 ≤ sc.sys.m_capacity; rw [vc]; exact hcap)
    (by show sc.newCount ≤ sc.sys.m_handleIndexBufferSize; rw [v1]; exact le_trans hle hm.1)
  have ht : t = SolveZombie_destroy K timestamp destroyParticles
      ({ forLoop 0 (SolveZombie_remap sc.sys sc.newIndices).m_groupCount
          (SolveZombie_groupStep K sc.newIndices sc.newCount)
          (SolveZombie_remap sc.sys sc.newIndices) with
        m_count := sc.newCount, m_needsUpdateAllParticleFlags := true }).m_groupCount.toNat 0
      { forLoop 0 (SolveZombie_remap sc.sys sc.newIndices).m_groupCount
          (SolveZombie_groupStep K sc.newIndices sc.newCount)
          (SolveZombie_remap sc.sys sc.newIndices) with
        m_count := sc.newCount, m_needsUpdateAllParticleFlags := true } := by
    simp only [t, SolveZombie, hsc]
  rw [← ht] at tc k1 k2 k3 k5
  have e1 : t.m_handles = sc.sys.m_handles := k1
  have e2 : t.m_freedHandles = sc.sys.m_freedHandles := k2
  have key := v3 i h hi0 hi1 hslot
  by_cases hz : hasFlag (s.m_flags i) Particle.Zombie = true
  · rw [if_pos hz] at key
    have hs : survives s i = false := by simp [survives, hz]
    rw [hs, e1, e2]
    exact key
  · rw [if_neg hz] at key
    have hzf : hasFlag (s.m_flags i) Particle.Zombie = false := by simpa using hz
    have hs : survives s i = true := by simp [survives, hzf]
    have hlt := (survivors_get s.m_flags i s.m_count hi0 hi1 hzf).1
    rw [← c1] at hlt
    rw [hs, if_pos rfl, e1, tc]
    refine ⟨key.1, newIndexOf_nonneg _ _, hlt, k3, ?_⟩
    have e3 : t.m_handleIndexBuffer (newIndexOf s.m_flags i)
        = sc.sys.m_handleIndexBuffer (newIndexOf s.m_flags i) := k5 _ hlt
    rw [e3]
    exact key.2

theorem handledSample_matches : HandlesMatchSlots handledSample := by
  refine ⟨by decide, ?_⟩
  intro k h hk0 hk1 hslot
  have h3 : k < 3 := hk1
  have hk : k = 0 ∨ k = 1 ∨ k = 2 := by omega
  rcases hk with rfl | rfl | rfl <;>
  · simp only [handledSample] at hslot
    cases hslot
    decide

theorem handledSample_ready : SolveZombieReady sampleSettings handledSample := by
  refine ⟨by decide, ?_, ?_⟩
  · intro k hk0 hk1
    have : handledSample.m_groupCount = 0 := rfl
    omega
  · intro r hr
    cases hr

/-- The hypotheses of `SolveZombie_handles` hold on `handledSample`, where the
zombie in slot `0` has the handle `7` and its neighbour in slot `1` the handle
`8`: handle `7` ends invalid and freed, handle `8` ends with index `0` and in
table entry `0`. -/
theorem SolveZombie_handles_witness :
    HandlesMatchSlots handledSample ∧ SolveZombieReady sampleSettings handledSample ∧
      (SolveZombie sampleSettings INVALID_IDX false handledSample).m_handles 7 = INVALID_IDX ∧
      7 ∈ (SolveZombie sampleSettings INVALID_IDX false handledSample).m_freedHandles ∧
      (SolveZombie sampleSettings INVALID_IDX false handledSample).m_handles 8 = 0 ∧
      (SolveZombie sampleSettings INVALID_IDX false handledSample).m_handleIndexBuffer 0
        = some 8 := by
  have key := SolveZombie_handles sampleSettings INVALID_IDX false handledSample
    handledSample_matches handledSample_ready (by decide) (by decide)
  have k0 := key 0 7 (by decide) (by decide) rfl
  have k1 := key 1 8 (by decide) (by decide) rfl
  have s0 : survives handledSample 0 = false := by decide
  have s1 : survives handledSample 1 = true := by decide
  have n1 : newIndexOf handledSample.m_flags 1 = 0 := by decide
  rw [s0] at k0
  rw [s1, n1] at k1
  exact ⟨handledSample_matches, handledSample_ready, k0.1, k0.2, k1.1, k1.2.2.2.2⟩

/-! ## `QueryAABB` -/

theorem computeTag_mono {x₁ y₁ x₂ y₂ : ℚ} (h₁ : RoundsInTagRange x₁ y₁)
    (h₂ : RoundsInTagRange x₂ y₂) (hx : x₁ ≤ x₂) (hy : y₁ ≤ y₂) :
    computeTag x₁ y₁ ≤ computeTag x₂ y₂ := by
  obtain ⟨t1, b1, c1⟩ := computeTag_eq h₁
  obtain ⟨t2, b2, c2⟩ := computeTag_eq h₂
  have hr : ⌊roundFloat32 (y₁ + 2048)⌋.toNat ≤ ⌊roundFloat32 (y₂ + 2048)⌋.toNat :=
    Int.toNat_le_toNat (Int.floor_le_floor (roundFloat32_mono (by linarith)))
  have hc : ⌊roundFloat32 (roundFloat32 (256 * x₁) + 524288)⌋.toNat ≤
      ⌊roundFloat32 (roundFloat32 (256 * x₂) + 524288)⌋.toNat :=
    Int.toNat_le_toNat (Int.floor_le_floor (roundFloat32_mono
      (by have := roundFloat32_mono (show 256 * x₁ ≤ 256 * x₂ by linarith); linarith)))
  rw [t1, t2]
  have := Nat.mul_le_mul_right (2 ^ 20) hr
  omega

theorem drop_length_takeWhile {α : Type} (p : α → Bool) (l : List α) :
    l.drop (l.takeWhile p).length = l.dropWhile p := by
  have h := List.drop_left (l.takeWhile p) (l.dropWhile p)
  rw [List.takeWhile_append_dropWhile] at h
  exact h

theorem take_length_takeWhile {α : Type} (p : α → Bool) (l : List α) :
    l.take (l.takeWhile p).length = l.takeWhile p := by
  have h := List.take_left (l.takeWhile p) (l.dropWhile p)
  rw [List.takeWhile_append_dropWhile] at h
  exact h

theorem range_map_eq_take_drop {α : Type} (buf : Int → α) (n : Int) (b m : Nat)
    (h : b + m ≤ n.toNat) :
    (List.range m).map (fun (k : Nat) => buf ((b : Int) + k)) =
      ((bufToList buf n).drop b).take m := by
  apply List.ext_getElem
  · rw [List.length_map, List.length_range, List.length_take, List.length_drop,
      bufToList_length]
    omega
  · intro k h1 h2
    rw [List.length_map, List.length_range] at h1
    rw [List.getElem_map, List.getElem_range, List.getElem_take, List.getElem_drop]
    have hb := bufToList_get buf n (b + k) (by push_cast; omega)
    rw [List.get?_eq_getElem?, List.getElem?_eq_some_iff] at hb
    obtain ⟨_, hb⟩ := hb
    rw [hb]
    push_cast
    rfl

theorem QueryAABB_loop_spec {σ : Type} (ReportParticle : σ → Int → Bool × σ)
    (s : b2ParticleSystem) (aabb : b2AABB) :
    ∀ (n : Nat) (proxy : Int) (cb : σ),
      QueryAABB_loop ReportParticle s aabb n proxy cb =
        reportInOrder ReportParticle
          ((((List.range n).map (fun (k : Nat) => s.m_proxyBuffer (proxy + k))).filter
            (fun q => QueryAABB_inside aabb (s.m_positions q.idx))).map (fun q => q.idx)) cb := by
  intro n
  induction n with
  | zero => intro proxy cb; rfl
  | succ n ih =>
    intro proxy cb
    have e : (List.range (n + 1)).map (fun (k : Nat) => s.m_proxyBuffer (proxy + k)) =
        s.m_proxyBuffer proxy ::
          (List.range n).map (fun (k : Nat) => s.m_proxyBuffer (proxy + 1 + k)) := by
      rw [List.range_succ_eq_map, List.map_cons, List.map_map]
      congr 1
      · simp
      · apply List.map_congr_left
        intro k _
        simp only [Function.comp, Nat.succ_eq_add_one]
        congr 1
        push_cast
        ring
    rw [e, QueryAABB_loop]
    simp only
    by_cases hin : QueryAABB_inside aabb (s.m_positions (s.m_proxyBuffer proxy).idx) = true
    · rw [if_pos hin, List.filter_cons]
      simp only [hin, if_true]
      rw [List.map_cons, reportInOrder]
      by_cases hr : (ReportParticle cb (s.m_proxyBuffer proxy).idx).1 = true
      · rw [if_neg (by simp [hr]), if_pos hr]
        exact ih _ _
      · rw [if_pos (by simpa using hr), if_neg hr]
    · rw [if_neg hin, List.filter_cons]
      simp only [hin, Bool.false_eq_true, if_false]
      exact ih _ _

/-- On an array sorted by tag, the proxies between the lower bound of `lo` and
the upper bound of `hi` are those with `lo ≤ tag ≤ hi`. -/
theorem bounds_window (s : b2ParticleSystem) (hs : SortedByTag s) (lo hi : Nat) :
    let firstProxy := lower_bound s.m_proxyBuffer 0 s.m_count lo
    let lastProxy := upper_bound s.m_proxyBuffer firstProxy s.m_count hi
    (List.range (lastProxy - firstProxy).toNat).map
        (fun (k : Nat) => s.m_proxyBuffer (firstProxy + k)) =
      (bufToList s.m_proxyBuffer s.m_count).filter
        (fun q => decide (lo ≤ q.tag) && decide (q.tag ≤ hi)) := by
  intro firstProxy lastProxy
  have hsorted : (bufToList s.m_proxyBuffer s.m_count).Pairwise (fun p q => p.tag ≤ q.tag) := by
    apply bufToList_pairwise
    intro i j hi0 hij hj
    exact hs i j hi0 (by omega) hj
  generalize hL : bufToList s.m_proxyBuffer s.m_count = L at hsorted
  have hlen : (L.length : Int) = s.m_count.toNat := by rw [← hL, bufToList_length]
  have hf : firstProxy = ((L.takeWhile (fun q => decide (q.tag < lo))).length : Int) := by
    simp only [firstProxy, lower_bound, hL]
    simp
  have hfl : (L.takeWhile (fun q => decide (q.tag < lo))).length ≤ L.length :=
    (List.takeWhile_sublist _).length_le
  have hD : L.drop firstProxy.toNat = L.filter (fun q => !decide (q.tag < lo)) := by
    rw [hf, Int.toNat_ofNat, drop_length_takeWhile]
    apply dropWhile_eq_filter_of_pairwise
    refine hsorted.imp ?_
    intro a b hab hb
    simp only [decide_eq_true_eq] at hb ⊢
    omega
  have hl : lastProxy = firstProxy +
      (((L.drop firstProxy.toNat).takeWhile (fun q => !decide (hi < q.tag))).length : Int) := by
    simp only [lastProxy, upper_bound, hL]
  have hll : ((L.drop firstProxy.toNat).takeWhile (fun q => !decide (hi < q.tag))).length
      ≤ (L.drop firstProxy.toNat).length := (List.takeWhile_sublist _).length_le
  have hn : (lastProxy - firstProxy).toNat =
      ((L.drop firstProxy.toNat).takeWhile (fun q => !decide (hi < q.tag))).length := by
    rw [hl]; simp
  have h0 : 0 ≤ firstProxy := by rw [hf]; exact Int.natCast_nonneg _
  have hfc : firstProxy = ((firstProxy.toNat : Nat) : Int) := by omega
  rw [List.length_drop] at hll
  have hrange := range_map_eq_take_drop s.m_proxyBuffer s.m_count firstProxy.toNat
    (lastProxy - firstProxy).toNat (by
      rw [hn]
      have : firstProxy.toNat ≤ L.length := by rw [hf, Int.toNat_ofNat]; exact hfl
      omega)
  rw [← hfc, hL] at hrange
  rw [hrange, hn, take_length_takeWhile, hD]
  rw [takeWhile_eq_filter_of_pairwise, List.filter_filter]
  · apply List.filter_congr
    intro q _
    have h3 : q.tag < lo ↔ ¬ lo ≤ q.tag := by omega
    have h4 : hi < q.tag ↔ ¬ q.tag ≤ hi := by omega
    by_cases h1 : lo ≤ q.tag <;> by_cases h2 : q.tag ≤ hi <;> simp [h1, h2, h3, h4]
  · refine (hsorted.sublist (List.filter_sublist _)).imp ?_
    intro a b hab hb
    simp only [Bool.not_eq_true', decide_eq_false_iff_not, not_lt] at hb ⊢
    omega

theorem reportInOrder_congr {σ : Type} (ReportParticle : σ → Int → Bool × σ)
    {l1 l2 : List Int} (h : l1 = l2) (cb : σ) :
    reportInOrder ReportParticle l1 cb = reportInOrder ReportParticle l2 cb := by rw [h]

/-- C16, amended: let the proxy array hold the proxies of the particles, sorted by
tag, every tag computed as by `UpdateProxies` from the position of its particle,
the inverse diameter not negative, and let the `float32` sums of `computeTag`
round into the tag range for the scaled positions and for both scaled corners of
the box.  Then `QueryAABB` calls `ReportParticle` with exactly the particles
strictly inside the box, in the order of the proxy array, and stops at the first
call that returns false. -/
theorem QueryAABB_reports {σ : Type} (ReportParticle : σ → Int → Bool × σ)
    (s : b2ParticleSystem) (aabb : b2AABB) (cb : σ)
    (hsize : s.m_count ≤ s.m_proxyBufferSize) (hinv : 0 ≤ s.m_inverseDiameter)
    (hs : SortedByTag s) (ht : TagsInRange s) (hbox : BoxInTagRange s aabb) :
    QueryAABB ReportParticle s aabb cb =
      reportInOrder ReportParticle (particlesInside s aabb) cb := by
  unfold QueryAABB
  by_cases h0 : s.m_proxyBufferSize = 0
  · rw [if_pos h0]
    have e : particlesInside s aabb = [] := by
      unfold particlesInside
      rw [bufToList_of_nonpos _ (by omega)]
      rfl
    rw [e]
    rfl
  · rw [if_neg h0]
    simp only
    rw [QueryAABB_loop_spec, bounds_window s hs]
    apply reportInOrder_congr
    unfold particlesInside
    congr 1
    rw [List.filter_filter]
    apply List.filter_congr
    intro q hq
    rw [mem_bufToList] at hq
    obtain ⟨k, hk0, hk1, rfl⟩ := hq
    obtain ⟨hr, htag⟩ := ht k hk0 hk1
    by_cases hin : QueryAABB_inside aabb (s.m_positions (s.m_proxyBuffer k).idx) = true
    · rw [hin, Bool.true_and]
      simp only [QueryAABB_inside, decide_eq_true_eq] at hin
      obtain ⟨i1, i2, i3, i4⟩ := hin
      have m1 := computeTag_mono hbox.1 hr
        (roundFloat32_mono (mul_le_mul_of_nonneg_left (le_of_lt i1) hinv))
        (roundFloat32_mono (mul_le_mul_of_nonneg_left (le_of_lt i3) hinv))
      have m2 := computeTag_mono hr hbox.2
        (roundFloat32_mono (mul_le_mul_of_nonneg_left (le_of_lt i2) hinv))
        (roundFloat32_mono (mul_le_mul_of_nonneg_left (le_of_lt i4) hinv))
      unfold proxyTag at htag
      rw [← htag] at m1 m2
      simp [m1, m2]
    · simp [hin]

theorem originParticle_sorted : SortedByTag originParticle :=
  fun _ _ _ _ _ => le_refl _

theorem originParticle_tags : TagsInRange originParticle := by
  intro i _ _
  show RoundsInTagRange (roundFloat32 (1 * (0 : ℚ))) (roundFloat32 (1 * (0 : ℚ))) ∧
    2148007936 = computeTag (roundFloat32 (1 * 0)) (roundFloat32 (1 * 0))
  refine ⟨?_, by decide!⟩
  unfold RoundsInTagRange
  decide!

/-- The hypotheses of `QueryAABB_reports` hold for the particle at the origin and
the box `[-1, 1] × [-1, 1]`: the query reports particle `0`. -/
theorem QueryAABB_reports_witness :
    originParticle.m_count ≤ originParticle.m_proxyBufferSize ∧
      0 ≤ originParticle.m_inverseDiameter ∧ SortedByTag originParticle ∧
      TagsInRange originParticle ∧ BoxInTagRange originParticle smallBox ∧
      QueryAABB (recordUntil (-1)) originParticle smallBox [] = [0] :=
  have hbox : BoxInTagRange originParticle smallBox := by
    unfold BoxInTagRange RoundsInTagRange
    decide!
  ⟨by decide, by decide!, originParticle_sorted, originParticle_tags, hbox,
    (QueryAABB_reports (recordUntil (-1)) originParticle smallBox [] (by decide) (by decide!)
      originParticle_sorted originParticle_tags hbox).trans (by decide!)⟩

/-- C16 fails as stated: the particle at the origin, of diameter `1` and with the
tag of its position, lies strictly inside the box `[-1, 1] × [-1, 2048]`, whose
upper corner is in row `4096` of the tag grid: the row wraps to `0` in
`computeTag`, the upper bound of the proxy window falls before the particle, and
`QueryAABB` reports nothing. -/
theorem QueryAABB_misses_particle :
    QueryAABB (recordUntil (-1)) originParticle tallBox [] = [] ∧
      reportInOrder (recordUntil (-1)) (particlesInside originParticle tallBox) [] = [0] ∧
      originParticle.m_count ≤ originParticle.m_proxyBufferSize ∧
      0 ≤ originParticle.m_inverseDiameter ∧
      SortedByTag originParticle ∧ TagsInRange originParticle :=
  ⟨by decide!, by decide!, by decide, by decide!, originParticle_sorted, originParticle_tags⟩

/-! ## Joining groups -/

/-- `RotateBuffer` rotates no mass: `m_masses` and `m_invMasses` stay as they
are, whatever the range. -/
theorem RotateBuffer_masses (s : b2ParticleSystem) (start mid end_ : Int) :
    (RotateBuffer s start mid end_).m_masses = s.m_masses ∧
      (RotateBuffer s start mid end_).m_invMasses = s.m_invMasses := by
  have key : (fun t : b2ParticleSystem => (t.m_masses, t.m_invMasses))
      (RotateBuffer s start mid end_) = (s.m_masses, s.m_invMasses) := by
    unfold RotateBuffer
    by_cases h : start = mid ∨ mid = end_
    · rw [if_pos h]
    · rw [if_neg h]
      simp only
      refine (forLoop_frame (fun t : b2ParticleSystem => (t.m_masses, t.m_invMasses)) _ ?_
        _ _ _).trans ?_
      · intro st k
        simp only
        split_ifs <;> rfl
      · simp only
        split_ifs <;>
          first
          | rfl
          | exact forLoop_frame (fun t : b2ParticleSystem => (t.m_masses, t.m_invMasses)) _
              (fun st i => by simp only; split <;> rfl) _ _ _
  simp only [Prod.mk.injEq] at key
  exact key

/-- On a range `start ≤ mid ≤ end`, `RotateBuffer` moves the position, velocity
and flags of particle `i` to the index `newIndices[i]`. -/
theorem RotateBuffer_positions (s : b2ParticleSystem) (start mid end_ i : Int)
    (h1 : start ≤ mid) (h2 : mid ≤ end_) :
    (RotateBuffer s start mid end_).m_positions (RotateBuffer_newIndices start mid end_ i)
        = s.m_positions i ∧
      (RotateBuffer s start mid end_).m_velocities (RotateBuffer_newIndices start mid end_ i)
        = s.m_velocities i ∧
      (RotateBuffer s start mid end_).m_flags (RotateBuffer_newIndices start mid end_ i)
        = s.m_flags i := by
  have hrot : ∀ {α : Type} (buf : Int → α), start ≠ mid → mid ≠ end_ →
      rotateBuf buf start mid end_ (RotateBuffer_newIndices start mid end_ i) = buf i := by
    intro α buf _ _
    unfold rotateBuf RotateBuffer_newIndices
    by_cases a1 : i < start
    · rw [if_pos a1, if_neg (by omega)]
    · rw [if_neg a1]
      by_cases a2 : i < mid
      · rw [if_pos a2, if_pos (by omega), if_neg (by omega)]
        congr 1
        omega
      · rw [if_neg a2]
        by_cases a3 : i < end_
        · rw [if_pos a3, if_pos (by omega), if_pos (by omega)]
          congr 1
          omega
        · rw [if_neg a3, if_neg (by omega)]
  have key : (fun t : b2ParticleSystem => (t.m_positions, t.m_velocities, t.m_flags))
      (RotateBuffer s start mid end_) =
        if start = mid ∨ mid = end_ then (s.m_positions, s.m_velocities, s.m_flags)
        else (rotateBuf s.m_positions start mid end_, rotateBuf s.m_velocities start mid end_,
          rotateBuf s.m_flags start mid end_) := by
    unfold RotateBuffer
    by_cases h : start = mid ∨ mid = end_
    · rw [if_pos h, if_pos h]
    · rw [if_neg h, if_neg h]
      simp only
      refine (forLoop_frame
        (fun t : b2ParticleSystem => (t.m_positions, t.m_velocities, t.m_flags)) _ ?_
        _ _ _).trans ?_
      · intro st k
        simp only
        split_ifs <;> rfl
      · simp only
        split_ifs <;>
          first
          | rfl
          | exact forLoop_frame
              (fun t : b2ParticleSystem => (t.m_positions, t.m_velocities, t.m_flags)) _
              (fun st i => by simp only; split <;> rfl) _ _ _
  by_cases h : start = mid ∨ mid = end_
  · rw [if_pos h] at key
    simp only [Prod.mk.injEq] at key
    have e : RotateBuffer_newIndices start mid end_ i = i := by
      unfold RotateBuffer_newIndices
      split_ifs <;> omega
    rw [e, key.1, key.2.1, key.2.2]
    exact ⟨rfl, rfl, rfl⟩
  · rw [if_neg h] at key
    simp only [Prod.mk.injEq] at key
    rw [key.1, key.2.1, key.2.2]
    have a1 : start ≠ mid := fun e => h (Or.inl e)
    have a2 : mid ≠ end_ := fun e => h (Or.inr e)
    exact ⟨hrot _ a1 a2, hrot _ a1 a2, hrot _ a1 a2⟩

/-- C17 at a failing input: group `B` (slot `0`) holds particle `0` of mass `1`,
group `A` (slot `1`) holds particle `1` of mass `2`, no fixture around.
`JoinParticleGroups(A, B)` leaves `A` with the range `[0, 2)`, both particles with
the group index of `A`, slot `B` free, and the particle of `A` at index `0` with its
position; but `RotateBuffer` rotates neither `m_masses` nor `m_invMasses`, so the
mass and inverse mass found at index `0` are those of the particle of `B`, and
those at index `1`, where the particle of `B` now is, are those of the particle
of `A`. -/
theorem JoinParticleGroups_leaves_masses :
    (JoinParticleGroups emptyWorld sampleSettings INVALID_IDX false twoGroups 1 0).m_count = 2 ∧
      ((JoinParticleGroups emptyWorld sampleSettings INVALID_IDX false twoGroups 1 0).m_groupBuffer
        1).m_firstIndex = 0 ∧
      ((JoinParticleGroups emptyWorld sampleSettings INVALID_IDX false twoGroups 1 0).m_groupBuffer
        1).m_lastIndex = 2 ∧
      ((JoinParticleGroups emptyWorld sampleSettings INVALID_IDX false twoGroups 1 0).m_groupBuffer
        0).m_firstIndex = INVALID_IDX ∧
      (JoinParticleGroups emptyWorld sampleSettings INVALID_IDX false twoGroups 1
        0).m_partGroupIdxBuffer 0 = 1 ∧
      (JoinParticleGroups emptyWorld sampleSettings INVALID_IDX false twoGroups 1
        0).m_partGroupIdxBuffer 1 = 1 ∧
      (JoinParticleGroups emptyWorld sampleSettings INVALID_IDX false twoGroups 1 0).m_positions 0
        = twoGroups.m_positions 1 ∧
      (JoinParticleGroups emptyWorld sampleSettings INVALID_IDX false twoGroups 1 0).m_positions 1
        = twoGroups.m_positions 0 ∧
      twoGroups.m_masses 1 = 2 ∧
      (JoinParticleGroups emptyWorld sampleSettings INVALID_IDX false twoGroups 1 0).m_masses 0
        = 1 ∧
      twoGroups.m_invMasses 1 = 1 / 2 ∧
      (JoinParticleGroups emptyWorld sampleSettings INVALID_IDX false twoGroups 1 0).m_invMasses 0
        = 1 ∧
      twoGroups.m_masses 0 = 1 ∧
      (JoinParticleGroups emptyWorld sampleSettings INVALID_IDX false twoGroups 1 0).m_masses 1
        = 2 := by
  refine ⟨by decide!, by decide!, by decide!, by decide!, by decide!, by decide!, by decide!,
    by decide!, by decide!, by decide!, by decide!, by decide!, by decide!, by decide!⟩

/-! ## The locked world -/

/-- While the world is locked, `CreateGroup` returns `INVALID_IDX`,
`DestroyParticlesInFixture` returns `0`, and these two, `DestroyParticlesInGroup`
and `JoinParticleGroups` return the state they were given. -/
theorem locked_guards (W : Hooks) (K : Settings) (timestamp : Int) (destroyParticles : Bool)
    (s : b2ParticleSystem) (groupDef : GroupDef) (a b : Int) (h : s.m_worldLocked = true) :
    CreateGroup K s groupDef = (INVALID_IDX, s) ∧ DestroyParticlesInGroup s a = s ∧
      DestroyParticlesInFixture W s = (0, s) ∧
      JoinParticleGroups W K timestamp destroyParticles s a b = s := by
  refine ⟨?_, ?_, ?_, ?_⟩
  · unfold CreateGroup; rw [if_pos h]
  · unfold DestroyParticlesInGroup; rw [if_pos h]
  · unfold DestroyParticlesInFixture; rw [if_pos h]
  · unfold JoinParticleGroups; rw [if_pos h]

/-- C18 at a failing input: a locked world with one group of two particles that
do not touch, joined by the pair `(0, 1)`.  `CreateGroup` returns `INVALID_IDX`
and `DestroyParticlesInFixture` returns `0`, but `SplitParticleGroup` has no test
of the lock: it puts particle `1` in a list of its own, asks `CreateGroup` for a
group (refused), and sets the flags of the particle to `Zombie`; the pair ends as
`(0, 0)`, `0` being what `CloneParticle` returns.  The flags and the pairs of the
system are not what they were. -/
theorem SplitParticleGroup_ignores_lock :
    lockedPair.m_worldLocked = true ∧
      (CreateGroup sampleSettings lockedPair emptyGroupDef).1 = INVALID_IDX ∧
      (DestroyParticlesInFixture emptyWorld lockedPair).1 = 0 ∧
      lockedPair.m_flags 1 = 0 ∧
      (SplitParticleGroup emptyWorld sampleSettings emptyGroupDef freshNodes lockedPair
        0).m_flags 1 = Particle.Zombie ∧
      lockedPair.m_pairBuffer 0 = ⟨0, 1, 0, 1, 10⟩ ∧
      (SplitParticleGroup emptyWorld sampleSettings emptyGroupDef freshNodes lockedPair
        0).m_pairBuffer 0 = ⟨0, 0, 0, 1, 10⟩ ∧
      listedState (SplitParticleGroup emptyWorld sampleSettings emptyGroupDef freshNodes
        lockedPair 0) ≠ listedState lockedPair := by
  refine ⟨by decide!, by decide!, by decide!, by decide!, by decide!, by decide!, by decide!,
    fun h => ?_⟩
  have e : bufToList (SplitParticleGroup emptyWorld sampleSettings emptyGroupDef freshNodes
      lockedPair 0).m_flags (SplitParticleGroup emptyWorld sampleSettings emptyGroupDef
      freshNodes lockedPair 0).m_count = bufToList lockedPair.m_flags lockedPair.m_count :=
    congrArg (fun v => v.2.1) h
  exact absurd e (by decide!)

/-! ## The rounds of `FindContacts` -/

/-- `ResizeTriadBuffers` writes neither the pair buffer nor its length. -/
theorem ResizeTriadBuffers_pairBuffer (K : Settings) (s : b2ParticleSystem) (size : Int) :
    (ResizeTriadBuffers K s size).m_pairBuffer = s.m_pairBuffer ∧
      (ResizeTriadBuffers K s size).m_pairBufferSize = s.m_pairBufferSize ∧
      (ResizeTriadBuffers K s size).m_pairCount = s.m_pairCount := by
  unfold ResizeTriadBuffers
  simp only
  split_ifs <;> exact ⟨rfl, rfl, rfl⟩

/-- C30 at two failing inputs.  On the empty system `ResizeTriadBuffers(0)` raises
`m_pairCapacity` from `0` to the minimum capacity while the pair buffer keeps the
length `0`: the capacity that `AdjustCapacityToSize` adjusts is the one of the
pairs.  On a system whose pair capacity is already `256` and whose triad buffer
is empty, `ResizeTriadBuffers(0)` finds the pair capacity large enough and returns
without a resize: the triad buffer still has length `0`, which is not more than
`size = 0`. -/
theorem ResizeTriadBuffers_moves_pairCapacity :
    emptySystem.m_pairCapacity = 0 ∧ emptySystem.m_pairBufferSize = 0 ∧
      (ResizeTriadBuffers sampleSettings emptySystem 0).m_pairCapacity = 256 ∧
      (ResizeTriadBuffers sampleSettings emptySystem 0).m_pairBufferSize = 0 ∧
      pairsOnly.m_pairCapacity = 256 ∧ pairsOnly.m_triadBufferSize = 0 ∧
      (ResizeTriadBuffers sampleSettings pairsOnly 0).m_triadBufferSize = 0 ∧
      (ResizeTriadBuffers sampleSettings pairsOnly 0).m_triadCapacity = 0 := by
  refine ⟨by decide!, by decide!, by decide!, by decide!, by decide!, by decide!, by decide!,
    by decide!⟩

/-! ## Zombies under the per-particle passes -/

/-- A pass run by `AmpForEachParticle` whose lanes keep the flags and write their
own index only leaves what belongs to a Zombie-flagged particle `k` as it is. -/
theorem AmpForEachParticle_skips {α : Type} (s : b2ParticleSystem)
    (function : b2ParticleSystem → Int → b2ParticleSystem) (k : Int)
    (f : b2ParticleSystem → α)
    (hflags : ∀ st i, (function st i).m_ampFlags = st.m_ampFlags)
    (hother : ∀ st i, i ≠ k → f (function st i) = f st)
    (hz : hasFlag (s.m_ampFlags k) Particle.Zombie = true) :
    f (AmpForEachParticle s function) = f s := by
  unfold AmpForEachParticle
  by_cases hn : 0 ≤ s.m_count
  · have key := forLoop_induction
      (fun (_ : Int) (st : b2ParticleSystem) => st.m_ampFlags = s.m_ampFlags ∧ f st = f s)
      (fun st i => if hasFlag (st.m_ampFlags i) Particle.Zombie then st else function st i)
      s hn ⟨rfl, rfl⟩
      (by
        rintro i st _ _ ⟨h1, h2⟩
        by_cases hzi : hasFlag (st.m_ampFlags i) Particle.Zombie = true
        · simp only [hzi, if_true]
          exact ⟨h1, h2⟩
        · simp only [hzi, Bool.false_eq_true, if_false]
          have hik : i ≠ k := by
            intro e
            subst e
            rw [h1] at hzi
            exact hzi hz
          exact ⟨(hflags st i).trans h1, (hother st i hik).trans h2⟩)
    exact key.2
  · rw [forLoop_of_le (by omega)]

/-- On the accelerated path `SolveGravity`, `SolveForce` and `SolvePosition` leave
the position and the velocity of every Zombie-flagged particle as they are. -/
theorem amp_passes_skip_zombies (Q : SolverParams) (s : b2ParticleSystem) (k : Int)
    (hacc : s.m_accelerate = true)
    (hz : hasFlag (s.m_ampFlags k) Particle.Zombie = true) :
    ((SolveGravity Q s).m_ampPositions k = s.m_ampPositions k ∧
        (SolveGravity Q s).m_ampVelocities k = s.m_ampVelocities k) ∧
      ((SolveForce Q s).m_ampPositions k = s.m_ampPositions k ∧
        (SolveForce Q s).m_ampVelocities k = s.m_ampVelocities k) ∧
      ((SolvePosition Q s).m_ampPositions k = s.m_ampPositions k ∧
        (SolvePosition Q s).m_ampVelocities k = s.m_ampVelocities k) := by
  have hview : ∀ {t : b2ParticleSystem},
      (fun st : b2ParticleSystem => (st.m_ampPositions k, st.m_ampVelocities k)) t =
        (s.m_ampPositions k, s.m_ampVelocities k) →
      t.m_ampPositions k = s.m_ampPositions k ∧ t.m_ampVelocities k = s.m_ampVelocities k := by
    intro t h
    simp only [Prod.mk.injEq] at h
    exact h
  refine ⟨?_, ?_, ?_⟩
  · apply hview
    simp only [SolveGravity, hacc, if_true]
    refine AmpForEachParticle_skips s _ k (fun st : b2ParticleSystem =>
        (st.m_ampPositions k, st.m_ampVelocities k)) (fun _ _ => rfl) ?_ hz
    intro st i hik
    show (st.m_ampPositions k, setAt st.m_ampVelocities i _ k) = _
    rw [setAt_other _ _ (Ne.symm hik)]
  · by_cases hf : s.m_hasForce = true
    · apply hview
      simp only [SolveForce, hf, hacc, if_true, Bool.not_true, Bool.false_eq_true, if_false]
      refine AmpForEachParticle_skips s _ k (fun st : b2ParticleSystem =>
        (st.m_ampPositions k, st.m_ampVelocities k)) (fun _ _ => rfl) ?_ hz
      intro st i hik
      show (st.m_ampPositions k, setAt st.m_ampVelocities i _ k) = _
      rw [setAt_other _ _ (Ne.symm hik)]
    · have e : SolveForce Q s = s := by
        simp only [SolveForce]
        rw [if_pos (by simpa using hf)]
      rw [e]
      exact ⟨rfl, rfl⟩
  · apply hview
    simp only [SolvePosition, hacc, if_true]
    refine AmpForEachParticle_skips s _ k (fun st : b2ParticleSystem =>
        (st.m_ampPositions k, st.m_ampVelocities k)) (fun _ _ => rfl) ?_ hz
    intro st i hik
    show (setAt st.m_ampPositions i _ k, st.m_ampVelocities k) = _
    rw [setAt_other _ _ (Ne.symm hik)]

/-- C28 at a failing input: one Zombie-flagged particle on the sequential path,
with velocity `(1, 0, 0)` and force `(0, 0, 1)`.  The loops of the sequential
branches have no test of the flag: `SolveGravity` and `SolveForce` change the
velocity of the particle and `SolvePosition` moves it.  On the accelerated path
the same particle keeps its position and its velocity in all three passes. -/
theorem host_passes_move_zombies :
    hasFlag (zombieHost.m_flags 0) Particle.Zombie = true ∧
      (SolveGravity unitStep zombieHost).m_velocities 0 = ⟨1, -1, 0⟩ ∧
      (SolveForce unitStep zombieHost).m_velocities 0 = ⟨1, 0, 1 / 2⟩ ∧
      zombieHost.m_positions 0 = ⟨0, 0, 0⟩ ∧
      (SolvePosition unitStep zombieHost).m_positions 0 = ⟨1, 0, 0⟩ ∧
      hasFlag (zombieAmp.m_ampFlags 0) Particle.Zombie = true ∧
      (SolveGravity unitStep zombieAmp).m_ampVelocities 0 = zombieAmp.m_ampVelocities 0 ∧
      (SolveForce unitStep zombieAmp).m_ampVelocities 0 = zombieAmp.m_ampVelocities 0 ∧
      (SolvePosition unitStep zombieAmp).m_ampPositions 0 = zombieAmp.m_ampPositions 0 := by
  refine ⟨by decide!, by decide!, by decide!, by decide!, by decide!, by decide!, by decide!,
    by decide!, by decide!⟩

/-! ## Springs on the two paths -/

/-- C24 at a failing input: two particles at rest, `2` apart on the x axis, joined
by a spring pair of rest length `1`.  The sequential branch subtracts the force
`f = strength * (r0 - r1) / r1 * d = (-1, 0)` from the velocity of `a` and adds it
to the velocity of `b`, which draws the two together; the accelerated branch adds
`f` to `a` and subtracts it from `b`, which drives them apart.  The new velocities
of the two branches are opposite. -/
theorem SolveSpring_branches_differ :
    (SolveSpring unitStep stretchedSpringHost).m_velocities 0 = ⟨1, 0, 0⟩ ∧
      (SolveSpring unitStep stretchedSpringHost).m_velocities 1 = ⟨-1, 0, 0⟩ ∧
      (SolveSpring unitStep stretchedSpringAmp).m_ampVelocities 0 = ⟨-1, 0, 0⟩ ∧
      (SolveSpring unitStep stretchedSpringAmp).m_ampVelocities 1 = ⟨1, 0, 0⟩ ∧
      stretchedSpringAmp.m_ampPositions = stretchedSpringHost.m_positions ∧
      stretchedSpringAmp.m_ampVelocities = stretchedSpringHost.m_velocities ∧
      stretchedSpringAmp.m_ampPairs 0 = stretchedSpringHost.m_pairBuffer 0 := by
  refine ⟨by decide!, by decide!, by decide!, by decide!, rfl, rfl, by decide!⟩

/-- Whatever the pair and the state of its two particles, the two branches of
`SolveSpring` give the particle `a` velocity changes that are opposite in the
plane when they measure the same length: the sequential branch subtracts the
force that the accelerated branch adds. -/
theorem SolveSpring_pair_signs (Q : SolverParams) (positions velocities : Int → b2Vec3)
    (pair : b2ParticlePair) (hs : hasFlag pair.flags Particle.Mat.Spring = true)
    (hab : pair.indexA ≠ pair.indexB)
    (hlen : Q.Length3 (positions pair.indexB + Q.dt • velocities pair.indexB -
        (positions pair.indexA + Q.dt • velocities pair.indexA)) =
      Q.Length2 ((positions pair.indexB).toVec2 + Q.dt • (velocities pair.indexB).toVec2 -
        ((positions pair.indexA).toVec2 + Q.dt • (velocities pair.indexA).toVec2))) :
    (SolveSpring_hostPair Q positions velocities pair pair.indexA).x
        - (velocities pair.indexA).x =
      -((SolveSpring_ampPair Q positions velocities pair pair.indexA).x
        - (velocities pair.indexA).x) ∧
    (SolveSpring_hostPair Q positions velocities pair pair.indexA).y
        - (velocities pair.indexA).y =
      -((SolveSpring_ampPair Q positions velocities pair pair.indexA).y
        - (velocities pair.indexA).y) := by
  simp only [SolveSpring_hostPair, SolveSpring_ampPair, hs, if_true, Bool.not_true,
    Bool.false_eq_true, if_false]
  rw [setAt_other _ _ hab, setAt_other _ _ hab, setAt_same, setAt_same, hlen]
  constructor
  · show (velocities pair.indexA).x - _ * _ - _ = -((velocities pair.indexA).x + _ * _ - _)
    show (velocities pair.indexA).x - _ * ((positions pair.indexB).x + Q.dt * (velocities pair.indexB).x - ((positions pair.indexA).x + Q.dt * (velocities pair.indexA).x)) - _ = -((velocities pair.indexA).x + _ * ((positions pair.indexB).x + Q.dt * (velocities pair.indexB).x - ((positions pair.indexA).x + Q.dt * (velocities pair.indexA).x)) - _)
    ring
  · show (velocities pair.indexA).y - _ * ((positions pair.indexB).y + Q.dt * (velocities pair.indexB).y - ((positions pair.indexA).y + Q.dt * (velocities pair.indexA).y)) - _ = -((velocities pair.indexA).y + _ * ((positions pair.indexB).y + Q.dt * (velocities pair.indexB).y - ((positions pair.indexA).y + Q.dt * (velocities pair.indexA).y)) - _)
    ring

/-! ## The cached particle flags -/

/-- `x & a = x` says that every bit of `x` is a bit of `a`. -/
theorem land_eq_left_iff (x a : Nat) :
    x &&& a = x ↔ ∀ j, x.testBit j = true → a.testBit j = true := by
  constructor
  · intro h j hj
    rw [← h, Nat.testBit_and] at hj
    simp only [Bool.and_eq_true] at hj
    exact hj.2
  · intro h
    apply Nat.eq_of_testBit_eq
    intro j
    rw [Nat.testBit_and]
    by_cases hj : x.testBit j = true
    · rw [hj, h j hj]
      rfl
    · simp only [Bool.not_eq_true] at hj
      rw [hj]
      rfl

/-- When `~a & x` is zero for a 32-bit word `x`, every bit of `x` is a bit of `a`. -/
theorem subset_of_not_and_eq_zero {a x : Nat} (hx : x < 2 ^ 32)
    (h : (a ^^^ (2 ^ 32 - 1)) &&& x = 0) : x &&& a = x := by
  rw [land_eq_left_iff]
  intro j hj
  have hj32 : j < 32 := by
    by_contra hge
    have hlt : x < 2 ^ j := lt_of_lt_of_le hx (Nat.pow_le_pow_right (by decide) (by omega))
    rw [Nat.testBit_lt_two_pow hlt] at hj
    exact Bool.false_ne_true hj
  have hb := congrArg (fun v => v.testBit j) h
  simp only [Nat.testBit_and, Nat.testBit_xor, Nat.zero_testBit, hj,
    Nat.testBit_two_pow_sub_one, hj32, decide_True, Bool.and_true, Bool.xor_true,
    Bool.not_eq_false_eq_eq_true] at hb
  simpa using hb

/-- Every bit of `x` is a bit of `a ||| x`. -/
theorem land_lor_self (a x : Nat) : x &&& (a ||| x) = x := by
  rw [land_eq_left_iff]
  intro j hj
  rw [Nat.testBit_or, hj, Bool.or_true]

/-- A word covered by `a` is covered by `a ||| b`. -/
theorem land_lor_of_land {x a : Nat} (b : Nat) (h : x &&& a = x) : x &&& (a ||| b) = x := by
  rw [land_eq_left_iff] at h ⊢
  intro j hj
  rw [Nat.testBit_or, h j hj, Bool.true_or]

/-- `SetParticleFlags` on the sequential path keeps `m_allFlags` a cover of the flags. -/
theorem SetParticleFlags_allFlags (s : b2ParticleSystem) (index : Int) (newFlags : Nat)
    (hacc : s.m_accelerate = false) (hnew : newFlags < 2 ^ 32) (hup : AllFlagsUpToDate s) :
    AllFlagsUpToDate (SetParticleFlags s index newFlags) := by
  have hup2 : ∀ i, 0 ≤ i → i < s.m_count → s.m_flags i &&& s.m_allFlags = s.m_flags i := by
    intro i h0 h1
    have := hup i h0 h1
    simpa only [flagsOf, hacc, Bool.false_eq_true, if_false] using this
  intro i h0 h1
  by_cases hc : ((s.m_allFlags ^^^ (2 ^ 32 - 1)) &&& newFlags != 0) = true
  · have hacc2 : (SetParticleFlags s index newFlags).m_accelerate = false := by
      simp only [SetParticleFlags]
      split_ifs <;> exact hacc
    have hcnt : (SetParticleFlags s index newFlags).m_count = s.m_count := by
      simp only [SetParticleFlags]
      split_ifs <;> rfl
    have hall : (SetParticleFlags s index newFlags).m_allFlags = s.m_allFlags ||| newFlags := by
      simp only [SetParticleFlags]
      split_ifs <;> rfl
    have hfl : (SetParticleFlags s index newFlags).m_flags = setAt s.m_flags index newFlags := by
      simp only [SetParticleFlags]
      split_ifs <;> rfl
    simp only [flagsOf, hacc2, Bool.false_eq_true, if_false, hall, hfl]
    by_cases hi : i = index
    · subst hi
      rw [setAt_same]
      exact land_lor_self _ _
    · rw [setAt_other _ _ hi]
      exact land_lor_of_land _ (hup2 i h0 (by rw [hcnt] at h1; exact h1))
  · have hsub : newFlags &&& s.m_allFlags = newFlags := by
      apply subset_of_not_and_eq_zero hnew
      simpa using hc
    have hacc2 : (SetParticleFlags s index newFlags).m_accelerate = false := by
      simp only [SetParticleFlags]
      split_ifs <;> exact hacc
    have hcnt : (SetParticleFlags s index newFlags).m_count = s.m_count := by
      simp only [SetParticleFlags]
      split_ifs <;> rfl
    have hall : (SetParticleFlags s index newFlags).m_allFlags = s.m_allFlags := by
      simp only [SetParticleFlags]
      split_ifs <;> rfl
    have hfl : (SetParticleFlags s index newFlags).m_flags = setAt s.m_flags index newFlags := by
      simp only [SetParticleFlags]
      split_ifs <;> rfl
    simp only [flagsOf, hacc2, Bool.false_eq_true, if_false, hall, hfl]
    by_cases hi : i = index
    · subst hi
      rw [setAt_same]
      exact hsub
    · rw [setAt_other _ _ hi]
      exact hup2 i h0 (by rw [hcnt] at h1; exact h1)

/-- `DestroyParticle` on the sequential path keeps `m_allFlags` a cover of the flags. -/
theorem DestroyParticle_allFlags (s : b2ParticleSystem) (index : Int)
    (hacc : s.m_accelerate = false) (hw : FlagWords s) (hup : AllFlagsUpToDate s) :
    AllFlagsUpToDate (DestroyParticle s index) := by
  unfold DestroyParticle
  refine SetParticleFlags_allFlags s index _ hacc ?_ hup
  exact Nat.or_lt_two_pow (hw index) (by decide)

/-- `AddParticleFlags` on the sequential path keeps `m_allFlags` a cover of the flags. -/
theorem AddParticleFlags_allFlags (s : b2ParticleSystem) (index : Int) (newFlags : Nat)
    (hacc : s.m_accelerate = false) (hnew : newFlags < 2 ^ 32) (hup : AllFlagsUpToDate s) :
    AllFlagsUpToDate (AddParticleFlags s index newFlags) := by
  have hup2 : ∀ i, 0 ≤ i → i < s.m_count → s.m_flags i &&& s.m_allFlags = s.m_flags i := by
    intro i h0 h1
    have := hup i h0 h1
    simpa only [flagsOf, hacc, Bool.false_eq_true, if_false] using this
  have hacc2 : (AddParticleFlags s index newFlags).m_accelerate = false := by
    simp only [AddParticleFlags]
    split_ifs <;> exact hacc
  have hcnt : (AddParticleFlags s index newFlags).m_count = s.m_count := by
    simp only [AddParticleFlags]
    split_ifs <;> rfl
  have hfl : (AddParticleFlags s index newFlags).m_flags =
      setAt s.m_flags index (s.m_flags index ||| newFlags) := by
    simp only [AddParticleFlags]
    split_ifs <;> rfl
  have hall : s.m_allFlags &&& (AddParticleFlags s index newFlags).m_allFlags = s.m_allFlags ∧
      newFlags &&& (AddParticleFlags s index newFlags).m_allFlags = newFlags := by
    by_cases hc : ((s.m_allFlags ^^^ (2 ^ 32 - 1)) &&& newFlags != 0) = true
    · have e : (AddParticleFlags s index newFlags).m_allFlags = s.m_allFlags ||| newFlags := by
        simp only [AddParticleFlags]
        split_ifs
        rfl
      rw [e]
      exact ⟨by rw [Nat.lor_comm]; exact land_lor_self _ _, land_lor_self _ _⟩
    · have e : (AddParticleFlags s index newFlags).m_allFlags = s.m_allFlags := by
        simp only [AddParticleFlags]
        split_ifs
        rfl
      rw [e]
      exact ⟨Nat.and_self _, subset_of_not_and_eq_zero hnew (by simpa using hc)⟩
  intro i h0 h1
  rw [hcnt] at h1
  simp only [flagsOf, hacc2, Bool.false_eq_true, if_false, hfl]
  rw [land_eq_left_iff] at hall
  rw [land_eq_left_iff] at hall
  have hold := (land_eq_left_iff _ _).1 (hup2 i h0 h1)
  by_cases hi : i = index
  · subst hi
    rw [setAt_same, land_eq_left_iff]
    intro j hj
    rw [Nat.testBit_or, Bool.or_eq_true] at hj
    rcases hj with hj | hj
    · exact hall.1 j (hold j hj)
    · exact hall.2 j hj
  · rw [setAt_other _ _ hi, land_eq_left_iff]
    intro j hj
    exact hall.1 j (hold j hj)

/-- `RemovePartFlagsFromAll` on the sequential path keeps `m_allFlags` a cover of
the flags. -/
theorem RemovePartFlagsFromAll_allFlags (s : b2ParticleSystem) (flags : Nat)
    (hacc : s.m_accelerate = false) (hup : AllFlagsUpToDate s) :
    AllFlagsUpToDate (RemovePartFlagsFromAll s flags) := by
  have hup2 : ∀ i, 0 ≤ i → i < s.m_count → s.m_flags i &&& s.m_allFlags = s.m_flags i := by
    intro i h0 h1
    have := hup i h0 h1
    simpa only [flagsOf, hacc, Bool.false_eq_true, if_false] using this
  by_cases hc : (s.m_allFlags &&& flags != 0) = true
  · by_cases hn : 0 ≤ s.m_count
    · have key := forLoop_induction
        (fun (k : Int) (st : b2ParticleSystem) =>
          st.m_accelerate = false ∧ st.m_count = s.m_count ∧
          st.m_allFlags = s.m_allFlags &&& (flags ^^^ (2 ^ 32 - 1)) ∧
          ∀ i, 0 ≤ i → i < s.m_count →
            st.m_flags i = if i < k then s.m_flags i &&& (flags ^^^ (2 ^ 32 - 1))
              else s.m_flags i)
        (fun st k => { st with
          m_flags := setAt st.m_flags k (st.m_flags k &&& (flags ^^^ (2 ^ 32 - 1))) })
        { s with m_allFlags := s.m_allFlags &&& (flags ^^^ (2 ^ 32 - 1)) } hn
        ⟨hacc, rfl, rfl, by
          intro i h0 _
          rw [if_neg (by omega)]⟩
        (by
          rintro k st hk0 hk1 ⟨a1, a2, a3, a4⟩
          refine ⟨a1, a2, a3, ?_⟩
          intro i h0 h1
          show setAt st.m_flags k _ i = _
          by_cases hik : i = k
          · subst hik
            rw [setAt_same, a4 i h0 h1, if_neg (by omega), if_pos (by omega)]
          · rw [setAt_other _ _ hik, a4 i h0 h1]
            by_cases hlt : i < k
            · rw [if_pos hlt, if_pos (by omega)]
            · rw [if_neg hlt, if_neg (by omega)])
      have e : RemovePartFlagsFromAll s flags = forLoop 0 s.m_count
          (fun st k => { st with
            m_flags := setAt st.m_flags k (st.m_flags k &&& (flags ^^^ (2 ^ 32 - 1))) })
          { s with m_allFlags := s.m_allFlags &&& (flags ^^^ (2 ^ 32 - 1)) } := by
        simp only [RemovePartFlagsFromAll, hc, if_true]
      rw [e]
      obtain ⟨a1, a2, a3, a4⟩ := key
      intro i h0 h1
      rw [a2] at h1
      simp only [flagsOf, a1, Bool.false_eq_true, if_false, a3]
      rw [a4 i h0 h1, if_pos h1, land_eq_left_iff]
      intro j hj
      rw [Nat.testBit_and, Bool.and_eq_true] at hj
      rw [Nat.testBit_and, Bool.and_eq_true]
      exact ⟨(land_eq_left_iff _ _).1 (hup2 i h0 h1) j hj.1, hj.2⟩
    · intro i h0 h1
      exfalso
      have e : (RemovePartFlagsFromAll s flags).m_count = s.m_count := by
        simp only [RemovePartFlagsFromAll, hc, if_true]
        rw [forLoop_of_le (by show s.m_count ≤ 0; omega)]
      omega
  · have e : RemovePartFlagsFromAll s flags = s := by
      simp only [RemovePartFlagsFromAll]
      rw [if_neg hc]
    rw [e]
    exact hup

/-- `GetWriteIdx` writes no flag; the count stays, or the write index is the old
count and the count moves by `particleCnt`. -/
theorem GetWriteIdx_flags (K : Settings) (s : b2ParticleSystem) (particleCnt : Int) :
    (GetWriteIdx K s particleCnt).2.m_flags = s.m_flags ∧
      (GetWriteIdx K s particleCnt).2.m_allFlags = s.m_allFlags ∧
      (GetWriteIdx K s particleCnt).2.m_accelerate = s.m_accelerate ∧
      ((GetWriteIdx K s particleCnt).2.m_count = s.m_count ∨
        ((GetWriteIdx K s particleCnt).1 = s.m_count ∧
          (GetWriteIdx K s particleCnt).2.m_count = s.m_count + particleCnt)) := by
  unfold GetWriteIdx
  cases GetWriteIdx_scan particleCnt [] s.m_zombieRanges with
  | some r => exact ⟨rfl, rfl, rfl, Or.inl rfl⟩
  | none =>
    unfold ResizeParticleBuffers
    simp only
    split_ifs <;> refine ⟨?_, ?_, ?_, Or.inr ⟨?_, ?_⟩⟩ <;> first | rfl | trivial

/-- `CreateParticlesWithPositions` on the sequential path keeps `m_allFlags` a
cover of the flags. -/
theorem CreateParticlesWithPositions_allFlags (K : Settings) (s : b2ParticleSystem)
    (groupDef : GroupDef) (hacc : s.m_accelerate = false) (hup : AllFlagsUpToDate s) :
    AllFlagsUpToDate (CreateParticlesWithPositions K s groupDef).2 := by
  have hup2 : ∀ i, 0 ≤ i → i < s.m_count → s.m_flags i &&& s.m_allFlags = s.m_flags i := by
    intro i h0 h1
    have := hup i h0 h1
    simpa only [flagsOf, hacc, Bool.false_eq_true, if_false] using this
  by_cases hz : groupDef.particleCount = 0
  · have e : (CreateParticlesWithPositions K s groupDef).2 = s := by
      simp only [CreateParticlesWithPositions, hz, if_true]
    rw [e]
    exact hup
  · obtain ⟨g1, g2, g3, g4⟩ := GetWriteIdx_flags K s groupDef.particleCount
    generalize hw : GetWriteIdx K s groupDef.particleCount = w at g1 g2 g3 g4
    generalize hfl : groupDef.flags ||| (w.2.m_mats groupDef.matIdx).m_flags = flags
    have e : (CreateParticlesWithPositions K s groupDef).2 =
        { forLoop 0 groupDef.particleCount
            (CreateParticlesWithPositions_step K groupDef w.1 flags
              (w.2.m_mats groupDef.matIdx)) w.2 with
          m_allFlags := (forLoop 0 groupDef.particleCount
            (CreateParticlesWithPositions_step K groupDef w.1 flags
              (w.2.m_mats groupDef.matIdx)) w.2).m_allFlags ||| flags } := by
      simp only [CreateParticlesWithPositions, hz, if_false, hw, hfl]
    rw [e]
    generalize w.2.m_mats groupDef.matIdx = mat
    have hframe : ∀ st i,
        (fun t : b2ParticleSystem => (t.m_accelerate, t.m_count, t.m_allFlags))
          (CreateParticlesWithPositions_step K groupDef w.1 flags mat st i) =
        (fun t : b2ParticleSystem => (t.m_accelerate, t.m_count, t.m_allFlags)) st :=
      fun _ _ => rfl
    have hfr := forLoop_frame
      (fun t : b2ParticleSystem => (t.m_accelerate, t.m_count, t.m_allFlags)) _ hframe
      0 groupDef.particleCount w.2
    simp only [Prod.mk.injEq] at hfr
    obtain ⟨f1, f2, f3⟩ := hfr
    have hloop : ∀ n : Int, 0 ≤ n → ∀ j,
        (forLoop 0 n (CreateParticlesWithPositions_step K groupDef w.1 flags mat) w.2).m_flags j =
          if w.1 ≤ j ∧ j < w.1 + n then flags else s.m_flags j := by
      intro n hn
      refine forLoop_induction
        (fun (k : Int) (st : b2ParticleSystem) => ∀ j,
          st.m_flags j = if w.1 ≤ j ∧ j < w.1 + k then flags else s.m_flags j)
        _ w.2 hn ?_ ?_
      · intro j
        rw [if_neg (by omega), g1]
      · intro k st hk0 hk1 ih j
        show setAt st.m_flags (w.1 + k) flags j = _
        by_cases hj : j = w.1 + k
        · subst hj
          rw [setAt_same, if_pos (by omega)]
        · rw [setAt_other _ _ hj, ih j]
          by_cases hlt : w.1 ≤ j ∧ j < w.1 + k
          · rw [if_pos hlt, if_pos (by omega)]
          · rw [if_neg hlt, if_neg (by omega)]
    intro i h0 h1
    simp only [flagsOf, f1, g3, hacc, Bool.false_eq_true, if_false, f3, g2]
    change i < (forLoop 0 groupDef.particleCount
      (CreateParticlesWithPositions_step K groupDef w.1 flags mat) w.2).m_count at h1
    rw [f2] at h1
    by_cases hn : 0 ≤ groupDef.particleCount
    · rw [hloop _ hn i]
      by_cases hin : w.1 ≤ i ∧ i < w.1 + groupDef.particleCount
      · rw [if_pos hin]
        exact land_lor_self _ _
      · rw [if_neg hin]
        refine land_lor_of_land _ (hup2 i h0 ?_)
        rcases g4 with g4 | ⟨g4, g5⟩
        · omega
        · omega
    · rw [forLoop_of_le (by omega), g1]
      refine land_lor_of_land _ (hup2 i h0 ?_)
      rcases g4 with g4 | ⟨g4, g5⟩
      · omega
      · omega

/-- `UpdateAllParticleFlags` makes `m_allFlags` exactly the union of the flags of
the particles in `[0, m_count)`, and writes no flag. -/
theorem UpdateAllParticleFlags_union (s : b2ParticleSystem) :
    (UpdateAllParticleFlags s).m_flags = s.m_flags ∧
      (UpdateAllParticleFlags s).m_count = s.m_count ∧
      (UpdateAllParticleFlags s).m_accelerate = s.m_accelerate ∧
      ∀ j, (UpdateAllParticleFlags s).m_allFlags.testBit j = true ↔
        ∃ i, 0 ≤ i ∧ i < s.m_count ∧ (s.m_flags i).testBit j = true := by
  have hframe := forLoop_frame
    (fun t : b2ParticleSystem => (t.m_flags, t.m_count, t.m_accelerate))
    (fun st i => { st with m_allFlags := st.m_allFlags ||| st.m_flags i })
    (fun _ _ => rfl) 0 s.m_count { s with m_allFlags := 0 }
  simp only [Prod.mk.injEq] at hframe
  obtain ⟨f1, f2, f3⟩ := hframe
  refine ⟨f1, f2, f3, ?_⟩
  show ∀ j, (forLoop 0 s.m_count
    (fun st i => { st with m_allFlags := st.m_allFlags ||| st.m_flags i })
    ({ s with m_allFlags := 0 } : b2ParticleSystem)).m_allFlags.testBit j = true ↔ _
  by_cases hn : 0 ≤ s.m_count
  · have key := forLoop_induction
      (fun (k : Int) (st : b2ParticleSystem) => st.m_flags = s.m_flags ∧
        ∀ j, st.m_allFlags.testBit j = true ↔
          ∃ i, 0 ≤ i ∧ i < k ∧ (s.m_flags i).testBit j = true)
      (fun st i => { st with m_allFlags := st.m_allFlags ||| st.m_flags i })
      { s with m_allFlags := 0 } hn
      ⟨rfl, by
        intro j
        simp only [Nat.zero_testBit, Bool.false_eq_true, false_iff, not_exists]
        intro i hi
        omega⟩
      (by
        rintro k st hk0 hk1 ⟨a1, a2⟩
        refine ⟨a1, ?_⟩
        intro j
        show (st.m_allFlags ||| st.m_flags k).testBit j = true ↔ _
        rw [Nat.testBit_or, Bool.or_eq_true, a2 j, a1]
        constructor
        · rintro (⟨i, h0, h1, h2⟩ | h)
          · exact ⟨i, h0, by omega, h2⟩
          · exact ⟨k, hk0, by omega, h⟩
        · rintro ⟨i, h0, h1, h2⟩
          by_cases hik : i = k
          · subst hik
            exact Or.inr h2
          · exact Or.inl ⟨i, h0, by omega, h2⟩)
    exact key.2
  · rw [forLoop_of_le (by omega)]
    intro j
    simp only [Nat.zero_testBit, Bool.false_eq_true, false_iff, not_exists]
    intro i hi
    omega

/-- `UpdateAllParticleFlags` on the sequential path makes `m_allFlags` a cover of
the flags, whatever it was. -/
theorem UpdateAllParticleFlags_allFlags (s : b2ParticleSystem)
    (hacc : s.m_accelerate = false) : AllFlagsUpToDate (UpdateAllParticleFlags s) := by
  obtain ⟨a1, a2, a3, a4⟩ := UpdateAllParticleFlags_union s
  intro i h0 h1
  rw [a2] at h1
  simp only [flagsOf, a3, hacc, Bool.false_eq_true, if_false, a1]
  rw [land_eq_left_iff]
  intro j hj
  exact (a4 j).2 ⟨i, h0, h1, hj⟩

/-- `AddZombieRange` writes no flag and, for a range that is not reversed and free
ranges that are not reversed, does not raise the count. -/
theorem AddZombieRange_flags (s : b2ParticleSystem) (firstIdx lastIdx : Int)
    (hle : firstIdx ≤ lastIdx) (hr : RangesOk s.m_zombieRanges) :
    (AddZombieRange s firstIdx lastIdx).m_flags = s.m_flags ∧
      (AddZombieRange s firstIdx lastIdx).m_ampFlags = s.m_ampFlags ∧
      (AddZombieRange s firstIdx lastIdx).m_allFlags = s.m_allFlags ∧
      (AddZombieRange s firstIdx lastIdx).m_accelerate = s.m_accelerate ∧
      (AddZombieRange s firstIdx lastIdx).m_count ≤ s.m_count := by
  unfold AddZombieRange
  by_cases hc : s.m_count = lastIdx
  · simp only [hc, if_true]
    cases hb : s.m_zombieRanges.getLast? with
    | none => exact ⟨rfl, rfl, rfl, rfl, hle⟩
    | some back =>
      simp only
      have hmem : back ∈ s.m_zombieRanges := List.mem_of_getLast?_eq_some hb
      have := hr back hmem
      split_ifs with h1
      · refine ⟨rfl, rfl, rfl, rfl, ?_⟩
        show back.1 ≤ lastIdx
        omega
      · exact ⟨rfl, rfl, rfl, rfl, hle⟩
  · simp only [hc, if_false]
    cases AddZombieRange_scan firstIdx lastIdx [] none s.m_zombieRanges with
    | some ranges => exact ⟨rfl, rfl, rfl, rfl, le_refl _⟩
    | none =>
      simp only
      cases s.m_zombieRanges.getLast? with
      | none => exact ⟨rfl, rfl, rfl, rfl, le_refl _⟩
      | some back =>
        simp only
        split_ifs <;> exact ⟨rfl, rfl, rfl, rfl, le_refl _⟩

/-- `DestroyGroup` without `destroyParticles` keeps `m_allFlags` a cover of the
flags, for a group range and free ranges that are not reversed. -/
theorem DestroyGroup_allFlags (K : Settings) (s : b2ParticleSystem) (groupIdx timestamp : Int)
    (hle : (s.m_groupBuffer groupIdx).m_firstIndex ≤ (s.m_groupBuffer groupIdx).m_lastIndex)
    (hr : RangesOk s.m_zombieRanges) (hup : AllFlagsUpToDate s) :
    AllFlagsUpToDate (DestroyGroup K s groupIdx timestamp false) := by
  by_cases hc : timestamp ≠ INVALID_IDX ∧ timestamp ≠ 0 ∧
      timestamp ≠ (s.m_groupBuffer groupIdx).m_timestamp
  · have e : DestroyGroup K s groupIdx timestamp false = s := by
      simp only [DestroyGroup]
      rw [if_pos hc]
    rw [e]
    exact hup
  · obtain ⟨a1, b2, a2, a3, a4⟩ := AddZombieRange_flags s _ _ hle hr
    have hview : (fun t : b2ParticleSystem =>
          (t.m_flags, t.m_ampFlags, t.m_allFlags, t.m_accelerate, t.m_count))
          (DestroyGroup K s groupIdx timestamp false) =
        (fun t : b2ParticleSystem =>
          (t.m_flags, t.m_ampFlags, t.m_allFlags, t.m_accelerate, t.m_count))
          (AddZombieRange s (s.m_groupBuffer groupIdx).m_firstIndex
            (s.m_groupBuffer groupIdx).m_lastIndex) := by
      simp only [DestroyGroup]
      rw [if_neg hc]
      simp only [DestroyGroup_zombify, Bool.false_eq_true, if_false, DestroyGroup_release,
        withGroup, ResizeParticleBuffers]
      split_ifs <;> rfl
    simp only [Prod.mk.injEq] at hview
    obtain ⟨v1, v2, v3, v4, v5⟩ := hview
    intro i h0 h1
    have := hup i h0 (by rw [v5] at h1; omega)
    simp only [flagsOf, v1, v2, v3, v4, a1, a2, a3, b2] at this ⊢
    exact this

/-- C27, counterexample: two groups of one particle each on the sequential path,
no flag set anywhere and `m_allFlags = 0`, so the cached mask covers the flags.
`DestroyGroup(0, 0, true)` writes `Zombie` into the flags of particle `0` and
leaves `m_allFlags` and `m_count` as they are; `SetFlagsBuffer` replaces the
flag words by the caller's.  After either the mask no longer covers the flags. -/
theorem DestroyGroup_breaks_allFlags :
    twoGroups.m_accelerate = false ∧ AllFlagsUpToDate twoGroups ∧
      ¬ AllFlagsUpToDate (DestroyGroup sampleSettings twoGroups 0 0 true) ∧
      ¬ AllFlagsUpToDate (SetFlagsBuffer twoGroups (fun _ => Particle.Zombie) 2) := by
  refine ⟨rfl, ?_, ?_, ?_⟩
  · intro i _ _
    show (0 : Nat) &&& 0 = 0
    rfl
  · intro h
    have := h 0 (by decide) (by decide!)
    revert this
    decide!
  · intro h
    have := h 0 (by decide) (by decide!)
    revert this
    decide!

/-- C27, amended: on the sequential path, with 32-bit flag words, the property
"every flag bit of a particle in `[0, m_count)` is a bit of `m_allFlags`" is
preserved by `CreateParticlesWithPositions`, `SetParticleFlags`,
`AddParticleFlags`, `RemovePartFlagsFromAll`, `DestroyParticle` and by
`DestroyGroup` when it is called without `destroyParticles` on a group range and
free ranges that are not reversed; `UpdateAllParticleFlags` establishes it from
any state and makes `m_allFlags` exactly the union of the flags. -/
theorem allFlags_cover_preserved (s : b2ParticleSystem) (hacc : s.m_accelerate = false)
    (hw : FlagWords s) (hup : AllFlagsUpToDate s) :
    (∀ K groupDef, AllFlagsUpToDate (CreateParticlesWithPositions K s groupDef).2) ∧
      (∀ index newFlags, newFlags < 2 ^ 32 →
        AllFlagsUpToDate (SetParticleFlags s index newFlags)) ∧
      (∀ index newFlags, newFlags < 2 ^ 32 →
        AllFlagsUpToDate (AddParticleFlags s index newFlags)) ∧
      (∀ flags, AllFlagsUpToDate (RemovePartFlagsFromAll s flags)) ∧
      (∀ index, AllFlagsUpToDate (DestroyParticle s index)) ∧
      (∀ K groupIdx timestamp,
        (s.m_groupBuffer groupIdx).m_firstIndex ≤ (s.m_groupBuffer groupIdx).m_lastIndex →
        RangesOk s.m_zombieRanges →
        AllFlagsUpToDate (DestroyGroup K s groupIdx timestamp false)) ∧
      (∀ t : b2ParticleSystem, t.m_accelerate = false →
        AllFlagsUpToDate (UpdateAllParticleFlags t) ∧
        (UpdateAllParticleFlags t).m_flags = t.m_flags ∧
        ∀ j, (UpdateAllParticleFlags t).m_allFlags.testBit j = true ↔
          ∃ i, 0 ≤ i ∧ i < t.m_count ∧ (t.m_flags i).testBit j = true) :=
  ⟨fun K groupDef => CreateParticlesWithPositions_allFlags K s groupDef hacc hup,
    fun index newFlags hnew => SetParticleFlags_allFlags s index newFlags hacc hnew hup,
    fun index newFlags hnew => AddParticleFlags_allFlags s index newFlags hacc hnew hup,
    fun flags => RemovePartFlagsFromAll_allFlags s flags hacc hup,
    fun index => DestroyParticle_allFlags s index hacc hw hup,
    fun K groupIdx timestamp hle hr => DestroyGroup_allFlags K s groupIdx timestamp hle hr hup,
    fun t ht => ⟨UpdateAllParticleFlags_allFlags t ht, (UpdateAllParticleFlags_union t).1,
      (UpdateAllParticleFlags_union t).2.2.2⟩⟩

theorem allFlags_cover_preserved_witness :
    twoGroups.m_accelerate = false ∧ FlagWords twoGroups ∧ AllFlagsUpToDate twoGroups ∧
      AllFlagsUpToDate (DestroyParticle twoGroups 0) ∧
      (DestroyParticle twoGroups 0).m_allFlags = Particle.Zombie :=
  have hw : FlagWords twoGroups := fun _ => by
    show (0 : Nat) < 2 ^ 32
    decide
  have hup : AllFlagsUpToDate twoGroups := fun _ _ _ => by
    show (0 : Nat) &&& 0 = 0
    rfl
  ⟨rfl, hw, hup, (allFlags_cover_preserved twoGroups rfl hw hup).2.2.2.2.1 0, by decide!⟩

/-! ## Damping of the closing velocity -/

/-- The algebra of one damped contact in space: with a unit normal and
`m * (ia + ib) = 1` the relative normal velocity is scaled by `1 - d`. -/
theorem damped_normal_velocity (va vb n : b2Vec3) (ia ib m d : ℚ)
    (hn : b2Vec3.dot n n = 1) (hm : m * (ia + ib) = 1) :
    b2Vec3.dot ((vb - ib • ((d * m * b2Vec3.dot (vb - va) n) • n)) -
        (va + ia • ((d * m * b2Vec3.dot (vb - va) n) • n))) n =
      (1 - d) * b2Vec3.dot (vb - va) n := by
  simp only [b2Vec3.dot, b2Vec3.sub_x, b2Vec3.sub_y, b2Vec3.sub_z, b2Vec3.add_x, b2Vec3.add_y,
    b2Vec3.add_z, b2Vec3.smul_x, b2Vec3.smul_y, b2Vec3.smul_z] at hn ⊢
  linear_combination
    (-(d * ((vb.x - va.x) * n.x + (vb.y - va.y) * n.y + (vb.z - va.z) * n.z))) * hn +
    (-(d * ((vb.x - va.x) * n.x + (vb.y - va.y) * n.y + (vb.z - va.z) * n.z) *
      (n.x * n.x + n.y * n.y + n.z * n.z))) * hm

/-- The algebra of one damped contact in the plane. -/
theorem damped_normal_velocity_plane (va vb : b2Vec3) (n : b2Vec2) (ia ib m d : ℚ)
    (hn : b2Vec2.dot n n = 1) (hm : m * (ia + ib) = 1) :
    b2Vec2.dot ((vb.subVec2 (ib • ((d * m * b2Vec2.dot (vb - va).toVec2 n) • n))) -
        (va.addVec2 (ia • ((d * m * b2Vec2.dot (vb - va).toVec2 n) • n)))).toVec2 n =
      (1 - d) * b2Vec2.dot (vb - va).toVec2 n := by
  show ((vb.x - ib * ((d * m * ((vb.x - va.x) * n.x + (vb.y - va.y) * n.y)) * n.x)) -
        (va.x + ia * ((d * m * ((vb.x - va.x) * n.x + (vb.y - va.y) * n.y)) * n.x))) * n.x +
      ((vb.y - ib * ((d * m * ((vb.x - va.x) * n.x + (vb.y - va.y) * n.y)) * n.y)) -
        (va.y + ia * ((d * m * ((vb.x - va.x) * n.x + (vb.y - va.y) * n.y)) * n.y))) * n.y =
      (1 - d) * ((vb.x - va.x) * n.x + (vb.y - va.y) * n.y)
  have hn2 : n.x * n.x + n.y * n.y = 1 := hn
  linear_combination
    (-(d * ((vb.x - va.x) * n.x + (vb.y - va.y) * n.y))) * hn2 +
    (-(d * ((vb.x - va.x) * n.x + (vb.y - va.y) * n.y) * (n.x * n.x + n.y * n.y))) * hm

/-- A closing speed scaled by `1 - d` with `d` in `[0, 1]` neither grows nor
changes sign. -/
theorem scaled_closing_speed {vn d : ℚ} (hvn : vn < 0) (h0 : 0 ≤ d) (h1 : d ≤ 1) :
    vn ≤ (1 - d) * vn ∧ (1 - d) * vn ≤ 0 := by
  constructor
  · nlinarith
  · nlinarith

/-- C25: one particle-particle contact in `SolveDamping`, with
`vn = (v_b - v_a) . n`.  When `vn` is not negative the pass leaves the velocity
buffer as it is, in the accelerated lambda and, whatever `DistributeForceDamp`
does, in the sequential loop.  When `vn < 0`, for a unit normal and the contact
mass `1 / (invMass_a + invMass_b)`, the accelerated lambda leaves the relative
normal velocity `(1 - d) * vn` with
`d = max(linearDamping * weight, min(-quadraticDamping * vn, 0.5))`, and so does
the sequential loop when `DistributeForceDamp(a, b, f)` adds `invMass_a * f` to the
velocity of `a` and subtracts `invMass_b * f` from the velocity of `b`; for `d` in
`[0, 1]` the new value lies in `[vn, 0]`: the closing speed does not grow and does
not change sign. -/
theorem SolveDamping_closing_speed (linearDamping quadraticDamping : ℚ) (invMasses : Int → ℚ)
    (velocities : Int → b2Vec3) (contact : b2ParticleContact)
    (DistributeForceDamp : (Int → b2Vec3) → Int → Int → b2Vec2 → Int → b2Vec3) :
    let a := contact.idxA
    let b := contact.idxB
    let n := contact.normal
    let vn := b2Vec3.dot (velocities b - velocities a) n
    let d := max (linearDamping * contact.weight) (min (-quadraticDamping * vn) (1 / 2))
    let amp := SolveDamping_contact linearDamping quadraticDamping invMasses velocities contact
    let vn2 := b2Vec2.dot (velocities b - velocities a).toVec2 n.toVec2
    let d2 := max (linearDamping * contact.weight) (min (-quadraticDamping * vn2) (1 / 2))
    let host := SolveDamping_hostContact DistributeForceDamp linearDamping quadraticDamping
      velocities contact
    (0 ≤ vn → amp = velocities) ∧
    (vn < 0 → b2Vec3.dot n n = 1 → invMasses a + invMasses b ≠ 0 →
      contact.mass = 1 / (invMasses a + invMasses b) →
      b2Vec3.dot (amp b - amp a) n = (1 - d) * vn ∧
        (0 ≤ d → d ≤ 1 →
          vn ≤ b2Vec3.dot (amp b - amp a) n ∧ b2Vec3.dot (amp b - amp a) n ≤ 0)) ∧
    (0 ≤ vn2 → host = velocities) ∧
    (vn2 < 0 → b2Vec2.dot n.toVec2 n.toVec2 = 1 → invMasses a + invMasses b ≠ 0 →
      contact.mass = 1 / (invMasses a + invMasses b) →
      (∀ f, DistributeForceDamp velocities a b f a =
          (velocities a).addVec2 (invMasses a • f) ∧
        DistributeForceDamp velocities a b f b =
          (velocities b).subVec2 (invMasses b • f)) →
      b2Vec2.dot (host b - host a).toVec2 n.toVec2 = (1 - d2) * vn2 ∧
        (0 ≤ d2 → d2 ≤ 1 →
          vn2 ≤ b2Vec2.dot (host b - host a).toVec2 n.toVec2 ∧
            b2Vec2.dot (host b - host a).toVec2 n.toVec2 ≤ 0)) := by
  intro a b n vn d amp vn2 d2 host
  have hmass : invMasses a + invMasses b ≠ 0 →
      contact.mass = 1 / (invMasses a + invMasses b) →
      contact.mass * (invMasses a + invMasses b) = 1 := by
    intro h1 h2
    rw [h2]
    field_simp
  refine ⟨?_, ?_, ?_, ?_⟩
  · intro h
    show SolveDamping_contact linearDamping quadraticDamping invMasses velocities contact = _
    simp only [SolveDamping_contact]
    rw [if_pos h]
  · intro hvn hn hne hm
    have hab : a ≠ b := by
      intro e
      have : vn = 0 := by
        show b2Vec3.dot (velocities b - velocities a) n = 0
        rw [e]
        simp [b2Vec3.dot]
      rw [this] at hvn
      exact lt_irrefl _ hvn
    have ea : amp a = velocities a + invMasses a • ((d * contact.mass * vn) • n) := by
      show SolveDamping_contact linearDamping quadraticDamping invMasses velocities contact a = _
      simp only [SolveDamping_contact]
      rw [if_neg (not_le.2 hvn)]
      simp only [atomicSub, atomicAdd]
      rw [setAt_other _ _ hab, setAt_same]
    have eb : amp b = velocities b - invMasses b • ((d * contact.mass * vn) • n) := by
      show SolveDamping_contact linearDamping quadraticDamping invMasses velocities contact b = _
      simp only [SolveDamping_contact]
      rw [if_neg (not_le.2 hvn)]
      simp only [atomicSub, atomicAdd]
      rw [setAt_same, setAt_other _ _ (Ne.symm hab)]
    have key : b2Vec3.dot (amp b - amp a) n = (1 - d) * vn := by
      rw [ea, eb]
      exact damped_normal_velocity _ _ _ _ _ _ _ hn (hmass hne hm)
    refine ⟨key, ?_⟩
    intro h0 h1
    rw [key]
    exact scaled_closing_speed hvn h0 h1
  · intro h
    show SolveDamping_hostContact DistributeForceDamp linearDamping quadraticDamping
      velocities contact = _
    simp only [SolveDamping_hostContact]
    rw [if_neg (not_lt.2 h)]
  · intro hvn hn hne hm hD
    have ea : host a = (velocities a).addVec2
        (invMasses a • ((d2 * contact.mass * vn2) • n.toVec2)) := by
      show SolveDamping_hostContact DistributeForceDamp linearDamping quadraticDamping
        velocities contact a = _
      simp only [SolveDamping_hostContact]
      rw [if_pos hvn]
      exact (hD _).1
    have eb : host b = (velocities b).subVec2
        (invMasses b • ((d2 * contact.mass * vn2) • n.toVec2)) := by
      show SolveDamping_hostContact DistributeForceDamp linearDamping quadraticDamping
        velocities contact b = _
      simp only [SolveDamping_hostContact]
      rw [if_pos hvn]
      exact (hD _).2
    have key : b2Vec2.dot (host b - host a).toVec2 n.toVec2 = (1 - d2) * vn2 := by
      rw [ea, eb]
      exact damped_normal_velocity_plane _ _ _ _ _ _ _ hn (hmass hne hm)
    refine ⟨key, ?_⟩
    intro h0 h1
    rw [key]
    exact scaled_closing_speed hvn h0 h1

theorem SolveDamping_closing_speed_witness :
    b2Vec3.dot (closingVelocities 1 - closingVelocities 0) closingContact.normal = -1 ∧
      b2Vec3.dot
        (SolveDamping_contact 1 1 (fun _ => 1) closingVelocities closingContact 1 -
          SolveDamping_contact 1 1 (fun _ => 1) closingVelocities closingContact 0)
        closingContact.normal = (1 - 1 / 2) * -1 ∧
      b2Vec2.dot
        (SolveDamping_hostContact (distributeByInvMass (fun _ => 1)) 1 1 closingVelocities
            closingContact 1 -
          SolveDamping_hostContact (distributeByInvMass (fun _ => 1)) 1 1 closingVelocities
            closingContact 0).toVec2
        closingContact.normal.toVec2 = (1 - 1 / 2) * -1 := by
  have h := SolveDamping_closing_speed 1 1 (fun _ => 1) closingVelocities closingContact
    (distributeByInvMass (fun _ => 1))
  refine ⟨by decide!, ?_, ?_⟩
  · exact (h.2.1 (by decide!) (by decide!) (by decide!) (by decide!)).1.trans (by decide!)
  · exact (h.2.2.2 (by decide!) (by decide!) (by decide!) (by decide!)
      (fun f => ⟨by simp [distributeByInvMass, closingContact, setAt],
        by simp [distributeByInvMass, closingContact, setAt]⟩)).1.trans (by decide!)

/-! ## The order of the expiration times -/

/-- The comparator in terms of the two classes of expiration times. -/
theorem ExpirationTimeComparator_iff (t : Int → Int) (a b : Int) :
    ExpirationTimeComparator t a b = true ↔
      (t a ≤ 0 ∧ 0 < t b) ∨ ((t a ≤ 0 ↔ t b ≤ 0) ∧ t b < t a) := by
  unfold ExpirationTimeComparator
  simp only
  by_cases ha : t a ≤ 0 <;> by_cases hb : t b ≤ 0 <;>
    simp only [ha, hb, decide_True, decide_False, if_true, if_false, gt_iff_lt,
      decide_eq_true_eq, Bool.true_eq_false, Bool.false_eq_true, iff_true, iff_false,
      true_and, false_and, and_true, and_false, or_false, false_or, true_iff, not_true,
      not_false_iff] <;> omega

/-- Every list of indices has a sorted arrangement: the postcondition of the sort
can be met. -/
theorem SortedByExpiration_exists (t : Int → Int) (l : List Int) :
    ∃ out : List Int, out.Perm l ∧ SortedByExpiration t out := by
  haveI : IsTotal Int (fun x y => ExpirationTimeComparator t y x = false) := ⟨by
    intro x y
    by_cases h1 : ExpirationTimeComparator t y x = true
    · right
      by_contra h2
      rw [Bool.not_eq_false] at h2
      rw [ExpirationTimeComparator_iff] at h1 h2
      omega
    · left
      simpa using h1⟩
  haveI : IsTrans Int (fun x y => ExpirationTimeComparator t y x = false) := ⟨by
    intro x y z h1 h2
    by_contra h3
    rw [Bool.not_eq_false] at h3
    rw [← Bool.not_eq_true] at h1 h2
    rw [ExpirationTimeComparator_iff] at h1 h2 h3
    omega⟩
  exact ⟨l.insertionSort (fun x y => ExpirationTimeComparator t y x = false),
    List.perm_insertionSort _ l, List.sorted_insertionSort _ l⟩

/-- Two sorted lists of expiration times with the same elements are equal. -/
theorem sorted_times_unique (l1 l2 : List Int) (hp : l1.Perm l2)
    (h1 : l1.Pairwise (fun u v => ExpirationTimeComparator id v u = false))
    (h2 : l2.Pairwise (fun u v => ExpirationTimeComparator id v u = false)) : l1 = l2 := by
  haveI : IsAntisymm Int (fun u v => ExpirationTimeComparator id v u = false) := ⟨by
    intro u v a b
    rw [← Bool.not_eq_true] at a b
    rw [ExpirationTimeComparator_iff] at a b
    simp only [id] at a b
    omega⟩
  exact List.eq_of_perm_of_sorted hp h1 h2

/-- C29: `ExpirationTimeComparator` is a strict weak ordering of the particle
indices (irreflexive, transitive, and "neither before the other" is transitive);
in every arrangement of indices that meets the postcondition of the sort, of two
indices the earlier one has an infinite (non-positive) and the later one a
positive expiration time, or both are of the same kind and the earlier time is
not less than the later; every list of indices has such an arrangement; and for
the expiration times `(10, 7, 3, 0, -10, -20)` every sorted arrangement of the six
indices lists the times as `(0, -10, -20, 10, 7, 3)`. -/
theorem ExpirationTimeComparator_order (t : Int → Int) :
    (∀ a, ExpirationTimeComparator t a a = false) ∧
      (∀ a b c, ExpirationTimeComparator t a b = true → ExpirationTimeComparator t b c = true →
        ExpirationTimeComparator t a c = true) ∧
      (∀ a b c, ExpirationTimeComparator t a b = false →
        ExpirationTimeComparator t b c = false → ExpirationTimeComparator t a c = false) ∧
      (∀ out : List Int, SortedByExpiration t out →
        out.Pairwise (fun x y =>
          (t x ≤ 0 ∧ 0 < t y) ∨ ((t x ≤ 0 ↔ t y ≤ 0) ∧ t y ≤ t x))) ∧
      (∀ l : List Int, ∃ out : List Int, out.Perm l ∧ SortedByExpiration t out) ∧
      (∀ out : List Int, out.Perm [0, 1, 2, 3, 4, 5] →
        SortedByExpiration sampleExpirationTimes out →
        out.map sampleExpirationTimes = [0, -10, -20, 10, 7, 3]) := by
  refine ⟨?_, ?_, ?_, ?_, SortedByExpiration_exists t, ?_⟩
  · intro a
    rw [← Bool.not_eq_true, ExpirationTimeComparator_iff]
    omega
  · intro a b c h1 h2
    rw [ExpirationTimeComparator_iff] at h1 h2 ⊢
    omega
  · intro a b c h1 h2
    rw [← Bool.not_eq_true] at h1 h2 ⊢
    rw [ExpirationTimeComparator_iff] at h1 h2 ⊢
    omega
  · intro out h
    refine List.Pairwise.imp ?_ h
    intro x y hxy
    rw [← Bool.not_eq_true, ExpirationTimeComparator_iff] at hxy
    omega
  · intro out hp hs
    apply sorted_times_unique
    · exact (hp.map sampleExpirationTimes).trans (by decide)
    · unfold SortedByExpiration at hs
      rw [List.pairwise_map]
      exact hs
    · decide

/-! ## Ground contacts -/

/-- The value that `AmpUpdateGroundContacts` leaves in the slot of a particle: the
lane of the particle has run on its own data, or the slot is as before when the
particle is a zombie or not below the count. -/
theorem AmpUpdateGroundContacts_slot (ground : Ground) (TILE_SIZE_SQRT : Int)
    (b2Vec3_up : b2Vec3) (setInvalid : b2PartGroundContact → b2PartGroundContact)
    (s : b2ParticleSystem) (k : Int) :
    (AmpUpdateGroundContacts ground TILE_SIZE_SQRT b2Vec3_up setInvalid s).m_ampGroundContacts k =
      if 0 ≤ k ∧ k < s.m_count ∧ hasFlag (s.m_ampFlags k) Particle.Zombie = false then
        AmpUpdateGroundContacts_lane ground TILE_SIZE_SQRT b2Vec3_up setInvalid
          s.m_particleDiameter s.m_inverseDiameter (s.m_ampPositions k) (s.m_ampMasses k)
          (s.m_ampGroundContacts k)
      else s.m_ampGroundContacts k := by
  unfold AmpUpdateGroundContacts AmpForEachParticle
  simp only
  by_cases hn : 0 ≤ s.m_count
  · have key := forLoop_induction
      (fun (n : Int) (st : b2ParticleSystem) =>
        st.m_ampFlags = s.m_ampFlags ∧ st.m_ampPositions = s.m_ampPositions ∧
        st.m_ampMasses = s.m_ampMasses ∧
        ∀ j, st.m_ampGroundContacts j =
          if 0 ≤ j ∧ j < n ∧ hasFlag (s.m_ampFlags j) Particle.Zombie = false then
            AmpUpdateGroundContacts_lane ground TILE_SIZE_SQRT b2Vec3_up setInvalid
              s.m_particleDiameter s.m_inverseDiameter (s.m_ampPositions j) (s.m_ampMasses j)
              (s.m_ampGroundContacts j)
          else s.m_ampGroundContacts j)
      (fun st i => if hasFlag (st.m_ampFlags i) Particle.Zombie then st else
        { st with
          m_ampGroundContacts := setAt st.m_ampGroundContacts i
            (AmpUpdateGroundContacts_lane ground TILE_SIZE_SQRT b2Vec3_up setInvalid
              s.m_particleDiameter s.m_inverseDiameter (st.m_ampPositions i) (st.m_ampMasses i)
              (st.m_ampGroundContacts i)) })
      s hn
      ⟨rfl, rfl, rfl, by
        intro j
        rw [if_neg (by omega)]⟩
      (by
        rintro i st hi0 hi1 ⟨a1, a2, a3, a4⟩
        by_cases hz : hasFlag (st.m_ampFlags i) Particle.Zombie = true
        · simp only [hz, if_true]
          refine ⟨a1, a2, a3, ?_⟩
          intro j
          rw [a4 j]
          by_cases hj : j = i
          · subst hj
            rw [a1] at hz
            rw [if_neg (by omega), if_neg (by rw [hz]; simp)]
          · by_cases hc : 0 ≤ j ∧ j < i ∧ hasFlag (s.m_ampFlags j) Particle.Zombie = false
            · rw [if_pos hc, if_pos ⟨hc.1, by omega, hc.2.2⟩]
            · rw [if_neg hc, if_neg (by
                rintro ⟨c1, c2, c3⟩
                exact hc ⟨c1, by omega, c3⟩)]
        · simp only [hz, Bool.false_eq_true, if_false]
          refine ⟨a1, a2, a3, ?_⟩
          intro j
          show setAt st.m_ampGroundContacts i _ j = _
          by_cases hj : j = i
          · subst hj
            rw [a1] at hz
            rw [setAt_same, a2, a3, a4 j, if_neg (by omega),
              if_pos ⟨hi0, by omega, by simpa using hz⟩]
          · rw [setAt_other _ _ hj, a4 j]
            by_cases hc : 0 ≤ j ∧ j < i ∧ hasFlag (s.m_ampFlags j) Particle.Zombie = false
            · rw [if_pos hc, if_pos ⟨hc.1, by omega, hc.2.2⟩]
            · rw [if_neg hc, if_neg (by
                rintro ⟨c1, c2, c3⟩
                exact hc ⟨c1, by omega, c3⟩)])
    exact key.2.2.2 k
  · rw [forLoop_of_le (by omega), if_neg (by omega)]

/-- For a position with non-negative coordinates the lane of
`AmpUpdateGroundContacts` does what the ground contact is meant to be: with
`tx = floor(x / stride)` and `ty = floor(y / stride)` the contact is marked invalid
when `(x, y)` is not inside `[0, tileCntX * stride) x [0, tileCntY * stride)` or the
height above the tile is at least the diameter, and otherwise refers to the tile
`ty * tileCntX + tx` with weight `1 - d / diameter`, the up normal and the mass of
the particle. -/
theorem AmpUpdateGroundContacts_lane_inside (ground : Ground) (TILE_SIZE_SQRT : Int)
    (b2Vec3_up : b2Vec3) (setInvalid : b2PartGroundContact → b2PartGroundContact)
    (partDiameter invDiameter : ℚ) (p : b2Vec3) (mass : ℚ) (contact : b2PartGroundContact)
    (hs : 0 < ground.m_stride) (hinv : invDiameter = 1 / partDiameter)
    (hx : 0 ≤ p.x) (hy : 0 ≤ p.y) :
    let tx := ⌊p.x / ground.m_stride⌋
    let ty := ⌊p.y / ground.m_stride⌋
    let d := p.z - (ground.m_ampTiles (ty * ground.m_tileCntX + tx)).height
    let new := AmpUpdateGroundContacts_lane ground TILE_SIZE_SQRT b2Vec3_up setInvalid
      partDiameter invDiameter p mass contact
    ((ground.m_tileCntX * ground.m_stride ≤ p.x ∨ ground.m_tileCntY * ground.m_stride ≤ p.y) →
        new = setInvalid contact) ∧
      (p.x < ground.m_tileCntX * ground.m_stride → p.y < ground.m_tileCntY * ground.m_stride →
        (partDiameter ≤ d → new = setInvalid contact) ∧
        (d < partDiameter →
          new.groundTileIdx = ty * ground.m_tileCntX + tx ∧
          new.groundMatIdx = (ground.m_ampTiles (ty * ground.m_tileCntX + tx)).matIdx ∧
          new.weight = 1 - d / partDiameter ∧ new.normal = b2Vec3_up ∧ new.mass = mass)) := by
  intro tx ty d new
  have ex : truncToInt32 (p.x * (1 / ground.m_stride)) = tx := by
    unfold truncToInt32
    rw [if_pos (by positivity), mul_one_div]
  have ey : truncToInt32 (p.y * (1 / ground.m_stride)) = ty := by
    unfold truncToInt32
    rw [if_pos (by positivity), mul_one_div]
  have htx0 : 0 ≤ tx := Int.floor_nonneg.2 (by positivity)
  have hty0 : 0 ≤ ty := Int.floor_nonneg.2 (by positivity)
  have hxlt : tx < ground.m_tileCntX ↔ p.x < ground.m_tileCntX * ground.m_stride := by
    show ⌊p.x / ground.m_stride⌋ < _ ↔ _
    rw [Int.floor_lt, div_lt_iff₀ hs]
  have hylt : ty < ground.m_tileCntY ↔ p.y < ground.m_tileCntY * ground.m_stride := by
    show ⌊p.y / ground.m_stride⌋ < _ ↔ _
    rw [Int.floor_lt, div_lt_iff₀ hs]
  have hnew : new = AmpUpdateGroundContacts_lane ground TILE_SIZE_SQRT b2Vec3_up setInvalid
      partDiameter invDiameter p mass contact := rfl
  simp only [AmpUpdateGroundContacts_lane, ex, ey] at hnew
  refine ⟨?_, ?_⟩
  · intro h
    rw [hnew, if_pos]
    rcases h with h | h
    · right; left
      exact not_lt.1 (fun c => absurd (hxlt.1 c) (not_lt.2 h))
    · right; right; right
      exact not_lt.1 (fun c => absurd (hylt.1 c) (not_lt.2 h))
  · intro h1 h2
    have hin : ¬ (tx < 0 ∨ tx ≥ ground.m_tileCntX ∨ ty < 0 ∨ ty ≥ ground.m_tileCntY) := by
      have := hxlt.2 h1
      have := hylt.2 h2
      omega
    rw [if_neg hin] at hnew
    refine ⟨?_, ?_⟩
    · intro hd
      rw [hnew, if_pos hd]
    · intro hd
      rw [if_neg (not_le.2 hd)] at hnew
      rw [hnew]
      refine ⟨rfl, rfl, ?_, rfl, rfl⟩
      show 1 - d * invDiameter = 1 - d / partDiameter
      rw [hinv, mul_one_div]

/-- C23 at a failing input: a ground of `4 x 4` tiles of stride `1` and a particle
of diameter `1` at `(-1/2, 3/2, 0)`, which is outside the grid `[0, 4) x [0, 4)`.
`int32 tx = p.x * invStride` truncates `-1/2` toward zero to `0`, the test
`tx < 0` does not fire, and the contact is not marked invalid: it refers to the
tile `1 * 4 + 0 = 4` in column `0`, with weight `1`, the up normal and the mass of
the particle, the same contact as for the particle at `(1/2, 3/2, 0)` inside
the grid. -/
theorem AmpUpdateGroundContacts_truncates :
    (strayParticle.m_ampPositions 0).x < 0 ∧
      truncToInt32 ((strayParticle.m_ampPositions 0).x * (1 / flatGround.m_stride)) = 0 ∧
      (AmpUpdateGroundContacts flatGround 4 ⟨0, 0, 1⟩ invalidTile
        strayParticle).m_ampGroundContacts 0 = ⟨4, 0, 7, 1, ⟨0, 0, 1⟩, 2⟩ ∧
      invalidTile (strayParticle.m_ampGroundContacts 0) = ⟨INVALID_IDX, 0, 0, 0, 0, 0⟩ ∧
      (AmpUpdateGroundContacts flatGround 4 ⟨0, 0, 1⟩ invalidTile
        groundedParticle).m_ampGroundContacts 0 = ⟨4, 0, 7, 1, ⟨0, 0, 1⟩, 2⟩ := by
  refine ⟨by decide!, by decide!, by decide!, by decide!, by decide!⟩

/-! ## The list of free ranges -/

theorem isFree_nil (i : Int) : isFree [] i ↔ False := by
  simp [isFree]

theorem isFree_cons (r : Int × Int) (l : List (Int × Int)) (i : Int) :
    isFree (r :: l) i ↔ (r.1 ≤ i ∧ i < r.2) ∨ isFree l i := by
  simp [isFree]

theorem isFree_append (a b : List (Int × Int)) (i : Int) :
    isFree (a ++ b) i ↔ isFree a i ∨ isFree b i := by
  simp only [isFree, List.mem_append]
  constructor
  · rintro ⟨r, h | h, hr⟩
    · exact Or.inl ⟨r, h, hr⟩
    · exact Or.inr ⟨r, h, hr⟩
  · rintro (⟨r, h, hr⟩ | ⟨r, h, hr⟩)
    · exact ⟨r, Or.inl h, hr⟩
    · exact ⟨r, Or.inr h, hr⟩

theorem FreeRangesOk_nil (c : Int) : FreeRangesOk [] c := by
  simp [FreeRangesOk]

theorem FreeRangesOk_cons (r : Int × Int) (l : List (Int × Int)) (c : Int) :
    FreeRangesOk (r :: l) c ↔
      (0 ≤ r.1 ∧ r.1 < r.2 ∧ r.2 ≤ c) ∧ (∀ q ∈ l, r.2 < q.1) ∧ FreeRangesOk l c := by
  simp only [FreeRangesOk, List.pairwise_cons, List.mem_cons, forall_eq_or_imp]
  tauto

theorem FreeRangesOk_append (a b : List (Int × Int)) (c : Int) :
    FreeRangesOk (a ++ b) c ↔
      FreeRangesOk a c ∧ FreeRangesOk b c ∧ ∀ x ∈ a, ∀ y ∈ b, x.2 < y.1 := by
  simp only [FreeRangesOk, List.pairwise_append, List.mem_append, or_imp, forall_and]
  tauto

/-- A range of a good list that neither ends before `f` nor starts after `e`
shares a slot with `[f, e)`. -/
theorem range_apart_of_not_free {l : List (Int × Int)} {c f e : Int}
    (hinv : FreeRangesOk l c) (hfe : f < e)
    (hdis : ∀ i, f ≤ i → i < e → ¬ isFree l i) :
    ∀ r ∈ l, r.2 ≤ f ∨ e ≤ r.1 := by
  intro r hr
  by_contra hcon
  have h3 := hinv.2 r hr
  by_cases hc : f ≤ r.1
  · exact hdis r.1 hc (by omega) ⟨r, hr, le_refl _, by omega⟩
  · exact hdis f (le_refl _) hfe ⟨r, hr, by omega, by omega⟩

/-- The scan of `AddZombieRange` from a range `p` that ends at or before `f`. -/
theorem AddZombieRange_scan_some (f e c : Int) (h0 : 0 ≤ f) (hfe : f < e) (hec : e ≤ c) :
    ∀ (rest done : List (Int × Int)) (p : Int × Int),
      FreeRangesOk (done ++ p :: rest) c → p.2 ≤ f →
      (∀ r ∈ rest, r.2 ≤ f ∨ e ≤ r.1) →
      match AddZombieRange_scan f e done (some p) rest with
      | some ranges => FreeRangesOk ranges c ∧
          ∀ i, isFree ranges i ↔ isFree (done ++ p :: rest) i ∨ (f ≤ i ∧ i < e)
      | none => ∀ r ∈ rest, r.2 ≤ f := by
  intro rest
  induction rest with
  | nil =>
    intro done p _ _ _
    simp [AddZombieRange_scan]
  | cons curr rest ih =>
    intro done p hinv hp hdis
    have hinv2 := hinv
    simp only [FreeRangesOk_append, FreeRangesOk_cons, List.mem_cons, forall_eq_or_imp]
      at hinv2
    obtain ⟨hdone, ⟨hp3, ⟨hpc, hprest⟩, hc3, hcrest, hrest⟩, hdp⟩ := hinv2
    have hcurr := hdis curr (List.mem_cons_self _ _)
    unfold AddZombieRange_scan
    by_cases h1 : f < curr.1
    · have hecurr : e ≤ curr.1 := by omega
      rw [if_pos h1]
      simp only [Option.getD_some]
      by_cases h2 : p.2 = f
      · rw [if_pos h2]
        by_cases h3 : curr.1 = e
        · rw [if_pos h3]
          simp only [FreeRangesOk_append, FreeRangesOk_cons, List.mem_cons, forall_eq_or_imp,
            isFree_append, isFree_cons]
          refine ⟨⟨hdone, ⟨⟨by omega, by omega, by omega⟩, hcrest, hrest⟩, ?_⟩, ?_⟩
          · intro x hx
            obtain ⟨a1, a2, a3⟩ := hdp x hx
            exact ⟨a1, a3⟩
          · intro i
            by_cases hA : isFree done i
            · simp only [hA, true_or]
            · by_cases hB : isFree rest i
              · simp only [hB, or_true, true_or]
              · simp only [hA, hB, false_or, or_false]
                omega
        · rw [if_neg h3]
          simp only [FreeRangesOk_append, FreeRangesOk_cons, List.mem_cons, forall_eq_or_imp,
            isFree_append, isFree_cons]
          refine ⟨⟨hdone, ⟨⟨by omega, by omega, by omega⟩, ⟨by omega, ?_⟩,
            ⟨hc3, hcrest, hrest⟩⟩, ?_⟩, ?_⟩
          · intro q hq
            have := hcrest q hq
            omega
          · intro x hx
            obtain ⟨a1, a2, a3⟩ := hdp x hx
            exact ⟨a1, a2, a3⟩
          · intro i
            by_cases hA : isFree done i
            · simp only [hA, true_or]
            · by_cases hB : isFree rest i
              · simp only [hB, or_true, true_or]
              · simp only [hA, hB, false_or, or_false]
                omega
      · rw [if_neg h2]
        by_cases h3 : curr.1 = e
        · rw [if_pos h3]
          simp only [Option.toList_some, List.append_assoc, List.singleton_append,
            FreeRangesOk_append, FreeRangesOk_cons, List.mem_cons, forall_eq_or_imp,
            isFree_append, isFree_cons]
          refine ⟨⟨hdone, ⟨hp3, ⟨by omega, hprest⟩, ⟨by omega, by omega, by omega⟩, hcrest,
            hrest⟩, ?_⟩, ?_⟩
          · intro x hx
            obtain ⟨a1, a2, a3⟩ := hdp x hx
            exact ⟨a1, by omega, a3⟩
          · intro i
            by_cases hA : isFree done i
            · simp only [hA, true_or]
            · by_cases hB : isFree rest i
              · simp only [hB, or_true, true_or]
              · simp only [hA, hB, false_or, or_false]
                omega
        · rw [if_neg h3]
          simp only [Option.toList_some, List.append_assoc, List.singleton_append,
            FreeRangesOk_append, FreeRangesOk_cons, List.mem_cons, forall_eq_or_imp,
            isFree_append, isFree_cons]
          refine ⟨⟨hdone, ⟨hp3, ⟨by omega, hpc, hprest⟩, ⟨by omega, by omega, by omega⟩,
            ⟨by omega, ?_⟩, hc3, hcrest, hrest⟩, ?_⟩, ?_⟩
          · intro q hq
            have := hcrest q hq
            omega
          · intro x hx
            obtain ⟨a1, a2, a3⟩ := hdp x hx
            exact ⟨a1, by omega, a2, a3⟩
          · intro i
            by_cases hA : isFree done i
            · simp only [hA, true_or]
            · by_cases hB : isFree rest i
              · simp only [hB, or_true, true_or]
              · simp only [hA, hB, false_or, or_false]
                omega
    · rw [if_neg h1]
      have hc2 : curr.2 ≤ f := by omega
      have key := ih (done ++ [p]) curr (by simpa using hinv) hc2
        (fun r hr => hdis r (List.mem_cons_of_mem _ hr))
      simp only [Option.toList_some]
      cases hres : AddZombieRange_scan f e (done ++ [p]) (some curr) rest with
      | none =>
        rw [hres] at key
        simp only at key ⊢
        intro r hr
        rcases List.mem_cons.1 hr with h | h
        · rw [h]
          exact hc2
        · exact key r h
      | some ranges =>
        rw [hres] at key
        simp only at key ⊢
        refine ⟨key.1, ?_⟩
        intro i
        rw [key.2 i]
        simp only [List.append_assoc, List.singleton_append]

/-- The scan of `AddZombieRange` from the start of the list. -/
theorem AddZombieRange_scan_init (f e c : Int) (h0 : 0 ≤ f) (hfe : f < e) (hec : e ≤ c)
    (l : List (Int × Int)) (hinv : FreeRangesOk l c)
    (hdis : ∀ r ∈ l, r.2 ≤ f ∨ e ≤ r.1) :
    match AddZombieRange_scan f e [] none l with
    | some ranges => FreeRangesOk ranges c ∧
        ∀ i, isFree ranges i ↔ isFree l i ∨ (f ≤ i ∧ i < e)
    | none => ∀ r ∈ l, r.2 ≤ f := by
  cases l with
  | nil => simp [AddZombieRange_scan]
  | cons curr rest =>
    have hinv2 := hinv
    simp only [FreeRangesOk_cons] at hinv2
    obtain ⟨hc3, hcrest, hrest⟩ := hinv2
    have hcurr := hdis curr (List.mem_cons_self _ _)
    unfold AddZombieRange_scan
    by_cases h1 : f < curr.1
    · rw [if_pos h1]
      simp only [Option.getD_none]
      rw [if_neg (by omega)]
      by_cases h3 : curr.1 = e
      · rw [if_pos h3]
        simp only [Option.toList_none, List.append_nil, List.nil_append, FreeRangesOk_cons,
          isFree_cons]
        refine ⟨⟨⟨by omega, by omega, by omega⟩, hcrest, hrest⟩, ?_⟩
        intro i
        by_cases hB : isFree rest i
        · simp only [hB, or_true, true_or]
        · simp only [hB, or_false]
          omega
      · rw [if_neg h3]
        simp only [Option.toList_none, List.append_nil, List.nil_append, FreeRangesOk_cons,
          isFree_cons, List.mem_cons, forall_eq_or_imp]
        refine ⟨⟨⟨by omega, by omega, by omega⟩, ⟨by omega, ?_⟩, hc3, hcrest, hrest⟩, ?_⟩
        · intro q hq
          have := hcrest q hq
          omega
        · intro i
          by_cases hB : isFree rest i
          · simp only [hB, or_true, true_or]
          · simp only [hB, or_false]
            omega
    · rw [if_neg h1]
      have hc2 : curr.2 ≤ f := by omega
      have key := AddZombieRange_scan_some f e c h0 hfe hec rest [] curr
        (by simpa using hinv) hc2 (fun r hr => hdis r (List.mem_cons_of_mem _ hr))
      simp only [Option.toList_none, List.append_nil]
      cases hres : AddZombieRange_scan f e [] (some curr) rest with
      | none =>
        rw [hres] at key
        simp only at key ⊢
        intro r hr
        rcases List.mem_cons.1 hr with h | h
        · rw [h]
          exact hc2
        · exact key r h
      | some ranges =>
        rw [hres] at key
        simp only [List.nil_append] at key ⊢
        exact key

/-- `AddZombieRange` on a good list of free ranges, for a non-empty range inside
`[0, m_count)` that shares no slot with the list: the list stays good, the slots
that are free or not below the count afterwards are the ones that were so before
together with the range, and the count shrinks exactly when the range ends at it. -/
theorem AddZombieRange_ranges (s : b2ParticleSystem) (f e : Int)
    (hinv : FreeRangesOk s.m_zombieRanges s.m_count) (h0 : 0 ≤ f) (hfe : f < e)
    (hec : e ≤ s.m_count) (hdis : ∀ i, f ≤ i → i < e → ¬ isFree s.m_zombieRanges i) :
    FreeRangesOk (AddZombieRange s f e).m_zombieRanges (AddZombieRange s f e).m_count ∧
      (∀ i, (isFree (AddZombieRange s f e).m_zombieRanges i ∨
          (AddZombieRange s f e).m_count ≤ i) ↔
        (isFree s.m_zombieRanges i ∨ (f ≤ i ∧ i < e) ∨ s.m_count ≤ i)) ∧
      (e = s.m_count → (AddZombieRange s f e).m_count ≤ f) ∧
      (e ≠ s.m_count → (AddZombieRange s f e).m_count = s.m_count) := by
  have hapart := range_apart_of_not_free hinv hfe hdis
  have hback : ∀ back, s.m_zombieRanges.getLast? = some back →
      FreeRangesOk s.m_zombieRanges.dropLast s.m_count ∧
      (0 ≤ back.1 ∧ back.1 < back.2 ∧ back.2 ≤ s.m_count) ∧
      (∀ x ∈ s.m_zombieRanges.dropLast, x.2 < back.1) ∧
      (∀ r ∈ s.m_zombieRanges, r ∈ s.m_zombieRanges.dropLast ∨ r = back) ∧
      (back ∈ s.m_zombieRanges) ∧
      ∀ i, isFree s.m_zombieRanges i ↔
        isFree s.m_zombieRanges.dropLast i ∨ (back.1 ≤ i ∧ i < back.2) := by
    intro back hb
    have hl : s.m_zombieRanges.dropLast ++ [back] = s.m_zombieRanges :=
      List.dropLast_append_getLast? back hb
    have hinv2 := hinv
    rw [← hl] at hinv2
    simp only [FreeRangesOk_append, FreeRangesOk_cons, List.mem_cons, List.not_mem_nil,
      or_false, forall_eq] at hinv2
    obtain ⟨hinit, ⟨hb3, _, _⟩, hib⟩ := hinv2
    refine ⟨hinit, hb3, hib, ?_, List.mem_of_getLast?_eq_some hb, ?_⟩
    · intro r hr
      rw [← hl] at hr
      rcases List.mem_append.1 hr with h | h
      · exact Or.inl h
      · exact Or.inr (List.mem_singleton.1 h)
    · intro i
      conv_lhs => rw [← hl]
      simp only [isFree_append, isFree_cons, isFree_nil, or_false]
  by_cases hc : e = s.m_count
  · subst hc
    have hbelow : ∀ r ∈ s.m_zombieRanges, r.2 ≤ f := by
      intro r hr
      have := hinv.2 r hr
      have := hapart r hr
      omega
    have hunf : AddZombieRange s f s.m_count =
        match s.m_zombieRanges.getLast? with
        | some back =>
          if f = back.2 then
            { s with m_count := back.1, m_zombieRanges := s.m_zombieRanges.dropLast }
          else { s with m_count := f }
        | none => { s with m_count := f } := by
      unfold AddZombieRange
      simp only [if_true]
    rw [hunf]
    cases hb : s.m_zombieRanges.getLast? with
    | none =>
      simp only
      have hnil : s.m_zombieRanges = [] := List.getLast?_eq_none_iff.1 hb
      refine ⟨?_, ?_, fun _ => le_refl _, fun h => absurd rfl h⟩
      · rw [hnil]
        exact FreeRangesOk_nil _
      · intro i
        rw [hnil]
        simp only [isFree_nil, false_or]
        omega
    | some back =>
      simp only
      obtain ⟨hinit, hb3, hib, hmem, hbm, hfreel⟩ := hback back hb
      have hbf : back.2 ≤ f := hbelow back hbm
      by_cases h2 : f = back.2
      · rw [if_pos h2]
        refine ⟨?_, ?_, fun _ => by show back.1 ≤ f; omega, fun h => absurd rfl h⟩
        · refine ⟨hinit.1, ?_⟩
          intro r hr
          have := hinit.2 r hr
          have := hib r hr
          exact ⟨by omega, by omega, by show r.2 ≤ back.1; omega⟩
        · intro i
          show isFree s.m_zombieRanges.dropLast i ∨ back.1 ≤ i ↔ _
          rw [hfreel i]
          by_cases hA : isFree s.m_zombieRanges.dropLast i
          · simp only [hA, true_or]
          · simp only [hA, false_or]
            omega
      · rw [if_neg h2]
        refine ⟨?_, ?_, fun _ => le_refl _, fun h => absurd rfl h⟩
        · refine ⟨hinv.1, ?_⟩
          intro r hr
          have := hinv.2 r hr
          have := hbelow r hr
          exact ⟨by omega, by omega, by show r.2 ≤ f; omega⟩
        · intro i
          show isFree s.m_zombieRanges i ∨ f ≤ i ↔ _
          by_cases hA : isFree s.m_zombieRanges i
          · simp only [hA, true_or]
          · simp only [hA, false_or]
            omega
  · have hunf : AddZombieRange s f e =
        match AddZombieRange_scan f e [] none s.m_zombieRanges with
        | some ranges => { s with m_zombieRanges := ranges }
        | none =>
          match s.m_zombieRanges.getLast? with
          | some back =>
            if back.2 = f then
              { s with m_zombieRanges := s.m_zombieRanges.dropLast ++ [(back.1, e)] }
            else { s with m_zombieRanges := s.m_zombieRanges ++ [(f, e)] }
          | none => { s with m_zombieRanges := s.m_zombieRanges ++ [(f, e)] } := by
      unfold AddZombieRange
      rw [if_neg (fun h => hc h.symm)]
    rw [hunf]
    have key := AddZombieRange_scan_init f e s.m_count h0 hfe hec s.m_zombieRanges hinv hapart
    cases hres : AddZombieRange_scan f e [] none s.m_zombieRanges with
    | some ranges =>
      rw [hres] at key
      simp only at key ⊢
      refine ⟨key.1, ?_, fun h => absurd h hc, fun _ => trivial⟩
      intro i
      rw [key.2 i]
      tauto
    | none =>
      rw [hres] at key
      simp only at key ⊢
      cases hb : s.m_zombieRanges.getLast? with
      | none =>
        simp only
        have hnil : s.m_zombieRanges = [] := List.getLast?_eq_none_iff.1 hb
        refine ⟨?_, ?_, fun h => absurd h hc, fun _ => trivial⟩
        · rw [hnil]
          simp only [List.nil_append, FreeRangesOk_cons]
          exact ⟨⟨h0, hfe, hec⟩, by simp, FreeRangesOk_nil _⟩
        · intro i
          rw [hnil]
          simp only [List.nil_append, isFree_cons, isFree_nil, or_false, false_or]
      | some back =>
        simp only
        obtain ⟨hinit, hb3, hib, hmem, hbm, hfreel⟩ := hback back hb
        have hbf : back.2 ≤ f := key back hbm
        by_cases h2 : back.2 = f
        · rw [if_pos h2]
          refine ⟨?_, ?_, fun h => absurd h hc, fun _ => rfl⟩
          · simp only [FreeRangesOk_append, FreeRangesOk_cons, List.mem_cons, List.not_mem_nil,
              or_false, forall_eq]
            exact ⟨hinit, ⟨⟨by omega, by omega, hec⟩, by simp, FreeRangesOk_nil _⟩, hib⟩
          · intro i
            show isFree (s.m_zombieRanges.dropLast ++ [(back.1, e)]) i ∨ _ ↔ _
            rw [hfreel i]
            simp only [isFree_append, isFree_cons, isFree_nil, or_false]
            by_cases hA : isFree s.m_zombieRanges.dropLast i
            · simp only [hA, true_or]
            · simp only [hA, false_or]
              omega
        · rw [if_neg h2]
          refine ⟨?_, ?_, fun h => absurd h hc, fun _ => rfl⟩
          · simp only [FreeRangesOk_append, FreeRangesOk_cons, List.mem_cons, List.not_mem_nil,
              or_false, forall_eq]
            refine ⟨hinv, ⟨⟨h0, hfe, hec⟩, by simp, FreeRangesOk_nil _⟩, ?_⟩
            intro r hr
            rcases hmem r hr with h | h
            · have := hib r h
              show r.2 < f
              omega
            · rw [h]
              show back.2 < f
              omega
          · intro i
            show isFree (s.m_zombieRanges ++ [(f, e)]) i ∨ _ ↔ _
            simp only [isFree_append, isFree_cons, isFree_nil, or_false]
            tauto

/-- The scan of `GetWriteIdx`: it stops at the first range with `particleCnt`
slots, takes the slots from the start of that range and drops the range when
nothing of it remains; it fails only when every range is too short. -/
theorem GetWriteIdx_scan_first (n : Int) :
    ∀ (rest done : List (Int × Int)), (∀ q ∈ done, q.2 - q.1 < n) →
      (∀ w ranges, GetWriteIdx_scan n done rest = some (w, ranges) →
        ∃ pre r post, done ++ rest = pre ++ r :: post ∧ (∀ q ∈ pre, q.2 - q.1 < n) ∧
          n ≤ r.2 - r.1 ∧ w = r.1 ∧
          ranges = pre ++ (if r.2 - r.1 = n then post else (r.1 + n, r.2) :: post)) ∧
      (GetWriteIdx_scan n done rest = none → ∀ q ∈ done ++ rest, q.2 - q.1 < n) := by
  intro rest
  induction rest with
  | nil =>
    intro done hdone
    refine ⟨?_, ?_⟩
    · intro w ranges h
      simp [GetWriteIdx_scan] at h
    · intro _ q hq
      exact hdone q (by simpa using hq)
  | cons r rest ih =>
    intro done hdone
    unfold GetWriteIdx_scan
    simp only
    by_cases h1 : r.2 - r.1 - n ≥ 0
    · rw [if_pos h1]
      by_cases h2 : r.2 - r.1 - n = 0
      · rw [if_pos h2]
        refine ⟨?_, fun h => by cases h⟩
        intro w ranges h
        simp only [Option.some.injEq, Prod.mk.injEq] at h
        refine ⟨done, r, rest, rfl, hdone, by omega, h.1.symm, ?_⟩
        rw [if_pos (by omega)]
        exact h.2.symm
      · rw [if_neg h2]
        refine ⟨?_, fun h => by cases h⟩
        intro w ranges h
        simp only [Option.some.injEq, Prod.mk.injEq] at h
        refine ⟨done, r, rest, rfl, hdone, by omega, h.1.symm, ?_⟩
        rw [if_neg (by omega)]
        exact h.2.symm
    · rw [if_neg h1]
      have hdone2 : ∀ q ∈ done ++ [r], q.2 - q.1 < n := by
        intro q hq
        rcases List.mem_append.1 hq with h | h
        · exact hdone q h
        · rw [List.mem_singleton.1 h]
          omega
      have key := ih (done ++ [r]) hdone2
      simp only [List.append_assoc, List.singleton_append] at key
      exact key

/-- A slot of a range list that lies wholly before `b` is before `b`, and a slot
of a list that lies wholly after `a` is after `a`. -/
theorem isFree_bounds {l : List (Int × Int)} {i : Int} (h : isFree l i) :
    (∀ b, (∀ x ∈ l, x.2 < b) → i < b) ∧ (∀ a, (∀ x ∈ l, a < x.1) → a < i) := by
  obtain ⟨r, hr, h1, h2⟩ := h
  refine ⟨?_, ?_⟩
  · intro b hb
    have := hb r hr
    omega
  · intro a ha
    have := ha r hr
    omega

/-- `GetWriteIdx(n)` on a good list of free ranges, for `n >= 0`: the list stays
good; either the write index is the start of the first listed range with at least
`n` slots, the count stays and exactly the slots `[writeIdx, writeIdx + n)` leave
the list, or no listed range has `n` slots, the write index is the old count, the
count grows by `n` and the list stays as it is. -/
theorem GetWriteIdx_ranges (K : Settings) (s : b2ParticleSystem) (n : Int)
    (hinv : FreeRangesOk s.m_zombieRanges s.m_count) (hn : 0 ≤ n) :
    FreeRangesOk (GetWriteIdx K s n).2.m_zombieRanges (GetWriteIdx K s n).2.m_count ∧
      ((∃ pre r post, s.m_zombieRanges = pre ++ r :: post ∧ (∀ q ∈ pre, q.2 - q.1 < n) ∧
          n ≤ r.2 - r.1 ∧ (GetWriteIdx K s n).1 = r.1 ∧
          (GetWriteIdx K s n).2.m_count = s.m_count ∧
          ∀ i, isFree (GetWriteIdx K s n).2.m_zombieRanges i ↔
            isFree s.m_zombieRanges i ∧
              ¬ ((GetWriteIdx K s n).1 ≤ i ∧ i < (GetWriteIdx K s n).1 + n)) ∨
        ((∀ q ∈ s.m_zombieRanges, q.2 - q.1 < n) ∧ (GetWriteIdx K s n).1 = s.m_count ∧
          (GetWriteIdx K s n).2.m_count = s.m_count + n ∧
          (GetWriteIdx K s n).2.m_zombieRanges = s.m_zombieRanges)) := by
  obtain ⟨k1, k2⟩ := GetWriteIdx_scan_first n s.m_zombieRanges [] (by simp)
  simp only [List.nil_append] at k1 k2
  cases hres : GetWriteIdx_scan n [] s.m_zombieRanges with
  | some wr =>
    obtain ⟨w, ranges⟩ := wr
    have hunf : GetWriteIdx K s n = (w, { s with m_zombieRanges := ranges }) := by
      unfold GetWriteIdx
      rw [hres]
    rw [hunf]
    obtain ⟨pre, r, post, hl, hpre, hlen, hw, hranges⟩ := k1 w ranges hres
    have hinv2 := hinv
    rw [hl] at hinv2
    simp only [FreeRangesOk_append, FreeRangesOk_cons, List.mem_cons, forall_eq_or_imp]
      at hinv2
    obtain ⟨hpreok, ⟨hr3, hrpost, hpostok⟩, hprer⟩ := hinv2
    have hfree : ∀ i, isFree ranges i ↔ isFree s.m_zombieRanges i ∧ ¬ (w ≤ i ∧ i < w + n) := by
      intro i
      rw [hl, hranges, hw]
      by_cases hA : isFree pre i
      · have := (isFree_bounds hA).1 r.1 (fun x hx => (hprer x hx).1)
        simp only [isFree_append, hA, true_or, true_and, true_iff]
        omega
      · by_cases hB : isFree post i
        · have := (isFree_bounds hB).2 r.2 hrpost
          by_cases hlen2 : r.2 - r.1 = n
          · rw [if_pos hlen2]
            simp only [isFree_append, isFree_cons, hB, or_true, true_and, true_iff]
            omega
          · rw [if_neg hlen2]
            simp only [isFree_append, isFree_cons, hB, or_true, true_and, true_iff]
            omega
        · by_cases hlen2 : r.2 - r.1 = n
          · rw [if_pos hlen2]
            simp only [isFree_append, isFree_cons, hA, hB, or_false, false_or, false_iff]
            omega
          · rw [if_neg hlen2]
            simp only [isFree_append, isFree_cons, hA, hB, or_false, false_or]
            omega
    refine ⟨?_, Or.inl ⟨pre, r, post, hl, hpre, hlen, hw, rfl, hfree⟩⟩
    show FreeRangesOk ranges s.m_count
    rw [hranges]
    by_cases hlen2 : r.2 - r.1 = n
    · rw [if_pos hlen2]
      rw [FreeRangesOk_append]
      exact ⟨hpreok, hpostok, fun x hx => (hprer x hx).2⟩
    · rw [if_neg hlen2]
      simp only [FreeRangesOk_append, FreeRangesOk_cons, List.mem_cons, forall_eq_or_imp]
      refine ⟨hpreok, ⟨⟨by omega, by omega, by omega⟩, hrpost, hpostok⟩, ?_⟩
      intro x hx
      have := hprer x hx
      exact ⟨by show x.2 < r.1 + n; omega, this.2⟩
  | none =>
    have hview : (GetWriteIdx K s n).1 = s.m_count ∧
        (GetWriteIdx K s n).2.m_count = s.m_count + n ∧
        (GetWriteIdx K s n).2.m_zombieRanges = s.m_zombieRanges := by
      unfold GetWriteIdx
      rw [hres]
      unfold ResizeParticleBuffers
      simp only
      split_ifs <;> refine ⟨?_, ?_, ?_⟩ <;> first | rfl | trivial
    obtain ⟨v1, v2, v3⟩ := hview
    refine ⟨?_, Or.inr ⟨k2 hres, v1, v2, v3⟩⟩
    rw [v2, v3]
    refine ⟨hinv.1, ?_⟩
    intro r hr
    have := hinv.2 r hr
    omega

/-- C26: on a list of free ranges that is sorted by start with a gap between
neighbours (pairwise disjoint, not adjacent) and whose ranges are non-empty parts
of `[0, m_count)`, both operations keep the list so.  `AddZombieRange(f, e)` for
a non-empty range inside `[0, m_count)` that shares no slot with the list makes
free (listed, or not below the count) exactly the slots that were free and the
slots of the range, and shrinks the count exactly when the range ends at it.
`GetWriteIdx(n)` for `n >= 0` returns the start of the first listed range with at
least `n` slots, keeps the count and removes exactly the slots
`[writeIdx, writeIdx + n)` from the list, or, when no listed range has `n` slots,
returns the old count, raises the count by `n` and keeps the list. -/
theorem zombieRanges_stay_sorted (K : Settings) (s : b2ParticleSystem)
    (hinv : FreeRangesOk s.m_zombieRanges s.m_count) :
    (∀ f e, 0 ≤ f → f < e → e ≤ s.m_count →
      (∀ i, f ≤ i → i < e → ¬ isFree s.m_zombieRanges i) →
      FreeRangesOk (AddZombieRange s f e).m_zombieRanges (AddZombieRange s f e).m_count ∧
        (∀ i, (isFree (AddZombieRange s f e).m_zombieRanges i ∨
            (AddZombieRange s f e).m_count ≤ i) ↔
          (isFree s.m_zombieRanges i ∨ (f ≤ i ∧ i < e) ∨ s.m_count ≤ i)) ∧
        (e = s.m_count → (AddZombieRange s f e).m_count ≤ f) ∧
        (e ≠ s.m_count → (AddZombieRange s f e).m_count = s.m_count)) ∧
    (∀ n, 0 ≤ n →
      FreeRangesOk (GetWriteIdx K s n).2.m_zombieRanges (GetWriteIdx K s n).2.m_count ∧
        ((∃ pre r post, s.m_zombieRanges = pre ++ r :: post ∧ (∀ q ∈ pre, q.2 - q.1 < n) ∧
            n ≤ r.2 - r.1 ∧ (GetWriteIdx K s n).1 = r.1 ∧
            (GetWriteIdx K s n).2.m_count = s.m_count ∧
            ∀ i, isFree (GetWriteIdx K s n).2.m_zombieRanges i ↔
              isFree s.m_zombieRanges i ∧
                ¬ ((GetWriteIdx K s n).1 ≤ i ∧ i < (GetWriteIdx K s n).1 + n)) ∨
          ((∀ q ∈ s.m_zombieRanges, q.2 - q.1 < n) ∧ (GetWriteIdx K s n).1 = s.m_count ∧
            (GetWriteIdx K s n).2.m_count = s.m_count + n ∧
            (GetWriteIdx K s n).2.m_zombieRanges = s.m_zombieRanges))) :=
  ⟨fun f e h0 hfe hec hdis => AddZombieRange_ranges s f e hinv h0 hfe hec hdis,
    fun n hn => GetWriteIdx_ranges K s n hinv hn⟩

theorem zombieRanges_stay_sorted_witness :
    FreeRangesOk holedSystem.m_zombieRanges holedSystem.m_count ∧
      (AddZombieRange holedSystem 4 6).m_zombieRanges = [(2, 6), (7, 8)] ∧
      FreeRangesOk (AddZombieRange holedSystem 4 6).m_zombieRanges
        (AddZombieRange holedSystem 4 6).m_count ∧
      (GetWriteIdx sampleSettings holedSystem 2).1 = 2 ∧
      (GetWriteIdx sampleSettings holedSystem 2).2.m_zombieRanges = [(7, 8)] ∧
      FreeRangesOk (GetWriteIdx sampleSettings holedSystem 2).2.m_zombieRanges
        (GetWriteIdx sampleSettings holedSystem 2).2.m_count :=
  have hinv : FreeRangesOk holedSystem.m_zombieRanges holedSystem.m_count := by decide
  have hdis : ∀ i : Int, 4 ≤ i → i < 6 → ¬ isFree holedSystem.m_zombieRanges i := by
    rintro i h1 h2 ⟨r, hr, a, b⟩
    have hr2 : r = (2, 4) ∨ r = (7, 8) := by simpa [holedSystem] using hr
    rcases hr2 with h | h
    · rw [h] at b
      simp only at b
      omega
    · rw [h] at a
      simp only at a
      omega
  ⟨hinv, by decide,
    ((zombieRanges_stay_sorted sampleSettings holedSystem hinv).1 4 6 (by decide) (by decide)
      (by decide) hdis).1,
    by decide, by decide,
    ((zombieRanges_stay_sorted sampleSettings holedSystem hinv).2 2 (by decide)).1⟩

/-! ## `SolveZombie` on a group slot that is used again -/

/-- C2 at a failing input: a group of one particle is created in the empty
system, its particle is destroyed and the system is compacted; `SolveZombie`
flags the emptied group `WillBeDestroyed` and destroys it, and the flag stays in
the freed slot `0`.  A group of three particles is created next; it gets the slot
`0`, and `SetGroupFlags` keeps the internal flag.  Its last particle is destroyed
and the system is compacted again.  Two of the three particles do not carry the
Zombie flag, but `SolveZombie` ends with the particle count `0`, whatever the
second default argument of `DestroyGroup` is: the closing loop destroys the group
that still holds them, and `AddZombieRange` takes its range off the count. -/
theorem SolveZombie_loses_live_particles :
    hasFlag (staleSlot.m_groupBuffer 0).m_groupFlags sampleSettings.WillBeDestroyed = true ∧
      staleSlot.m_groupCount = 0 ∧ staleSlot.m_count = 0 ∧
      hasFlag (revivedGroup.m_groupBuffer 0).m_groupFlags sampleSettings.WillBeDestroyed = true ∧
      revivedGroupHit.m_count = 3 ∧
      survivors revivedGroupHit.m_flags revivedGroupHit.m_count = [0, 1] ∧
      ∀ destroyParticles : Bool,
        (SolveZombie sampleSettings INVALID_IDX destroyParticles revivedGroupHit).m_count = 0 := by
  refine ⟨by decide!, by decide!, by decide!, by decide!, by decide!, by decide!, by decide!⟩

theorem touchingHit_indices : StoredIndicesInRange touchingHit := by
  have c1 : touchingHit.m_contactCount = 1 := by decide!
  have c2 : touchingHit.m_bodyContactCount = 0 := by decide!
  have c3 : touchingHit.m_pairCount = 0 := by decide!
  have c4 : touchingHit.m_triadCount = 0 := by decide!
  refine ⟨?_, ?_, ?_, ?_⟩
  · intro c hc
    rw [mem_bufToList] at hc
    obtain ⟨k, h0, h1, rfl⟩ := hc
    rw [c1] at h1
    have hk : k = 0 := by omega
    subst hk
    decide!
  · intro c hc
    rw [mem_bufToList] at hc
    obtain ⟨k, h0, h1, rfl⟩ := hc
    rw [c2] at h1
    omega
  · intro c hc
    rw [mem_bufToList] at hc
    obtain ⟨k, h0, h1, rfl⟩ := hc
    rw [c3] at h1
    omega
  · intro c hc
    rw [mem_bufToList] at hc
    obtain ⟨k, h0, h1, rfl⟩ := hc
    rw [c4] at h1
    omega

/-- C3 at a failing input: the slot `0` of a destroyed group, which still carries
`WillBeDestroyed`, is taken by a new group of three particles at `(0, 0, 0)`,
`(1/2, 0, 0)` and `(5, 0, 0)`, whose proxies carry the tags that `UpdateProxies`
computes.  `UpdateContacts` finds the contact of the first two, the third particle
is destroyed, and the system is compacted.  Every stored index is below the old
count `3`, and neither particle of the contact carries the Zombie flag.  After
`SolveZombie` the contact is retained with the indices `0` and `1`, but the
particle count is `0`: the closing loop has destroyed the group and
`AddZombieRange` has taken its range off the count, so the indices are not below
the new count. -/
theorem SolveZombie_keeps_contact_beyond_count :
    hasFlag (revivedGroup.m_groupBuffer 0).m_groupFlags sampleSettings.WillBeDestroyed = true ∧
      (revivedProxies.m_proxyBuffer 0).tag =
        proxyTag revivedProxies (revivedProxies.m_positions 0) ∧
      (revivedProxies.m_proxyBuffer 1).tag =
        proxyTag revivedProxies (revivedProxies.m_positions 1) ∧
      (revivedProxies.m_proxyBuffer 2).tag =
        proxyTag revivedProxies (revivedProxies.m_positions 2) ∧
      touchingHit.m_count = 3 ∧ StoredIndicesInRange touchingHit ∧
      touchingHit.m_contactCount = 1 ∧
      (touchingHit.m_partContactBuf 0).idxA = 0 ∧ (touchingHit.m_partContactBuf 0).idxB = 1 ∧
      survives touchingHit 0 = true ∧ survives touchingHit 1 = true ∧
      ∀ destroyParticles : Bool,
        (SolveZombie sampleSettings INVALID_IDX destroyParticles touchingHit).m_contactCount = 1 ∧
        ((SolveZombie sampleSettings INVALID_IDX destroyParticles touchingHit).m_partContactBuf
          0).idxA = 0 ∧
        ((SolveZombie sampleSettings INVALID_IDX destroyParticles touchingHit).m_partContactBuf
          0).idxB = 1 ∧
        (SolveZombie sampleSettings INVALID_IDX destroyParticles touchingHit).m_count = 0 := by
  refine ⟨by decide!, by decide!, by decide!, by decide!, by decide!, touchingHit_indices,
    by decide!, by decide!, by decide!, by decide!, by decide!, by decide!⟩

/-! ## A handle table that shrinks under a live handle -/

theorem SolveZombie_scan_last_zombie (s : b2ParticleSystem) (n : Int) (hn : 0 ≤ n)
    (hcount : s.m_count = n + 1)
    (hlive : ∀ k, 0 ≤ k → k < n → hasFlag (s.m_flags k) Particle.Zombie = false)
    (hz : hasFlag (s.m_flags n) Particle.Zombie = true)
    (hh : s.m_handleIndexBuffer n = none) :
    (SolveZombie_scan s).sys = s ∧ (SolveZombie_scan s).newCount = n ∧
      (∀ k, 0 ≤ k → k < n → (SolveZombie_scan s).newIndices k = k) ∧
      (SolveZombie_scan s).newIndices n = INVALID_IDX := by
  have key := forLoop_induction
    (fun (i : Int) (st : ZombieScan) =>
      st.sys = s ∧ st.newCount = i ∧ ∀ k, 0 ≤ k → k < i → st.newIndices k = k)
    SolveZombie_scanStep
    { sys := s, newCount := 0, newIndices := fun _ => 0, allParticleFlags := 0 } hn
    ⟨rfl, rfl, fun k h0 h1 => by omega⟩
    (by
      rintro i st hi0 hi1 ⟨h1, h2, h3⟩
      have hf : hasFlag (st.sys.m_flags i) Particle.Zombie = false := by
        rw [h1]; exact hlive i hi0 hi1
      simp only [SolveZombie_scanStep, hf, h2, ne_eq, not_true_eq_false, if_false,
        Bool.false_eq_true]
      refine ⟨h1, trivial, fun k hk0 hk1 => ?_⟩
      by_cases hki : k = i
      · subst hki; exact setAt_same _ _ _
      · rw [setAt_other _ _ hki]; exact h3 k hk0 (by omega))
  unfold SolveZombie_scan
  rw [hcount, forLoop_succ hn]
  obtain ⟨h1, h2, h3⟩ := key
  generalize forLoop 0 n SolveZombie_scanStep
    { sys := s, newCount := 0, newIndices := fun _ => 0, allParticleFlags := 0 } = st
    at h1 h2 h3
  have hf : hasFlag (st.sys.m_flags n) Particle.Zombie = true := by rw [h1]; exact hz
  have hb : st.sys.m_handleIndexBuffer n = none := by rw [h1]; exact hh
  simp only [SolveZombie_scanStep, hf, if_true, hb]
  refine ⟨?_, h2, fun k hk0 hk1 => ?_, setAt_same _ _ _⟩
  · split_ifs <;> exact h1
  · rw [setAt_other _ _ (by omega)]; exact h3 k hk0 hk1

theorem SolveZombie_groupRange_last_zombie (newIndices : Int → Int) (n : Int) (hn : 0 < n)
    (group : ParticleGroup) (hf : group.m_firstIndex = 0) (hl : group.m_lastIndex = n + 1)
    (hid : ∀ k, 0 ≤ k → k < n → newIndices k = k) (hlast : newIndices n = INVALID_IDX) :
    SolveZombie_groupRange newIndices n group = (0, n, true) := by
  unfold SolveZombie_groupRange
  rw [hf, hl, forLoop_succ (le_of_lt hn)]
  have key := forLoop_induction
    (fun (i : Int) (st : Int × Int × Bool) =>
      st = if i = 0 then (n, 0, false) else (0, i, false))
    (fun (st : Int × Int × Bool) i =>
      let j := newIndices i
      if j ≥ 0 then (min st.1 j, max st.2.1 (j + 1), st.2.2) else (st.1, st.2.1, true))
    (n, 0, false) (le_of_lt hn) (by simp)
    (by
      intro i st hi0 hi1 hst
      simp only [hid i hi0 hi1, ge_iff_le, hi0, if_true]
      rw [hst]
      by_cases h0 : i = 0
      · subst h0
        simp [le_of_lt hn]
      · have hne : i + 1 ≠ 0 := by omega
        simp only [h0, hne, if_false]
        rw [min_eq_left hi0, max_eq_right (by omega)])
  rw [key]
  have hne : n ≠ 0 := by omega
  simp only [hlast, hne, if_false]
  rw [if_neg (by decide)]

theorem ResizeParticleBuffers_capacityView {K : Settings} {a b : b2ParticleSystem}
    (h : capacityView a = capacityView b) (size : Int) :
    capacityView (ResizeParticleBuffers K a size) = capacityView (ResizeParticleBuffers K b size) := by
  simp only [capacityView, Prod.mk.injEq] at h
  obtain ⟨h1, h2, h3, h4, h5⟩ := h
  unfold ResizeParticleBuffers
  simp only [h5]
  split_ifs
  · simp only [capacityView, h1, h2, h3, h4]
  · simp only [capacityView, h1, h2, h3, h4, h5]

theorem DestroyGroup_last_range (K : Settings) (u : b2ParticleSystem) (k : Int)
    (destroyParticles : Bool) (hf : (u.m_groupBuffer k).m_firstIndex = 0)
    (hc : u.m_count = (u.m_groupBuffer k).m_lastIndex) (hr : u.m_zombieRanges = []) :
    (DestroyGroup K u k INVALID_IDX destroyParticles).m_count = 0 ∧
      capacityView (DestroyGroup K u k INVALID_IDX destroyParticles) =
        capacityView (ResizeParticleBuffers K u 0) := by
  have ha : AddZombieRange u (u.m_groupBuffer k).m_firstIndex (u.m_groupBuffer k).m_lastIndex =
      { u with m_count := 0 } := by
    unfold AddZombieRange
    rw [if_pos hc, hf]
    simp only [hr, List.getLast?_nil]
  unfold DestroyGroup
  simp only [ne_eq, not_true_eq_false, false_and, if_false]
  rw [ha]
  constructor
  · rw [(DestroyGroup_release_frame _ _).2.2.1,
      tableView_count (DestroyGroup_zombify_frame _ _ _ _).2.2,
      tableView_count (ResizeParticleBuffers_frame _ _ _).2.2]
  · rw [DestroyGroup_release_capacityView, DestroyGroup_zombify_capacityView]
    exact @ResizeParticleBuffers_capacityView K { u with m_count := 0 } u rfl 0

theorem SolveZombie_destroys_flagged_group (K : Settings) (destroyParticles : Bool)
    (s : b2ParticleSystem) (n : Int) (hn : 0 < n) (hcount : s.m_count = n + 1)
    (hlive : ∀ k, 0 ≤ k → k < n → hasFlag (s.m_flags k) Particle.Zombie = false)
    (hz : hasFlag (s.m_flags n) Particle.Zombie = true)
    (hh : s.m_handleIndexBuffer n = none)
    (hgc : s.m_groupCount = 1)
    (hg0 : (s.m_groupBuffer 0).m_firstIndex = 0)
    (hg1 : (s.m_groupBuffer 0).m_lastIndex = n + 1)
    (hgw : hasFlag (s.m_groupBuffer 0).m_groupFlags K.WillBeDestroyed = true)
    (hgs : hasFlag (s.m_groupBuffer 0).m_groupFlags K.Solid = false)
    (hr : s.m_zombieRanges = []) :
    (SolveZombie K INVALID_IDX destroyParticles s).m_count = 0 ∧
      capacityView (SolveZombie K INVALID_IDX destroyParticles s) =
        capacityView (ResizeParticleBuffers K s 0) := by
  obtain ⟨a1, a2, a3, a4⟩ := SolveZombie_scan_last_zombie s n (le_of_lt hn) hcount hlive hz hh
  generalize hsc : SolveZombie_scan s = sc at a1 a2 a3 a4
  have hrange := SolveZombie_groupRange_last_zombie sc.newIndices n hn (s.m_groupBuffer 0)
    hg0 hg1 a3 a4
  have e1 : (SolveZombie_remap sc.sys sc.newIndices).m_groupCount = 1 := by
    show sc.sys.m_groupCount = 1
    rw [a1]; exact hgc
  have e2 : (SolveZombie_remap sc.sys sc.newIndices).m_groupBuffer = s.m_groupBuffer := by
    show sc.sys.m_groupBuffer = _
    rw [a1]
  have e3 : (SolveZombie_remap sc.sys sc.newIndices).m_zombieRanges = [] := by
    show sc.sys.m_zombieRanges = _
    rw [a1]; exact hr
  have e4 : capacityView (SolveZombie_remap sc.sys sc.newIndices) = capacityView s := by
    show capacityView sc.sys = _
    rw [a1]
  have ht : SolveZombie K INVALID_IDX destroyParticles s =
      SolveZombie_destroy K INVALID_IDX destroyParticles
        ({ forLoop 0 (SolveZombie_remap sc.sys sc.newIndices).m_groupCount
            (SolveZombie_groupStep K sc.newIndices sc.newCount)
            (SolveZombie_remap sc.sys sc.newIndices) with
          m_count := sc.newCount, m_needsUpdateAllParticleFlags := true }).m_groupCount.toNat 0
        { forLoop 0 (SolveZombie_remap sc.sys sc.newIndices).m_groupCount
            (SolveZombie_groupStep K sc.newIndices sc.newCount)
            (SolveZombie_remap sc.sys sc.newIndices) with
          m_count := sc.newCount, m_needsUpdateAllParticleFlags := true } := by
    simp only [SolveZombie, hsc]
  rw [ht]
  generalize SolveZombie_remap sc.sys sc.newIndices = s1 at e1 e2 e3 e4
  have hloop : forLoop 0 s1.m_groupCount (SolveZombie_groupStep K sc.newIndices sc.newCount) s1 =
      withGroup s1 0 { s.m_groupBuffer 0 with m_firstIndex := 0, m_lastIndex := n } := by
    rw [e1]
    have h01 : (1 : Int) = 0 + 1 := rfl
    rw [h01, forLoop_succ le_rfl, forLoop_of_le le_rfl]
    unfold SolveZombie_groupStep
    simp only [e2, a2, hrange, hg0, hn, hgs, if_true, Bool.false_eq_true, if_false]
    rw [if_pos (by decide)]
  rw [hloop]
  have hk : ({ withGroup s1 0 { s.m_groupBuffer 0 with m_firstIndex := 0, m_lastIndex := n } with
      m_count := sc.newCount, m_needsUpdateAllParticleFlags := true } :
        b2ParticleSystem).m_groupCount.toNat = 1 := by
    show s1.m_groupCount.toNat = 1
    rw [e1]; rfl
  rw [hk]
  generalize hu : ({ withGroup s1 0 { s.m_groupBuffer 0 with m_firstIndex := 0, m_lastIndex := n }
    with m_count := sc.newCount, m_needsUpdateAllParticleFlags := true } : b2ParticleSystem) = u
  have u1 : u.m_groupCount = 1 := by rw [← hu]; exact e1
  have u2 : u.m_groupBuffer 0 = { s.m_groupBuffer 0 with m_firstIndex := 0, m_lastIndex := n } := by
    rw [← hu]
    exact withGroup_same s1 0 { s.m_groupBuffer 0 with m_firstIndex := 0, m_lastIndex := n }
  have u3 : u.m_count = n := by rw [← hu]; exact a2
  have u4 : u.m_zombieRanges = [] := by rw [← hu]; exact e3
  have u5 : capacityView u = capacityView s := by rw [← hu]; exact e4
  obtain ⟨d1, d2⟩ := DestroyGroup_last_range K u 0 destroyParticles (by rw [u2])
    (by rw [u2]; exact u3) u4
  have hd : SolveZombie_destroy K INVALID_IDX destroyParticles 1 0 u =
      DestroyGroup K u 0 INVALID_IDX destroyParticles := by
    simp only [SolveZombie_destroy, u1, u2, hgw, if_true]
    rw [if_pos (by decide), if_pos (by decide)]
  rw [hd]
  exact ⟨d1, d2.trans (ResizeParticleBuffers_capacityView u5 0)⟩
theorem ResizeParticleBuffers_flags (K : Settings) (s : b2ParticleSystem) (size : Int) :
    (ResizeParticleBuffers K s size).m_flags = s.m_flags ∧
      (ResizeParticleBuffers K s size).m_mats = s.m_mats ∧
      (ResizeParticleBuffers K s size).m_count = s.m_count := by
  unfold ResizeParticleBuffers
  simp only
  split_ifs <;> exact ⟨rfl, rfl, rfl⟩

theorem CreateParticlesWithPositions_flags (K : Settings) (s : b2ParticleSystem)
    (groupDef : GroupDef) (hcnt : 0 < groupDef.particleCount) (hr : s.m_zombieRanges = []) :
    ∀ k, s.m_count ≤ k → k < s.m_count + groupDef.particleCount →
      (CreateParticlesWithPositions K s groupDef).2.m_flags k =
        groupDef.flags ||| (s.m_mats groupDef.matIdx).m_flags := by
  intro k hk0 hk1
  have hw : GetWriteIdx K s groupDef.particleCount =
      (s.m_count, { ResizeParticleBuffers K s (s.m_count + groupDef.particleCount) with
        m_count := (ResizeParticleBuffers K s (s.m_count + groupDef.particleCount)).m_count +
          groupDef.particleCount }) := by
    unfold GetWriteIdx
    rw [hr]
    rfl
  have w1 : (GetWriteIdx K s groupDef.particleCount).1 = s.m_count := by rw [hw]
  have w2 : (GetWriteIdx K s groupDef.particleCount).2.m_mats = s.m_mats := by
    rw [hw]
    exact (ResizeParticleBuffers_flags K s _).2.1
  unfold CreateParticlesWithPositions
  rw [if_neg (by omega)]
  show (forLoop 0 groupDef.particleCount
    (CreateParticlesWithPositions_step K groupDef (GetWriteIdx K s groupDef.particleCount).1
      (groupDef.flags |||
        ((GetWriteIdx K s groupDef.particleCount).2.m_mats groupDef.matIdx).m_flags)
      ((GetWriteIdx K s groupDef.particleCount).2.m_mats groupDef.matIdx))
    (GetWriteIdx K s groupDef.particleCount).2).m_flags k = _
  rw [w1, w2]
  generalize (GetWriteIdx K s groupDef.particleCount).2 = s0
  have key := forLoop_induction
    (fun (i : Int) (st : b2ParticleSystem) =>
      ∀ j, s.m_count ≤ j → j < s.m_count + i →
        st.m_flags j = groupDef.flags ||| (s.m_mats groupDef.matIdx).m_flags)
    (CreateParticlesWithPositions_step K groupDef s.m_count
      (groupDef.flags ||| (s.m_mats groupDef.matIdx).m_flags) (s.m_mats groupDef.matIdx))
    s0 (le_of_lt hcnt) (fun j h0 h1 => by omega)
    (by
      intro i st hi0 hi1 hst j hj0 hj1
      show setAt st.m_flags (s.m_count + i) _ j = _
      by_cases hji : j = s.m_count + i
      · rw [hji, setAt_same]
      · rw [setAt_other _ _ hji]
        exact hst j hj0 (by omega))
  exact key k hk0 hk1
theorem SetGroupFlags_flags (K : Settings) (s : b2ParticleSystem) (k : Int) (newFlags : Nat) :
    (SetGroupFlags K s k newFlags).m_flags = s.m_flags := by
  unfold SetGroupFlags
  simp only
  show (withGroup _ _ _).m_flags = _
  unfold withGroup
  simp only
  split_ifs <;> rfl

theorem CopyParticleRangeToGpu_flags (s : b2ParticleSystem) (first last : Int) :
    (CopyParticleRangeToGpu s first last).m_flags = s.m_flags := by
  unfold CopyParticleRangeToGpu
  apply forLoop_frame (fun st : b2ParticleSystem => st.m_flags)
  intro st i
  rfl

theorem ResizeGroupBuffers_frame (K : Settings) (s : b2ParticleSystem) (size : Int) :
    (ResizeGroupBuffers K s size).m_count = s.m_count ∧
      (ResizeGroupBuffers K s size).m_zombieRanges = s.m_zombieRanges ∧
      (ResizeGroupBuffers K s size).m_mats = s.m_mats := by
  unfold ResizeGroupBuffers
  simp only
  split_ifs <;> exact ⟨rfl, rfl, rfl⟩

theorem CreateGroup_flags (K : Settings) (s : b2ParticleSystem) (groupDef : GroupDef)
    (hlock : s.m_worldLocked = false) (hshape : groupDef.shapeIdx = INVALID_IDX)
    (hcnt : 0 < groupDef.particleCount) (hr : s.m_zombieRanges = []) :
    ∀ k, s.m_count ≤ k → k < s.m_count + groupDef.particleCount →
      (CreateGroup K s groupDef).2.m_flags k =
        groupDef.flags ||| (s.m_mats groupDef.matIdx).m_flags := by
  intro k hk0 hk1
  obtain ⟨g1, g2, g3⟩ := ResizeGroupBuffers_frame K s (s.m_groupCount + 1)
  have hne : ¬ groupDef.particleCount = 0 := by omega
  unfold CreateGroup
  rw [if_neg (by rw [hlock]; exact Bool.false_ne_true)]
  cases hfree : s.m_freeGroupIdxs.getLast? with
  | some back =>
    have key := CreateParticlesWithPositions_flags K
      { s with m_freeGroupIdxs := s.m_freeGroupIdxs.dropLast }
      { groupDef with groupIdx := back, idx := back } hcnt hr k hk0 hk1
    simp only [hshape, ne_eq, not_true_eq_false, if_false, hne, not_false_eq_true, if_true]
    split_ifs
    · rw [CopyParticleRangeToGpu_flags, SetGroupFlags_flags]
      exact key
    · rw [SetGroupFlags_flags]
      exact key
  | none =>
    have key := CreateParticlesWithPositions_flags K
      { ResizeGroupBuffers K s (s.m_groupCount + 1) with
        m_groupCount := (ResizeGroupBuffers K s (s.m_groupCount + 1)).m_groupCount + 1 }
      { groupDef with
        groupIdx := (ResizeGroupBuffers K s (s.m_groupCount + 1)).m_groupCount
        idx := (ResizeGroupBuffers K s (s.m_groupCount + 1)).m_groupCount }
      hcnt (g2.trans hr) k (le_of_eq_of_le g1 hk0)
      (lt_of_lt_of_eq hk1 (congrArg (fun c => c + groupDef.particleCount) g1.symm))
    have hmats : groupDef.flags ||| ((ResizeGroupBuffers K s (s.m_groupCount + 1)).m_mats
        groupDef.matIdx).m_flags = groupDef.flags ||| (s.m_mats groupDef.matIdx).m_flags := by
      rw [g3]
    simp only [hshape, ne_eq, not_true_eq_false, if_false, hne, not_false_eq_true, if_true]
    split_ifs
    · rw [CopyParticleRangeToGpu_flags, SetGroupFlags_flags]
      exact key.trans hmats
    · rw [SetGroupFlags_flags]
      exact key.trans hmats
theorem capacityView_table {s t : b2ParticleSystem} (h : capacityView t = capacityView s) :
    t.m_handleIndexBuffer = s.m_handleIndexBuffer := congrArg (fun v => v.2.1) h

theorem ResizeParticleBuffers_null (K : Settings) (s : b2ParticleSystem) (size : Int)
    (h : ∀ k, s.m_handleIndexBuffer k = none) :
    ∀ k, (ResizeParticleBuffers K s size).m_handleIndexBuffer k = none := by
  intro k
  unfold ResizeParticleBuffers
  simp only
  split_ifs
  · show resizeBuf s.m_handleIndexBuffer _ _ none k = none
    unfold resizeBuf
    split_ifs
    · rfl
    · exact h k
  · exact h k

theorem CreateParticlesWithPositions_null (K : Settings) (s : b2ParticleSystem)
    (groupDef : GroupDef) (h : ∀ k, s.m_handleIndexBuffer k = none) :
    ∀ k, (CreateParticlesWithPositions K s groupDef).2.m_handleIndexBuffer k = none := by
  intro k
  have hw : ∀ j, (GetWriteIdx K s groupDef.particleCount).2.m_handleIndexBuffer j = none := by
    intro j
    unfold GetWriteIdx
    split
    · exact h j
    · exact ResizeParticleBuffers_null K s _ h j
  unfold CreateParticlesWithPositions
  split_ifs
  · exact h k
  · refine (forLoop_frame (fun st : b2ParticleSystem => st.m_handleIndexBuffer k) _ ?_ _ _ _).trans
      (hw k)
    intro st i
    rfl

theorem CreateGroup_null (K : Settings) (s : b2ParticleSystem) (groupDef : GroupDef)
    (h : ∀ k, s.m_handleIndexBuffer k = none) :
    ∀ k, (CreateGroup K s groupDef).2.m_handleIndexBuffer k = none := by
  intro k
  have hrg : (ResizeGroupBuffers K s (s.m_groupCount + 1)).m_handleIndexBuffer =
      s.m_handleIndexBuffer := by
    unfold ResizeGroupBuffers
    simp only
    split_ifs <;> rfl
  have hpos : ∀ (s0 : b2ParticleSystem) (gd : GroupDef),
      (∀ j, s0.m_handleIndexBuffer j = none) →
      ∀ j, (if gd.shapeIdx ≠ INVALID_IDX then CreateParticlesWithShapeForGroup K s0 gd
        else if gd.particleCount ≠ 0 then CreateParticlesWithPositions K s0 gd
        else ((0, 0), s0)).2.m_handleIndexBuffer j = none := by
    intro s0 gd h0 j
    split_ifs
    · unfold CreateParticlesWithShapeForGroup
      simp only
      split
      · exact h0 j
      · exact CreateParticlesWithPositions_null K s0 _ h0 j
    · exact CreateParticlesWithPositions_null K s0 _ h0 j
    · exact h0 j
  have hite : ∀ (c : Prop) [Decidable c] (X : b2ParticleSystem) (a b : Int),
      (if c then CopyParticleRangeToGpu X a b else X).m_handleIndexBuffer =
        X.m_handleIndexBuffer := by
    intro c _ X a b
    split_ifs
    · unfold CopyParticleRangeToGpu
      apply forLoop_frame (fun st : b2ParticleSystem => st.m_handleIndexBuffer)
      intro st i
      rfl
    · rfl
  unfold CreateGroup
  by_cases hlock : s.m_worldLocked = true
  · rw [if_pos hlock]
    exact h k
  · rw [if_neg hlock]
    cases hfree : s.m_freeGroupIdxs.getLast? with
    | some back =>
      simp only
      rw [hite, capacityView_table (SetGroupFlags_capacityView _ _ _ _)]
      exact hpos { s with m_freeGroupIdxs := s.m_freeGroupIdxs.dropLast }
        { groupDef with groupIdx := back, idx := back } h k
    | none =>
      simp only
      rw [hite, capacityView_table (SetGroupFlags_capacityView _ _ _ _)]
      exact hpos
        { ResizeGroupBuffers K s (s.m_groupCount + 1) with
          m_groupCount := (ResizeGroupBuffers K s (s.m_groupCount + 1)).m_groupCount + 1 }
        { groupDef with
          groupIdx := (ResizeGroupBuffers K s (s.m_groupCount + 1)).m_groupCount
          idx := (ResizeGroupBuffers K s (s.m_groupCount + 1)).m_groupCount }
        (fun j => (congrFun hrg j).trans (h j)) k
theorem DestroyParticle_capacityView (s : b2ParticleSystem) (index : Int) :
    capacityView (DestroyParticle s index) = capacityView s := by
  unfold DestroyParticle SetParticleFlags
  simp only
  split_ifs <;> rfl

theorem forLoop_invariant {σ : Type} (P : σ → Prop) (lo hi : Int) (body : σ → Int → σ)
    (init : σ) (h0 : P init) (hstep : ∀ st i, P st → P (body st i)) :
    P (forLoop lo hi body init) := by
  by_cases hle : lo ≤ hi
  · exact forLoop_induction (fun _ st => P st) body init hle h0
      (fun i st _ _ hst => hstep st i hst)
  · rw [forLoop_of_le (by omega)]
    exact h0

theorem DestroyGroup_null (K : Settings) (s : b2ParticleSystem) (k timestamp : Int)
    (destroyParticles : Bool) (h : ∀ j, s.m_handleIndexBuffer j = none) :
    ∀ j, (DestroyGroup K s k timestamp destroyParticles).m_handleIndexBuffer j = none := by
  intro j
  unfold DestroyGroup
  simp only
  split_ifs
  · exact h j
  · rw [capacityView_table (DestroyGroup_release_capacityView _ _),
      capacityView_table (DestroyGroup_zombify_capacityView _ _ _ _)]
    apply ResizeParticleBuffers_null
    intro i
    rw [capacityView_table (AddZombieRange_capacityView _ _ _)]
    exact h i

theorem SolveZombie_destroy_null (K : Settings) (timestamp : Int) (destroyParticles : Bool) :
    ∀ (fuel : Nat) (k : Int) (s : b2ParticleSystem), (∀ j, s.m_handleIndexBuffer j = none) →
      ∀ j, (SolveZombie_destroy K timestamp destroyParticles fuel k s).m_handleIndexBuffer j
        = none := by
  intro fuel
  induction fuel with
  | zero => intro k s h j; exact h j
  | succ fuel ih =>
    intro k s h j
    unfold SolveZombie_destroy
    split_ifs
    · exact ih _ _ (DestroyGroup_null K s k timestamp destroyParticles h) j
    · exact ih _ _ h j
    · exact ih _ _ h j
    · exact h j

theorem SolveZombie_null (K : Settings) (timestamp : Int) (destroyParticles : Bool)
    (s : b2ParticleSystem) (h : ∀ j, s.m_handleIndexBuffer j = none) :
    ∀ j, (SolveZombie K timestamp destroyParticles s).m_handleIndexBuffer j = none := by
  have hscan : ∀ j, (SolveZombie_scan s).sys.m_handleIndexBuffer j = none := by
    unfold SolveZombie_scan
    apply forLoop_invariant (fun st : ZombieScan => ∀ j, st.sys.m_handleIndexBuffer j = none)
    · exact h
    · intro st i hst j
      have hi := hst i
      simp only [SolveZombie_scanStep, SolveZombie_move, hi]
      split_ifs
      all_goals first
        | exact hst j
        | (show setAt st.sys.m_handleIndexBuffer _ none j = none
           unfold setAt
           split_ifs
           · rfl
           · exact hst j)
  unfold SolveZombie
  simp only
  apply SolveZombie_destroy_null
  intro j
  show (forLoop 0 _ _ _ : b2ParticleSystem).m_handleIndexBuffer j = none
  refine (congrFun (capacityView_table (forLoop_frame capacityView _
    (fun st i => SolveZombie_groupStep_capacityView K _ _ st i) _ _ _)) j).trans ?_
  exact hscan j
theorem DestroyParticle_flags (s : b2ParticleSystem) (index : Int) :
    (DestroyParticle s index).m_flags =
      setAt s.m_flags index (s.m_flags index ||| Particle.Zombie) := by
  unfold DestroyParticle SetParticleFlags
  simp only
  split_ifs <;> rfl

theorem GetParticleHandleFromIndex_fresh (s : b2ParticleSystem) (index : Int) (fresh : Nat)
    (h : ∀ k, s.m_handleIndexBuffer k = none) :
    (∀ k, (GetParticleHandleFromIndex s index fresh).2.m_handleIndexBuffer k =
        if k = index then some fresh else none) ∧
      (GetParticleHandleFromIndex s index fresh).2.m_handles =
        Function.update s.m_handles fresh index ∧
      (GetParticleHandleFromIndex s index fresh).2.m_flags = s.m_flags := by
  have hreq : ∀ k, (RequestHandleIndexBuffer s).m_handleIndexBuffer k = none := by
    intro k
    unfold RequestHandleIndexBuffer
    split_ifs
    · show resizeBuf s.m_handleIndexBuffer _ _ none k = none
      unfold resizeBuf
      split_ifs
      · rfl
      · exact h k
    · exact h k
  have hfl : (RequestHandleIndexBuffer s).m_flags = s.m_flags ∧
      (RequestHandleIndexBuffer s).m_handles = s.m_handles := by
    unfold RequestHandleIndexBuffer
    split_ifs <;> exact ⟨rfl, rfl⟩
  unfold GetParticleHandleFromIndex
  simp only [hreq index]
  refine ⟨fun k => ?_, ?_, hfl.1⟩
  · show setAt (RequestHandleIndexBuffer s).m_handleIndexBuffer index (some fresh) k = _
    unfold setAt
    split_ifs
    · rfl
    · exact hreq k
  · show Function.update (RequestHandleIndexBuffer s).m_handles fresh index = _
    rw [hfl.2]

theorem newIndexOf_of_live (flags : Int → Nat) (n : Int) (hn : 0 ≤ n)
    (hlive : ∀ k, 0 ≤ k → k < n → hasFlag (flags k) Particle.Zombie = false) :
    newIndexOf flags n = n := by
  have key := forLoop_induction (fun (i : Int) (_ : Unit) => newIndexOf flags i = i)
    (fun st _ => st) () hn (by simp [newIndexOf, survivors_of_nonpos flags le_rfl])
    (by
      intro i st hi0 hi1 hst
      show newIndexOf flags (i + 1) = i + 1
      rw [newIndexOf_succ flags hi0, hst, hlive i hi0 hi1]
      simp)
  exact key

theorem staleSlot_null : ∀ k, staleSlot.m_handleIndexBuffer k = none := by
  apply SolveZombie_null
  intro j
  show (DestroyParticle _ 0).m_handleIndexBuffer j = none
  rw [capacityView_table (DestroyParticle_capacityView _ _)]
  exact CreateGroup_null sampleSettings unitSystem oneParticleDef (fun _ => rfl) j

set_option maxRecDepth 100000 in
theorem crowdedHit_table (k : Int) :
    crowdedHit.m_handleIndexBuffer k = if k = 1024 then some 7 else none := by
  show (DestroyParticle _ 1025).m_handleIndexBuffer k = _
  rw [capacityView_table (DestroyParticle_capacityView _ _)]
  exact (GetParticleHandleFromIndex_fresh crowdedGroup 1024 7
    (CreateGroup_null sampleSettings staleSlot crowdDef staleSlot_null)).1 k

set_option maxRecDepth 100000 in
theorem crowdedHit_live (k : Int) (h0 : 0 ≤ k) (h1 : k < 1025) :
    hasFlag (crowdedHit.m_flags k) Particle.Zombie = false := by
  have e : crowdedHit.m_flags k = crowdedGroup.m_flags k := by
    show (DestroyParticle _ 1025).m_flags k = _
    rw [DestroyParticle_flags, setAt_other _ _ (by omega),
      (GetParticleHandleFromIndex_fresh crowdedGroup 1024 7
        (CreateGroup_null sampleSettings staleSlot crowdDef staleSlot_null)).2.2]
  have hc : staleSlot.m_count = 0 := by decide!
  rw [e]
  show hasFlag ((CreateGroup sampleSettings staleSlot crowdDef).2.m_flags k) _ = false
  rw [CreateGroup_flags sampleSettings staleSlot crowdDef (by decide!) (by decide) (by decide)
    (by decide!) k (by rw [hc]; exact h0) (by rw [hc]; exact lt_trans h1 (by decide))]
  decide!

theorem capacityView_handles {s t : b2ParticleSystem} (h : capacityView t = capacityView s) :
    t.m_handles = s.m_handles ∧ t.m_handleIndexBufferSize = s.m_handleIndexBufferSize :=
  ⟨congrArg (fun v => v.1) h, congrArg (fun v => v.2.2.2.1) h⟩

theorem crowdedHit_matches : HandlesMatchSlots crowdedHit := by
  refine ⟨by set_option maxRecDepth 100000 in decide!, ?_⟩
  intro k h hk0 hk1 hslot
  rw [crowdedHit_table] at hslot
  split_ifs at hslot with hk
  cases hslot
  rw [hk]
  set_option maxRecDepth 100000 in decide!

/-- C15 at a failing input: the slot `0` of a destroyed group, which still carries
`WillBeDestroyed`, is taken by a new group of `1026` particles, for which the
buffers grow to the capacity `2048`.  `GetParticleHandleFromIndex(1024)` creates
the handle `7`, the last particle is destroyed, and the system is compacted.
Every handle of the table reports its slot, and particle `1024` does not carry the
Zombie flag; compaction leaves it at index `1024`.  The closing loop of
`SolveZombie` destroys the group, `AddZombieRange` takes its range off the count,
and `ResizeParticleBuffers(0)` halves the capacity: the handle table is resized to
`1024` entries while the handle `7` still reports the index `1024`, so the table
has no entry at that index. -/
theorem SolveZombie_shrinks_handle_table :
    hasFlag (crowdedGroup.m_groupBuffer 0).m_groupFlags sampleSettings.WillBeDestroyed = true ∧
      crowdedHit.m_count = 1026 ∧ crowdedHit.m_capacity = 2048 ∧
      crowdedHit.m_handleIndexBufferSize = 2048 ∧
      HandlesMatchSlots crowdedHit ∧
      crowdedHit.m_handleIndexBuffer 1024 = some 7 ∧
      survives crowdedHit 1024 = true ∧
      newIndexOf crowdedHit.m_flags 1024 = 1024 ∧
      ∀ destroyParticles : Bool,
        (SolveZombie sampleSettings INVALID_IDX destroyParticles crowdedHit).m_handles 7 = 1024 ∧
        (SolveZombie sampleSettings INVALID_IDX destroyParticles
          crowdedHit).m_handleIndexBufferSize = 1024 ∧
        (SolveZombie sampleSettings INVALID_IDX destroyParticles crowdedHit).m_count = 0 := by
  set_option maxRecDepth 100000 in
  refine ⟨by decide!, by decide!, by decide!, by decide!, crowdedHit_matches, by decide!,
    by decide!, newIndexOf_of_live _ 1024 (by decide)
      (fun k h0 h1 => crowdedHit_live k h0 (lt_trans h1 (by decide))), ?_⟩
  intro destroyParticles
  obtain ⟨h1, h2⟩ := SolveZombie_destroys_flagged_group sampleSettings destroyParticles
    crowdedHit 1025 (by decide) (by decide!) crowdedHit_live (by decide!) (by decide!)
    (by decide!) (by decide!) (by decide!) (by decide!) (by decide!) (by decide!)
  obtain ⟨e1, e2⟩ := capacityView_handles h2
  rw [e1, e2]
  exact ⟨by decide!, by decide!, h1⟩

end LiquidFire
